import Mathlib

/-! VOTCA coarse-graining core: boundary conditions and bead maps.

A shallow embedding of `csg/src/libcsg/triclinicbox.cc`, `csg/include/votca/csg/openbox.h`
and `csg/src/libcsg/map.cc`.

Arithmetic model.  The C++ code computes with `double`.  Here every `double` is an exact
rational number (`ℚ`), so that all definitions stay executable.  Euclidean norms only occur in
comparisons; a norm is therefore carried by its square (`squaredNorm`), and `x.norm() > t` is
evaluated by `normGt`, which compares squares (see `normGt_iff_sqrt`).  The rationals have no
infinity and no NaN: where the source divides, the statements below that depend on the
quotient assume a non-zero divisor.  Normalising a vector and diagonalising a matrix have no
rational counterpart and enter as the parameter `EigenLib`.

Rounding.  Where a property depends on how `double` rounds, the function is given a second
time with a rounding `rnd : ℚ → ℚ` applied after every operation
(`TriclinicBox.BCShortestConnection_rounded`, `Map_Sphere.accumulated_mass`); `rnd` the
identity gives the exact function back, and `binary64` is the rounding of IEEE 754 (round to
nearest, ties to even, 53 bits), with `binary64_err` and `binary64_idem` as the two facts the
general statements use.  Map_Sphere::Initialize is given a second time on the Property trees
it reads, with the values `Double` that keep infinity and NaN apart from the finite numbers
(`Map_Sphere.InitializeFromOptions`); `Map_Sphere.InitializeFromOptions_agrees` relates it to
`Map_Sphere.Initialize`.

Errors.  A function that throws returns `Except`; Apply, which leaves a partly updated output
bead behind when it throws, returns the bead together with the error (`ApplyOutcome`).
-/

namespace votca

/-! ## Eigen::Vector3d and Eigen::Matrix3d -/

/-- Eigen::Vector3d with exact rational components. -/
structure Vec3 where
  x : ℚ
  y : ℚ
  z : ℚ
deriving DecidableEq, Repr

namespace Vec3

/-- Eigen::Vector3d::Zero(). -/
def Zero : Vec3 := ⟨0, 0, 0⟩

/-- Eigen::Vector3d::UnitX(). -/
def UnitX : Vec3 := ⟨1, 0, 0⟩

/-- Eigen::Vector3d::UnitY(). -/
def UnitY : Vec3 := ⟨0, 1, 0⟩

/-- Eigen::Vector3d::UnitZ(). -/
def UnitZ : Vec3 := ⟨0, 0, 1⟩

/-- Component-wise sum `u + v`. -/
def add (u v : Vec3) : Vec3 := ⟨u.x + v.x, u.y + v.y, u.z + v.z⟩

/-- Component-wise difference `u - v`. -/
def sub (u v : Vec3) : Vec3 := ⟨u.x - v.x, u.y - v.y, u.z - v.z⟩

/-- Unary minus `-u`. -/
def neg (u : Vec3) : Vec3 := ⟨-u.x, -u.y, -u.z⟩

/-- Scalar multiple `s * u` (also written `u * s` in the source). -/
def smul (s : ℚ) (u : Vec3) : Vec3 := ⟨s * u.x, s * u.y, s * u.z⟩

/-- Quotient `u / s` of a vector by a scalar. -/
def divScalar (u : Vec3) (s : ℚ) : Vec3 := ⟨u.x / s, u.y / s, u.z / s⟩

/-- Scalar product `u.dot(v)`. -/
def dot (u v : Vec3) : ℚ := u.x * v.x + u.y * v.y + u.z * v.z

/-- Vector product `u.cross(v)`. -/
def cross (u v : Vec3) : Vec3 :=
  ⟨u.y * v.z - u.z * v.y, u.z * v.x - u.x * v.z, u.x * v.y - u.y * v.x⟩

/-- Square of `u.norm()` (Eigen's `squaredNorm`). -/
def squaredNorm (u : Vec3) : ℚ := u.x * u.x + u.y * u.y + u.z * u.z

end Vec3

instance : Add Vec3 := ⟨Vec3.add⟩
instance : Sub Vec3 := ⟨Vec3.sub⟩
instance : Neg Vec3 := ⟨Vec3.neg⟩
instance : Zero Vec3 := ⟨Vec3.Zero⟩

/-- Vectors form a commutative group under the component-wise operations; this is what lets
sums over lists of vectors be written with `List.sum`. -/
instance : AddCommGroup Vec3 where
  add := Vec3.add
  zero := Vec3.Zero
  neg := Vec3.neg
  sub := Vec3.sub
  nsmul := nsmulRec
  zsmul := zsmulRec
  add_assoc := by
    intro a b c
    show Vec3.add (Vec3.add a b) c = Vec3.add a (Vec3.add b c)
    simp only [Vec3.add, add_assoc]
  zero_add := by
    intro a
    show Vec3.add Vec3.Zero a = a
    simp only [Vec3.add, Vec3.Zero, zero_add]
  add_zero := by
    intro a
    show Vec3.add a Vec3.Zero = a
    simp only [Vec3.add, Vec3.Zero, add_zero]
  add_comm := by
    intro a b
    show Vec3.add a b = Vec3.add b a
    simp only [Vec3.add, add_comm]
  sub_eq_add_neg := by
    intro a b
    show Vec3.sub a b = Vec3.add a (Vec3.neg b)
    simp only [Vec3.add, Vec3.sub, Vec3.neg, sub_eq_add_neg]
  neg_add_cancel := by
    intro a
    show Vec3.add (Vec3.neg a) a = Vec3.Zero
    simp only [Vec3.add, Vec3.neg, Vec3.Zero, neg_add_cancel]

/-- Eigen::Matrix3d, entry `mIJ` standing in row `I` and column `J`. -/
structure Matrix3d where
  m00 : ℚ
  m01 : ℚ
  m02 : ℚ
  m10 : ℚ
  m11 : ℚ
  m12 : ℚ
  m20 : ℚ
  m21 : ℚ
  m22 : ℚ
deriving DecidableEq, Repr

namespace Matrix3d

/-- Eigen::Matrix3d::Zero(). -/
def Zero : Matrix3d := ⟨0, 0, 0, 0, 0, 0, 0, 0, 0⟩

/-- Column `j` of the matrix (`m.col(j)`); indices above 2 are read as column 2. -/
def col (m : Matrix3d) (j : Nat) : Vec3 :=
  match j with
  | 0 => ⟨m.m00, m.m10, m.m20⟩
  | 1 => ⟨m.m01, m.m11, m.m21⟩
  | _ => ⟨m.m02, m.m12, m.m22⟩

/-- Entry-wise sum of two matrices. -/
def add (a b : Matrix3d) : Matrix3d :=
  ⟨a.m00 + b.m00, a.m01 + b.m01, a.m02 + b.m02,
   a.m10 + b.m10, a.m11 + b.m11, a.m12 + b.m12,
   a.m20 + b.m20, a.m21 + b.m21, a.m22 + b.m22⟩

/-- Outer product `v * v.transpose()` divided by the scalar `s`. -/
def outerDiv (v : Vec3) (s : ℚ) : Matrix3d :=
  ⟨v.x * v.x / s, v.x * v.y / s, v.x * v.z / s,
   v.y * v.x / s, v.y * v.y / s, v.y * v.z / s,
   v.z * v.x / s, v.z * v.y / s, v.z * v.z / s⟩

end Matrix3d

/-- The comparison `n > t` for a norm `n` given by its square `sq` (`n = √sq`, `sq ≥ 0`):
a non-negative number exceeds `t` exactly when `t` is negative or `t² < sq`. -/
def normGt (sq t : ℚ) : Bool := decide (t < 0 ∨ t * t < sq)

/-- The function std::round: the nearest integer, halfway cases rounded away from zero. -/
def std_round (q : ℚ) : ℤ := if 0 ≤ q then ⌊q + 1 / 2⌋ else -⌊-q + 1 / 2⌋

/-! ## Boundary conditions -/

/-- Modelled from the spec: the enumeration BoundaryCondition::eBoxtype, declared in
`boundarycondition.h`, which is not among the sources.  The spec (4.1) has the box types
"none / triclinic-reduced"; `openbox.h` returns `typeOpen` for the open box and `map.cc` only
tests whether the type is `typeOpen`. -/
inductive eBoxtype where
  | typeTriclinic
  | typeOpen
deriving DecidableEq, Repr

/-- The interface of the abstract class BoundaryCondition as `map.cc` uses it: the three
virtual members it calls.  `getShortestBoxDimension` is defined in `boundarycondition.cc`,
which is not among the sources, so its value is a field. -/
structure BoundaryCondition where
  getBoxType : eBoxtype
  BCShortestConnection : Vec3 → Vec3 → Vec3
  getShortestBoxDimension : ℚ

/-- TriclinicBox::BCShortestConnection (`triclinicbox.cc`, lines 34-40) for the box matrix
`box_`, whose columns are the three box vectors. -/
def TriclinicBox.BCShortestConnection (box_ : Matrix3d) (r_i r_j : Vec3) : Vec3 :=
  let r_tp := r_j - r_i
  let r_dp := r_tp - Vec3.smul (std_round (r_tp.z / box_.m22)) (box_.col 2)
  let r_sp := r_dp - Vec3.smul (std_round (r_dp.y / box_.m11)) (box_.col 1)
  r_sp - Vec3.smul (std_round (r_sp.x / box_.m00)) (box_.col 0)

/-- Modelled from the spec: OpenBox::BCShortestConnection, declared in `openbox.h` and defined
in `openbox.cc`, which is not among the sources.  The spec (4.1): the open variant "returns
the raw difference vector". -/
def OpenBox.BCShortestConnection (r_i r_j : Vec3) : Vec3 := r_j - r_i

/-- OpenBox::getBoxType (`openbox.h`, line 37). -/
def OpenBox.getBoxType : eBoxtype := eBoxtype.typeOpen

/-- A triclinic box as a boundary condition; `shortest` is what the inherited
`getShortestBoxDimension` returns for it. -/
def TriclinicBox.toBoundaryCondition (box_ : Matrix3d) (shortest : ℚ) : BoundaryCondition :=
  { getBoxType := eBoxtype.typeTriclinic
    BCShortestConnection := TriclinicBox.BCShortestConnection box_
    getShortestBoxDimension := shortest }

/-- An open box as a boundary condition; `shortest` is what the inherited
`getShortestBoxDimension` returns for it (never read by `map.cc` for an open box). -/
def OpenBox.toBoundaryCondition (shortest : ℚ) : BoundaryCondition :=
  { getBoxType := OpenBox.getBoxType
    BCShortestConnection := OpenBox.BCShortestConnection
    getShortestBoxDimension := shortest }

/-! ## Beads -/

/-- Modelled from the spec: the class Bead (`bead.h` is not among the sources) as far as
`map.cc` and the tests use it.  The spec (3): identity, name, owning molecule, mass, "optional
position/velocity/force vectors (each independently present or absent)", orientation axes and
"an ordered list of parent bead ids".  An attribute that is set is `some`, one that is not set
is `none`. -/
structure Bead where
  id : ℤ
  name : String
  molecule_id : ℤ
  mass : ℚ
  pos : Option Vec3
  vel : Option Vec3
  f : Option Vec3
  u : Option Vec3
  v : Option Vec3
  w : Option Vec3
  parent_beads : List ℤ
deriving DecidableEq, Repr

namespace Bead

/-- Bead::HasPos. -/
def HasPos (b : Bead) : Bool := b.pos.isSome

/-- Bead::HasVel. -/
def HasVel (b : Bead) : Bool := b.vel.isSome

/-- Bead::HasF. -/
def HasF (b : Bead) : Bool := b.f.isSome

/-- Bead::ClearParentBeads. -/
def ClearParentBeads (b : Bead) : Bead := { b with parent_beads := [] }

/-- Bead::AddParentBead: appends one id to the parent-bead list. -/
def AddParentBead (b : Bead) (parent : ℤ) : Bead :=
  { b with parent_beads := b.parent_beads ++ [parent] }

/-- Bead::setMass. -/
def setMass (b : Bead) (m : ℚ) : Bead := { b with mass := m }

/-- Bead::setPos. -/
def setPos (b : Bead) (r : Vec3) : Bead := { b with pos := some r }

/-- Bead::setVel. -/
def setVel (b : Bead) (r : Vec3) : Bead := { b with vel := some r }

/-- Bead::setF. -/
def setF (b : Bead) (r : Vec3) : Bead := { b with f := some r }

/-- Bead::setU. -/
def setU (b : Bead) (r : Vec3) : Bead := { b with u := some r }

/-- Bead::setV. -/
def setV (b : Bead) (r : Vec3) : Bead := { b with v := some r }

/-- Bead::setW. -/
def setW (b : Bead) (r : Vec3) : Bead := { b with w := some r }

end Bead

/-- Modelled from the spec: the class Molecule (`molecule.h` is not among the sources) as far
as Map_Sphere::Initialize, CsgBoltzmann::CreateExclusionList and CGEngine::CreateCGTopology
use it: the lookup of a bead index by name, negative when the molecule has no bead of that
name, the bead stored under an index, the list of the beads of the molecule, and the name of
the molecule. -/
structure Molecule where
  getBeadByName : String → ℤ
  getBead : ℤ → Bead
  Beads : List Bead := []
  getName : String := ""

/-- Modelled from the spec: Molecule::BeadCount, the number of beads of the molecule. -/
def Molecule.BeadCount (m : Molecule) : ℕ := m.Beads.length

/-! ## Map_Sphere -/

/-- Map_Sphere::element_t (`map.cc`, lines 60-64).  The pointer `in_` to a bead of the input
topology is represented by the state of that bead. -/
structure element_t where
  in_ : Bead
  weight_ : ℚ
  force_weight_ : ℚ
deriving DecidableEq, Repr

/-- The class Map_Sphere: its member `matrix_`.  A default-constructed map has no element. -/
structure Map_Sphere where
  matrix_ : List element_t
deriving DecidableEq, Repr

/-- Map_Sphere() = default. -/
def Map_Sphere.new : Map_Sphere := { matrix_ := [] }

/-- Map_Sphere::AddElem (`map.cc`, lines 68-74). -/
def Map_Sphere.AddElem (self : Map_Sphere) (in_ : Bead) (weight force_weight : ℚ) :
    Map_Sphere :=
  { matrix_ := self.matrix_ ++ [{ in_ := in_, weight_ := weight, force_weight_ := force_weight }] }

/-- The runtime errors Map_Sphere::Initialize throws. -/
inductive InitError where
  /-- Message "number of subbeads ... and number of weights in map ... do not match". -/
  | weights_mismatch
  /-- Message "number of subbeads ... and number of d-coefficients in map ... do not match". -/
  | d_mismatch
  /-- Message "A d coefficient is nonzero while weights is zero in mapping ...". -/
  | d_nonzero_weight_zero
  /-- Message "mapping error: molecule ... does not exist". -/
  | bead_not_found (name : String)
deriving DecidableEq, Repr

/-- The call std::accumulate(v.begin(), v.end(), 0.). -/
def accumulate (v : List ℚ) : ℚ := v.foldl (fun acc w => acc + w) 0

/-- The normalisation of `map.cc`, lines 118-121 (and 128-130): every entry times
`norm = 1. / accumulate`. -/
def normalize_weights (v : List ℚ) : List ℚ :=
  let norm := 1 / accumulate v
  v.map (fun w => w * norm)

/-- The vector `d` of `map.cc`, lines 123-135: the normalised coefficients of option "d" when
that option exists, a copy of the (already normalised) weights otherwise. -/
def Map_Sphere.d_coefficients (weights : List ℚ) (d : Option (List ℚ)) : List ℚ :=
  match d with
  | some d => normalize_weights d
  | none => weights

/-- The loop of `map.cc`, lines 147-158, over two lists of equal length: the force weights
`d_i / w_i`, or the error of the first index with `w_i == 0 && d_i != 0`. -/
def Map_Sphere.force_weights : List ℚ → List ℚ → Except InitError (List ℚ)
  | w :: weights, di :: d =>
    if w = 0 ∧ di ≠ 0 then
      Except.error InitError.d_nonzero_weight_zero
    else
      match Map_Sphere.force_weights weights d with
      | Except.error e => Except.error e
      | Except.ok fweights => Except.ok ((if w ≠ 0 then di / w else 0) :: fweights)
  | _, _ => Except.ok []

/-- The loop of `map.cc`, lines 160-167, over the names, weights and force weights. -/
def Map_Sphere.add_elements (in_ : Molecule) :
    List String → List ℚ → List ℚ → Map_Sphere → Except InitError Map_Sphere
  | b :: beads, w :: weights, fw :: fweights, self =>
    let iin := in_.getBeadByName b
    if iin < 0 then
      Except.error (InitError.bead_not_found b)
    else
      Map_Sphere.add_elements in_ beads weights fweights (self.AddElem (in_.getBead iin) w fw)
  | _, _, _, self => Except.ok self

/-- Map_Sphere::Initialize (`map.cc`, lines 91-168).  The three option values it reads are
given already tokenised: `beads` is the list of names under key "beads" of the bead options,
`weights` the list of numbers under key "weights" of the map options, and `d` the list under
key "d" when that key exists (`none` when it does not). -/
def Map_Sphere.Initialize (self : Map_Sphere) (in_ : Molecule) (beads : List String)
    (weights : List ℚ) (d : Option (List ℚ)) : Except InitError Map_Sphere :=
  if beads.length ≠ weights.length then
    Except.error InitError.weights_mismatch
  else
    let weights := normalize_weights weights
    let d := Map_Sphere.d_coefficients weights d
    if beads.length ≠ d.length then
      Except.error InitError.d_mismatch
    else
      match Map_Sphere.force_weights weights d with
      | Except.error e => Except.error e
      | Except.ok fweights => Map_Sphere.add_elements in_ beads weights fweights self

/-- The errors an Apply of a bead map can end with. -/
inductive ApplyError where
  /-- Message "coarse-grained bead is bigger than half the box ...". -/
  | half_box
  /-- The access `matrix_.at(0)` on an empty map (asserted against at the top of Apply),
  or an unchecked `matrix_[1]`, `matrix_[2]` beyond the end. -/
  | out_of_range
  /-- Bead::getPos on a bead without a position. -/
  | pos_not_set
deriving DecidableEq, Repr

/-- What an Apply leaves behind: the state of the output bead `out_` when control leaves the
function, and the error it raised, if any. -/
structure ApplyOutcome where
  out_ : Bead
  raised : Option ApplyError
deriving DecidableEq, Repr

/-- The local variables of the first loop of Apply (`map.cc`, lines 190-214) together with
the output bead; `max_bead_dist2` is the square of the local `max_bead_dist`. -/
structure PosLoop where
  out_ : Bead
  M : ℚ
  cg : Vec3
  bPos : Bool
  max_bead_dist2 : ℚ
  bead_max_dist : Bead
deriving DecidableEq, Repr

/-- One pass through the body of the first loop of Map_Sphere::Apply (lines 202-213). -/
def Map_Sphere.pos_step (bc : BoundaryCondition) (r0 : Vec3) (s : PosLoop) (iter : element_t) :
    PosLoop :=
  let bead := iter.in_
  let out_ := s.out_.AddParentBead bead.id
  let M := s.M + bead.mass
  match bead.pos with
  | some pos =>
    let r := bc.BCShortestConnection r0 pos
    let further := decide (r.squaredNorm > s.max_bead_dist2)
    { out_ := out_
      M := M
      cg := s.cg + Vec3.smul iter.weight_ (r + r0)
      bPos := true
      max_bead_dist2 := if further then r.squaredNorm else s.max_bead_dist2
      bead_max_dist := if further then bead else s.bead_max_dist }
  | none => { s with out_ := out_, M := M }

/-- The local variables of the second loop of Apply (`map.cc`, lines 234-244); `c` and `n`
are only written by Map_Ellipsoid::Apply (lines 337-340). -/
structure VelLoop where
  vel : Vec3
  f : Vec3
  bVel : Bool
  bF : Bool
  c : Vec3
  n : ℤ
deriving DecidableEq, Repr

/-- One pass through the body of the second loop of Map_Sphere::Apply (lines 235-243). -/
def Map_Sphere.vel_step (s : VelLoop) (iter : element_t) : VelLoop :=
  let bead := iter.in_
  let s := match bead.vel with
    | some v => { s with vel := s.vel + Vec3.smul iter.weight_ v, bVel := true }
    | none => s
  match bead.f with
  | some F => { s with f := s.f + Vec3.smul iter.force_weight_ F, bF := true }
  | none => s

/-- The writes at the end of Apply (`map.cc`, lines 246-254 and 343-351): each of position,
velocity and force only when its flag is set. -/
def write_pos_vel_f (out_ : Bead) (bPos : Bool) (cg : Vec3) (t : VelLoop) : Bead :=
  let out_ := if bPos then out_.setPos cg else out_
  let out_ := if t.bVel then out_.setVel t.vel else out_
  if t.bF then out_.setF t.f else out_

/-- The safety check of `map.cc`, lines 218-232: the box is not open and `max_bead_dist`
(given by its square) exceeds `0.5 * bc.getShortestBoxDimension()`. -/
def bigger_than_half_box (bc : BoundaryCondition) (max_bead_dist2 : ℚ) : Bool :=
  decide (bc.getBoxType ≠ eBoxtype.typeOpen)
    && normGt max_bead_dist2 (0.5 * bc.getShortestBoxDimension)

/-- The reference point `r0` of Apply (`map.cc`, lines 179-188): the position of the first
element when it has one, zero otherwise. -/
def reference_pos (front : element_t) : Vec3 :=
  match front.in_.pos with
  | some pos => pos
  | none => Vec3.Zero

/-- The start of the first loop of Apply (`map.cc`, lines 190-199): the sums are zero, the
flag is unset, and `max_bead_dist` is the norm of the connection from `r0` to the first bead
when that bead has a position, 0 otherwise. -/
def pos_loop_init (bc : BoundaryCondition) (front : element_t) (out_ : Bead) : PosLoop :=
  { out_ := out_
    M := 0
    cg := Vec3.Zero
    bPos := false
    max_bead_dist2 := match front.in_.pos with
      | some pos => (bc.BCShortestConnection (reference_pos front) pos).squaredNorm
      | none => 0
    bead_max_dist := front.in_ }

/-- The start of the second loop of Apply (`map.cc`, lines 191-193, 277-282). -/
def vel_loop_init : VelLoop :=
  { vel := Vec3.Zero, f := Vec3.Zero, bVel := false, bF := false, c := Vec3.Zero, n := 0 }

/-- Map_Sphere::Apply (`map.cc`, lines 170-255), acting on the output bead `out_`.  The line
printed to `cout` before the half-box error is thrown is not part of the outcome. -/
def Map_Sphere.Apply (self : Map_Sphere) (bc : BoundaryCondition) (out_ : Bead) :
    ApplyOutcome :=
  let out_ := out_.ClearParentBeads
  match self.matrix_ with
  | [] => { out_ := out_, raised := some ApplyError.out_of_range }
  | front :: _ =>
    let r0 := reference_pos front
    let s := self.matrix_.foldl (Map_Sphere.pos_step bc r0) (pos_loop_init bc front out_)
    if bigger_than_half_box bc s.max_bead_dist2 then
      { out_ := s.out_, raised := some ApplyError.half_box }
    else
      let t := self.matrix_.foldl Map_Sphere.vel_step vel_loop_init
      let out_ := s.out_.setMass s.M
      { out_ := write_pos_vel_f out_ s.bPos s.cg t, raised := none }

/-! ## Map_Ellipsoid -/

/-- The two operations of the Eigen library that Map_Ellipsoid::Apply calls and that have no
exact rational counterpart: `normalized v` is the vector `v` after `v.normalize()`, and
`eigenvector0 m` is `eig.eigenvectors().col(0)` after `eig.computeDirect(m)`. -/
structure EigenLib where
  normalized : Vec3 → Vec3
  eigenvector0 : Matrix3d → Vec3

/-- The class Map_Ellipsoid (`map.cc`, lines 79-83): a Map_Sphere with another Apply. -/
structure Map_Ellipsoid extends Map_Sphere
deriving DecidableEq, Repr

/-- One pass through the body of the first loop of Map_Ellipsoid::Apply (lines 292-302). -/
def Map_Ellipsoid.pos_step (bc : BoundaryCondition) (r0 : Vec3) (s : PosLoop)
    (iter : element_t) : PosLoop :=
  let bead := iter.in_
  let out_ := s.out_.AddParentBead bead.id
  match bead.pos with
  | some pos =>
    let r := bc.BCShortestConnection r0 pos
    let further := decide (r.squaredNorm > s.max_bead_dist2)
    { out_ := out_
      M := s.M
      cg := s.cg + Vec3.smul iter.weight_ (r + r0)
      bPos := true
      max_bead_dist2 := if further then r.squaredNorm else s.max_bead_dist2
      bead_max_dist := if further then bead else s.bead_max_dist }
  | none => { s with out_ := out_ }

/-- One pass through the body of the second loop of Map_Ellipsoid::Apply (lines 324-340). -/
def Map_Ellipsoid.vel_step (s : VelLoop) (iter : element_t) : VelLoop :=
  let bead := iter.in_
  let s := match bead.vel with
    | some v => { s with vel := s.vel + Vec3.smul iter.weight_ v, bVel := true }
    | none => s
  let s := match bead.f with
    | some F => { s with f := s.f + Vec3.smul iter.force_weight_ F, bF := true }
    | none => s
  match bead.pos with
  | some pos => if iter.weight_ > 0 then { s with c := s.c + pos, n := s.n + 1 } else s
  | none => s

/-- The loop of `map.cc`, lines 363-375, that accumulates the tensor of gyration `m` about `c`;
`size` is `matrix_.size()`.  It reads the position of every element with a non-zero weight;
`none` when such a bead has no position. -/
def Map_Ellipsoid.gyration (c : Vec3) (size : ℚ) :
    List element_t → Matrix3d → Option Matrix3d
  | [], m => some m
  | iter :: rest, m =>
    if iter.weight_ = 0 then
      Map_Ellipsoid.gyration c size rest m
    else
      match iter.in_.pos with
      | none => none
      | some pos =>
        Map_Ellipsoid.gyration c size rest (m.add (Matrix3d.outerDiv (pos - c) size))

/-- The end of Map_Ellipsoid::Apply (`map.cc`, lines 377-397) once the tensor `m` is built:
the axes from the eigenvector and from `matrix_[1]`, `matrix_[2]`; `pos0` is the position of
`matrix_[0]`. -/
def Map_Ellipsoid.axes (lib : EigenLib) (matrix_ : List element_t) (pos0 : Vec3)
    (m : Matrix3d) (out_ : Bead) : ApplyOutcome :=
  let u := lib.eigenvector0 m
  match matrix_ with
  | _ :: e1 :: rest =>
    match e1.in_.pos with
    | none => { out_ := out_, raised := some ApplyError.pos_not_set }
    | some pos1 =>
      let v := lib.normalized (pos1 - pos0)
      let out_ := out_.setV v
      match rest with
      | e2 :: _ =>
        match e2.in_.pos with
        | none => { out_ := out_, raised := some ApplyError.pos_not_set }
        | some pos2 =>
          let w := lib.normalized (pos2 - pos0)
          let u := if (v.cross w).dot u < 0 then -u else u
          let out_ := out_.setU u
          let w := lib.normalized (u.cross v)
          { out_ := out_.setW w, raised := none }
      | [] => { out_ := out_, raised := some ApplyError.out_of_range }
  | _ => { out_ := out_, raised := some ApplyError.out_of_range }

/-- Map_Ellipsoid::Apply (`map.cc`, lines 258-398), acting on the output bead `out_`. -/
def Map_Ellipsoid.Apply (self : Map_Ellipsoid) (lib : EigenLib) (bc : BoundaryCondition)
    (out_ : Bead) : ApplyOutcome :=
  let out_ := out_.ClearParentBeads
  match self.matrix_ with
  | [] => { out_ := out_, raised := some ApplyError.out_of_range }
  | front :: _ =>
    let r0 := reference_pos front
    let s := self.matrix_.foldl (Map_Ellipsoid.pos_step bc r0) (pos_loop_init bc front out_)
    if bigger_than_half_box bc s.max_bead_dist2 then
      { out_ := s.out_, raised := some ApplyError.half_box }
    else
      let t := self.matrix_.foldl Map_Ellipsoid.vel_step vel_loop_init
      let out_ := write_pos_vel_f s.out_ s.bPos s.cg t
      match front.in_.pos with
      | none =>
        { out_ := ((out_.setU Vec3.UnitX).setV Vec3.UnitY).setW Vec3.UnitZ, raised := none }
      | some pos0 =>
        let c := t.c.divScalar t.n
        match Map_Ellipsoid.gyration c self.matrix_.length self.matrix_ Matrix3d.Zero with
        | none => { out_ := out_, raised := some ApplyError.pos_not_set }
        | some m => Map_Ellipsoid.axes lib self.matrix_ pos0 m out_

/-! ## Map -/

/-- A bead map as the class Map holds it (`map.cc`, lines 410-417): a Map_Sphere or a
Map_Ellipsoid.  The member `out_`, a pointer to a bead of the output topology, is the index
of that bead. -/
inductive BeadMap where
  | Spherical (out_ : ℕ) (map : Map_Sphere)
  | Ellipsoidal (out_ : ℕ) (map : Map_Ellipsoid)
deriving DecidableEq, Repr

/-- The member `out_` of a bead map. -/
def BeadMap.out_ : BeadMap → ℕ
  | BeadMap.Spherical out_ _ => out_
  | BeadMap.Ellipsoidal out_ _ => out_

/-- The member `matrix_` of a bead map. -/
def BeadMap.matrix_ : BeadMap → List element_t
  | BeadMap.Spherical _ map => map.matrix_
  | BeadMap.Ellipsoidal _ map => map.matrix_

/-- The virtual call `map_->Apply(bc)` on the state `out_` of the output bead. -/
def BeadMap.Apply (self : BeadMap) (lib : EigenLib) (bc : BoundaryCondition) (out_ : Bead) :
    ApplyOutcome :=
  match self with
  | BeadMap.Spherical _ map => map.Apply bc out_
  | BeadMap.Ellipsoidal _ map => map.Apply lib bc out_

/-- The class Map: its member `maps_`, the bead maps of one molecule in the order of their
creation. -/
structure Map where
  maps_ : List BeadMap
deriving DecidableEq, Repr

/-- What Map::Apply leaves behind: the beads of the output topology, by index, and the error
it raised, if any. -/
structure MapOutcome where
  beads : ℕ → Bead
  raised : Option ApplyError

/-- The loop of Map::Apply over the bead maps still to be applied: an error raised by one of
them ends the loop. -/
def Map.apply_loop (lib : EigenLib) (bc : BoundaryCondition) :
    List BeadMap → (ℕ → Bead) → MapOutcome
  | [], beads => { beads := beads, raised := none }
  | map_ :: rest, beads =>
    let r := map_.Apply lib bc (beads map_.out_)
    let beads := Function.update beads map_.out_ r.out_
    match r.raised with
    | some e => { beads := beads, raised := some e }
    | none => Map.apply_loop lib bc rest beads

/-- Map::Apply (`map.cc`, lines 85-89), acting on the beads of the output topology. -/
def Map.Apply (self : Map) (lib : EigenLib) (bc : BoundaryCondition) (beads : ℕ → Bead) :
    MapOutcome :=
  Map.apply_loop lib bc self.maps_ beads

/-- A set of overwrites of the writable members of a bead: `none` leaves the member as it
is, `some x` stores `x` (for position, velocity, force and the axes: sets it to `x`).  Used to
describe what an Apply does to the output bead. -/
structure BeadPatch where
  mass : Option ℚ
  pos : Option Vec3
  vel : Option Vec3
  f : Option Vec3
  u : Option Vec3
  v : Option Vec3
  w : Option Vec3
  parent_beads : Option (List ℤ)

/-- The bead after the overwrites of a patch. -/
def BeadPatch.apply (p : BeadPatch) (b : Bead) : Bead :=
  { b with
    mass := p.mass.getD b.mass
    pos := p.pos.orElse (fun _ => b.pos)
    vel := p.vel.orElse (fun _ => b.vel)
    f := p.f.orElse (fun _ => b.f)
    u := p.u.orElse (fun _ => b.u)
    v := p.v.orElse (fun _ => b.v)
    w := p.w.orElse (fun _ => b.w)
    parent_beads := p.parent_beads.getD b.parent_beads }

/-- The patch that overwrites nothing. -/
def BeadPatch.id : BeadPatch :=
  { mass := none, pos := none, vel := none, f := none, u := none, v := none, w := none,
    parent_beads := none }

/-- The patch `q` after the patch `p`. -/
def BeadPatch.comp (q p : BeadPatch) : BeadPatch :=
  { mass := q.mass.orElse (fun _ => p.mass)
    pos := q.pos.orElse (fun _ => p.pos)
    vel := q.vel.orElse (fun _ => p.vel)
    f := q.f.orElse (fun _ => p.f)
    u := q.u.orElse (fun _ => p.u)
    v := q.v.orElse (fun _ => p.v)
    w := q.w.orElse (fun _ => p.w)
    parent_beads := q.parent_beads.orElse (fun _ => p.parent_beads) }

/-- The overwrites of the writes at the end of Apply (`map.cc`, lines 245-254 and 343-351)
together with the rebuilt parent-bead list: the mass when `mass` is given, each of position,
velocity and force when its flag is set. -/
def write_patch (mass : Option ℚ) (parent_beads : List ℤ) (bPos : Bool) (cg : Vec3)
    (t : VelLoop) : BeadPatch :=
  { mass := mass
    pos := if bPos then some cg else none
    vel := if t.bVel then some t.vel else none
    f := if t.bF then some t.f else none
    u := none
    v := none
    w := none
    parent_beads := some parent_beads }

/-! ## Exclusion lists -/

/-- Modelled from the spec: the class ExclusionList (`exclusionlist.h` and `exclusionlist.cc`
are not among the sources).  The spec (glossary): "the set of particle pairs excluded from
nonbonded interaction evaluation".  The set is a list of pairs of bead ids; a pair counts in
either order. -/
structure ExclusionList where
  pairs : List (ℤ × ℤ)
deriving DecidableEq, Repr

/-- The pairs `(l[i], l[j])` with `i < j`, in the order of two nested loops
`for i, for j > i`. -/
def pairs_in_order {α : Type} : List α → List (α × α)
  | [] => []
  | a :: l => l.map (fun b => (a, b)) ++ pairs_in_order l

namespace ExclusionList

/-- Modelled from the spec: ExclusionList::IsExcluded, whether the two beads are recorded as
excluded from each other. -/
def IsExcluded (ex : ExclusionList) (bead1 bead2 : Bead) : Bool :=
  decide ((bead1.id, bead2.id) ∈ ex.pairs ∨ (bead2.id, bead1.id) ∈ ex.pairs)

/-- Modelled from the spec: ExclusionList::ExcludeList.  The spec (4.6, step 1): "the full
all-pairs exclusion set ... (every pair excluded)": every pair of beads of the list is
added. -/
def ExcludeList (ex : ExclusionList) (l : List Bead) : ExclusionList :=
  { pairs := ex.pairs ++ (pairs_in_order l).map (fun p => (p.1.id, p.2.id)) }

/-- Modelled from the spec: ExclusionList::RemoveExclusion.  The spec (4.6, step 3): "remove
the exclusion between" the two beads. -/
def RemoveExclusion (ex : ExclusionList) (bead1 bead2 : Bead) : ExclusionList :=
  { pairs := ex.pairs.filter
      (fun p => !(decide (p = (bead1.id, bead2.id)) || decide (p = (bead2.id, bead1.id)))) }

/-- Modelled from the spec: ExclusionList::Remove.  The spec (4.6, step 2): "remove exclusions
between every pair" of the beads of the list. -/
def Remove (ex : ExclusionList) (l : List Bead) : ExclusionList :=
  (pairs_in_order l).foldl (fun ex p => ex.RemoveExclusion p.1 p.2) ex

end ExclusionList

/-- Modelled from the spec: the class Topology (`topology.h` is not among the sources) as far
as CsgBoltzmann::CreateExclusionList and CGEngine::CreateCGTopology use it: the bead stored
under an id, the exclusion list and the molecules of the topology.  The spec (3): the
configuration "owns its Beads, Molecules, Residues" and holds "a derived nonbonded exclusion
relation". -/
structure Topology where
  getBead : ℤ → Bead
  getExclusions : ExclusionList
  Molecules : List Molecule := []

/-- The innermost two loops of CsgBoltzmann::CreateExclusionList (`main.cc`, lines 127-132):
for two beads of the coarse-grained molecule, remove the exclusion between every parent of
the first and every parent of the second. -/
def CsgBoltzmann.remove_parent_pairs (top_atomistic : Topology) (ex : ExclusionList)
    (bead_i bead_j : Bead) : ExclusionList :=
  bead_i.parent_beads.foldl
    (fun ex parent_bead_id_i =>
      bead_j.parent_beads.foldl
        (fun ex parent_bead_id_j =>
          ex.RemoveExclusion (top_atomistic.getBead parent_bead_id_i)
            (top_atomistic.getBead parent_bead_id_j))
        ex)
    ex

/-- CsgBoltzmann::CreateExclusionList (`main.cc`, lines 106-137).  The first loop runs over
`i = 0 .. cg.BeadCount() - 1`, the second over the index pairs `i < j < cg.BeadCount()`. -/
def CsgBoltzmann.CreateExclusionList (top_atomistic : Topology) (atomistic : Molecule)
    (top_cg : Topology) (cg : Molecule) : ExclusionList :=
  let ex : ExclusionList := { pairs := [] }
  let ex := ex.ExcludeList atomistic.Beads
  let ex := (List.range cg.BeadCount).foldl
    (fun ex i =>
      ex.Remove ((cg.getBead i).parent_beads.map top_atomistic.getBead))
    ex
  (pairs_in_order (List.range cg.BeadCount)).foldl
    (fun ex p =>
      if top_cg.getExclusions.IsExcluded (cg.getBead p.1) (cg.getBead p.2) then
        CsgBoltzmann.remove_parent_pairs top_atomistic ex (cg.getBead p.1) (cg.getBead p.2)
      else ex)
    ex

/-! ## Structure decomposition -/

/-- Modelled from the spec: the class tools::Graph (`graph.h` is not among the sources) as far
as breakIntoStructures uses it: the vertices (bead ids) and the edges (pairs of bead ids). -/
structure Graph where
  getVertices : List ℤ
  getEdges : List (ℤ × ℤ)
deriving DecidableEq, Repr

/-- Modelled from the spec: the class BeadStructure (`beadstructure.h` is not among the
sources).  The spec (3): "a graph view over a set of beads (vertices) and declared bonds
(edges)"; (4.7): "vertex set = bead ids, edge set = declared bonds". -/
structure BeadStructure where
  beads_ : List ℤ
  connections_ : List (ℤ × ℤ)
deriving DecidableEq, Repr

/-- Modelled from the spec: BeadStructure::getGraph, the graph of the bead ids and the
bonds. -/
def BeadStructure.getGraph (s : BeadStructure) : Graph :=
  { getVertices := s.beads_, getEdges := s.connections_ }

/-- Whether a class of vertices holds an endpoint of the edge. -/
def touches (e : ℤ × ℤ) (c : List ℤ) : Bool := decide (e.1 ∈ c) || decide (e.2 ∈ c)

/-- Modelled from the spec: one step of the discovery of the connected components (the spec,
9, allows "union-find over indexed vertices"): the classes that hold an endpoint of the edge
are merged into one class. -/
def merge_classes (classes : List (List ℤ)) (e : ℤ × ℤ) : List (List ℤ) :=
  if (classes.filter (touches e)).isEmpty then classes
  else (classes.filter (touches e)).flatten :: classes.filter (fun c => !touches e c)

/-- Modelled from the spec: the vertex sets of the connected components of a graph: every
vertex starts in a class of its own, and every edge merges the classes of its endpoints. -/
def vertex_classes (g : Graph) : List (List ℤ) :=
  g.getEdges.foldl merge_classes (g.getVertices.map (fun v => [v]))

/-- Modelled from the spec: tools::decoupleIsolatedSubGraphs (`graphalgorithm.h` is not among
the sources).  The spec (4.7): "compute its connected components as independent subgraphs":
one graph per connected component, with the vertices of the component and the edges between
them. -/
def decoupleIsolatedSubGraphs (g : Graph) : List Graph :=
  (vertex_classes g).map
    (fun c =>
      { getVertices := c
        getEdges := g.getEdges.filter (fun e => decide (e.1 ∈ c) && decide (e.2 ∈ c)) })

/-- Modelled from the spec: BeadStructure::isSingleStructure.  The spec (4.7): "determine
whether it is already a single connected structure": the graph has exactly one connected
component. -/
def BeadStructure.isSingleStructure (s : BeadStructure) : Bool :=
  decide ((vertex_classes s.getGraph).length = 1)

/-- Modelled from the spec: BeadStructure::getSubStructure.  The spec (4.7): "construct an
independent BeadStructure retaining only the vertices and edges of that component, preserving
original bead ids". -/
def BeadStructure.getSubStructure (_s : BeadStructure) (vertices : List ℤ)
    (edges : List (ℤ × ℤ)) : BeadStructure :=
  { beads_ := vertices, connections_ := edges }

/-- The function breakIntoStructures (`beadstructurealgorithms.cc`, lines 30-46). -/
def breakIntoStructures (beadstructure : BeadStructure) : List BeadStructure :=
  if beadstructure.isSingleStructure then [beadstructure]
  else
    (decoupleIsolatedSubGraphs beadstructure.getGraph).map
      (fun sub_graph =>
        beadstructure.getSubStructure sub_graph.getVertices sub_graph.getEdges)

/-! ## CGEngine -/

/-- The members of the class CGMoleculeDef (`cgmoleculedef.h` is not among the sources) that
CGEngine::CreateCGTopology calls.  `CreateMolecule out` adds a molecule to the output
topology: it gives the topology after the call and the new molecule.  `CreateMap in_ out`
builds the Map from the molecule `in_` of the input topology to the new molecule.  Either
call may throw, which is the error with the message of the exception. -/
structure CGMoleculeDef where
  CreateMolecule : Topology → Except String (Topology × Molecule)
  CreateMap : Molecule → Molecule → Except String Map

/-- The members of the class CGEngine (`cgengine.h` is not among the sources) that
CreateCGTopology calls: whether a molecule name is ignored, and the loaded definition for a
molecule name, `none` for the null pointer. -/
structure CGEngine where
  IsIgnored : String → Bool
  getMoleculeDef : String → Option CGMoleculeDef

/-- The class TopologyMap (`topologymap.h`, lines 30-46): its member `maps_`.  The pointers
`in_` and `out_` to the two topologies are not represented; the topologies are passed to the
functions that use them. -/
structure TopologyMap where
  maps_ : List Map
deriving DecidableEq, Repr

/-- TopologyMap::AddMoleculeMap (`topologymap.h`, lines 51-53). -/
def TopologyMap.AddMoleculeMap (self : TopologyMap) (map : Map) : TopologyMap :=
  { maps_ := self.maps_ ++ [map] }

/-- The loop of CGEngine::CreateCGTopology (`cgengine.cc`, lines 45-65) over the molecules of
the input topology, from the TopologyMap and the output topology reached so far.  An
exception of CreateMolecule or CreateMap ends the function. -/
def CGEngine.molecule_loop (self : CGEngine) :
    List Molecule → TopologyMap → Topology → Except String (TopologyMap × Topology)
  | [], m, out => Except.ok (m, out)
  | mol :: rest, m, out =>
    if self.IsIgnored mol.getName then self.molecule_loop rest m out
    else
      match self.getMoleculeDef mol.getName with
      | none => self.molecule_loop rest m out
      | some def_ =>
        match def_.CreateMolecule out with
        | Except.error err => Except.error err
        | Except.ok (out, mcg) =>
          match def_.CreateMap mol mcg with
          | Except.error err => Except.error err
          | Except.ok map => self.molecule_loop rest (m.AddMoleculeMap map) out

/-- CGEngine::CreateCGTopology (`cgengine.cc`, lines 41-68).  The member
Topology::RebuildExclusions of the output topology (`topology.h` is not among the sources) is
the parameter `RebuildExclusions`.  The result is the TopologyMap with the output topology
after the call. -/
def CGEngine.CreateCGTopology (self : CGEngine)
    (RebuildExclusions : Topology → Except String Topology) (in_ : Topology) (out : Topology) :
    Except String (TopologyMap × Topology) :=
  match self.molecule_loop in_.Molecules { maps_ := [] } out with
  | Except.error err => Except.error err
  | Except.ok (m, out) =>
    match RebuildExclusions out with
    | Except.error err => Except.error err
    | Except.ok out => Except.ok (m, out)

/-! ## The tensor of gyration -/

/-- The sum of a list of matrices. -/
def Matrix3d.sum (l : List Matrix3d) : Matrix3d := l.foldr Matrix3d.add Matrix3d.Zero

/-- The class Property (`property.h`, lines 56-300): name, value, path and the child
properties.  The members `properties_` (the children in the order of their addition) and
`map_` (for every key the indices of the children added under it) are represented together:
the list of the children, each with the key under which `add` entered it into `map_`.
Attributes are not represented. -/
inductive Property where
  | mk (name_ value_ path_ : String) (properties_ : List (String × Property))

namespace Property

/-- Property::name. -/
def name : Property → String
  | mk name_ _ _ _ => name_

/-- Property::value. -/
def value : Property → String
  | mk _ value_ _ _ => value_

/-- Property::path. -/
def path : Property → String
  | mk _ _ path_ _ => path_

/-- The children with their keys. -/
def properties_ : Property → List (String × Property)
  | mk _ _ _ properties_ => properties_

/-- Property::add (`property.cc`, lines 97-105): a new child without children is appended
and entered under `key`. -/
def add (self : Property) (key value : String) : Property :=
  let path := if self.path ≠ "" then self.path ++ "." else self.path
  mk self.name self.value self.path
    (self.properties_ ++ [(key, mk key value (path ++ self.name) [])])

/-- The lookup `map_.find(key)` followed by `properties_[iter->second.back()]`
(`property.cc`, lines 60-64): the child that was added last under `key`, `none` when `find`
returns `map_.end()`. -/
def find (self : Property) (key : String) : Option Property :=
  ((self.properties_.filter (fun child => decide (child.1 = key))).getLast?).map
    (fun child => child.2)

end Property

/-- How a call of Property::get ends: with a reference to a property, or with the runtime
error "property not found: " followed by a key.  The third outcome belongs to the embedding:
the bound on the depth of the recursive calls is used up. -/
inductive GetOutcome where
  | found (p : Property)
  | not_found (key : String)
  | out_of_fuel

namespace Property

/-- The loop of Property::get over the tokens after the first (`property.cc`, lines 66-74):
`step p n` is the call `p->get(*n)`; a runtime error of that call is caught and thrown again
with the full key. -/
def get_rest (step : Property → String → GetOutcome) (key : String) :
    List String → Property → GetOutcome
  | [], p => GetOutcome.found p
  | n :: rest, p =>
    match step p n with
    | GetOutcome.found q => get_rest step key rest q
    | GetOutcome.not_found _ => GetOutcome.not_found key
    | GetOutcome.out_of_fuel => GetOutcome.out_of_fuel

/-- Property::get (`property.cc`, lines 48-77).  The class Tokenizer (`tokenizer.h`) is not
among the sources: `tokens key` is the list of the tokens of `Tokenizer tok(key, ".")`.  The
first argument bounds the depth of the recursive calls `p->get(*n)`. -/
def get (tokens : String → List String) : ℕ → Property → String → GetOutcome
  | 0, _, _ => GetOutcome.out_of_fuel
  | fuel + 1, self, key =>
    match tokens key with
    | [] => GetOutcome.found self
    | n :: rest =>
      match (if n = "" then some self else self.find n) with
      | none => GetOutcome.not_found key
      | some p => get_rest (fun p n => get tokens fuel p n) key rest p

/-- The descent in the words of the claim: one child per key component, from the property
`self`; `none` when a component names no child at its level. -/
def descend : Property → List String → Option Property
  | self, [] => some self
  | self, n :: rest =>
    match self.find n with
    | none => none
    | some child => descend child rest

end Property

/-- Property::exists (`property.cc`, lines 122-129): whether `get(key)` returns without an
exception; `none` when the bound on the depth of the recursion is used up. -/
def Property.exists (tokens : String → List String) (fuel : ℕ) (self : Property)
    (key : String) : Option Bool :=
  match Property.get tokens fuel self key with
  | GetOutcome.found _ => some true
  | GetOutcome.not_found _ => some false
  | GetOutcome.out_of_fuel => none

/-! ## ObjectFactory -/

/-- The class template ObjectFactory (`objectfactory.h`, lines 44-84): its member `objects_`,
a std::map from keys to creators.  A creator (`std::unique_ptr<T> (*)()`) is a function
without arguments that returns a new instance; the map is the function from a key to the
creator stored under it, `none` for a key without entry. -/
structure ObjectFactory (key_t T : Type) where
  objects_ : key_t → Option (Unit → T)

/-- The error of ObjectFactory::Create, with the message "factory key ... not found.". -/
inductive FactoryError (key_t : Type) where
  | key_not_found (key : key_t)
deriving DecidableEq, Repr

namespace ObjectFactory

/-- ObjectFactory() = default: the map has no entry. -/
def new {key_t T : Type} : ObjectFactory key_t T := { objects_ := fun _ => none }

/-- ObjectFactory::Register (`objectfactory.h`, lines 92-98): `objects_.insert`, whose result
is discarded.  std::map::insert adds the entry when the key has none and leaves an existing
entry of the key as it is. -/
def Register {key_t T : Type} [DecidableEq key_t] (self : ObjectFactory key_t T) (key : key_t)
    (creator : Unit → T) : ObjectFactory key_t T :=
  { objects_ := fun k =>
      if k = key then
        match self.objects_ key with
        | some existing => some existing
        | none => some creator
      else self.objects_ k }

/-- ObjectFactory::Create (`objectfactory.h`, lines 106-115). -/
def Create {key_t T : Type} (self : ObjectFactory key_t T) (key : key_t) :
    Except (FactoryError key_t) T :=
  match self.objects_ key with
  | some creator => Except.ok (creator ())
  | none => Except.error (FactoryError.key_not_found key)

/-- ObjectFactory::IsRegistered (`objectfactory.h`, lines 117-120). -/
def IsRegistered {key_t T : Type} (self : ObjectFactory key_t T) (id_ : key_t) : Bool :=
  (self.objects_ id_).isSome

/-- A default-constructed factory after the calls `Register(key, creator)` for the pairs of
the list, in list order. -/
def register_all {key_t T : Type} [DecidableEq key_t] (calls : List (key_t × (Unit → T))) :
    ObjectFactory key_t T :=
  calls.foldl (fun factory call => factory.Register call.1 call.2) ObjectFactory.new

end ObjectFactory

/-! ## BondedStatistics -/

/-- Modelled from the spec: the class DataCollection<double>::array (`datacollection.h` is
not among the sources; the spec does not describe it), as `test_bondedstatistics.cc` reads
it through getName(), size() and at(): a named vector of values. -/
structure DataCollection.array where
  getName : String
  values : List ℚ
deriving DecidableEq, Repr

/-- Modelled from the spec: the class DataCollection<double> (`datacollection.h` is not among
the sources; the spec does not describe it), as `test_bondedstatistics.cc` reads it through
Data(): the vector of its arrays. -/
structure DataCollection where
  Data : List DataCollection.array
deriving DecidableEq, Repr

/-- Modelled from the spec: DataCollection::clear, after which the collection holds no
array. -/
def DataCollection.clear (_self : DataCollection) : DataCollection := { Data := [] }

/-- Modelled from the spec: DataCollection::CreateArray, which appends an empty array with
the given name. -/
def DataCollection.CreateArray (self : DataCollection) (name : String) : DataCollection :=
  { Data := self.Data ++ [{ getName := name, values := [] }] }

/-- The members of the class Interaction (`interaction.h` is not among the sources) that
BondedStatistics calls: the name of the interaction and its value in a configuration. -/
structure Interaction where
  getName : String
  EvaluateVar : Topology → ℚ

/-- The class BondedStatistics (`bondedstatistics.cc`): its member `bonded_values_`. -/
structure BondedStatistics where
  bonded_values_ : DataCollection
deriving DecidableEq, Repr

namespace BondedStatistics

/-- BondedStatistics::BeginCG (`bondedstatistics.cc`, lines 25-30).  The member
Topology::BondedInteractions (`topology.h` is not among the sources) is the parameter
`BondedInteractions`. -/
def BeginCG (self : BondedStatistics) (BondedInteractions : Topology → List Interaction)
    (top : Topology) : BondedStatistics :=
  let bonded_values_ := self.bonded_values_.clear
  { bonded_values_ :=
      (BondedInteractions top).foldl
        (fun values interaction => values.CreateArray interaction.getName) bonded_values_ }

/-- The loop of BondedStatistics::EvalConfiguration (`bondedstatistics.cc`, lines 38-41)
over the interactions `ia` and the arrays `is` in step: every interaction appends its value
to its array.  `none` when the arrays end before the interactions, where the source
dereferences an iterator past the end. -/
def eval_loop (conf : Topology) :
    List Interaction → List DataCollection.array → Option (List DataCollection.array)
  | [], arrays => some arrays
  | _ :: _, [] => none
  | ia :: ic, is_ :: arrays =>
    match eval_loop conf ic arrays with
    | none => none
    | some rest => some ({ is_ with values := is_.values ++ [ia.EvaluateVar conf] } :: rest)

/-- BondedStatistics::EvalConfiguration (`bondedstatistics.cc`, lines 34-42). -/
def EvalConfiguration (self : BondedStatistics)
    (BondedInteractions : Topology → List Interaction) (conf : Topology) :
    Option BondedStatistics :=
  match eval_loop conf (BondedInteractions conf) self.bonded_values_.Data with
  | none => none
  | some arrays => some { bonded_values_ := { Data := arrays } }

/-- The calls of EvalConfiguration for the configurations of the list, one after the other. -/
def EvalConfigurations (self : BondedStatistics)
    (BondedInteractions : Topology → List Interaction) (confs : List Topology) :
    Option BondedStatistics :=
  confs.foldl
    (fun state conf =>
      match state with
      | none => none
      | some statistics => statistics.EvalConfiguration BondedInteractions conf)
    (some self)

end BondedStatistics

/-! ## Arithmetic on double -/

/-- Rounding to the nearest integer, halfway cases to the even one: the rounding of the
significand in IEEE 754 round-to-nearest. -/
def round_half_even (x : ℚ) : ℤ :=
  if x - ⌊x⌋ < 1 / 2 then ⌊x⌋
  else if 1 / 2 < x - ⌊x⌋ then ⌊x⌋ + 1
  else if ⌊x⌋ % 2 = 0 then ⌊x⌋ else ⌊x⌋ + 1

/-- The `double` nearest to a positive number `x`: `x` is scaled by the power of two that
brings it into [2^52, 2^53), rounded to an integer significand of 53 bits and scaled back. -/
def binary64_pos (x : ℚ) : ℚ :=
  let e := Int.log 2 x - 52
  round_half_even (x / 2 ^ e) * 2 ^ e

/-- The `double` (IEEE 754 binary64, round to nearest, ties to even) nearest to the number
`x`.  The exponent is not bounded: overflow to infinity and the subnormal numbers are not
modelled. -/
def binary64 (x : ℚ) : ℚ :=
  if x = 0 then 0 else if 0 < x then binary64_pos x else -binary64_pos (-x)


/-- The difference `u - v` of two vectors in arithmetic in which every operation on numbers
is followed by the rounding `rnd`. -/
def Vec3.sub_rounded (rnd : ℚ → ℚ) (u v : Vec3) : Vec3 :=
  ⟨rnd (u.x - v.x), rnd (u.y - v.y), rnd (u.z - v.z)⟩

/-- The product `u * s` of a vector and a number in arithmetic with rounding `rnd`. -/
def Vec3.mul_rounded (rnd : ℚ → ℚ) (u : Vec3) (s : ℚ) : Vec3 :=
  ⟨rnd (u.x * s), rnd (u.y * s), rnd (u.z * s)⟩

/-- The local `r_tp` of TriclinicBox::BCShortestConnection (`triclinicbox.cc`, line 36) in
arithmetic with rounding `rnd`. -/
def TriclinicBox.r_tp (rnd : ℚ → ℚ) (r_i r_j : Vec3) : Vec3 :=
  Vec3.sub_rounded rnd r_j r_i

/-- The local `r_dp` of TriclinicBox::BCShortestConnection (`triclinicbox.cc`, line 37) in
arithmetic with rounding `rnd`: the quotient, the product and the difference are rounded;
std::round returns an integer, which is a `double`. -/
def TriclinicBox.r_dp (rnd : ℚ → ℚ) (box_ : Matrix3d) (r_i r_j : Vec3) : Vec3 :=
  let r_tp := TriclinicBox.r_tp rnd r_i r_j
  Vec3.sub_rounded rnd r_tp
    (Vec3.mul_rounded rnd (box_.col 2) (std_round (rnd (r_tp.z / box_.m22))))

/-- The local `r_sp` of TriclinicBox::BCShortestConnection (`triclinicbox.cc`, line 38) in
arithmetic with rounding `rnd`. -/
def TriclinicBox.r_sp (rnd : ℚ → ℚ) (box_ : Matrix3d) (r_i r_j : Vec3) : Vec3 :=
  let r_dp := TriclinicBox.r_dp rnd box_ r_i r_j
  Vec3.sub_rounded rnd r_dp
    (Vec3.mul_rounded rnd (box_.col 1) (std_round (rnd (r_dp.y / box_.m11))))

/-- TriclinicBox::BCShortestConnection (`triclinicbox.cc`, lines 34-40) in arithmetic in
which every operation on numbers is followed by the rounding `rnd`, each product rounded
before it is subtracted: with `rnd` the identity
this is the exact function `TriclinicBox.BCShortestConnection`, with `rnd = binary64` the
function on `double`. -/
def TriclinicBox.BCShortestConnection_rounded (rnd : ℚ → ℚ) (box_ : Matrix3d)
    (r_i r_j : Vec3) : Vec3 :=
  let r_sp := TriclinicBox.r_sp rnd box_ r_i r_j
  Vec3.sub_rounded rnd r_sp
    (Vec3.mul_rounded rnd (box_.col 0) (std_round (rnd (r_sp.x / box_.m00))))

/-- The local `M` of Map_Sphere::Apply after its first loop (`map.cc`, lines 190 and 204),
which setMass writes to the output bead (line 245), in arithmetic with rounding `rnd`:
started at 0, the mass of each element in turn is added and the sum rounded.  With `rnd` the
identity this is the mass that `Map_Sphere.Apply` writes. -/
def Map_Sphere.accumulated_mass (rnd : ℚ → ℚ) (matrix_ : List element_t) : ℚ :=
  matrix_.foldl (fun M iter => rnd (M + iter.in_.mass)) 0

/-- The scale of the numbers that enter the periodic image `q - p + i a + j b + k c` in a box
with a_y = a_z = b_z = 0: the sum of the absolute values of the components of `q - p` and of
the three multiples.  The rounding errors of BCShortestConnection are bounded relative to
it. -/
def TriclinicBox.image_scale (box_ : Matrix3d) (p q : Vec3) (i j k : ℤ) : ℚ :=
  |q.x - p.x| + |q.y - p.y| + |q.z - p.z| + |(i : ℚ)| * |box_.m00|
    + |(j : ℚ)| * (|box_.m01| + |box_.m11|)
    + |(k : ℚ)| * (|box_.m02| + |box_.m12| + |box_.m22|)

/-! ## Map_Sphere::Initialize on the option trees -/

/-- A value of type `double` as far as Map_Sphere::Initialize tells its values apart: a finite
number, an infinity with its sign, or NaN.  Finite results are exact; rounding and the sign of
a zero are not represented. -/
inductive Double where
  | finite (value : ℚ)
  | infinite (negative : Bool)
  | nan
deriving DecidableEq, Repr

namespace Double

/-- The comparison `x == 0`: false for an infinity and for NaN. -/
def eq_zero : Double → Bool
  | finite value => decide (value = 0)
  | _ => false

/-- The comparison `x != 0`: true for an infinity and for NaN. -/
def ne_zero (x : Double) : Bool := !x.eq_zero

/-- The quotient `1. / s` of line 118: positive infinity for the sum `s = 0`, which
std::accumulate started at `0.` returns as positive zero. -/
def inverse (s : ℚ) : Double := if s = 0 then infinite false else finite (1 / s)

/-- The product `x * y`: zero times infinity is NaN. -/
def mul : Double → Double → Double
  | finite a, finite b => finite (a * b)
  | finite a, infinite negative =>
    if a = 0 then nan else infinite (if a < 0 then !negative else negative)
  | infinite negative, finite b =>
    if b = 0 then nan else infinite (if b < 0 then !negative else negative)
  | infinite s, infinite t => infinite (s != t)
  | _, _ => nan

/-- The quotient `x / y`; a zero divisor counts as positive zero.  Initialize divides by a
weight only after it has tested it to be non-zero. -/
def div : Double → Double → Double
  | finite a, finite b =>
    if b = 0 then (if a = 0 then nan else infinite (decide (a < 0))) else finite (a / b)
  | finite _, infinite _ => finite 0
  | infinite negative, finite b => infinite (if b < 0 then !negative else negative)
  | _, _ => nan

/-- The normalisation of `map.cc`, lines 118-121 (and 128-130), on `double`: every entry
times `norm = 1. / accumulate`, which is infinite when the entries sum to zero. -/
def normalize (v : List ℚ) : List Double :=
  let norm := inverse (accumulate v)
  v.map (fun w => mul (finite w) norm)

end Double

/-- The runtime errors that leave Map_Sphere::Initialize, those of the calls it makes to read
its options included. -/
inductive OptionsError where
  /-- Property::get: "property not found: " followed by the key. -/
  | property_not_found (key : String)
  /-- The conversion of the value of option `key` by `ToVector<double>` failed. -/
  | invalid_number (key : String)
  /-- Belongs to the embedding: the bound on the depth of Property::get is used up. -/
  | out_of_fuel
  /-- One of the four errors Initialize throws itself. -/
  | init (e : InitError)
deriving DecidableEq, Repr

/-- The arguments of one call `AddElem(in->getBead(iin), weights[i], fweights[i])`
(`map.cc`, line 166): the element appended to `matrix_`, its weights being `double`s. -/
structure added_element where
  in_ : Bead
  weight_ : Double
  force_weight_ : Double
deriving DecidableEq, Repr

/-- The expression `opts->get(key).value()`. -/
def Property.get_value (tokens : String → List String) (fuel : ℕ) (opts : Property)
    (key : String) : Except OptionsError String :=
  match opts.get tokens fuel key with
  | GetOutcome.found p => Except.ok p.value
  | GetOutcome.not_found k => Except.error (OptionsError.property_not_found k)
  | GetOutcome.out_of_fuel => Except.error OptionsError.out_of_fuel

/-- The loop of `map.cc`, lines 147-158, on `double`: the force weights `d_i / w_i`, or the
error of the first index with `w_i == 0 && d_i != 0`. -/
def Map_Sphere.force_weights_double :
    List Double → List Double → Except OptionsError (List Double)
  | w :: weights, di :: d =>
    if w.eq_zero && di.ne_zero then
      Except.error (OptionsError.init InitError.d_nonzero_weight_zero)
    else
      match Map_Sphere.force_weights_double weights d with
      | Except.error e => Except.error e
      | Except.ok fweights =>
        Except.ok ((if w.ne_zero then Double.div di w else Double.finite 0) :: fweights)
  | _, _ => Except.ok []

/-- The loop of `map.cc`, lines 160-167, on `double`: `matrix_` grows by one element per
name. -/
def Map_Sphere.add_elements_double (in_ : Molecule) :
    List String → List Double → List Double → List added_element
      → Except OptionsError (List added_element)
  | b :: beads, w :: weights, fw :: fweights, matrix_ =>
    let iin := in_.getBeadByName b
    if iin < 0 then
      Except.error (OptionsError.init (InitError.bead_not_found b))
    else
      Map_Sphere.add_elements_double in_ beads weights fweights
        (matrix_ ++ [{ in_ := in_.getBead iin, weight_ := w, force_weight_ := fw }])
  | _, _, _, matrix_ => Except.ok matrix_

/-- The vector `d` of `map.cc`, lines 123-135, on `double`: the normalised coefficients of
option "d" when `exists("d")`, a copy of the normalised weights otherwise. -/
def Map_Sphere.read_d (tokens : String → List String) (fuel : ℕ)
    (ToVector_double : String → Option (List ℚ)) (opts_map : Property)
    (weights : List Double) : Except OptionsError (List Double) :=
  match opts_map.get tokens fuel "d" with
  | GetOutcome.out_of_fuel => Except.error OptionsError.out_of_fuel
  | GetOutcome.not_found _ => Except.ok weights
  | GetOutcome.found p =>
    match ToVector_double p.value with
    | none => Except.error (OptionsError.invalid_number "d")
    | some d => Except.ok (Double.normalize d)

/-- The end of Map_Sphere::Initialize (`map.cc`, lines 137-167) on `double`, once the vectors
`weights` and `d` are built: the check of the number of d coefficients and the two loops. -/
def Map_Sphere.initialize_vectors (in_ : Molecule) (beads : List String)
    (weights d : List Double) : Except OptionsError (List added_element) :=
  if beads.length ≠ d.length then
    Except.error (OptionsError.init InitError.d_mismatch)
  else
    match Map_Sphere.force_weights_double weights d with
    | Except.error e => Except.error e
    | Except.ok fweights => Map_Sphere.add_elements_double in_ beads weights fweights []

/-- Map_Sphere::Initialize (`map.cc`, lines 91-168) of a freshly constructed map, with the
options as the Property trees it is called with and the numbers as `double`s; the result is
the `matrix_` it builds.  The class Tokenizer (`tokenizer.h`) is not among the sources:
`tokens` is the tokenizer of Property::get, `ToVector s` the list of the tokens of
`Tokenizer(s, " \n\t").ToVector()` and `ToVector_double s` the vector of
`Tokenizer(s, " \n\t").ToVector<double>()`, `none` when that conversion throws; the numbers
it returns are finite.  The errors
thrown while an error message is put together (`opts->get("name")`) are not told apart from
the error under way. -/
def Map_Sphere.InitializeFromOptions (tokens : String → List String) (fuel : ℕ)
    (ToVector : String → List String) (ToVector_double : String → Option (List ℚ))
    (in_ : Molecule) (opts_bead opts_map : Property) :
    Except OptionsError (List added_element) :=
  match Property.get_value tokens fuel opts_bead "beads" with
  | Except.error e => Except.error e
  | Except.ok s =>
    let beads := ToVector s
    match Property.get_value tokens fuel opts_map "weights" with
    | Except.error e => Except.error e
    | Except.ok sw =>
      match ToVector_double sw with
      | none => Except.error (OptionsError.invalid_number "weights")
      | some weights =>
        if beads.length ≠ weights.length then
          Except.error (OptionsError.init InitError.weights_mismatch)
        else
          let weights := Double.normalize weights
          match Map_Sphere.read_d tokens fuel ToVector_double opts_map weights with
          | Except.error e => Except.error e
          | Except.ok d => Map_Sphere.initialize_vectors in_ beads weights d

/-- The names that option "beads" of the bead definition lists; `none` without that
option. -/
def Map_Sphere.listed_names (ToVector : String → List String) (opts_bead : Property) :
    Option (List String) :=
  (opts_bead.find "beads").map (fun p => ToVector p.value)

/-- The numbers that option `key` of the map definition lists; `none` without that option
and when an entry is not a number. -/
def Map_Sphere.listed_numbers (ToVector_double : String → Option (List ℚ))
    (opts_map : Property) (key : String) : Option (List ℚ) :=
  (opts_map.find key).bind (fun p => ToVector_double p.value)

/-- The normalised d coefficients in the words of the claim: those of option "d" when it is
given (and its entries are numbers), the normalised weights otherwise. -/
def Map_Sphere.normalised_d (ToVector_double : String → Option (List ℚ))
    (opts_map : Property) (weights : List ℚ) : List Double :=
  match Map_Sphere.listed_numbers ToVector_double opts_map "d" with
  | some d => Double.normalize d
  | none => Double.normalize weights

/-! ## Sample configurations -/

/-- A bead with the given id, mass and optional position, velocity and force; no axes and no
parent beads. -/
def sample_bead (id : ℤ) (mass : ℚ) (pos vel f : Option Vec3) : Bead :=
  { id := id, name := "A", molecule_id := 0, mass := mass, pos := pos, vel := vel, f := f,
    u := none, v := none, w := none, parent_beads := [] }

/-- An output bead as it may look before a map is applied: mass 0, nothing set, and a
parent-bead list left over from an earlier use. -/
def sample_out : Bead :=
  { id := 7, name := "CG", molecule_id := 0, mass := 0, pos := none, vel := none, f := none,
    u := none, v := none, w := none, parent_beads := [40, 41] }

/-- The cubic box of side 10. -/
def cubic_box : Matrix3d := ⟨10, 0, 0, 0, 10, 0, 0, 0, 10⟩

/-- The cubic box of side 10 as a boundary condition; its shortest dimension is 10. -/
def cubic_bc : BoundaryCondition := TriclinicBox.toBoundaryCondition cubic_box 10

/-- A reduced triclinic box: a = (100, 0, 0), b = (49, 100, 0), c = (0, 0, 100). -/
def skew_box : Matrix3d := ⟨100, 49, 0, 0, 100, 0, 0, 0, 100⟩

/-- Three source beads of masses 1, 2, 3 with positions, velocities and forces, weights
1/2, 1/2, 0 and force weights 1, 1, 0; the second bead sits across the boundary of
`cubic_box` from the first. -/
def sample_matrix : List element_t :=
  [ { in_ := sample_bead 0 1 (some ⟨5, 9, 5⟩) (some ⟨1, 0, 0⟩) (some ⟨0, 2, 0⟩),
      weight_ := 1 / 2, force_weight_ := 1 },
    { in_ := sample_bead 1 2 (some ⟨5, 1, 5⟩) (some ⟨3, 0, 0⟩) (some ⟨0, 4, 0⟩),
      weight_ := 1 / 2, force_weight_ := 1 },
    { in_ := sample_bead 2 3 (some ⟨6, 9, 5⟩) none none,
      weight_ := 0, force_weight_ := 0 } ]

/-- The spherical map over `sample_matrix`. -/
def sample_sphere : Map_Sphere := { matrix_ := sample_matrix }

/-- The ellipsoidal map over `sample_matrix`. -/
def sample_ellipsoid : Map_Ellipsoid := { matrix_ := sample_matrix }

/-- Two positioned source beads that lie further apart than half the side of `cubic_box`,
whichever periodic image is taken. -/
def wide_sphere : Map_Sphere :=
  { matrix_ :=
      [ { in_ := sample_bead 0 1 (some ⟨0, 0, 0⟩) none none, weight_ := 1 / 2,
          force_weight_ := 1 },
        { in_ := sample_bead 1 1 (some ⟨4, 4, 4⟩) none none, weight_ := 1 / 2,
          force_weight_ := 1 } ] }

/-- A source molecule with two beads, "A" (index 0, mass 12) and "B" (index 1, mass 1);
every other name is looked up as -1. -/
def sample_molecule : Molecule :=
  { getBeadByName := fun name => if name = "A" then 0 else if name = "B" then 1 else -1
    getBead := fun i =>
      if i = 0 then sample_bead 0 12 (some ⟨0, 0, 0⟩) none none
      else sample_bead 1 1 (some ⟨1, 0, 0⟩) none none }

/-- What Initialize stores for the names "A", "B" of `sample_molecule` with weights 1, 3 and
d coefficients 0, 2: position weights 1/4, 3/4 and force weights 0, 4/3. -/
def sample_initialized : Map_Sphere :=
  { matrix_ :=
      [ { in_ := sample_bead 0 12 (some ⟨0, 0, 0⟩) none none, weight_ := 1 / 4,
          force_weight_ := 0 },
        { in_ := sample_bead 1 1 (some ⟨1, 0, 0⟩) none none, weight_ := 3 / 4,
          force_weight_ := 4 / 3 } ] }

/-- A source bead that has no position, no velocity and no force. -/
def bare_sphere : Map_Sphere :=
  { matrix_ := [ { in_ := sample_bead 3 5 none none none, weight_ := 1, force_weight_ := 1 } ] }

/-- An output bead that carries a position, a velocity and a force from an earlier use. -/
def stale_out : Bead :=
  { id := 7, name := "CG", molecule_id := 0, mass := 0, pos := some ⟨1, 2, 3⟩,
    vel := some ⟨4, 5, 6⟩, f := some ⟨7, 8, 9⟩, u := none, v := none, w := none,
    parent_beads := [] }

/-- A stand-in for the two Eigen operations that is exact wherever the exact result is
rational.  `normalized v` divides `v` by the rational square root of its squared norm: the
unit vector along `v` whenever the norm of `v` is rational, and the zero vector for the zero
vector.  `eigenvector0 m` is, for a diagonal matrix, the coordinate axis of its smallest
diagonal entry (Eigen sorts the eigenvalues in increasing order, so column 0 belongs to the
smallest one), with the sign `negate` chooses, Eigen leaving the sign open; for other
matrices it is a placeholder. -/
def exact_eigen (negate : Bool) : EigenLib :=
  { normalized := fun v => v.divScalar (Rat.sqrt v.squaredNorm)
    eigenvector0 := fun m =>
      let axis :=
        if m.m00 ≤ m.m11 ∧ m.m00 ≤ m.m22 then Vec3.UnitX
        else if m.m11 ≤ m.m22 then Vec3.UnitY
        else Vec3.UnitZ
      if negate then -axis else axis }

/-- The open box as a boundary condition. -/
def open_bc : BoundaryCondition := OpenBox.toBoundaryCondition 0

/-- Four source beads that all have positions, with equal weights; their tensor of gyration
is diagonal, diag(9/4, 4, 4). -/
def tetra_matrix : List element_t :=
  [ { in_ := sample_bead 0 1 (some ⟨-2, -2, -2⟩) none none, weight_ := 1 / 4,
      force_weight_ := 1 },
    { in_ := sample_bead 1 1 (some ⟨1, -2, 2⟩) none none, weight_ := 1 / 4,
      force_weight_ := 1 },
    { in_ := sample_bead 2 1 (some ⟨1, 2, -2⟩) none none, weight_ := 1 / 4,
      force_weight_ := 1 },
    { in_ := sample_bead 3 1 (some ⟨-2, 2, 2⟩) none none, weight_ := 1 / 4,
      force_weight_ := 1 } ]

/-- The ellipsoidal map over `tetra_matrix`. -/
def tetra_ellipsoid : Map_Ellipsoid := { matrix_ := tetra_matrix }

/-- A map of two bead maps: the spherical map over `sample_matrix` writing to output bead 0
and the ellipsoidal map over `tetra_matrix` writing to output bead 1. -/
def sample_map : Map :=
  { maps_ := [BeadMap.Spherical 0 sample_sphere, BeadMap.Ellipsoidal 1 tetra_ellipsoid] }

/-- The bead maps of `sample_map` in the opposite order. -/
def sample_map_reversed : Map :=
  { maps_ := [BeadMap.Ellipsoidal 1 tetra_ellipsoid, BeadMap.Spherical 0 sample_sphere] }

/-- Output beads that all look like `sample_out`. -/
def sample_beads : ℕ → Bead := fun _ => sample_out

/-- The atomistic topology of the exclusion examples: the bead stored under an id carries that
id; no exclusions of its own are consulted. -/
def atoms_top : Topology :=
  { getBead := fun i => sample_bead i 1 none none none
    getExclusions := { pairs := [] } }

/-- A molecule of three atoms 0, 1, 2 (a linear chain with the bonds 0-1 and 1-2). -/
def chain_atomistic : Molecule :=
  { getBeadByName := fun _ => -1
    getBead := fun i => sample_bead i 1 none none none
    Beads := [sample_bead 0 1 none none none, sample_bead 1 1 none none none,
      sample_bead 2 1 none none none] }

/-- The coarse-grained bead that has all three atoms of the chain as parents. -/
def chain_cg_bead : Bead :=
  { sample_bead 0 3 none none none with parent_beads := [0, 1, 2] }

/-- The coarse-grained molecule of the chain: the single bead `chain_cg_bead`. -/
def chain_cg : Molecule :=
  { getBeadByName := fun _ => -1
    getBead := fun _ => chain_cg_bead
    Beads := [chain_cg_bead] }

/-- The coarse-grained topology of the chain, without exclusions. -/
def chain_cg_top : Topology :=
  { getBead := fun _ => chain_cg_bead
    getExclusions := { pairs := [] } }

/-- A molecule of two atoms 0 and 1. -/
def pair_atomistic : Molecule :=
  { getBeadByName := fun _ => -1
    getBead := fun i => sample_bead i 1 none none none
    Beads := [sample_bead 0 1 none none none, sample_bead 1 1 none none none] }

/-- The coarse-grained bead `i` of the two-atom molecule: its only parent is the atom `i`. -/
def pair_cg_bead (i : ℤ) : Bead :=
  { sample_bead i 1 none none none with parent_beads := [i] }

/-- The coarse-grained molecule of the two-atom molecule: each atom is mapped onto a bead of
its own. -/
def pair_cg : Molecule :=
  { getBeadByName := fun _ => -1
    getBead := pair_cg_bead
    Beads := [pair_cg_bead 0, pair_cg_bead 1] }

/-- The coarse-grained topology of the two-atom molecule with the given exclusions. -/
def pair_cg_top (pairs : List (ℤ × ℤ)) : Topology :=
  { getBead := pair_cg_bead
    getExclusions := { pairs := pairs } }

/-- Two triangles without a common bead: the beads 0, 1, 2 with the bonds 0-1, 1-2, 2-0 and
the beads 3, 4, 5 with the bonds 3-4, 4-5, 5-3. -/
def two_triangles : BeadStructure :=
  { beads_ := [0, 1, 2, 3, 4, 5]
    connections_ := [(0, 1), (1, 2), (2, 0), (3, 4), (4, 5), (5, 3)] }

/-- One triangle: the beads 0, 1, 2 with the bonds 0-1, 1-2, 2-0. -/
def one_triangle : BeadStructure :=
  { beads_ := [0, 1, 2], connections_ := [(0, 1), (1, 2), (2, 0)] }

/-- The output molecule that the sample definition creates. -/
def sample_cg_molecule : Molecule :=
  { getBeadByName := fun _ => -1
    getBead := fun _ => sample_out
    getName := "CG" }

/-- A molecule definition that always succeeds: CreateMolecule appends `sample_cg_molecule` to
the output topology, CreateMap gives `sample_map`. -/
def sample_def : CGMoleculeDef :=
  { CreateMolecule := fun out =>
      Except.ok ({ out with Molecules := out.Molecules ++ [sample_cg_molecule] },
        sample_cg_molecule)
    CreateMap := fun _ _ => Except.ok sample_map }

/-- An engine that ignores the name "I" and has a definition loaded for the name "A" only. -/
def sample_engine : CGEngine :=
  { IsIgnored := fun name => decide (name = "I")
    getMoleculeDef := fun name => if name = "A" then some sample_def else none }

/-- A molecule of the input topology with the given name. -/
def named_molecule (name : String) : Molecule :=
  { getBeadByName := fun _ => -1
    getBead := fun _ => sample_out
    getName := name }

/-- An input topology with four molecules named "A", "X", "I", "A": the second has no
definition and the third is ignored. -/
def sample_in_top : Topology :=
  { getBead := fun _ => sample_out
    getExclusions := { pairs := [] }
    Molecules :=
      [named_molecule "A", named_molecule "X", named_molecule "I", named_molecule "A"] }

/-- An output topology without molecules. -/
def empty_top : Topology :=
  { getBead := fun _ => sample_out
    getExclusions := { pairs := [] } }

/-- A box with a_y = a_z = b_z = 0 whose off-diagonal entries exceed the diagonal ones:
a = (10, 0, 0), b = (37, 10, 0), c = (-23, 58, 10). -/
def slanted_box : Matrix3d := ⟨10, 37, -23, 0, 10, 58, 0, 0, 10⟩

/-- A source molecule with three beads "A", "B", "C" (indices 0, 1, 2) that carry the forces
(1, 0, 0), (0, 2, 0) and (0, 0, 4) and no position. -/
def force_molecule : Molecule :=
  { getBeadByName := fun name =>
      if name = "A" then 0 else if name = "B" then 1 else if name = "C" then 2 else -1
    getBead := fun i =>
      if i = 0 then sample_bead 0 1 none none (some ⟨1, 0, 0⟩)
      else if i = 1 then sample_bead 1 1 none none (some ⟨0, 2, 0⟩)
      else sample_bead 2 1 none none (some ⟨0, 0, 4⟩) }

/-- What Initialize stores for the names "A", "B", "C" of `force_molecule` with weights 1, 3,
0 and no option "d": position weights 1/4, 3/4, 0 and force weights 1, 1, 0. -/
def force_initialized : Map_Sphere :=
  { matrix_ :=
      [ { in_ := sample_bead 0 1 none none (some ⟨1, 0, 0⟩), weight_ := 1 / 4,
          force_weight_ := 1 },
        { in_ := sample_bead 1 1 none none (some ⟨0, 2, 0⟩), weight_ := 3 / 4,
          force_weight_ := 1 },
        { in_ := sample_bead 2 1 none none (some ⟨0, 0, 4⟩), weight_ := 0,
          force_weight_ := 0 } ] }

/-- A molecule of four atoms 0, 1, 2, 3. -/
def four_atomistic : Molecule :=
  { getBeadByName := fun _ => -1
    getBead := fun i => sample_bead i 1 none none none
    Beads := [sample_bead 0 1 none none none, sample_bead 1 1 none none none,
      sample_bead 2 1 none none none, sample_bead 3 1 none none none] }

/-- The coarse-grained beads of the four-atom molecule: bead 0 has the parents 0 and 1, every
other bead has the parent 2; the atom 3 is a parent of no bead. -/
def four_cg_bead (i : ℤ) : Bead :=
  if i = 0 then { sample_bead 0 2 none none none with parent_beads := [0, 1] }
  else { sample_bead 1 1 none none none with parent_beads := [2] }

/-- The coarse-grained molecule of the four-atom molecule, with the two beads
`four_cg_bead 0` and `four_cg_bead 1`. -/
def four_cg : Molecule :=
  { getBeadByName := fun _ => -1
    getBead := four_cg_bead
    Beads := [four_cg_bead 0, four_cg_bead 1] }

/-- The coarse-grained topology of the four-atom molecule with the given exclusions. -/
def four_cg_top (pairs : List (ℤ × ℤ)) : Topology :=
  { getBead := four_cg_bead
    getExclusions := { pairs := pairs } }

/-- The tokens of a list of characters for one separator character, empty tokens dropped;
`current` holds the characters of the token under way in reverse order. -/
def split_tokens (separator : Char) : List Char → List Char → List String
  | [], current => if current = [] then [] else [String.mk current.reverse]
  | c :: rest, current =>
    if c = separator then
      if current = [] then split_tokens separator rest []
      else String.mk current.reverse :: split_tokens separator rest []
    else split_tokens separator rest (c :: current)

/-- A tokenizer for the separator "." that agrees with `test_tokenizer.cc`: the empty string
has no token, a string without separator is its only token. -/
def dot_tokens (key : String) : List String := split_tokens '.' key.data []

/-- A property "options" with the child "map", which has the children "weights" and "d". -/
def sample_property : Property :=
  Property.mk "options" "" ""
    [("map", Property.mk "map" "" "options"
      [("weights", Property.mk "weights" "1 3" "options.map" []),
       ("d", Property.mk "d" "0 2" "options.map" [])])]

/-- A factory of numbers in which the key "a" was registered twice: first with a creator
that returns 1, then with a creator that returns 2. -/
def twice_registered : ObjectFactory String ℕ :=
  (ObjectFactory.new.Register "a" (fun _ => 1)).Register "a" (fun _ => 2)

/-- The configuration of `test_bondedstatistics.cc`: three beads at (5, 3, 5), (5, 4, 5) and
(5, 6, 5). -/
def bonded_top : Topology :=
  { getBead := fun i =>
      if i = 0 then sample_bead 0 1 (some ⟨5, 3, 5⟩) none none
      else if i = 1 then sample_bead 1 1 (some ⟨5, 4, 5⟩) none none
      else sample_bead 2 1 (some ⟨5, 6, 5⟩) none none
    getExclusions := { pairs := [] } }

/-- A bond between the beads `i` and `j` in the cubic box of side 10: its value is the
length of the shortest connection, taken with the rational square root. -/
def sample_bond (name : String) (i j : ℤ) : Interaction :=
  { getName := name
    EvaluateVar := fun conf =>
      match (conf.getBead i).pos, (conf.getBead j).pos with
      | some p, some q => Rat.sqrt (TriclinicBox.BCShortestConnection cubic_box p q).squaredNorm
      | _, _ => 0 }

/-- The two bonds of `test_bondedstatistics.cc`, between the beads 0 and 1 and between the
beads 1 and 2. -/
def sample_bonds : Topology → List Interaction :=
  fun _ => [sample_bond ":covalent_bond1" 0 1, sample_bond ":covalent_bond2" 1 2]

/-- A value collection left over from an earlier use. -/
def used_statistics : BondedStatistics :=
  { bonded_values_ := { Data := [{ getName := "old", values := [7] }] } }

/-- The cubic box whose side is the `double` nearest to 24.452, 6882626130528961 / 2^48. -/
def fine_box : Matrix3d :=
  ⟨6882626130528961 / 281474976710656, 0, 0,
   0, 6882626130528961 / 281474976710656, 0,
   0, 0, 6882626130528961 / 281474976710656⟩

/-- The point on the x axis at the `double` nearest to 501.266, 8818364729740231 / 2^44. -/
def far_point : Vec3 := ⟨8818364729740231 / 17592186044416, 0, 0⟩

/-- Three source beads whose masses are the `double`s nearest to 12.011, 1.008 and 15.999. -/
def formyl_matrix : List element_t :=
  [ { in_ := sample_bead 0 (3380795945271689 / 281474976710656) none none none,
      weight_ := 1 / 3, force_weight_ := 1 },
    { in_ := sample_bead 1 (1134907106097365 / 1125899906842624) none none none,
      weight_ := 1 / 3, force_weight_ := 1 },
    { in_ := sample_bead 2 (9006636304787571 / 562949953421312) none none none,
      weight_ := 1 / 3, force_weight_ := 1 } ]

/-- The beads of `formyl_matrix` with the last two exchanged. -/
def formyl_matrix_permuted : List element_t :=
  [ { in_ := sample_bead 0 (3380795945271689 / 281474976710656) none none none,
      weight_ := 1 / 3, force_weight_ := 1 },
    { in_ := sample_bead 2 (9006636304787571 / 562949953421312) none none none,
      weight_ := 1 / 3, force_weight_ := 1 },
    { in_ := sample_bead 1 (1134907106097365 / 1125899906842624) none none none,
      weight_ := 1 / 3, force_weight_ := 1 } ]

/-- A tokenizer for the separator " ". -/
def space_tokens (s : String) : List String := split_tokens ' ' s.data []

/-- The number that a list of decimal digits denotes, read from the left after the digits
that gave `value`; `none` when a character is not a digit. -/
def natural_of_digits : List Char → ℕ → Option ℕ
  | [], value => some value
  | c :: rest, value =>
    if c.isDigit then natural_of_digits rest (10 * value + (c.toNat - 48)) else none

/-- A stand-in for `ToVector<double>`: the tokens are read as natural numbers in decimal
notation; the conversion fails when a token is not one. -/
def natural_numbers (s : String) : Option (List ℚ) :=
  (space_tokens s).mapM (fun t => (natural_of_digits t.data 0).map (fun n => (n : ℚ)))

/-- A bead definition without option "beads". -/
def nameless_bead_options : Property :=
  Property.mk "cg_bead" "" "" [("name", Property.mk "name" "A1" "cg_bead" [])]

/-- A bead definition with the names "A" and "B". -/
def sample_bead_options : Property :=
  Property.mk "cg_bead" "" ""
    [("name", Property.mk "name" "A1" "cg_bead" []),
     ("beads", Property.mk "beads" "A B" "cg_bead" [])]

/-- A map definition whose option "weights" has no entry and that has no option "d". -/
def empty_map_options : Property :=
  Property.mk "map" "" ""
    [("name", Property.mk "name" "M1" "map" []),
     ("weights", Property.mk "weights" "" "map" [])]

/-- A map definition with the weights 1, 3 and the d coefficients 0, 2. -/
def sample_map_options : Property :=
  Property.mk "map" "" ""
    [("name", Property.mk "name" "M1" "map" []),
     ("weights", Property.mk "weights" "1 3" "map" []),
     ("d", Property.mk "d" "0 2" "map" [])]

/-! ## Properties of the boundary conditions -/

theorem std_round_neg (q : ℚ) : std_round (-q) = -std_round q := by
  unfold std_round
  rcases lt_trichotomy q 0 with h | h | h
  · have h1 : (0 : ℚ) ≤ -q := by linarith
    have h2 : ¬ (0 : ℚ) ≤ q := by linarith
    simp [h1, h2]
  · subst h
    norm_num
  · have h1 : ¬ (0 : ℚ) ≤ -q := by linarith
    have h2 : (0 : ℚ) ≤ q := by linarith
    simp [h1, h2]

theorem Vec3.ext_iff' (u v : Vec3) : u = v ↔ u.x = v.x ∧ u.y = v.y ∧ u.z = v.z := by
  cases u; cases v; simp

@[simp] theorem Vec3.add_x (u v : Vec3) : (u + v).x = u.x + v.x := rfl
@[simp] theorem Vec3.add_y (u v : Vec3) : (u + v).y = u.y + v.y := rfl
@[simp] theorem Vec3.add_z (u v : Vec3) : (u + v).z = u.z + v.z := rfl
@[simp] theorem Vec3.sub_x (u v : Vec3) : (u - v).x = u.x - v.x := rfl
@[simp] theorem Vec3.sub_y (u v : Vec3) : (u - v).y = u.y - v.y := rfl
@[simp] theorem Vec3.sub_z (u v : Vec3) : (u - v).z = u.z - v.z := rfl
@[simp] theorem Vec3.neg_x (u : Vec3) : (-u).x = -u.x := rfl
@[simp] theorem Vec3.neg_y (u : Vec3) : (-u).y = -u.y := rfl
@[simp] theorem Vec3.neg_z (u : Vec3) : (-u).z = -u.z := rfl
@[simp] theorem Vec3.smul_x (s : ℚ) (u : Vec3) : (Vec3.smul s u).x = s * u.x := rfl
@[simp] theorem Vec3.smul_y (s : ℚ) (u : Vec3) : (Vec3.smul s u).y = s * u.y := rfl
@[simp] theorem Vec3.smul_z (s : ℚ) (u : Vec3) : (Vec3.smul s u).z = s * u.z := rfl

theorem TriclinicBox.BCShortestConnection_neg (box_ : Matrix3d) (p q : Vec3) :
    TriclinicBox.BCShortestConnection box_ p q
      = -TriclinicBox.BCShortestConnection box_ q p := by
  have e1 : ∀ a b m : ℚ, std_round ((a - b) / m) = -std_round ((b - a) / m) := by
    intro a b m
    rw [← std_round_neg]
    congr 1
    ring
  have e2 : ∀ a b k c m : ℚ,
      std_round ((a - b - -k * c) / m) = -std_round ((b - a - k * c) / m) := by
    intro a b k c m
    rw [← std_round_neg]
    congr 1
    ring
  have e3 : ∀ a b k c l d m : ℚ,
      std_round ((a - b - -k * c - -l * d) / m) = -std_round ((b - a - k * c - l * d) / m) := by
    intro a b k c l d m
    rw [← std_round_neg]
    congr 1
    ring
  rw [Vec3.ext_iff']
  simp only [TriclinicBox.BCShortestConnection, Matrix3d.col, Vec3.sub_x, Vec3.sub_y,
    Vec3.sub_z, Vec3.smul_x, Vec3.smul_y, Vec3.smul_z, Vec3.neg_x, Vec3.neg_y, Vec3.neg_z]
  rw [e1 q.z p.z]
  simp only [Int.cast_neg]
  rw [e2 q.y p.y]
  simp only [Int.cast_neg]
  rw [e3 q.x p.x]
  simp only [Int.cast_neg]
  refine ⟨by ring, by ring, by ring⟩

/-- C3: for a box matrix with non-zero diagonal entries the triclinic shortest connection from
`p` to `q` is the exact negation of the one from `q` to `p` (all three components, std::round
rounding halves away from zero), and so is the open-box connection `q - p`. -/
theorem C3_shortest_connection_antisymmetric (box_ : Matrix3d) (p q : Vec3)
    (h0 : box_.m00 ≠ 0) (h1 : box_.m11 ≠ 0) (h2 : box_.m22 ≠ 0) :
    TriclinicBox.BCShortestConnection box_ p q
        = -TriclinicBox.BCShortestConnection box_ q p
      ∧ OpenBox.BCShortestConnection p q = -OpenBox.BCShortestConnection q p := by
  refine ⟨TriclinicBox.BCShortestConnection_neg box_ p q, ?_⟩
  rw [Vec3.ext_iff']
  simp only [OpenBox.BCShortestConnection, Vec3.sub_x, Vec3.sub_y, Vec3.sub_z, Vec3.neg_x,
    Vec3.neg_y, Vec3.neg_z]
  refine ⟨by ring, by ring, by ring⟩

/-! ## The loops of Map_Sphere::Apply -/

theorem Map_Sphere.pos_fold_M (bc : BoundaryCondition) (r0 : Vec3) (l : List element_t)
    (s : PosLoop) :
    (l.foldl (Map_Sphere.pos_step bc r0) s).M = s.M + (l.map (fun e => e.in_.mass)).sum := by
  induction l generalizing s with
  | nil => simp
  | cons e l ih =>
    rw [List.foldl_cons, ih]
    have h : (Map_Sphere.pos_step bc r0 s e).M = s.M + e.in_.mass := by
      simp only [Map_Sphere.pos_step]
      split <;> rfl
    rw [h, List.map_cons, List.sum_cons]
    ring

theorem Map_Sphere.pos_fold_out (bc : BoundaryCondition) (r0 : Vec3) (l : List element_t)
    (s : PosLoop) :
    (l.foldl (Map_Sphere.pos_step bc r0) s).out_
      = { s.out_ with parent_beads := s.out_.parent_beads ++ l.map (fun e => e.in_.id) } := by
  induction l generalizing s with
  | nil => simp
  | cons e l ih =>
    rw [List.foldl_cons, ih]
    have h : (Map_Sphere.pos_step bc r0 s e).out_ = s.out_.AddParentBead e.in_.id := by
      simp only [Map_Sphere.pos_step]
      split <;> rfl
    rw [h]
    simp [Bead.AddParentBead]

/-- The half-box outcome or the state after the two loops: what Map_Sphere::Apply computes for
a map whose first element is `front`. -/
theorem Map_Sphere.Apply_cons (self : Map_Sphere) (bc : BoundaryCondition) (out_ : Bead)
    (front : element_t) (rest : List element_t) (h : self.matrix_ = front :: rest) :
    self.Apply bc out_ =
      if bigger_than_half_box bc
          (self.matrix_.foldl (Map_Sphere.pos_step bc (reference_pos front))
            (pos_loop_init bc front out_.ClearParentBeads)).max_bead_dist2 then
        { out_ := (self.matrix_.foldl (Map_Sphere.pos_step bc (reference_pos front))
            (pos_loop_init bc front out_.ClearParentBeads)).out_,
          raised := some ApplyError.half_box }
      else
        { out_ := write_pos_vel_f
            ((self.matrix_.foldl (Map_Sphere.pos_step bc (reference_pos front))
                (pos_loop_init bc front out_.ClearParentBeads)).out_.setMass
              (self.matrix_.foldl (Map_Sphere.pos_step bc (reference_pos front))
                (pos_loop_init bc front out_.ClearParentBeads)).M)
            (self.matrix_.foldl (Map_Sphere.pos_step bc (reference_pos front))
              (pos_loop_init bc front out_.ClearParentBeads)).bPos
            (self.matrix_.foldl (Map_Sphere.pos_step bc (reference_pos front))
              (pos_loop_init bc front out_.ClearParentBeads)).cg
            (self.matrix_.foldl Map_Sphere.vel_step vel_loop_init),
          raised := none } := by
  unfold Map_Sphere.Apply
  simp only [h]

theorem write_pos_vel_f_mass (out_ : Bead) (bPos : Bool) (cg : Vec3) (t : VelLoop) :
    (write_pos_vel_f out_ bPos cg t).mass = out_.mass := by
  unfold write_pos_vel_f
  cases bPos <;> cases t.bVel <;> cases t.bF <;> rfl

theorem Map_Sphere.Apply_mass (self : Map_Sphere) (bc : BoundaryCondition) (out_ : Bead)
    (hok : (self.Apply bc out_).raised = none) :
    (self.Apply bc out_).out_.mass = (self.matrix_.map (fun e => e.in_.mass)).sum := by
  cases h : self.matrix_ with
  | nil =>
    unfold Map_Sphere.Apply at hok
    rw [h] at hok
    simp at hok
  | cons front rest =>
    rw [Map_Sphere.Apply_cons self bc out_ front rest h] at hok ⊢
    split at hok
    · simp at hok
    · rename_i hbig
      rw [if_neg hbig]
      simp only [write_pos_vel_f_mass, Bead.setMass, Map_Sphere.pos_fold_M, pos_loop_init,
        zero_add, h]

theorem Vec3.zero_def : (0 : Vec3) = ⟨0, 0, 0⟩ := rfl

theorem Vec3.add_def (u v : Vec3) : u + v = ⟨u.x + v.x, u.y + v.y, u.z + v.z⟩ := rfl

theorem Vec3.sub_def (u v : Vec3) : u - v = ⟨u.x - v.x, u.y - v.y, u.z - v.z⟩ := rfl

theorem Vec3.neg_def (u : Vec3) : -u = ⟨-u.x, -u.y, -u.z⟩ := rfl

/-- On the sample configuration in the cubic box Map_Sphere::Apply completes. -/
theorem sample_sphere_cubic_ok : (sample_sphere.Apply cubic_bc sample_out).raised = none := by
  simp only [Map_Sphere.Apply, sample_sphere, sample_matrix, sample_bead, cubic_bc, cubic_box,
    TriclinicBox.toBoundaryCondition, Map_Sphere.pos_step, bigger_than_half_box, normGt,
    TriclinicBox.BCShortestConnection, std_round, Matrix3d.col, Vec3.squaredNorm,
    Vec3.zero_def, Vec3.add_def, Vec3.sub_def, Vec3.neg_def, Vec3.smul, List.foldl, Vec3.Zero,
    reference_pos, pos_loop_init, vel_loop_init]
  norm_num

/-! ## Map_Ellipsoid::Apply and the mass -/

theorem Map_Ellipsoid.ellipsoid_pos_fold_out (bc : BoundaryCondition) (r0 : Vec3)
    (l : List element_t) (s : PosLoop) :
    (l.foldl (Map_Ellipsoid.pos_step bc r0) s).out_
      = { s.out_ with parent_beads := s.out_.parent_beads ++ l.map (fun e => e.in_.id) } := by
  induction l generalizing s with
  | nil => simp
  | cons e l ih =>
    rw [List.foldl_cons, ih]
    have h : (Map_Ellipsoid.pos_step bc r0 s e).out_ = s.out_.AddParentBead e.in_.id := by
      simp only [Map_Ellipsoid.pos_step]
      split <;> rfl
    rw [h]
    simp [Bead.AddParentBead]

theorem Map_Ellipsoid.axes_mass (lib : EigenLib) (matrix_ : List element_t) (pos0 : Vec3)
    (m : Matrix3d) (out_ : Bead) :
    (Map_Ellipsoid.axes lib matrix_ pos0 m out_).out_.mass = out_.mass := by
  unfold Map_Ellipsoid.axes
  split
  · split
    · rfl
    · split
      · split <;> rfl
      · rfl
  · rfl

/-- Map_Ellipsoid::Apply never writes the mass: whatever the map, the boundary condition and
the outcome, the output bead keeps the mass it had before the call. -/
theorem Map_Ellipsoid.Apply_keeps_mass (self : Map_Ellipsoid) (lib : EigenLib)
    (bc : BoundaryCondition) (out_ : Bead) :
    (self.Apply lib bc out_).out_.mass = out_.mass := by
  unfold Map_Ellipsoid.Apply
  split
  · rfl
  · simp only
    split
    · rw [Map_Ellipsoid.ellipsoid_pos_fold_out]
      rfl
    · split
      · simp only [Bead.setU, Bead.setV, Bead.setW, write_pos_vel_f_mass,
          Map_Ellipsoid.ellipsoid_pos_fold_out]
        rfl
      · split
        · simp only [write_pos_vel_f_mass, Map_Ellipsoid.ellipsoid_pos_fold_out]
          rfl
        · simp only [Map_Ellipsoid.axes_mass, write_pos_vel_f_mass,
            Map_Ellipsoid.ellipsoid_pos_fold_out]
          rfl

/-- On the sample configuration in the cubic box Map_Ellipsoid::Apply completes, whatever the
Eigen operations return. -/
theorem sample_ellipsoid_cubic_ok (lib : EigenLib) :
    (sample_ellipsoid.Apply lib cubic_bc sample_out).raised = none := by
  simp only [Map_Ellipsoid.Apply, sample_ellipsoid, sample_matrix, sample_bead, cubic_bc,
    cubic_box, TriclinicBox.toBoundaryCondition, Map_Ellipsoid.pos_step, bigger_than_half_box,
    normGt, TriclinicBox.BCShortestConnection, std_round, Matrix3d.col, Vec3.squaredNorm,
    Vec3.zero_def, Vec3.add_def, Vec3.sub_def, Vec3.neg_def, Vec3.smul, List.foldl, Vec3.Zero,
    Map_Ellipsoid.gyration, Map_Ellipsoid.axes, Map_Ellipsoid.vel_step, reference_pos,
    pos_loop_init, vel_loop_init]
  norm_num [Map_Ellipsoid.gyration, Map_Ellipsoid.axes]

/-- C2 (evaluation at a failing input): the ellipsoidal map over three positioned source beads
of masses 1, 2, 3 completes in the cubic box of side 10, and the output bead, of mass 0
before the call, still has mass 0 afterwards, while the masses of the source beads sum
to 6. -/
theorem C2_ellipsoid_mass_not_written (lib : EigenLib) :
    (sample_ellipsoid.Apply lib cubic_bc sample_out).raised = none
      ∧ (sample_ellipsoid.Apply lib cubic_bc sample_out).out_.mass = 0
      ∧ (sample_ellipsoid.matrix_.map (fun e => e.in_.mass)).sum = 6
      ∧ (∀ e ∈ sample_ellipsoid.matrix_, e.in_.HasPos = true)
      ∧ 3 ≤ sample_ellipsoid.matrix_.length := by
  refine ⟨sample_ellipsoid_cubic_ok lib, ?_, ?_, ?_, ?_⟩
  · rw [Map_Ellipsoid.Apply_keeps_mass]
    rfl
  · norm_num [sample_ellipsoid, sample_matrix, sample_bead]
  · simp [sample_ellipsoid, sample_matrix, sample_bead, Bead.HasPos]
  · simp [sample_ellipsoid, sample_matrix]

/-- Witness for C3: the cubic box of side 10 and two points half a box apart in every
direction, where the rounding is a halfway case. -/
theorem C3_shortest_connection_antisymmetric_witness :
    cubic_box.m00 ≠ 0 ∧ cubic_box.m11 ≠ 0 ∧ cubic_box.m22 ≠ 0
      ∧ (TriclinicBox.BCShortestConnection cubic_box ⟨0, 0, 0⟩ ⟨5, 5, 5⟩
            = -TriclinicBox.BCShortestConnection cubic_box ⟨5, 5, 5⟩ ⟨0, 0, 0⟩
          ∧ OpenBox.BCShortestConnection ⟨0, 0, 0⟩ ⟨5, 5, 5⟩
            = -OpenBox.BCShortestConnection ⟨5, 5, 5⟩ ⟨0, 0, 0⟩) :=
  ⟨by norm_num [cubic_box], by norm_num [cubic_box], by norm_num [cubic_box],
    C3_shortest_connection_antisymmetric cubic_box ⟨0, 0, 0⟩ ⟨5, 5, 5⟩
      (by norm_num [cubic_box]) (by norm_num [cubic_box]) (by norm_num [cubic_box])⟩

/-! ## The minimum image -/

theorem std_round_eq_of_abs_sub_lt (y : ℚ) (n : ℤ) (h : |y - n| < 1 / 2) :
    std_round y = n := by
  rw [abs_lt] at h
  obtain ⟨h1, h2⟩ := h
  unfold std_round
  split
  · rw [Int.floor_eq_iff]
    constructor <;> linarith
  · have : ⌊-y + 1 / 2⌋ = -n := by
      rw [Int.floor_eq_iff]
      push_cast
      constructor <;> linarith
    rw [this, neg_neg]

/-- The value of TriclinicBox::BCShortestConnection once the three rounded quotients are
known. -/
theorem TriclinicBox.BCShortestConnection_eq_of_rounds (box_ : Matrix3d) (p q : Vec3)
    (kc kb ka : ℤ)
    (hc : std_round ((q.z - p.z) / box_.m22) = kc)
    (hb : std_round ((q.y - p.y - kc * box_.m12) / box_.m11) = kb)
    (ha : std_round ((q.x - p.x - kc * box_.m02 - kb * box_.m01) / box_.m00) = ka) :
    TriclinicBox.BCShortestConnection box_ p q
      = ⟨q.x - p.x - kc * box_.m02 - kb * box_.m01 - ka * box_.m00,
         q.y - p.y - kc * box_.m12 - kb * box_.m11 - ka * box_.m10,
         q.z - p.z - kc * box_.m22 - kb * box_.m21 - ka * box_.m20⟩ := by
  simp only [TriclinicBox.BCShortestConnection, Matrix3d.col, Vec3.sub_def, Vec3.smul]
  rw [hc, hb, ha]

theorem sq_lt_sq_shift (x h c : ℚ) (n : ℤ) (hn : n ≠ 0) (hx : |x| < h) (hh : h ≤ c / 2) :
    h ^ 2 < (x + n * c) ^ 2 := by
  rw [abs_lt] at hx
  obtain ⟨hx1, hx2⟩ := hx
  have hc : 0 < c := by linarith
  rcases Int.lt_or_gt_of_ne hn with hlt | hgt
  · have h1 : (n : ℚ) ≤ -1 := by exact_mod_cast Int.le_sub_one_of_lt hlt
    have h2 : x + n * c ≤ x - c := by nlinarith
    nlinarith
  · have h1 : (1 : ℚ) ≤ n := by exact_mod_cast hgt
    have h2 : x + c ≤ x + n * c := by nlinarith
    nlinarith

theorem abs_lt_of_squaredNorm_lt (v : Vec3) (h : ℚ) (hh : 0 ≤ h)
    (hv : v.squaredNorm < h ^ 2) : |v.x| < h ∧ |v.y| < h ∧ |v.z| < h := by
  unfold Vec3.squaredNorm at hv
  refine ⟨?_, ?_, ?_⟩ <;> apply abs_lt_of_sq_lt_sq _ hh <;>
    nlinarith [mul_self_nonneg v.x, mul_self_nonneg v.y, mul_self_nonneg v.z]

/-- The periodic image `d + i a + j b + k c` of a difference vector `d`; `a`, `b`, `c` are the
columns of the box matrix. -/
theorem image_components (box_ : Matrix3d) (d : Vec3) (i j k : ℤ) :
    d + Vec3.smul i (box_.col 0) + Vec3.smul j (box_.col 1) + Vec3.smul k (box_.col 2)
      = ⟨d.x + i * box_.m00 + j * box_.m01 + k * box_.m02,
         d.y + i * box_.m10 + j * box_.m11 + k * box_.m12,
         d.z + i * box_.m20 + j * box_.m21 + k * box_.m22⟩ := by
  simp only [Matrix3d.col, Vec3.add_def, Vec3.smul]

/-- In exact arithmetic: for a box with a_y = a_z = b_z = 0 and positive diagonal, if some
periodic image of `q - p` is shorter than half the smallest of a_x, b_y, c_z (the cut-off
named in the source comment), then BCShortestConnection returns exactly that image and no
image `q - p + i a + j b + k c` is shorter. -/
theorem TriclinicBox.short_image_exact (box_ : Matrix3d) (p q : Vec3) (i j k : ℤ)
    (hzero : box_.m10 = 0 ∧ box_.m20 = 0 ∧ box_.m21 = 0)
    (hpos : 0 < box_.m00 ∧ 0 < box_.m11 ∧ 0 < box_.m22)
    (hred : |box_.m01| < box_.m00 / 2 ∧ |box_.m02| < box_.m00 / 2
      ∧ |box_.m12| < box_.m11 / 2)
    (hcut : (q - p + Vec3.smul i (box_.col 0) + Vec3.smul j (box_.col 1)
        + Vec3.smul k (box_.col 2)).squaredNorm
          < (min box_.m00 (min box_.m11 box_.m22) / 2) ^ 2) :
    TriclinicBox.BCShortestConnection box_ p q
        = q - p + Vec3.smul i (box_.col 0) + Vec3.smul j (box_.col 1)
            + Vec3.smul k (box_.col 2)
      ∧ ∀ i' j' k' : ℤ,
          (TriclinicBox.BCShortestConnection box_ p q).squaredNorm
            ≤ (q - p + Vec3.smul i' (box_.col 0) + Vec3.smul j' (box_.col 1)
                + Vec3.smul k' (box_.col 2)).squaredNorm := by
  obtain ⟨h10, h20, h21⟩ := hzero
  obtain ⟨h00, h11, h22⟩ := hpos
  have hm0 : min box_.m00 (min box_.m11 box_.m22) ≤ box_.m00 := min_le_left _ _
  have hm1 : min box_.m00 (min box_.m11 box_.m22) ≤ box_.m11 :=
    le_trans (min_le_right _ _) (min_le_left _ _)
  have hm2 : min box_.m00 (min box_.m11 box_.m22) ≤ box_.m22 :=
    le_trans (min_le_right _ _) (min_le_right _ _)
  have hmpos : 0 < min box_.m00 (min box_.m11 box_.m22) := lt_min h00 (lt_min h11 h22)
  generalize min box_.m00 (min box_.m11 box_.m22) = m at hm0 hm1 hm2 hmpos hcut
  rw [image_components] at hcut
  obtain ⟨hx, hy, hz⟩ := abs_lt_of_squaredNorm_lt _ (m / 2) (by linarith) hcut
  simp only [Vec3.sub_x, Vec3.sub_y, Vec3.sub_z, h10, h20, h21, mul_zero, add_zero] at hx hy hz
  rw [abs_lt] at hx hy hz
  -- the three rounded quotients
  have hc : std_round ((q.z - p.z) / box_.m22) = -k := by
    apply std_round_eq_of_abs_sub_lt
    have e : (q.z - p.z) / box_.m22 - ((-k : ℤ) : ℚ)
        = (q.z - p.z + k * box_.m22) / box_.m22 := by
      push_cast
      field_simp
      ring
    rw [e, abs_lt, lt_div_iff₀ h22, div_lt_iff₀ h22]
    constructor <;> linarith
  have hb : std_round ((q.y - p.y - ((-k : ℤ) : ℚ) * box_.m12) / box_.m11) = -j := by
    apply std_round_eq_of_abs_sub_lt
    have e : (q.y - p.y - ((-k : ℤ) : ℚ) * box_.m12) / box_.m11 - ((-j : ℤ) : ℚ)
        = (q.y - p.y + j * box_.m11 + k * box_.m12) / box_.m11 := by
      push_cast
      field_simp
      ring
    rw [e, abs_lt, lt_div_iff₀ h11, div_lt_iff₀ h11]
    constructor <;> linarith
  have ha : std_round ((q.x - p.x - ((-k : ℤ) : ℚ) * box_.m02
      - ((-j : ℤ) : ℚ) * box_.m01) / box_.m00) = -i := by
    apply std_round_eq_of_abs_sub_lt
    have e : (q.x - p.x - ((-k : ℤ) : ℚ) * box_.m02 - ((-j : ℤ) : ℚ) * box_.m01) / box_.m00
          - ((-i : ℤ) : ℚ)
        = (q.x - p.x + i * box_.m00 + j * box_.m01 + k * box_.m02) / box_.m00 := by
      push_cast
      field_simp
      ring
    rw [e, abs_lt, lt_div_iff₀ h00, div_lt_iff₀ h00]
    constructor <;> linarith
  have hres := TriclinicBox.BCShortestConnection_eq_of_rounds box_ p q (-k) (-j) (-i) hc hb ha
  have himg : TriclinicBox.BCShortestConnection box_ p q
      = q - p + Vec3.smul i (box_.col 0) + Vec3.smul j (box_.col 1)
          + Vec3.smul k (box_.col 2) := by
    rw [hres, image_components, Vec3.ext_iff']
    simp only [Vec3.sub_x, Vec3.sub_y, Vec3.sub_z, h10, h20, h21]
    push_cast
    refine ⟨by ring, by ring, by ring⟩
  refine ⟨himg, ?_⟩
  intro i' j' k'
  rw [himg, image_components, image_components]
  simp only [Vec3.sub_x, Vec3.sub_y, Vec3.sub_z, h10, h20, h21, mul_zero, add_zero] at hcut ⊢
  have hxa : |q.x - p.x + i * box_.m00 + j * box_.m01 + k * box_.m02| < m / 2 :=
    abs_lt.mpr hx
  have hya : |q.y - p.y + j * box_.m11 + k * box_.m12| < m / 2 := abs_lt.mpr hy
  have hza : |q.z - p.z + k * box_.m22| < m / 2 := abs_lt.mpr hz
  simp only [Vec3.squaredNorm] at hcut ⊢
  by_cases hk : k' = k
  · by_cases hj : j' = j
    · by_cases hi : i' = i
      · subst hk hj hi
        exact le_refl _
      · have hne : i' - i ≠ 0 := sub_ne_zero.mpr hi
        have hs := sq_lt_sq_shift _ (m / 2) box_.m00 (i' - i) hne hxa (by linarith)
        subst hk hj
        have e : q.x - p.x + i' * box_.m00 + j' * box_.m01 + k' * box_.m02
            = q.x - p.x + i * box_.m00 + j' * box_.m01 + k' * box_.m02
              + ((i' - i : ℤ) : ℚ) * box_.m00 := by
          push_cast
          ring
        rw [e]
        generalize q.x - p.x + i * box_.m00 + j' * box_.m01 + k' * box_.m02
          + ((i' - i : ℤ) : ℚ) * box_.m00 = X' at hs ⊢
        generalize q.x - p.x + i * box_.m00 + j' * box_.m01 + k' * box_.m02 = X at hcut ⊢
        generalize q.y - p.y + j' * box_.m11 + k' * box_.m12 = Y at hcut ⊢
        generalize q.z - p.z + k' * box_.m22 = Z at hcut ⊢
        rw [pow_two] at hs hcut
        linarith [mul_self_nonneg Y, mul_self_nonneg Z]
    · have hne : j' - j ≠ 0 := sub_ne_zero.mpr hj
      have hs := sq_lt_sq_shift _ (m / 2) box_.m11 (j' - j) hne hya (by linarith)
      subst hk
      have e : q.y - p.y + j' * box_.m11 + k' * box_.m12
          = q.y - p.y + j * box_.m11 + k' * box_.m12 + ((j' - j : ℤ) : ℚ) * box_.m11 := by
        push_cast
        ring
      rw [e]
      generalize q.y - p.y + j * box_.m11 + k' * box_.m12
        + ((j' - j : ℤ) : ℚ) * box_.m11 = Y' at hs ⊢
      generalize q.y - p.y + j * box_.m11 + k' * box_.m12 = Y at hcut ⊢
      generalize q.x - p.x + i' * box_.m00 + j' * box_.m01 + k' * box_.m02 = X'
      generalize q.x - p.x + i * box_.m00 + j * box_.m01 + k' * box_.m02 = X at hcut ⊢
      generalize q.z - p.z + k' * box_.m22 = Z at hcut ⊢
      rw [pow_two] at hs hcut
      linarith [mul_self_nonneg X', mul_self_nonneg Z, mul_self_nonneg X,
        mul_self_nonneg Y]
  · have hne : k' - k ≠ 0 := sub_ne_zero.mpr hk
    have hs := sq_lt_sq_shift _ (m / 2) box_.m22 (k' - k) hne hza (by linarith)
    have e : q.z - p.z + k' * box_.m22
        = q.z - p.z + k * box_.m22 + ((k' - k : ℤ) : ℚ) * box_.m22 := by
      push_cast
      ring
    rw [e]
    generalize q.z - p.z + k * box_.m22 + ((k' - k : ℤ) : ℚ) * box_.m22 = Z' at hs ⊢
    generalize q.z - p.z + k * box_.m22 = Z at hcut ⊢
    generalize q.x - p.x + i' * box_.m00 + j' * box_.m01 + k' * box_.m02 = X'
    generalize q.y - p.y + j' * box_.m11 + k' * box_.m12 = Y'
    generalize q.x - p.x + i * box_.m00 + j * box_.m01 + k * box_.m02 = X at hcut ⊢
    generalize q.y - p.y + j * box_.m11 + k * box_.m12 = Y at hcut ⊢
    rw [pow_two] at hs hcut
    linarith [mul_self_nonneg X', mul_self_nonneg Y', mul_self_nonneg X,
      mul_self_nonneg Y]

/-! ## The loops of Map_Sphere::Apply: position, velocity and force -/

theorem Map_Sphere.pos_fold_cg (bc : BoundaryCondition) (r0 : Vec3) (l : List element_t)
    (s : PosLoop) :
    (l.foldl (Map_Sphere.pos_step bc r0) s).cg
      = s.cg + (l.filterMap (fun e => e.in_.pos.map
          (fun pos => Vec3.smul e.weight_ (r0 + bc.BCShortestConnection r0 pos)))).sum := by
  induction l generalizing s with
  | nil => simp
  | cons e l ih =>
    rw [List.foldl_cons, ih]
    cases hp : e.in_.pos with
    | none =>
      have h : (Map_Sphere.pos_step bc r0 s e).cg = s.cg := by
        simp only [Map_Sphere.pos_step, hp]
      rw [h, List.filterMap_cons]
      simp only [hp, Option.map_none']
    | some pos =>
      have h : (Map_Sphere.pos_step bc r0 s e).cg
          = s.cg + Vec3.smul e.weight_ (r0 + bc.BCShortestConnection r0 pos) := by
        simp only [Map_Sphere.pos_step, hp]
        rw [add_comm r0]
      rw [h, List.filterMap_cons]
      simp only [hp, Option.map_some', List.sum_cons]
      rw [add_assoc]

theorem Map_Sphere.pos_fold_bPos (bc : BoundaryCondition) (r0 : Vec3) (l : List element_t)
    (s : PosLoop) :
    (l.foldl (Map_Sphere.pos_step bc r0) s).bPos
      = (s.bPos || l.any (fun e => e.in_.HasPos)) := by
  induction l generalizing s with
  | nil => simp
  | cons e l ih =>
    rw [List.foldl_cons, ih]
    cases hp : e.in_.pos with
    | none =>
      have h : (Map_Sphere.pos_step bc r0 s e).bPos = s.bPos := by
        simp only [Map_Sphere.pos_step, hp]
      rw [h]
      simp [Bead.HasPos, hp]
    | some pos =>
      have h : (Map_Sphere.pos_step bc r0 s e).bPos = true := by
        simp only [Map_Sphere.pos_step, hp]
      rw [h]
      simp [Bead.HasPos, hp]

theorem normGt_iff (sq t : ℚ) : normGt sq t = true ↔ (t < 0 ∨ t * t < sq) := by
  simp [normGt]

theorem Map_Sphere.pos_fold_max (bc : BoundaryCondition) (r0 : Vec3) (t : ℚ)
    (l : List element_t) (s : PosLoop) :
    normGt (l.foldl (Map_Sphere.pos_step bc r0) s).max_bead_dist2 t = true
      ↔ (normGt s.max_bead_dist2 t = true
          ∨ ∃ e ∈ l, ∃ pos, e.in_.pos = some pos
              ∧ normGt (bc.BCShortestConnection r0 pos).squaredNorm t = true) := by
  induction l generalizing s with
  | nil => simp
  | cons e l ih =>
    rw [List.foldl_cons, ih]
    cases hp : e.in_.pos with
    | none =>
      have h : (Map_Sphere.pos_step bc r0 s e).max_bead_dist2 = s.max_bead_dist2 := by
        simp only [Map_Sphere.pos_step, hp]
      rw [h]
      simp [hp]
    | some pos =>
      have h : (Map_Sphere.pos_step bc r0 s e).max_bead_dist2
          = max s.max_bead_dist2 (bc.BCShortestConnection r0 pos).squaredNorm := by
        simp only [Map_Sphere.pos_step, hp, gt_iff_lt, decide_eq_true_eq]
        split
        · rename_i hlt
          exact (max_eq_right (le_of_lt hlt)).symm
        · rename_i hge
          exact (max_eq_left (not_lt.mp hge)).symm
      rw [h]
      have hmax : normGt (max s.max_bead_dist2 (bc.BCShortestConnection r0 pos).squaredNorm) t
            = true
          ↔ normGt s.max_bead_dist2 t = true
            ∨ normGt (bc.BCShortestConnection r0 pos).squaredNorm t = true := by
        simp only [normGt_iff, lt_max_iff]
        tauto
      rw [hmax]
      constructor
      · rintro ((h1 | h2) | ⟨e', he', pos', hp', hn⟩)
        · exact Or.inl h1
        · exact Or.inr ⟨e, List.mem_cons_self _ _, pos, hp, h2⟩
        · exact Or.inr ⟨e', List.mem_cons_of_mem _ he', pos', hp', hn⟩
      · rintro (h1 | ⟨e', he', pos', hp', hn⟩)
        · exact Or.inl (Or.inl h1)
        · rcases List.mem_cons.mp he' with heq | hmem
          · subst heq
            rw [hp] at hp'
            cases hp'
            exact Or.inl (Or.inr hn)
          · exact Or.inr ⟨e', hmem, pos', hp', hn⟩

theorem Map_Sphere.vel_fold_vel (l : List element_t) (s : VelLoop) :
    (l.foldl Map_Sphere.vel_step s).vel
      = s.vel + (l.filterMap (fun e => e.in_.vel.map
          (fun v => Vec3.smul e.weight_ v))).sum := by
  induction l generalizing s with
  | nil => simp
  | cons e l ih =>
    rw [List.foldl_cons, ih]
    have h : (Map_Sphere.vel_step s e).vel
        = match e.in_.vel with
          | some v => s.vel + Vec3.smul e.weight_ v
          | none => s.vel := by
      simp only [Map_Sphere.vel_step]
      cases e.in_.vel <;> cases e.in_.f <;> rfl
    rw [h, List.filterMap_cons]
    cases hv : e.in_.vel with
    | none => simp only [Option.map_none']
    | some v => simp only [Option.map_some', List.sum_cons, add_assoc]

theorem Map_Sphere.vel_fold_f (l : List element_t) (s : VelLoop) :
    (l.foldl Map_Sphere.vel_step s).f
      = s.f + (l.filterMap (fun e => e.in_.f.map
          (fun F => Vec3.smul e.force_weight_ F))).sum := by
  induction l generalizing s with
  | nil => simp
  | cons e l ih =>
    rw [List.foldl_cons, ih]
    have h : (Map_Sphere.vel_step s e).f
        = match e.in_.f with
          | some F => s.f + Vec3.smul e.force_weight_ F
          | none => s.f := by
      simp only [Map_Sphere.vel_step]
      cases e.in_.vel <;> cases e.in_.f <;> rfl
    rw [h, List.filterMap_cons]
    cases hv : e.in_.f with
    | none => simp only [Option.map_none']
    | some v => simp only [Option.map_some', List.sum_cons, add_assoc]

theorem Map_Sphere.vel_fold_bVel (l : List element_t) (s : VelLoop) :
    (l.foldl Map_Sphere.vel_step s).bVel = (s.bVel || l.any (fun e => e.in_.HasVel)) := by
  induction l generalizing s with
  | nil => simp
  | cons e l ih =>
    rw [List.foldl_cons, ih]
    have h : (Map_Sphere.vel_step s e).bVel = (s.bVel || e.in_.HasVel) := by
      simp only [Map_Sphere.vel_step, Bead.HasVel]
      cases e.in_.vel <;> cases e.in_.f <;> simp
    rw [h]
    simp [Bool.or_assoc]

theorem Map_Sphere.vel_fold_bF (l : List element_t) (s : VelLoop) :
    (l.foldl Map_Sphere.vel_step s).bF = (s.bF || l.any (fun e => e.in_.HasF)) := by
  induction l generalizing s with
  | nil => simp
  | cons e l ih =>
    rw [List.foldl_cons, ih]
    have h : (Map_Sphere.vel_step s e).bF = (s.bF || e.in_.HasF) := by
      simp only [Map_Sphere.vel_step, Bead.HasF]
      cases e.in_.vel <;> cases e.in_.f <;> simp
    rw [h]
    simp [Bool.or_assoc]

/-! ## Map_Sphere::Apply: outcome and output bead -/

theorem write_pos_vel_f_pos (out_ : Bead) (bPos : Bool) (cg : Vec3) (t : VelLoop) :
    (write_pos_vel_f out_ bPos cg t).pos = if bPos then some cg else out_.pos := by
  unfold write_pos_vel_f
  cases bPos <;> cases t.bVel <;> cases t.bF <;> rfl

theorem write_pos_vel_f_vel (out_ : Bead) (bPos : Bool) (cg : Vec3) (t : VelLoop) :
    (write_pos_vel_f out_ bPos cg t).vel = if t.bVel then some t.vel else out_.vel := by
  unfold write_pos_vel_f
  cases bPos <;> cases t.bVel <;> cases t.bF <;> rfl

theorem write_pos_vel_f_f (out_ : Bead) (bPos : Bool) (cg : Vec3) (t : VelLoop) :
    (write_pos_vel_f out_ bPos cg t).f = if t.bF then some t.f else out_.f := by
  unfold write_pos_vel_f
  cases bPos <;> cases t.bVel <;> cases t.bF <;> rfl


theorem Map_Sphere.Apply_raised (self : Map_Sphere) (bc : BoundaryCondition) (out_ : Bead)
    (front : element_t) (rest : List element_t) (h : self.matrix_ = front :: rest) :
    (self.Apply bc out_).raised =
      if bigger_than_half_box bc
          (self.matrix_.foldl (Map_Sphere.pos_step bc (reference_pos front))
            (pos_loop_init bc front out_.ClearParentBeads)).max_bead_dist2 then
        some ApplyError.half_box
      else none := by
  rw [Map_Sphere.Apply_cons self bc out_ front rest h]
  split <;> rfl

theorem Map_Sphere.Apply_out_of_ok (self : Map_Sphere) (bc : BoundaryCondition) (out_ : Bead)
    (front : element_t) (rest : List element_t) (h : self.matrix_ = front :: rest)
    (hok : (self.Apply bc out_).raised = none) :
    (self.Apply bc out_).out_ =
      write_pos_vel_f
        ((self.matrix_.foldl (Map_Sphere.pos_step bc (reference_pos front))
            (pos_loop_init bc front out_.ClearParentBeads)).out_.setMass
          (self.matrix_.foldl (Map_Sphere.pos_step bc (reference_pos front))
            (pos_loop_init bc front out_.ClearParentBeads)).M)
        (self.matrix_.foldl (Map_Sphere.pos_step bc (reference_pos front))
          (pos_loop_init bc front out_.ClearParentBeads)).bPos
        (self.matrix_.foldl (Map_Sphere.pos_step bc (reference_pos front))
          (pos_loop_init bc front out_.ClearParentBeads)).cg
        (self.matrix_.foldl Map_Sphere.vel_step vel_loop_init) := by
  rw [Map_Sphere.Apply_cons self bc out_ front rest h] at hok ⊢
  split at hok
  · simp at hok
  · rename_i hbig
    rw [if_neg hbig]

theorem Map_Sphere.matrix_ne_nil_of_ok (self : Map_Sphere) (bc : BoundaryCondition)
    (out_ : Bead) (hok : (self.Apply bc out_).raised = none) :
    ∃ front rest, self.matrix_ = front :: rest := by
  cases h : self.matrix_ with
  | nil =>
    unfold Map_Sphere.Apply at hok
    rw [h] at hok
    simp at hok
  | cons front rest => exact ⟨front, rest, rfl⟩

/-- C5: when the first listed source bead has the position `r0` and Apply does not raise, the
position written to the output bead is the sum, over the source beads that have a position,
of `weight_ * (r0 + BCShortestConnection(r0, pos))`. -/
theorem C5_sphere_position (self : Map_Sphere) (bc : BoundaryCondition) (out_ : Bead)
    (front : element_t) (rest : List element_t) (r0 : Vec3)
    (hm : self.matrix_ = front :: rest) (h0 : front.in_.pos = some r0)
    (hok : (self.Apply bc out_).raised = none) :
    (self.Apply bc out_).out_.pos
      = some ((self.matrix_.filterMap (fun e => e.in_.pos.map
          (fun pos => Vec3.smul e.weight_ (r0 + bc.BCShortestConnection r0 pos)))).sum) := by
  have hr : reference_pos front = r0 := by
    simp only [reference_pos, h0]
  rw [Map_Sphere.Apply_out_of_ok self bc out_ front rest hm hok, write_pos_vel_f_pos,
    Map_Sphere.pos_fold_bPos, Map_Sphere.pos_fold_cg, hr]
  have hany : self.matrix_.any (fun e => e.in_.HasPos) = true := by
    rw [hm]
    simp [Bead.HasPos, h0]
  rw [hany, Bool.or_true, if_pos rfl]
  congr 1
  exact zero_add _

theorem normGt_max (a b t : ℚ) :
    normGt (max a b) t = true ↔ normGt a t = true ∨ normGt b t = true := by
  simp only [normGt_iff, lt_max_iff]
  tauto

/-- The largest of a list of squared norms (0 for the empty list) exceeds the bound `t` exactly
when `t` is negative or some member of the list exceeds it. -/
theorem normGt_foldr_max (l : List ℚ) (t : ℚ) :
    normGt (l.foldr max 0) t = true ↔ (t < 0 ∨ ∃ x ∈ l, normGt x t = true) := by
  induction l with
  | nil =>
    simp only [List.foldr_nil, normGt_iff, List.not_mem_nil, false_and, exists_false, or_false]
    constructor
    · rintro (h | h)
      · exact h
      · exact absurd h (not_lt.mpr (mul_self_nonneg t))
    · intro h
      exact Or.inl h
  | cons x l ih =>
    rw [List.foldr_cons, normGt_max, ih]
    simp only [List.mem_cons, exists_eq_or_imp]
    tauto

/-- C6: when the first listed source bead has the position `r0`, Apply raises the half-box
error exactly when the box type is not open and some source bead with a position has a
connection from `r0` whose norm is strictly greater than `0.5 * getShortestBoxDimension()`,
which is to say when the largest of these norms is; in every other case, and always for an
open box, Apply completes without error. -/
theorem C6_half_box_error_iff (self : Map_Sphere) (bc : BoundaryCondition) (out_ : Bead)
    (front : element_t) (rest : List element_t) (r0 : Vec3)
    (hm : self.matrix_ = front :: rest) (h0 : front.in_.pos = some r0) :
    ((self.Apply bc out_).raised = some ApplyError.half_box
        ↔ (bc.getBoxType ≠ eBoxtype.typeOpen
            ∧ ∃ e ∈ self.matrix_, ∃ pos, e.in_.pos = some pos
                ∧ normGt (bc.BCShortestConnection r0 pos).squaredNorm
                    (0.5 * bc.getShortestBoxDimension) = true))
      ∧ ((self.Apply bc out_).raised = some ApplyError.half_box
        ↔ (bc.getBoxType ≠ eBoxtype.typeOpen
            ∧ normGt ((self.matrix_.filterMap (fun e => e.in_.pos.map
                  (fun pos => (bc.BCShortestConnection r0 pos).squaredNorm))).foldr max 0)
                (0.5 * bc.getShortestBoxDimension) = true))
      ∧ ((self.Apply bc out_).raised ≠ some ApplyError.half_box
          → (self.Apply bc out_).raised = none)
      ∧ (bc.getBoxType = eBoxtype.typeOpen → (self.Apply bc out_).raised = none) := by
  have hr : reference_pos front = r0 := by
    simp only [reference_pos, h0]
  have hfront : front ∈ self.matrix_ := by
    rw [hm]
    exact List.mem_cons_self _ _
  have hraised := Map_Sphere.Apply_raised self bc out_ front rest hm
  have hbig : bigger_than_half_box bc
        (self.matrix_.foldl (Map_Sphere.pos_step bc (reference_pos front))
          (pos_loop_init bc front out_.ClearParentBeads)).max_bead_dist2 = true
      ↔ (bc.getBoxType ≠ eBoxtype.typeOpen
          ∧ ∃ e ∈ self.matrix_, ∃ pos, e.in_.pos = some pos
              ∧ normGt (bc.BCShortestConnection r0 pos).squaredNorm
                  (0.5 * bc.getShortestBoxDimension) = true) := by
    unfold bigger_than_half_box
    rw [Bool.and_eq_true, decide_eq_true_eq, Map_Sphere.pos_fold_max, hr]
    apply and_congr_right
    intro _
    constructor
    · rintro (hinit | hex)
      · refine ⟨front, hfront, r0, h0, ?_⟩
        simpa only [pos_loop_init, h0, hr] using hinit
      · exact hex
    · intro hex
      exact Or.inr hex
  have hform : (∃ e ∈ self.matrix_, ∃ pos, e.in_.pos = some pos
        ∧ normGt (bc.BCShortestConnection r0 pos).squaredNorm
            (0.5 * bc.getShortestBoxDimension) = true)
      ↔ normGt ((self.matrix_.filterMap (fun e => e.in_.pos.map
            (fun pos => (bc.BCShortestConnection r0 pos).squaredNorm))).foldr max 0)
          (0.5 * bc.getShortestBoxDimension) = true := by
    rw [normGt_foldr_max]
    constructor
    · rintro ⟨e, he, pos, hp, hn⟩
      refine Or.inr ⟨_, ?_, hn⟩
      rw [List.mem_filterMap]
      exact ⟨e, he, by simp only [hp, Option.map_some']⟩
    · rintro (hneg | ⟨x, hx, hn⟩)
      · refine ⟨front, hfront, r0, h0, ?_⟩
        rw [normGt_iff]
        exact Or.inl hneg
      · rw [List.mem_filterMap] at hx
        obtain ⟨e, he, hx⟩ := hx
        cases hp : e.in_.pos with
        | none => simp [hp] at hx
        | some pos =>
          simp only [hp, Option.map_some', Option.some.injEq] at hx
          subst hx
          exact ⟨e, he, pos, hp, hn⟩
  have hiff : (self.Apply bc out_).raised = some ApplyError.half_box
      ↔ (bc.getBoxType ≠ eBoxtype.typeOpen
          ∧ ∃ e ∈ self.matrix_, ∃ pos, e.in_.pos = some pos
              ∧ normGt (bc.BCShortestConnection r0 pos).squaredNorm
                  (0.5 * bc.getShortestBoxDimension) = true) := by
    rw [← hbig, hraised]
    split
    · rename_i h
      simp [h]
    · rename_i h
      simp [h]
  refine ⟨hiff, ?_, ?_, ?_⟩
  · rw [hiff, hform]
  · intro hne
    rw [hraised] at hne ⊢
    split
    · rename_i h
      simp [h] at hne
    · rfl
  · intro hopen
    by_contra hne
    have hhalf : (self.Apply bc out_).raised = some ApplyError.half_box := by
      rw [hraised] at hne ⊢
      split
      · rfl
      · rename_i h
        simp [h] at hne
    exact (hiff.mp hhalf).1 hopen

/-- The comparison `normGt` is the comparison of the Euclidean norm with the bound: for a
squared norm `sq ≥ 0`, `normGt sq t` holds exactly when `t < √sq` over the reals. -/
theorem normGt_iff_sqrt (sq t : ℚ) (h : 0 ≤ sq) :
    normGt sq t = true ↔ (t : ℝ) < Real.sqrt (sq : ℝ) := by
  rw [normGt_iff]
  by_cases ht : t < 0
  · have h1 : (t : ℝ) < 0 := by exact_mod_cast ht
    have h2 : (0 : ℝ) ≤ Real.sqrt (sq : ℝ) := Real.sqrt_nonneg _
    constructor
    · intro _
      linarith
    · intro _
      exact Or.inl ht
  · have h1 : (0 : ℝ) ≤ (t : ℝ) := by exact_mod_cast not_lt.mp ht
    rw [Real.lt_sqrt h1]
    constructor
    · rintro (h2 | h2)
      · exact absurd h2 ht
      · have : ((t * t : ℚ) : ℝ) < (sq : ℝ) := by exact_mod_cast h2
        rw [pow_two]
        exact_mod_cast this
    · intro h2
      right
      rw [pow_two] at h2
      exact_mod_cast h2

/-- Witness for C5: in the cubic box the second bead is unwrapped to (5, 11, 5), so the
output position is 1/2 (5, 9, 5) + 1/2 (5, 11, 5) + 0 (6, 9, 5) = (5, 10, 5). -/
theorem C5_sphere_position_witness :
    (sample_sphere.Apply cubic_bc sample_out).raised = none
      ∧ (sample_sphere.Apply cubic_bc sample_out).out_.pos = some ⟨5, 10, 5⟩ :=
  ⟨sample_sphere_cubic_ok,
    (C5_sphere_position sample_sphere cubic_bc sample_out _ _ ⟨5, 9, 5⟩ rfl rfl
      sample_sphere_cubic_ok).trans
      (by
        simp only [sample_sphere, sample_matrix, sample_bead, cubic_bc, cubic_box,
          TriclinicBox.toBoundaryCondition, TriclinicBox.BCShortestConnection, std_round,
          Matrix3d.col, Vec3.zero_def, Vec3.add_def, Vec3.sub_def, Vec3.smul,
          List.filterMap_cons, List.filterMap_nil, Option.map_some', List.sum_cons,
          List.sum_nil]
        norm_num)⟩

/-- Witness for C6: in the cubic box of side 10 the beads at (0, 0, 0) and (4, 4, 4) are
√48 > 5 apart, and Apply raises the half-box error. -/
theorem C6_half_box_error_iff_witness :
    (wide_sphere.Apply cubic_bc sample_out).raised = some ApplyError.half_box :=
  (C6_half_box_error_iff wide_sphere cubic_bc sample_out _ _ ⟨0, 0, 0⟩ rfl rfl).1.mpr
    ⟨by simp [cubic_bc, TriclinicBox.toBoundaryCondition],
      ⟨{ in_ := sample_bead 1 1 (some ⟨4, 4, 4⟩) none none, weight_ := 1 / 2,
          force_weight_ := 1 },
        by simp [wide_sphere], ⟨4, 4, 4⟩, rfl, by
          simp only [cubic_bc, cubic_box, TriclinicBox.toBoundaryCondition,
            TriclinicBox.BCShortestConnection, std_round, Matrix3d.col, Vec3.sub_def,
            Vec3.smul, Vec3.squaredNorm, normGt]
          norm_num⟩⟩

/-! ## Map_Sphere::Apply: velocity and force -/

theorem Map_Sphere.Apply_vel (self : Map_Sphere) (bc : BoundaryCondition) (out_ : Bead)
    (hok : (self.Apply bc out_).raised = none)
    (hv : ∃ e ∈ self.matrix_, e.in_.HasVel = true) :
    (self.Apply bc out_).out_.vel
      = some ((self.matrix_.filterMap (fun e => e.in_.vel.map
          (fun v => Vec3.smul e.weight_ v))).sum) := by
  obtain ⟨front, rest, hm⟩ := Map_Sphere.matrix_ne_nil_of_ok self bc out_ hok
  rw [Map_Sphere.Apply_out_of_ok self bc out_ front rest hm hok, write_pos_vel_f_vel,
    Map_Sphere.vel_fold_bVel, Map_Sphere.vel_fold_vel]
  have hany : self.matrix_.any (fun e => e.in_.HasVel) = true := by
    rw [List.any_eq_true]
    exact hv
  rw [hany, Bool.or_true, if_pos rfl]
  congr 1
  exact zero_add _

theorem Map_Sphere.Apply_f (self : Map_Sphere) (bc : BoundaryCondition) (out_ : Bead)
    (hok : (self.Apply bc out_).raised = none)
    (hf : ∃ e ∈ self.matrix_, e.in_.HasF = true) :
    (self.Apply bc out_).out_.f
      = some ((self.matrix_.filterMap (fun e => e.in_.f.map
          (fun F => Vec3.smul e.force_weight_ F))).sum) := by
  obtain ⟨front, rest, hm⟩ := Map_Sphere.matrix_ne_nil_of_ok self bc out_ hok
  rw [Map_Sphere.Apply_out_of_ok self bc out_ front rest hm hok, write_pos_vel_f_f,
    Map_Sphere.vel_fold_bF, Map_Sphere.vel_fold_f]
  have hany : self.matrix_.any (fun e => e.in_.HasF) = true := by
    rw [List.any_eq_true]
    exact hf
  rw [hany, Bool.or_true, if_pos rfl]
  congr 1
  exact zero_add _

/-- C10: when Apply does not raise, the output velocity is the sum of `weight_ * vel` over the
source beads that have a velocity (if there is one), and the output force the sum of
`force_weight_ * F` over the source beads that have a force (if there is one).  Neither
depends on the box or on a position: a map with the same weights, force weights, velocities
and forces, whatever its positions, boundary condition and output bead, gives the same
two vectors. -/
theorem C10_sphere_velocity_force (self : Map_Sphere) (bc : BoundaryCondition) (out_ : Bead)
    (hok : (self.Apply bc out_).raised = none) :
    ((∃ e ∈ self.matrix_, e.in_.HasVel = true) →
        (self.Apply bc out_).out_.vel
          = some ((self.matrix_.filterMap (fun e => e.in_.vel.map
              (fun v => Vec3.smul e.weight_ v))).sum))
      ∧ ((∃ e ∈ self.matrix_, e.in_.HasF = true) →
        (self.Apply bc out_).out_.f
          = some ((self.matrix_.filterMap (fun e => e.in_.f.map
              (fun F => Vec3.smul e.force_weight_ F))).sum))
      ∧ ∀ (other : Map_Sphere) (bc' : BoundaryCondition) (out' : Bead),
          other.matrix_.map (fun e => (e.weight_, e.force_weight_, e.in_.vel, e.in_.f))
            = self.matrix_.map (fun e => (e.weight_, e.force_weight_, e.in_.vel, e.in_.f)) →
          (other.Apply bc' out').raised = none →
          ((∃ e ∈ self.matrix_, e.in_.HasVel = true) →
              (other.Apply bc' out').out_.vel = (self.Apply bc out_).out_.vel)
            ∧ ((∃ e ∈ self.matrix_, e.in_.HasF = true) →
              (other.Apply bc' out').out_.f = (self.Apply bc out_).out_.f) := by
  refine ⟨Map_Sphere.Apply_vel self bc out_ hok, Map_Sphere.Apply_f self bc out_ hok, ?_⟩
  intro other bc' out' hkey hok'
  have hvel : ∀ m : Map_Sphere,
      m.matrix_.filterMap (fun e => e.in_.vel.map (fun v => Vec3.smul e.weight_ v))
        = (m.matrix_.map (fun e => (e.weight_, e.force_weight_, e.in_.vel, e.in_.f))).filterMap
            (fun k => k.2.2.1.map (fun v => Vec3.smul k.1 v)) := by
    intro m
    rw [List.filterMap_map]
    rfl
  have hfor : ∀ m : Map_Sphere,
      m.matrix_.filterMap (fun e => e.in_.f.map (fun F => Vec3.smul e.force_weight_ F))
        = (m.matrix_.map (fun e => (e.weight_, e.force_weight_, e.in_.vel, e.in_.f))).filterMap
            (fun k => k.2.2.2.map (fun F => Vec3.smul k.2.1 F)) := by
    intro m
    rw [List.filterMap_map]
    rfl
  have hanyv : ∀ m : Map_Sphere, (∃ e ∈ m.matrix_, e.in_.HasVel = true)
      ↔ ∃ k ∈ m.matrix_.map (fun e => (e.weight_, e.force_weight_, e.in_.vel, e.in_.f)),
          k.2.2.1.isSome = true := by
    intro m
    simp only [List.mem_map, Bead.HasVel]
    constructor
    · rintro ⟨e, he, h⟩
      exact ⟨_, ⟨e, he, rfl⟩, h⟩
    · rintro ⟨k, ⟨e, he, rfl⟩, h⟩
      exact ⟨e, he, h⟩
  have hanyf : ∀ m : Map_Sphere, (∃ e ∈ m.matrix_, e.in_.HasF = true)
      ↔ ∃ k ∈ m.matrix_.map (fun e => (e.weight_, e.force_weight_, e.in_.vel, e.in_.f)),
          k.2.2.2.isSome = true := by
    intro m
    simp only [List.mem_map, Bead.HasF]
    constructor
    · rintro ⟨e, he, h⟩
      exact ⟨_, ⟨e, he, rfl⟩, h⟩
    · rintro ⟨k, ⟨e, he, rfl⟩, h⟩
      exact ⟨e, he, h⟩
  constructor
  · intro hv
    have hv' : ∃ e ∈ other.matrix_, e.in_.HasVel = true := by
      rw [hanyv, hkey, ← hanyv]
      exact hv
    rw [Map_Sphere.Apply_vel self bc out_ hok hv, Map_Sphere.Apply_vel other bc' out' hok' hv',
      hvel self, hvel other, hkey]
  · intro hf
    have hf' : ∃ e ∈ other.matrix_, e.in_.HasF = true := by
      rw [hanyf, hkey, ← hanyf]
      exact hf
    rw [Map_Sphere.Apply_f self bc out_ hok hf, Map_Sphere.Apply_f other bc' out' hok' hf',
      hfor self, hfor other, hkey]

/-- Witness for C10: the sample map gives velocity 1/2 (1, 0, 0) + 1/2 (3, 0, 0) = (2, 0, 0)
and force 1 (0, 2, 0) + 1 (0, 4, 0) = (0, 6, 0); the third bead has neither. -/
theorem C10_sphere_velocity_force_witness :
    (sample_sphere.Apply cubic_bc sample_out).raised = none
      ∧ (sample_sphere.Apply cubic_bc sample_out).out_.vel = some ⟨2, 0, 0⟩
      ∧ (sample_sphere.Apply cubic_bc sample_out).out_.f = some ⟨0, 6, 0⟩ :=
  ⟨sample_sphere_cubic_ok,
    ((C10_sphere_velocity_force sample_sphere cubic_bc sample_out sample_sphere_cubic_ok).1
      ⟨_, List.mem_cons_self _ _, rfl⟩).trans
      (by
        simp only [sample_sphere, sample_matrix, sample_bead, Vec3.zero_def, Vec3.add_def,
          Vec3.smul, List.filterMap_cons, List.filterMap_nil, Option.map_some',
          Option.map_none', List.sum_cons, List.sum_nil]
        norm_num),
    ((C10_sphere_velocity_force sample_sphere cubic_bc sample_out sample_sphere_cubic_ok).2.1
      ⟨_, List.mem_cons_self _ _, rfl⟩).trans
      (by
        simp only [sample_sphere, sample_matrix, sample_bead, Vec3.zero_def, Vec3.add_def,
          Vec3.smul, List.filterMap_cons, List.filterMap_nil, Option.map_some',
          Option.map_none', List.sum_cons, List.sum_nil]
        norm_num)⟩

/-! ## Map_Sphere::Initialize -/

theorem accumulate_eq_sum (v : List ℚ) : accumulate v = v.sum := by
  have h : ∀ (l : List ℚ) (a : ℚ), l.foldl (fun acc w => acc + w) a = a + l.sum := by
    intro l
    induction l with
    | nil => intro a; simp
    | cons x l ih =>
      intro a
      rw [List.foldl_cons, ih, List.sum_cons, add_assoc]
  unfold accumulate
  rw [h, zero_add]

theorem normalize_weights_eq (v : List ℚ) :
    normalize_weights v = v.map (fun w => w / v.sum) := by
  unfold normalize_weights
  rw [accumulate_eq_sum]
  apply List.map_congr_left
  intro w _
  exact mul_one_div w v.sum

theorem sum_map_div (v : List ℚ) (s : ℚ) : (v.map (fun w => w / s)).sum = v.sum / s := by
  induction v with
  | nil => simp
  | cons x l ih => rw [List.map_cons, List.sum_cons, ih, List.sum_cons, add_div]

theorem Map_Sphere.force_weights_ok (weights d fweights : List ℚ)
    (h : Map_Sphere.force_weights weights d = Except.ok fweights) :
    fweights = List.zipWith (fun w di => if w ≠ 0 then di / w else 0) weights d := by
  induction weights generalizing d fweights with
  | nil =>
    unfold Map_Sphere.force_weights at h
    simp only [Except.ok.injEq] at h
    rw [← h]
    rfl
  | cons w weights ih =>
    cases d with
    | nil =>
      unfold Map_Sphere.force_weights at h
      simp only [Except.ok.injEq] at h
      rw [← h]
      rfl
    | cons di d =>
      unfold Map_Sphere.force_weights at h
      split at h
      · cases h
      · cases hrec : Map_Sphere.force_weights weights d with
        | error e =>
          rw [hrec] at h
          cases h
        | ok rest =>
          rw [hrec] at h
          simp only [Except.ok.injEq] at h
          rw [← h, List.zipWith_cons_cons, ih d rest hrec]

theorem Map_Sphere.force_weights_error_iff (weights d : List ℚ) :
    (∃ err, Map_Sphere.force_weights weights d = Except.error err)
      ↔ ∃ p ∈ weights.zip d, p.1 = 0 ∧ p.2 ≠ 0 := by
  induction weights generalizing d with
  | nil =>
    unfold Map_Sphere.force_weights
    simp
  | cons w weights ih =>
    cases d with
    | nil =>
      unfold Map_Sphere.force_weights
      simp
    | cons di d =>
      unfold Map_Sphere.force_weights
      simp only [List.zip_cons_cons, List.mem_cons, exists_eq_or_imp]
      rw [← ih d]
      split
      · rename_i hbad
        simp only [Except.error.injEq, exists_eq', true_iff]
        exact Or.inl hbad
      · rename_i hgood
        cases hrec : Map_Sphere.force_weights weights d with
        | error e => simp
        | ok rest => simpa using hgood

theorem Map_Sphere.add_elements_ok (in_ : Molecule) (beads : List String)
    (weights fweights : List ℚ) (self m : Map_Sphere)
    (hw : beads.length = weights.length) (hf : beads.length = fweights.length)
    (h : Map_Sphere.add_elements in_ beads weights fweights self = Except.ok m) :
    m.matrix_.map (fun e => e.in_)
        = self.matrix_.map (fun e => e.in_)
          ++ beads.map (fun b => in_.getBead (in_.getBeadByName b))
      ∧ m.matrix_.map (fun e => e.weight_) = self.matrix_.map (fun e => e.weight_) ++ weights
      ∧ m.matrix_.map (fun e => e.force_weight_)
        = self.matrix_.map (fun e => e.force_weight_) ++ fweights := by
  induction beads generalizing weights fweights self with
  | nil =>
    have hw0 : weights = [] := List.length_eq_zero.mp hw.symm
    have hf0 : fweights = [] := List.length_eq_zero.mp hf.symm
    subst hw0 hf0
    unfold Map_Sphere.add_elements at h
    simp only [Except.ok.injEq] at h
    subst h
    simp
  | cons b beads ih =>
    cases weights with
    | nil => simp at hw
    | cons w weights =>
      cases fweights with
      | nil => simp at hf
      | cons fw fweights =>
        unfold Map_Sphere.add_elements at h
        simp only at h
        split at h
        · cases h
        · have hw' : beads.length = weights.length := by simpa using hw
          have hf' : beads.length = fweights.length := by simpa using hf
          obtain ⟨h1, h2, h3⟩ := ih weights fweights _ hw' hf' h
          rw [h1, h2, h3]
          simp [Map_Sphere.AddElem]

theorem Map_Sphere.add_elements_error_iff (in_ : Molecule) (beads : List String)
    (weights fweights : List ℚ) (self : Map_Sphere)
    (hw : beads.length = weights.length) (hf : beads.length = fweights.length) :
    (∃ err, Map_Sphere.add_elements in_ beads weights fweights self = Except.error err)
      ↔ ∃ b ∈ beads, in_.getBeadByName b < 0 := by
  induction beads generalizing weights fweights self with
  | nil =>
    unfold Map_Sphere.add_elements
    simp
  | cons b beads ih =>
    cases weights with
    | nil => simp at hw
    | cons w weights =>
      cases fweights with
      | nil => simp at hf
      | cons fw fweights =>
        have hw' : beads.length = weights.length := by simpa using hw
        have hf' : beads.length = fweights.length := by simpa using hf
        unfold Map_Sphere.add_elements
        simp only [List.mem_cons, exists_eq_or_imp]
        split
        · rename_i hneg
          simp only [Except.error.injEq, exists_eq', true_iff]
          exact Or.inl hneg
        · rename_i hpos
          rw [ih weights fweights _ hw' hf']
          constructor
          · intro hex
            exact Or.inr hex
          · rintro (hneg | hex)
            · exact absurd hneg hpos
            · exact hex

theorem Map_Sphere.d_coefficients_eq (weights : List ℚ) (d : Option (List ℚ)) :
    Map_Sphere.d_coefficients (normalize_weights weights) d
      = match d with
        | some dl => dl.map (fun x => x / dl.sum)
        | none => weights.map (fun w => w / weights.sum) := by
  cases d with
  | none => exact normalize_weights_eq weights
  | some dl => exact normalize_weights_eq dl

theorem Map_Sphere.d_coefficients_length (weights : List ℚ) (d : Option (List ℚ)) :
    (Map_Sphere.d_coefficients (normalize_weights weights) d).length
      = match d with
        | some dl => dl.length
        | none => weights.length := by
  cases d with
  | none => simp [Map_Sphere.d_coefficients, normalize_weights]
  | some dl => simp [Map_Sphere.d_coefficients, normalize_weights]

/-- What a successful Initialize of a freshly constructed map has checked and stored. -/
theorem Map_Sphere.Initialize_ok (in_ : Molecule) (beads : List String) (weights : List ℚ)
    (d : Option (List ℚ)) (m : Map_Sphere)
    (h : Map_Sphere.new.Initialize in_ beads weights d = Except.ok m) :
    beads.length = weights.length
      ∧ beads.length = (Map_Sphere.d_coefficients (normalize_weights weights) d).length
      ∧ m.matrix_.map (fun e => e.in_)
          = beads.map (fun b => in_.getBead (in_.getBeadByName b))
      ∧ m.matrix_.map (fun e => e.weight_) = normalize_weights weights
      ∧ m.matrix_.map (fun e => e.force_weight_)
          = List.zipWith (fun w di => if w ≠ 0 then di / w else 0) (normalize_weights weights)
              (Map_Sphere.d_coefficients (normalize_weights weights) d) := by
  unfold Map_Sphere.Initialize at h
  split at h
  · cases h
  · rename_i hw
    simp only at h
    split at h
    · cases h
    · rename_i hd
      rw [ne_eq, not_not] at hw hd
      cases hfw : Map_Sphere.force_weights (normalize_weights weights)
          (Map_Sphere.d_coefficients (normalize_weights weights) d) with
      | error e =>
        rw [hfw] at h
        cases h
      | ok fweights =>
        rw [hfw] at h
        simp only at h
        have hzip := Map_Sphere.force_weights_ok _ _ _ hfw
        have hwn : beads.length = (normalize_weights weights).length := by
          simp [normalize_weights, hw]
        have hfl : beads.length = fweights.length := by
          rw [hzip, List.length_zipWith, ← hwn, ← hd, min_self]
        obtain ⟨h1, h2, h3⟩ := Map_Sphere.add_elements_ok in_ beads _ _ _ m hwn hfl h
        refine ⟨hw, hd, ?_, ?_, ?_⟩
        · simpa [Map_Sphere.new] using h1
        · simpa [Map_Sphere.new] using h2
        · rw [← hzip]
          simpa [Map_Sphere.new] using h3

/-- C7: after a successful Initialize of a fresh map from raw weights with a non-zero sum,
the stored position weights are the raw weights divided by their sum, and they sum to 1. -/
theorem C7_position_weights_normalised (in_ : Molecule) (beads : List String)
    (weights : List ℚ) (d : Option (List ℚ)) (m : Map_Sphere)
    (hsum : weights.sum ≠ 0)
    (h : Map_Sphere.new.Initialize in_ beads weights d = Except.ok m) :
    m.matrix_.map (fun e => e.weight_) = weights.map (fun w => w / weights.sum)
      ∧ (m.matrix_.map (fun e => e.weight_)).sum = 1 := by
  obtain ⟨_, _, _, hw, _⟩ := Map_Sphere.Initialize_ok in_ beads weights d m h
  rw [hw, normalize_weights_eq, sum_map_div]
  exact ⟨rfl, div_self hsum⟩

/-- C8: after a successful Initialize of a fresh map (weight sum and, when option "d" is
given, its sum non-zero) the stored force weight of every element is `d' / w'` when `w'` is
non-zero and 0 when `w'` is zero, where `w'` is the weight list divided by its sum and `d'`
the d list divided by its sum, or `w'` itself without option "d"; the three lists have one
entry per element. -/
theorem C8_force_weights (in_ : Molecule) (beads : List String)
    (weights : List ℚ) (d : Option (List ℚ)) (m : Map_Sphere)
    (hsum : weights.sum ≠ 0) (hdsum : ∀ dl, d = some dl → dl.sum ≠ 0)
    (h : Map_Sphere.new.Initialize in_ beads weights d = Except.ok m) :
    m.matrix_.map (fun e => e.force_weight_)
        = List.zipWith (fun w' d' => if w' ≠ 0 then d' / w' else 0)
            (weights.map (fun w => w / weights.sum))
            (match d with
              | some dl => dl.map (fun x => x / dl.sum)
              | none => weights.map (fun w => w / weights.sum))
      ∧ m.matrix_.length = weights.length
      ∧ ∀ dl, d = some dl → dl.length = weights.length := by
  obtain ⟨hw, hd, hin, _, hfw⟩ := Map_Sphere.Initialize_ok in_ beads weights d m h
  rw [Map_Sphere.d_coefficients_eq] at hfw
  rw [Map_Sphere.d_coefficients_length] at hd
  rw [normalize_weights_eq] at hfw
  refine ⟨hfw, ?_, ?_⟩
  · have := congrArg List.length hin
    simpa [hw] using this
  · intro dl hdl
    subst hdl
    simp only at hd
    rw [← hd, hw]

/-- When Initialize of a freshly constructed map fails, in terms of the vectors it computes. -/
theorem Map_Sphere.Initialize_error_iff (in_ : Molecule) (beads : List String)
    (weights : List ℚ) (d : Option (List ℚ)) :
    (∃ err, Map_Sphere.new.Initialize in_ beads weights d = Except.error err)
      ↔ (beads.length ≠ weights.length
          ∨ beads.length ≠ (Map_Sphere.d_coefficients (normalize_weights weights) d).length
          ∨ (∃ p ∈ (normalize_weights weights).zip
                (Map_Sphere.d_coefficients (normalize_weights weights) d), p.1 = 0 ∧ p.2 ≠ 0)
          ∨ ∃ b ∈ beads, in_.getBeadByName b < 0) := by
  unfold Map_Sphere.Initialize
  by_cases hw : beads.length ≠ weights.length
  · rw [if_pos hw]
    simp only [Except.error.injEq, exists_eq', true_iff]
    exact Or.inl hw
  · rw [if_neg hw]
    simp only
    by_cases hd : beads.length
        ≠ (Map_Sphere.d_coefficients (normalize_weights weights) d).length
    · rw [if_pos hd]
      simp only [Except.error.injEq, exists_eq', true_iff]
      exact Or.inr (Or.inl hd)
    · rw [if_neg hd]
      have hzip := Map_Sphere.force_weights_error_iff (normalize_weights weights)
        (Map_Sphere.d_coefficients (normalize_weights weights) d)
      cases hfw : Map_Sphere.force_weights (normalize_weights weights)
          (Map_Sphere.d_coefficients (normalize_weights weights) d) with
      | error e =>
        simp only [Except.error.injEq, exists_eq', true_iff]
        exact Or.inr (Or.inr (Or.inl (hzip.mp ⟨e, hfw⟩)))
      | ok fweights =>
        simp only
        have hnz : ¬ ∃ p ∈ (normalize_weights weights).zip
            (Map_Sphere.d_coefficients (normalize_weights weights) d), p.1 = 0 ∧ p.2 ≠ 0 := by
          rw [← hzip, hfw]
          simp
        rw [ne_eq, not_not] at hw hd
        have hwn : beads.length = (normalize_weights weights).length := by
          simp [normalize_weights, hw]
        have hfl : beads.length = fweights.length := by
          rw [Map_Sphere.force_weights_ok _ _ _ hfw, List.length_zipWith, ← hwn, ← hd,
            min_self]
        rw [Map_Sphere.add_elements_error_iff in_ beads _ _ _ hwn hfl]
        constructor
        · intro h
          exact Or.inr (Or.inr (Or.inr h))
        · rintro (h | h | h | h)
          · exact absurd hw h
          · exact absurd hd h
          · exact absurd h hnz
          · exact h

theorem mem_zip_iff_getElem? (l₁ l₂ : List ℚ) (P : ℚ → ℚ → Prop) :
    (∃ p ∈ l₁.zip l₂, P p.1 p.2)
      ↔ ∃ (i : ℕ) (x y : ℚ), l₁[i]? = some x ∧ l₂[i]? = some y ∧ P x y := by
  constructor
  · rintro ⟨p, hp, hP⟩
    obtain ⟨i, hi⟩ := List.mem_iff_getElem?.mp hp
    rw [List.getElem?_zip_eq_some] at hi
    exact ⟨i, p.1, p.2, hi.1, hi.2, hP⟩
  · rintro ⟨i, x, y, hx, hy, hP⟩
    refine ⟨(x, y), ?_, hP⟩
    rw [List.mem_iff_getElem?]
    exact ⟨i, List.getElem?_zip_eq_some.mpr ⟨hx, hy⟩⟩

/-- Initialize on tokenised option values whose weight sum and d sum are non-zero unless the
list is empty: it fails exactly when the number of names differs from the number of weights,
or option "d" is given with a number of coefficients different from the number of names, or at
some index the normalised weight is zero while the normalised d coefficient is not, or some
listed name is not found in the source molecule (negative index); otherwise it stores one
element per listed name, in list order. -/
theorem Map_Sphere.Initialize_fails_iff_of_sums (in_ : Molecule) (beads : List String)
    (weights : List ℚ) (d : Option (List ℚ))
    (hsum : weights ≠ [] → weights.sum ≠ 0)
    (hdsum : ∀ dl, d = some dl → dl ≠ [] → dl.sum ≠ 0) :
    ((∃ err, Map_Sphere.new.Initialize in_ beads weights d = Except.error err)
        ↔ (beads.length ≠ weights.length
            ∨ (∃ dl, d = some dl ∧ dl.length ≠ beads.length)
            ∨ (∃ (i : ℕ) (w' d' : ℚ),
                (weights.map (fun w => w / weights.sum))[i]? = some w'
                  ∧ (match d with
                      | some dl => dl.map (fun x => x / dl.sum)
                      | none => weights.map (fun w => w / weights.sum))[i]? = some d'
                  ∧ w' = 0 ∧ d' ≠ 0)
            ∨ ∃ b ∈ beads, in_.getBeadByName b < 0))
      ∧ ((¬ ∃ err, Map_Sphere.new.Initialize in_ beads weights d = Except.error err) →
          ∃ m, Map_Sphere.new.Initialize in_ beads weights d = Except.ok m
            ∧ m.matrix_.length = beads.length
            ∧ m.matrix_.map (fun e => e.in_)
                = beads.map (fun b => in_.getBead (in_.getBeadByName b))) := by
  constructor
  · rw [Map_Sphere.Initialize_error_iff, mem_zip_iff_getElem? _ _ (fun x y => x = 0 ∧ y ≠ 0),
      Map_Sphere.d_coefficients_length, Map_Sphere.d_coefficients_eq, normalize_weights_eq]
    constructor
    · rintro (h | h | h | h)
      · exact Or.inl h
      · by_cases hw : beads.length = weights.length
        · right
          left
          cases d with
          | none => exact absurd hw h
          | some dl => exact ⟨dl, rfl, fun hc => h hc.symm⟩
        · exact Or.inl hw
      · exact Or.inr (Or.inr (Or.inl h))
      · exact Or.inr (Or.inr (Or.inr h))
    · rintro (h | ⟨dl, hdl, h⟩ | h | h)
      · exact Or.inl h
      · subst hdl
        exact Or.inr (Or.inl (fun hc => h hc.symm))
      · exact Or.inr (Or.inr (Or.inl h))
      · exact Or.inr (Or.inr (Or.inr h))
  · intro hne
    cases hres : Map_Sphere.new.Initialize in_ beads weights d with
    | error e => exact absurd ⟨e, hres⟩ hne
    | ok m =>
      obtain ⟨_, _, hin, _, _⟩ := Map_Sphere.Initialize_ok in_ beads weights d m hres
      refine ⟨m, rfl, ?_, hin⟩
      have := congrArg List.length hin
      simpa using this

/-- Initialize on `sample_molecule` with names "A", "B", weights 1, 3 and option "d" 0, 2. -/
theorem sample_initialize_ok :
    Map_Sphere.new.Initialize sample_molecule ["A", "B"] [1, 3] (some [0, 2])
      = Except.ok sample_initialized := by
  simp only [Map_Sphere.Initialize, Map_Sphere.new, normalize_weights, accumulate,
    Map_Sphere.d_coefficients, Map_Sphere.force_weights, Map_Sphere.add_elements,
    Map_Sphere.AddElem, sample_molecule, sample_initialized, sample_bead, List.foldl,
    List.map, List.length]
  have hBA : ("B" : String) ≠ "A" := by decide
  norm_num [Map_Sphere.force_weights, Map_Sphere.add_elements, Map_Sphere.AddElem, hBA]

/-- Witness for C7: raw weights 1, 3 are stored as 1/4, 3/4. -/
theorem C7_position_weights_normalised_witness :
    ([1, 3] : List ℚ).sum ≠ 0
      ∧ sample_initialized.matrix_.map (fun e => e.weight_)
          = ([1, 3] : List ℚ).map (fun w => w / ([1, 3] : List ℚ).sum)
      ∧ (sample_initialized.matrix_.map (fun e => e.weight_)).sum = 1 :=
  ⟨by norm_num,
    C7_position_weights_normalised sample_molecule ["A", "B"] [1, 3] (some [0, 2])
      sample_initialized (by norm_num) sample_initialize_ok⟩

/-- Witness for C8: weights 1, 3 and d coefficients 0, 2 give w' = 1/4, 3/4 and d' = 0, 1,
hence force weights 0 and 4/3. -/
theorem C8_force_weights_witness :
    sample_initialized.matrix_.map (fun e => e.force_weight_) = [0, 4 / 3] :=
  (C8_force_weights sample_molecule ["A", "B"] [1, 3] (some [0, 2]) sample_initialized
    (by norm_num) (by intro dl hdl; cases hdl; norm_num) sample_initialize_ok).1.trans
    (by norm_num)

/-! ## The two Apply functions compared -/

/-- The first loops of Map_Sphere::Apply and Map_Ellipsoid::Apply run in step: started from
states that agree in everything but the output bead and the mass, they end in such states. -/
theorem pos_fold_agree (bc : BoundaryCondition) (r0 : Vec3) (l : List element_t)
    (s s' : PosLoop) (h1 : s.cg = s'.cg) (h2 : s.bPos = s'.bPos)
    (h3 : s.max_bead_dist2 = s'.max_bead_dist2) (h4 : s.bead_max_dist = s'.bead_max_dist) :
    ((l.foldl (Map_Ellipsoid.pos_step bc r0) s).cg
        = (l.foldl (Map_Sphere.pos_step bc r0) s').cg
      ∧ (l.foldl (Map_Ellipsoid.pos_step bc r0) s).bPos
        = (l.foldl (Map_Sphere.pos_step bc r0) s').bPos
      ∧ (l.foldl (Map_Ellipsoid.pos_step bc r0) s).max_bead_dist2
        = (l.foldl (Map_Sphere.pos_step bc r0) s').max_bead_dist2
      ∧ (l.foldl (Map_Ellipsoid.pos_step bc r0) s).bead_max_dist
        = (l.foldl (Map_Sphere.pos_step bc r0) s').bead_max_dist)
    ∧ ((l.foldl (Map_Sphere.pos_step bc r0) s).cg
        = (l.foldl (Map_Sphere.pos_step bc r0) s').cg
      ∧ (l.foldl (Map_Sphere.pos_step bc r0) s).bPos
        = (l.foldl (Map_Sphere.pos_step bc r0) s').bPos
      ∧ (l.foldl (Map_Sphere.pos_step bc r0) s).max_bead_dist2
        = (l.foldl (Map_Sphere.pos_step bc r0) s').max_bead_dist2
      ∧ (l.foldl (Map_Sphere.pos_step bc r0) s).bead_max_dist
        = (l.foldl (Map_Sphere.pos_step bc r0) s').bead_max_dist) := by
  induction l generalizing s s' with
  | nil => exact ⟨⟨h1, h2, h3, h4⟩, ⟨h1, h2, h3, h4⟩⟩
  | cons e l ih =>
    simp only [List.foldl_cons]
    have hE : (Map_Ellipsoid.pos_step bc r0 s e).cg = (Map_Sphere.pos_step bc r0 s' e).cg
        ∧ (Map_Ellipsoid.pos_step bc r0 s e).bPos = (Map_Sphere.pos_step bc r0 s' e).bPos
        ∧ (Map_Ellipsoid.pos_step bc r0 s e).max_bead_dist2
          = (Map_Sphere.pos_step bc r0 s' e).max_bead_dist2
        ∧ (Map_Ellipsoid.pos_step bc r0 s e).bead_max_dist
          = (Map_Sphere.pos_step bc r0 s' e).bead_max_dist := by
      simp only [Map_Ellipsoid.pos_step, Map_Sphere.pos_step]
      cases e.in_.pos with
      | none => exact ⟨h1, h2, h3, h4⟩
      | some pos => simp only [h1, h3, h4, and_self]
    have hS : (Map_Sphere.pos_step bc r0 s e).cg = (Map_Sphere.pos_step bc r0 s' e).cg
        ∧ (Map_Sphere.pos_step bc r0 s e).bPos = (Map_Sphere.pos_step bc r0 s' e).bPos
        ∧ (Map_Sphere.pos_step bc r0 s e).max_bead_dist2
          = (Map_Sphere.pos_step bc r0 s' e).max_bead_dist2
        ∧ (Map_Sphere.pos_step bc r0 s e).bead_max_dist
          = (Map_Sphere.pos_step bc r0 s' e).bead_max_dist := by
      simp only [Map_Sphere.pos_step]
      cases e.in_.pos with
      | none => exact ⟨h1, h2, h3, h4⟩
      | some pos => simp only [h1, h3, h4, and_self]
    exact ⟨(ih _ _ hE.1 hE.2.1 hE.2.2.1 hE.2.2.2).1, (ih _ _ hS.1 hS.2.1 hS.2.2.1 hS.2.2.2).2⟩

/-- The second loops of the two Apply functions accumulate the same velocity and force. -/
theorem vel_fold_agree (l : List element_t) (s s' : VelLoop)
    (h1 : s.vel = s'.vel) (h2 : s.f = s'.f) (h3 : s.bVel = s'.bVel) (h4 : s.bF = s'.bF) :
    (l.foldl Map_Ellipsoid.vel_step s).vel = (l.foldl Map_Sphere.vel_step s').vel
      ∧ (l.foldl Map_Ellipsoid.vel_step s).f = (l.foldl Map_Sphere.vel_step s').f
      ∧ (l.foldl Map_Ellipsoid.vel_step s).bVel = (l.foldl Map_Sphere.vel_step s').bVel
      ∧ (l.foldl Map_Ellipsoid.vel_step s).bF = (l.foldl Map_Sphere.vel_step s').bF := by
  induction l generalizing s s' with
  | nil => exact ⟨h1, h2, h3, h4⟩
  | cons e l ih =>
    simp only [List.foldl_cons]
    have hE : (Map_Ellipsoid.vel_step s e).vel = (Map_Sphere.vel_step s' e).vel
        ∧ (Map_Ellipsoid.vel_step s e).f = (Map_Sphere.vel_step s' e).f
        ∧ (Map_Ellipsoid.vel_step s e).bVel = (Map_Sphere.vel_step s' e).bVel
        ∧ (Map_Ellipsoid.vel_step s e).bF = (Map_Sphere.vel_step s' e).bF := by
      simp only [Map_Ellipsoid.vel_step, Map_Sphere.vel_step]
      cases e.in_.vel <;> cases e.in_.f <;> cases e.in_.pos <;>
        simp only [h1, h2, h3, h4, and_self] <;> split <;> simp only [h1, h2, h3, h4, and_self]
    exact ih _ _ hE.1 hE.2.1 hE.2.2.1 hE.2.2.2

/-! ## Apply as a set of overwrites -/

theorem BeadPatch.apply_comp (q p : BeadPatch) (b : Bead) :
    (q.comp p).apply b = q.apply (p.apply b) := by
  cases q with
  | mk qm qp qv qf qu qvv qw qpb =>
    cases p with
    | mk pm pp pv pf pu pvv pw ppb =>
      cases qm <;> cases qp <;> cases qv <;> cases qf <;> cases qu <;> cases qvv <;>
        cases qw <;> cases qpb <;> rfl

theorem BeadPatch.apply_idem (p : BeadPatch) (b : Bead) :
    p.apply (p.apply b) = p.apply b := by
  cases p with
  | mk pm pp pv pf pu pvv pw ppb =>
    cases pm <;> cases pp <;> cases pv <;> cases pf <;> cases pu <;> cases pvv <;>
      cases pw <;> cases ppb <;> rfl

theorem BeadPatch.apply_id (b : Bead) : BeadPatch.id.apply b = b := rfl

theorem write_patch_sphere (out_ : Bead) (M : ℚ) (ids : List ℤ) (bPos : Bool) (cg : Vec3)
    (t : VelLoop) :
    write_pos_vel_f
        (({ out_.ClearParentBeads with
            parent_beads := out_.ClearParentBeads.parent_beads ++ ids } : Bead).setMass M)
        bPos cg t
      = (write_patch (some M) ids bPos cg t).apply out_ := by
  unfold write_pos_vel_f write_patch BeadPatch.apply
  cases bPos <;> cases t.bVel <;> cases t.bF <;> rfl

theorem write_patch_ellipsoid (out_ : Bead) (ids : List ℤ) (bPos : Bool) (cg : Vec3)
    (t : VelLoop) :
    write_pos_vel_f
        ({ out_.ClearParentBeads with
            parent_beads := out_.ClearParentBeads.parent_beads ++ ids } : Bead)
        bPos cg t
      = (write_patch none ids bPos cg t).apply out_ := by
  unfold write_pos_vel_f write_patch BeadPatch.apply
  cases bPos <;> cases t.bVel <;> cases t.bF <;> rfl

/-- Map_Sphere::Apply as a set of overwrites of the output bead: the loop variables do not
depend on the output bead, so they are computed here with the first source bead in its
place. -/
theorem Map_Sphere.Apply_eq_patch (self : Map_Sphere) (bc : BoundaryCondition)
    (front : element_t) (rest : List element_t) (h : self.matrix_ = front :: rest)
    (out_ : Bead) :
    self.Apply bc out_ =
      if bigger_than_half_box bc
          (self.matrix_.foldl (Map_Sphere.pos_step bc (reference_pos front))
            (pos_loop_init bc front front.in_)).max_bead_dist2 then
        { out_ := (write_patch none (self.matrix_.map (fun e => e.in_.id)) false Vec3.Zero
            vel_loop_init).apply out_,
          raised := some ApplyError.half_box }
      else
        { out_ := (write_patch (some (self.matrix_.map (fun e => e.in_.mass)).sum)
            (self.matrix_.map (fun e => e.in_.id))
            (self.matrix_.foldl (Map_Sphere.pos_step bc (reference_pos front))
              (pos_loop_init bc front front.in_)).bPos
            (self.matrix_.foldl (Map_Sphere.pos_step bc (reference_pos front))
              (pos_loop_init bc front front.in_)).cg
            (self.matrix_.foldl Map_Sphere.vel_step vel_loop_init)).apply out_,
          raised := none } := by
  rw [Map_Sphere.Apply_cons self bc out_ front rest h]
  obtain ⟨hcg, hb, hmax, _⟩ := (pos_fold_agree bc (reference_pos front) self.matrix_
    (pos_loop_init bc front out_.ClearParentBeads) (pos_loop_init bc front front.in_)
    rfl rfl rfl rfl).2
  rw [hcg, hb, hmax, Map_Sphere.pos_fold_M, Map_Sphere.pos_fold_out]
  have hM : (pos_loop_init bc front out_.ClearParentBeads).M = 0 := rfl
  have hO : (pos_loop_init bc front out_.ClearParentBeads).out_ = out_.ClearParentBeads := rfl
  rw [hM, hO, zero_add, write_patch_sphere]
  split
  · congr 1
  · rfl

theorem Map_Ellipsoid.axes_patch (lib : EigenLib) (matrix_ : List element_t) (pos0 : Vec3)
    (m : Matrix3d) :
    ∃ (q : BeadPatch) (r : Option ApplyError), ∀ b : Bead,
      Map_Ellipsoid.axes lib matrix_ pos0 m b = { out_ := q.apply b, raised := r } := by
  unfold Map_Ellipsoid.axes
  match matrix_ with
  | [] => exact ⟨BeadPatch.id, _, fun b => rfl⟩
  | [_] => exact ⟨BeadPatch.id, _, fun b => rfl⟩
  | _ :: e1 :: rest =>
    simp only
    cases h1 : e1.in_.pos with
    | none => exact ⟨BeadPatch.id, _, fun b => rfl⟩
    | some pos1 =>
      simp only
      match rest with
      | [] =>
        exact ⟨{ BeadPatch.id with v := some (lib.normalized (pos1 - pos0)) }, _, fun b => rfl⟩
      | e2 :: _ =>
        simp only
        cases h2 : e2.in_.pos with
        | none =>
          exact ⟨{ BeadPatch.id with v := some (lib.normalized (pos1 - pos0)) }, _,
            fun b => rfl⟩
        | some pos2 =>
          exact ⟨{ BeadPatch.id with
              v := some (lib.normalized (pos1 - pos0))
              u := some (if ((lib.normalized (pos1 - pos0)).cross
                    (lib.normalized (pos2 - pos0))).dot (lib.eigenvector0 m) < 0
                  then -lib.eigenvector0 m else lib.eigenvector0 m)
              w := some (lib.normalized
                ((if ((lib.normalized (pos1 - pos0)).cross
                    (lib.normalized (pos2 - pos0))).dot (lib.eigenvector0 m) < 0
                  then -lib.eigenvector0 m else lib.eigenvector0 m).cross
                  (lib.normalized (pos1 - pos0)))) }, _, fun b => rfl⟩

/-- Map_Ellipsoid::Apply up to the axes, in terms of the loop variables of the sphere. -/
theorem Map_Ellipsoid.Apply_cons_ellipsoid (self : Map_Ellipsoid) (lib : EigenLib)
    (bc : BoundaryCondition) (front : element_t) (rest : List element_t)
    (h : self.matrix_ = front :: rest) (out_ : Bead) :
    self.Apply lib bc out_ =
      if bigger_than_half_box bc
          (self.matrix_.foldl (Map_Sphere.pos_step bc (reference_pos front))
            (pos_loop_init bc front front.in_)).max_bead_dist2 then
        { out_ := (write_patch none (self.matrix_.map (fun e => e.in_.id)) false Vec3.Zero
            vel_loop_init).apply out_,
          raised := some ApplyError.half_box }
      else
        match front.in_.pos with
        | none =>
          { out_ := ((((write_patch none (self.matrix_.map (fun e => e.in_.id))
              (self.matrix_.foldl (Map_Sphere.pos_step bc (reference_pos front))
                (pos_loop_init bc front front.in_)).bPos
              (self.matrix_.foldl (Map_Sphere.pos_step bc (reference_pos front))
                (pos_loop_init bc front front.in_)).cg
              (self.matrix_.foldl Map_Ellipsoid.vel_step vel_loop_init)).apply out_).setU
                Vec3.UnitX).setV Vec3.UnitY).setW Vec3.UnitZ,
            raised := none }
        | some pos0 =>
          match Map_Ellipsoid.gyration
              ((self.matrix_.foldl Map_Ellipsoid.vel_step vel_loop_init).c.divScalar
                (self.matrix_.foldl Map_Ellipsoid.vel_step vel_loop_init).n)
              self.matrix_.length self.matrix_ Matrix3d.Zero with
          | none =>
            { out_ := (write_patch none (self.matrix_.map (fun e => e.in_.id))
                (self.matrix_.foldl (Map_Sphere.pos_step bc (reference_pos front))
                  (pos_loop_init bc front front.in_)).bPos
                (self.matrix_.foldl (Map_Sphere.pos_step bc (reference_pos front))
                  (pos_loop_init bc front front.in_)).cg
                (self.matrix_.foldl Map_Ellipsoid.vel_step vel_loop_init)).apply out_,
              raised := some ApplyError.pos_not_set }
          | some m =>
            Map_Ellipsoid.axes lib self.matrix_ pos0 m
              ((write_patch none (self.matrix_.map (fun e => e.in_.id))
                (self.matrix_.foldl (Map_Sphere.pos_step bc (reference_pos front))
                  (pos_loop_init bc front front.in_)).bPos
                (self.matrix_.foldl (Map_Sphere.pos_step bc (reference_pos front))
                  (pos_loop_init bc front front.in_)).cg
                (self.matrix_.foldl Map_Ellipsoid.vel_step vel_loop_init)).apply out_) := by
  unfold Map_Ellipsoid.Apply
  simp only [h]
  rw [← h]
  obtain ⟨hcg, hb, hmax, _⟩ := (pos_fold_agree bc (reference_pos front) self.matrix_
    (pos_loop_init bc front out_.ClearParentBeads) (pos_loop_init bc front front.in_)
    rfl rfl rfl rfl).1
  rw [hcg, hb, hmax, Map_Ellipsoid.ellipsoid_pos_fold_out]
  have hO : (pos_loop_init bc front out_.ClearParentBeads).out_ = out_.ClearParentBeads := rfl
  rw [hO, write_patch_ellipsoid]
  split
  · congr 1
  · rfl

/-! ## Presence of position, velocity and force on the output bead -/

/-- The output bead after a Map_Sphere::Apply that does not raise: the rebuilt parent-bead
list, the summed mass, and each of position, velocity and force overwritten when some source
bead has it and left as it was otherwise. -/
theorem Map_Sphere.Apply_ok_fields (self : Map_Sphere) (bc : BoundaryCondition) (out_ : Bead)
    (hok : (self.Apply bc out_).raised = none) :
    (self.Apply bc out_).out_.parent_beads = self.matrix_.map (fun e => e.in_.id)
      ∧ (∃ cg, (self.Apply bc out_).out_.pos
          = if self.matrix_.any (fun e => e.in_.HasPos) then some cg else out_.pos)
      ∧ (∃ vel, (self.Apply bc out_).out_.vel
          = if self.matrix_.any (fun e => e.in_.HasVel) then some vel else out_.vel)
      ∧ (∃ f, (self.Apply bc out_).out_.f
          = if self.matrix_.any (fun e => e.in_.HasF) then some f else out_.f) := by
  obtain ⟨front, rest, hm⟩ := Map_Sphere.matrix_ne_nil_of_ok self bc out_ hok
  rw [Map_Sphere.Apply_eq_patch self bc front rest hm out_] at hok ⊢
  split at hok
  · simp at hok
  · rename_i hbig
    rw [if_neg hbig]
    refine ⟨rfl,
      ⟨(self.matrix_.foldl (Map_Sphere.pos_step bc (reference_pos front))
        (pos_loop_init bc front front.in_)).cg, ?_⟩,
      ⟨(self.matrix_.foldl Map_Sphere.vel_step vel_loop_init).vel, ?_⟩,
      ⟨(self.matrix_.foldl Map_Sphere.vel_step vel_loop_init).f, ?_⟩⟩
    · simp only [write_patch, BeadPatch.apply, Map_Sphere.pos_fold_bPos, pos_loop_init,
        Bool.false_or]
      split <;> rfl
    · simp only [write_patch, BeadPatch.apply, Map_Sphere.vel_fold_bVel, vel_loop_init,
        Bool.false_or]
      split <;> rfl
    · simp only [write_patch, BeadPatch.apply, Map_Sphere.vel_fold_bF, vel_loop_init,
        Bool.false_or]
      split <;> rfl

/-- C11 (counterexample): the only source bead of `bare_sphere` has no position, no velocity
and no force, Apply completes in an open box, and the output bead, which had all three
before the call, still has them afterwards. -/
theorem C11_stale_attributes_counterexample :
    (bare_sphere.Apply (OpenBox.toBoundaryCondition 0) stale_out).raised = none
      ∧ (∀ e ∈ bare_sphere.matrix_,
          e.in_.HasPos = false ∧ e.in_.HasVel = false ∧ e.in_.HasF = false)
      ∧ (bare_sphere.Apply (OpenBox.toBoundaryCondition 0) stale_out).out_.pos
          = some ⟨1, 2, 3⟩
      ∧ (bare_sphere.Apply (OpenBox.toBoundaryCondition 0) stale_out).out_.vel
          = some ⟨4, 5, 6⟩
      ∧ (bare_sphere.Apply (OpenBox.toBoundaryCondition 0) stale_out).out_.f
          = some ⟨7, 8, 9⟩ := by
  refine ⟨by decide, by decide, by decide, by decide, by decide⟩

/-- C11 (amended): after a Map_Sphere::Apply that does not raise, the output bead has a
position exactly when some source bead has one or the output bead had one before the call,
and when no source bead has a position the position of the output bead, present or absent,
is what it was before; likewise for velocity and force.  An output bead that has none of the
three before the call has each of them afterwards exactly when some source bead has it. -/
theorem C11_attribute_presence (self : Map_Sphere) (bc : BoundaryCondition) (out_ : Bead)
    (hok : (self.Apply bc out_).raised = none) :
    (((self.Apply bc out_).out_.HasPos = true
          ↔ ((∃ e ∈ self.matrix_, e.in_.HasPos = true) ∨ out_.HasPos = true))
        ∧ ((¬ ∃ e ∈ self.matrix_, e.in_.HasPos = true) →
            (self.Apply bc out_).out_.pos = out_.pos))
      ∧ (((self.Apply bc out_).out_.HasVel = true
          ↔ ((∃ e ∈ self.matrix_, e.in_.HasVel = true) ∨ out_.HasVel = true))
        ∧ ((¬ ∃ e ∈ self.matrix_, e.in_.HasVel = true) →
            (self.Apply bc out_).out_.vel = out_.vel))
      ∧ (((self.Apply bc out_).out_.HasF = true
          ↔ ((∃ e ∈ self.matrix_, e.in_.HasF = true) ∨ out_.HasF = true))
        ∧ ((¬ ∃ e ∈ self.matrix_, e.in_.HasF = true) →
            (self.Apply bc out_).out_.f = out_.f)) := by
  obtain ⟨_, ⟨cg, hp⟩, ⟨vel, hv⟩, ⟨f, hf⟩⟩ := Map_Sphere.Apply_ok_fields self bc out_ hok
  have key : ∀ (P : element_t → Bool) (x : Option Vec3) (before : Option Vec3) (c : Vec3),
      x = (if self.matrix_.any P then some c else before) →
      ((x.isSome = true ↔ ((∃ e ∈ self.matrix_, P e = true) ∨ before.isSome = true))
        ∧ ((¬ ∃ e ∈ self.matrix_, P e = true) → x = before)) := by
    intro P x before c hx
    by_cases hany : self.matrix_.any P = true
    · rw [hx, if_pos hany]
      rw [List.any_eq_true] at hany
      exact ⟨⟨fun _ => Or.inl hany, fun _ => rfl⟩, fun hn => absurd hany hn⟩
    · rw [hx, if_neg hany]
      rw [List.any_eq_true] at hany
      exact ⟨⟨fun h => Or.inr h, fun h => h.resolve_left hany⟩, fun _ => rfl⟩
  exact ⟨key (fun e => e.in_.HasPos) _ _ cg hp, key (fun e => e.in_.HasVel) _ _ vel hv,
    key (fun e => e.in_.HasF) _ _ f hf⟩

/-! ## Map_Ellipsoid::Apply against Map_Sphere::Apply -/

theorem Map_Ellipsoid.axes_keeps (lib : EigenLib) (matrix_ : List element_t) (pos0 : Vec3)
    (m : Matrix3d) (b : Bead) :
    (Map_Ellipsoid.axes lib matrix_ pos0 m b).out_.parent_beads = b.parent_beads
      ∧ (Map_Ellipsoid.axes lib matrix_ pos0 m b).out_.pos = b.pos
      ∧ (Map_Ellipsoid.axes lib matrix_ pos0 m b).out_.vel = b.vel
      ∧ (Map_Ellipsoid.axes lib matrix_ pos0 m b).out_.f = b.f
      ∧ (Map_Ellipsoid.axes lib matrix_ pos0 m b).raised ≠ some ApplyError.half_box := by
  unfold Map_Ellipsoid.axes
  split
  · split
    · exact ⟨rfl, rfl, rfl, rfl, by simp⟩
    · split
      · split
        · exact ⟨rfl, rfl, rfl, rfl, by simp⟩
        · exact ⟨rfl, rfl, rfl, rfl, by simp⟩
      · exact ⟨rfl, rfl, rfl, rfl, by simp⟩
  · exact ⟨rfl, rfl, rfl, rfl, by simp⟩

/-- Map_Ellipsoid::Apply past the safety check: whatever happens while the axes are built,
the parent-bead list, position, velocity and force of the output bead are those of the
writes at lines 343-351, and no half-box error is raised any more. -/
theorem Map_Ellipsoid.Apply_fields (self : Map_Ellipsoid) (lib : EigenLib)
    (bc : BoundaryCondition) (front : element_t) (rest : List element_t)
    (h : self.matrix_ = front :: rest) (out_ : Bead)
    (hsmall : ¬ bigger_than_half_box bc
      (self.matrix_.foldl (Map_Sphere.pos_step bc (reference_pos front))
        (pos_loop_init bc front front.in_)).max_bead_dist2 = true) :
    (self.Apply lib bc out_).out_.parent_beads = self.matrix_.map (fun e => e.in_.id)
      ∧ (self.Apply lib bc out_).out_.pos
        = ((write_patch none (self.matrix_.map (fun e => e.in_.id))
            (self.matrix_.foldl (Map_Sphere.pos_step bc (reference_pos front))
              (pos_loop_init bc front front.in_)).bPos
            (self.matrix_.foldl (Map_Sphere.pos_step bc (reference_pos front))
              (pos_loop_init bc front front.in_)).cg
            (self.matrix_.foldl Map_Ellipsoid.vel_step vel_loop_init)).apply out_).pos
      ∧ (self.Apply lib bc out_).out_.vel
        = ((write_patch none (self.matrix_.map (fun e => e.in_.id))
            (self.matrix_.foldl (Map_Sphere.pos_step bc (reference_pos front))
              (pos_loop_init bc front front.in_)).bPos
            (self.matrix_.foldl (Map_Sphere.pos_step bc (reference_pos front))
              (pos_loop_init bc front front.in_)).cg
            (self.matrix_.foldl Map_Ellipsoid.vel_step vel_loop_init)).apply out_).vel
      ∧ (self.Apply lib bc out_).out_.f
        = ((write_patch none (self.matrix_.map (fun e => e.in_.id))
            (self.matrix_.foldl (Map_Sphere.pos_step bc (reference_pos front))
              (pos_loop_init bc front front.in_)).bPos
            (self.matrix_.foldl (Map_Sphere.pos_step bc (reference_pos front))
              (pos_loop_init bc front front.in_)).cg
            (self.matrix_.foldl Map_Ellipsoid.vel_step vel_loop_init)).apply out_).f
      ∧ (self.Apply lib bc out_).raised ≠ some ApplyError.half_box := by
  rw [Map_Ellipsoid.Apply_cons_ellipsoid self lib bc front rest h out_, if_neg hsmall]
  split
  · exact ⟨rfl, rfl, rfl, rfl, by simp⟩
  · split
    · exact ⟨rfl, rfl, rfl, rfl, by simp⟩
    · obtain ⟨h1, h2, h3, h4, h5⟩ := Map_Ellipsoid.axes_keeps lib self.matrix_ _ _
        ((write_patch none (self.matrix_.map (fun e => e.in_.id))
            (self.matrix_.foldl (Map_Sphere.pos_step bc (reference_pos front))
              (pos_loop_init bc front front.in_)).bPos
            (self.matrix_.foldl (Map_Sphere.pos_step bc (reference_pos front))
              (pos_loop_init bc front front.in_)).cg
            (self.matrix_.foldl Map_Ellipsoid.vel_step vel_loop_init)).apply out_)
      rename_i pos0 hp m hg
      exact ⟨h1, h2, h3, h4, h5⟩

/-- C13: after an Apply of a spherical or an ellipsoidal bead map that does not raise, the
parent-bead list of the output bead is the list of the ids of the source beads, in list
order, whatever it was before the call. -/
theorem C13_parent_beads_rebuilt (map_ : BeadMap) (lib : EigenLib) (bc : BoundaryCondition)
    (out_ : Bead) (hok : (map_.Apply lib bc out_).raised = none) :
    (map_.Apply lib bc out_).out_.parent_beads = map_.matrix_.map (fun e => e.in_.id) := by
  cases map_ with
  | Spherical o map => exact (Map_Sphere.Apply_ok_fields map bc out_ hok).1
  | Ellipsoidal o map =>
    simp only [BeadMap.Apply, BeadMap.matrix_] at hok ⊢
    cases hm : map.matrix_ with
    | nil =>
      unfold Map_Ellipsoid.Apply at hok
      rw [hm] at hok
      simp at hok
    | cons front rest =>
      by_cases hbig : bigger_than_half_box bc
          (map.matrix_.foldl (Map_Sphere.pos_step bc (reference_pos front))
            (pos_loop_init bc front front.in_)).max_bead_dist2 = true
      · rw [Map_Ellipsoid.Apply_cons_ellipsoid map lib bc front rest hm out_,
          if_pos hbig] at hok
        simp at hok
      · rw [← hm]
        exact (Map_Ellipsoid.Apply_fields map lib bc front rest hm out_ hbig).1

/-- C14: on the same element list, boundary condition and output bead Map_Ellipsoid::Apply
raises the half-box error exactly when Map_Sphere::Apply does, and when neither raises they
leave the same position, velocity, force and parent-bead list on the output bead. -/
theorem C14_ellipsoid_agrees_with_sphere (self : Map_Ellipsoid) (lib : EigenLib)
    (bc : BoundaryCondition) (out_ : Bead) :
    ((self.Apply lib bc out_).raised = some ApplyError.half_box
        ↔ (self.toMap_Sphere.Apply bc out_).raised = some ApplyError.half_box)
      ∧ ((self.Apply lib bc out_).raised = none →
          (self.toMap_Sphere.Apply bc out_).raised = none →
          (self.Apply lib bc out_).out_.pos = (self.toMap_Sphere.Apply bc out_).out_.pos
            ∧ (self.Apply lib bc out_).out_.vel = (self.toMap_Sphere.Apply bc out_).out_.vel
            ∧ (self.Apply lib bc out_).out_.f = (self.toMap_Sphere.Apply bc out_).out_.f
            ∧ (self.Apply lib bc out_).out_.parent_beads
              = (self.toMap_Sphere.Apply bc out_).out_.parent_beads) := by
  cases hm : self.matrix_ with
  | nil =>
    have hE : self.Apply lib bc out_
        = { out_ := out_.ClearParentBeads, raised := some ApplyError.out_of_range } := by
      unfold Map_Ellipsoid.Apply
      rw [hm]
    have hS : self.toMap_Sphere.Apply bc out_
        = { out_ := out_.ClearParentBeads, raised := some ApplyError.out_of_range } := by
      unfold Map_Sphere.Apply
      rw [hm]
    rw [hE, hS]
    simp
  | cons front rest =>
    have hS := Map_Sphere.Apply_eq_patch self.toMap_Sphere bc front rest hm out_
    obtain ⟨hv, hf, hbv, hbf⟩ := vel_fold_agree self.matrix_ vel_loop_init vel_loop_init
      rfl rfl rfl rfl
    by_cases hbig : bigger_than_half_box bc
        (self.matrix_.foldl (Map_Sphere.pos_step bc (reference_pos front))
          (pos_loop_init bc front front.in_)).max_bead_dist2 = true
    · have hE := Map_Ellipsoid.Apply_cons_ellipsoid self lib bc front rest hm out_
      rw [if_pos hbig] at hE hS
      rw [hE, hS]
      simp
    · obtain ⟨h1, h2, h3, h4, h5⟩ :=
        Map_Ellipsoid.Apply_fields self lib bc front rest hm out_ hbig
      rw [if_neg hbig] at hS
      constructor
      · constructor
        · intro h
          exact absurd h h5
        · intro h
          rw [hS] at h
          simp at h
      · intro _ _
        rw [h1, h2, h3, h4, hS]
        refine ⟨?_, ?_, ?_, ?_⟩
        · rfl
        · simp only [write_patch, BeadPatch.apply, hv, hbv]
        · simp only [write_patch, BeadPatch.apply, hf, hbf]
        · rfl

/-! ## Map::Apply -/

/-- Whatever the outcome, an Apply of a bead map overwrites members of the output bead with
values that do not depend on that bead, and raises or not independently of it. -/
theorem BeadMap.Apply_is_patch (map_ : BeadMap) (lib : EigenLib) (bc : BoundaryCondition) :
    ∃ (p : BeadPatch) (r : Option ApplyError), ∀ out_ : Bead,
      map_.Apply lib bc out_ = { out_ := p.apply out_, raised := r } := by
  cases map_ with
  | Spherical o map =>
    simp only [BeadMap.Apply]
    cases hm : map.matrix_ with
    | nil =>
      refine ⟨{ BeadPatch.id with parent_beads := some [] }, some ApplyError.out_of_range, ?_⟩
      intro out_
      unfold Map_Sphere.Apply
      rw [hm]
      rfl
    | cons front rest =>
      by_cases hbig : bigger_than_half_box bc
          (map.matrix_.foldl (Map_Sphere.pos_step bc (reference_pos front))
            (pos_loop_init bc front front.in_)).max_bead_dist2 = true
      · exact ⟨_, _, fun out_ =>
          (Map_Sphere.Apply_eq_patch map bc front rest hm out_).trans (if_pos hbig)⟩
      · exact ⟨_, _, fun out_ =>
          (Map_Sphere.Apply_eq_patch map bc front rest hm out_).trans (if_neg hbig)⟩
  | Ellipsoidal o map =>
    simp only [BeadMap.Apply]
    cases hm : map.matrix_ with
    | nil =>
      refine ⟨{ BeadPatch.id with parent_beads := some [] }, some ApplyError.out_of_range, ?_⟩
      intro out_
      unfold Map_Ellipsoid.Apply
      rw [hm]
      rfl
    | cons front rest =>
      by_cases hbig : bigger_than_half_box bc
          (map.matrix_.foldl (Map_Sphere.pos_step bc (reference_pos front))
            (pos_loop_init bc front front.in_)).max_bead_dist2 = true
      · exact ⟨_, _, fun out_ =>
          (Map_Ellipsoid.Apply_cons_ellipsoid map lib bc front rest hm out_).trans
            (if_pos hbig)⟩
      · cases hp : front.in_.pos with
        | none =>
          have hE : ∀ out_ : Bead, map.Apply lib bc out_
              = { out_ := BeadPatch.apply
                    { BeadPatch.id with
                      u := some Vec3.UnitX, v := some Vec3.UnitY, w := some Vec3.UnitZ }
                    ((write_patch none (map.matrix_.map (fun e => e.in_.id))
                      (map.matrix_.foldl (Map_Sphere.pos_step bc (reference_pos front))
                        (pos_loop_init bc front front.in_)).bPos
                      (map.matrix_.foldl (Map_Sphere.pos_step bc (reference_pos front))
                        (pos_loop_init bc front front.in_)).cg
                      (map.matrix_.foldl Map_Ellipsoid.vel_step vel_loop_init)).apply out_),
                  raised := none } := by
            intro out_
            rw [Map_Ellipsoid.Apply_cons_ellipsoid map lib bc front rest hm out_,
              if_neg hbig]
            simp only [hp]
            rfl
          exact ⟨BeadPatch.comp _ _, none, fun out_ => (hE out_).trans
            (congrArg (fun b => ApplyOutcome.mk b none) (BeadPatch.apply_comp _ _ out_).symm)⟩
        | some pos0 =>
          cases hg : Map_Ellipsoid.gyration
              ((map.matrix_.foldl Map_Ellipsoid.vel_step vel_loop_init).c.divScalar
                (map.matrix_.foldl Map_Ellipsoid.vel_step vel_loop_init).n)
              map.matrix_.length map.matrix_ Matrix3d.Zero with
          | none =>
            have hE : ∀ out_ : Bead, map.Apply lib bc out_
                = { out_ := (write_patch none (map.matrix_.map (fun e => e.in_.id))
                    (map.matrix_.foldl (Map_Sphere.pos_step bc (reference_pos front))
                      (pos_loop_init bc front front.in_)).bPos
                    (map.matrix_.foldl (Map_Sphere.pos_step bc (reference_pos front))
                      (pos_loop_init bc front front.in_)).cg
                    (map.matrix_.foldl Map_Ellipsoid.vel_step vel_loop_init)).apply out_,
                    raised := some ApplyError.pos_not_set } := by
              intro out_
              rw [Map_Ellipsoid.Apply_cons_ellipsoid map lib bc front rest hm out_,
                if_neg hbig]
              simp only [hp, hg]
            exact ⟨_, _, hE⟩
          | some m =>
            obtain ⟨q, r, hq⟩ := Map_Ellipsoid.axes_patch lib map.matrix_ pos0 m
            have hE : ∀ out_ : Bead, map.Apply lib bc out_
                = { out_ := q.apply ((write_patch none (map.matrix_.map (fun e => e.in_.id))
                    (map.matrix_.foldl (Map_Sphere.pos_step bc (reference_pos front))
                      (pos_loop_init bc front front.in_)).bPos
                    (map.matrix_.foldl (Map_Sphere.pos_step bc (reference_pos front))
                      (pos_loop_init bc front front.in_)).cg
                    (map.matrix_.foldl Map_Ellipsoid.vel_step vel_loop_init)).apply out_),
                    raised := r } := by
              intro out_
              rw [Map_Ellipsoid.Apply_cons_ellipsoid map lib bc front rest hm out_,
                if_neg hbig]
              simp only [hp, hg]
              rw [hq]
            exact ⟨BeadPatch.comp q _, r, fun out_ => (hE out_).trans
              (congrArg (fun b => ApplyOutcome.mk b r) (BeadPatch.apply_comp _ _ out_).symm)⟩

/-- Map::Apply overwrites members of the output beads with values that do not depend on
these beads, and raises or not independently of them. -/
theorem Map.apply_loop_is_patch (lib : EigenLib) (bc : BoundaryCondition)
    (maps_ : List BeadMap) :
    ∃ (P : ℕ → BeadPatch) (r : Option ApplyError), ∀ beads : ℕ → Bead,
      (Map.apply_loop lib bc maps_ beads).raised = r
        ∧ ∀ o, (Map.apply_loop lib bc maps_ beads).beads o = (P o).apply (beads o) := by
  induction maps_ with
  | nil => exact ⟨fun _ => BeadPatch.id, none, fun beads => ⟨rfl, fun o => rfl⟩⟩
  | cons map_ rest ih =>
    obtain ⟨p, rm, hp⟩ := BeadMap.Apply_is_patch map_ lib bc
    obtain ⟨P, r, hP⟩ := ih
    cases rm with
    | some e =>
      refine ⟨fun o => if o = map_.out_ then p else BeadPatch.id, some e, fun beads => ?_⟩
      unfold Map.apply_loop
      simp only [hp]
      refine ⟨trivial, fun o => ?_⟩
      by_cases ho : o = map_.out_
      · subst ho
        simp
      · simp [ho, Function.update_noteq ho, BeadPatch.apply_id]
    | none =>
      refine ⟨fun o => if o = map_.out_ then (P o).comp p else P o, r, fun beads => ?_⟩
      unfold Map.apply_loop
      simp only [hp]
      obtain ⟨h1, h2⟩ := hP (Function.update beads map_.out_ (p.apply (beads map_.out_)))
      refine ⟨h1, fun o => ?_⟩
      rw [h2 o]
      by_cases ho : o = map_.out_
      · subst ho
        simp [BeadPatch.apply_comp]
      · simp [ho, Function.update_noteq ho]

/-- C12: when Map::Apply does not raise, applying it a second time, with the source beads
and the boundary condition unchanged, does not raise either and leaves every output bead
(mass, position, velocity, force, axes, parent-bead list) exactly as the first application
left it. -/
theorem C12_map_apply_idempotent (self : Map) (lib : EigenLib) (bc : BoundaryCondition)
    (beads : ℕ → Bead) (hok : (self.Apply lib bc beads).raised = none) :
    (self.Apply lib bc (self.Apply lib bc beads).beads).raised = none
      ∧ (self.Apply lib bc (self.Apply lib bc beads).beads).beads
        = (self.Apply lib bc beads).beads := by
  obtain ⟨P, r, hP⟩ := Map.apply_loop_is_patch lib bc self.maps_
  unfold Map.Apply at hok ⊢
  constructor
  · rw [(hP _).1, ← (hP beads).1]
    exact hok
  · funext o
    rw [(hP _).2 o, (hP beads).2 o, BeadPatch.apply_idem]

/-- Map::Apply over bead maps that write to pairwise distinct output beads, none of which
raises on its own output bead: it does not raise, every output bead that has a bead map is
what that bead map alone makes of it, and every other bead is untouched. -/
theorem Map.apply_loop_distinct (lib : EigenLib) (bc : BoundaryCondition)
    (maps_ : List BeadMap) (beads : ℕ → Bead)
    (hd : (maps_.map BeadMap.out_).Nodup)
    (hok : ∀ m ∈ maps_, (m.Apply lib bc (beads m.out_)).raised = none) :
    (Map.apply_loop lib bc maps_ beads).raised = none
      ∧ (∀ m ∈ maps_, (Map.apply_loop lib bc maps_ beads).beads m.out_
          = (m.Apply lib bc (beads m.out_)).out_)
      ∧ ∀ o, (∀ m ∈ maps_, m.out_ ≠ o) →
          (Map.apply_loop lib bc maps_ beads).beads o = beads o := by
  induction maps_ generalizing beads with
  | nil =>
    refine ⟨rfl, ?_, fun o _ => rfl⟩
    intro m hm
    cases hm
  | cons map_ rest ih =>
    rw [List.map_cons, List.nodup_cons] at hd
    obtain ⟨hnot, hd'⟩ := hd
    have hne : ∀ m ∈ rest, m.out_ ≠ map_.out_ := by
      intro m hm heq
      exact hnot (heq ▸ List.mem_map_of_mem BeadMap.out_ hm)
    have hhead := hok map_ (List.mem_cons_self _ _)
    have hok' : ∀ m ∈ rest,
        (m.Apply lib bc (Function.update beads map_.out_
          (map_.Apply lib bc (beads map_.out_)).out_ m.out_)).raised = none := by
      intro m hm
      rw [Function.update_noteq (hne m hm)]
      exact hok m (List.mem_cons_of_mem _ hm)
    obtain ⟨h1, h2, h3⟩ := ih _ hd' hok'
    have hstep : Map.apply_loop lib bc (map_ :: rest) beads
        = Map.apply_loop lib bc rest (Function.update beads map_.out_
            (map_.Apply lib bc (beads map_.out_)).out_) := by
      rw [Map.apply_loop]
      simp only [hhead]
    rw [hstep]
    refine ⟨h1, ?_, ?_⟩
    · intro m hm
      rcases List.mem_cons.mp hm with heq | hmem
      · subst heq
        rw [h3 _ (fun m' hm' => hne m' hm'), Function.update_same]
      · rw [h2 m hmem, Function.update_noteq (hne m hmem)]
    · intro o ho
      have ho' : o ≠ map_.out_ := fun h => ho map_ (List.mem_cons_self _ _) h.symm
      rw [h3 o (fun m hm => ho m (List.mem_cons_of_mem _ hm)), Function.update_noteq ho']

/-- C20: for bead maps that write to pairwise distinct output beads and none of which raises
for the given boundary condition and bead state, Map::Apply does not raise and leaves the
same output beads for every ordering of the bead maps. -/
theorem C20_map_apply_order_irrelevant (self other : Map) (lib : EigenLib)
    (bc : BoundaryCondition) (beads : ℕ → Bead)
    (hperm : other.maps_.Perm self.maps_)
    (hd : (self.maps_.map BeadMap.out_).Nodup)
    (hok : ∀ m ∈ self.maps_, (m.Apply lib bc (beads m.out_)).raised = none) :
    (self.Apply lib bc beads).raised = none
      ∧ (other.Apply lib bc beads).raised = none
      ∧ (other.Apply lib bc beads).beads = (self.Apply lib bc beads).beads := by
  have hd' : (other.maps_.map BeadMap.out_).Nodup := (hperm.map _).nodup_iff.mpr hd
  have hok' : ∀ m ∈ other.maps_, (m.Apply lib bc (beads m.out_)).raised = none :=
    fun m hm => hok m (hperm.mem_iff.mp hm)
  obtain ⟨s1, s2, s3⟩ := Map.apply_loop_distinct lib bc self.maps_ beads hd hok
  obtain ⟨o1, o2, o3⟩ := Map.apply_loop_distinct lib bc other.maps_ beads hd' hok'
  refine ⟨s1, o1, ?_⟩
  unfold Map.Apply
  funext o
  by_cases hex : ∃ m ∈ self.maps_, m.out_ = o
  · obtain ⟨m, hm, rfl⟩ := hex
    rw [s2 m hm, o2 m (hperm.mem_iff.mpr hm)]
  · have hs : ∀ m ∈ self.maps_, m.out_ ≠ o := fun m hm h => hex ⟨m, hm, h⟩
    rw [s3 o hs, o3 o (fun m hm => hs m (hperm.mem_iff.mp hm))]

/-! ## The axes written by Map_Ellipsoid::Apply -/

theorem rat_sqrt_of_sq (q r : ℚ) (hr : 0 ≤ r) (h : q = r * r) : Rat.sqrt q = r := by
  rw [h, Rat.sqrt_eq, abs_of_nonneg hr]

/-- The outcome of Map_Ellipsoid::Apply on `tetra_matrix` in the open box. -/
theorem tetra_ellipsoid_apply (negate : Bool) :
    tetra_ellipsoid.Apply (exact_eigen negate) open_bc sample_out
      = { out_ := { sample_out with
            pos := some ⟨-1 / 2, 0, 0⟩
            u := some ⟨-1, 0, 0⟩
            v := some ⟨3 / 5, 0, 4 / 5⟩
            w := some ⟨0, 1, 0⟩
            parent_beads := [0, 1, 2, 3] },
          raised := none } := by
  have h25 : Rat.sqrt 25 = 5 := rat_sqrt_of_sq 25 5 (by norm_num) (by norm_num)
  have h1625 : Rat.sqrt (16 / 25) = 4 / 5 :=
    rat_sqrt_of_sq (16 / 25) (4 / 5) (by norm_num) (by norm_num)
  cases negate <;>
    simp only [Map_Ellipsoid.Apply, tetra_ellipsoid, tetra_matrix, sample_bead, sample_out,
      open_bc, OpenBox.toBoundaryCondition, OpenBox.getBoxType, OpenBox.BCShortestConnection,
      Map_Ellipsoid.pos_step, Map_Ellipsoid.vel_step, bigger_than_half_box, normGt,
      Vec3.squaredNorm, Vec3.zero_def, Vec3.add_def, Vec3.sub_def, Vec3.neg_def, Vec3.smul,
      List.foldl, Vec3.Zero, reference_pos, pos_loop_init, vel_loop_init,
      Map_Ellipsoid.gyration, Map_Ellipsoid.axes, write_pos_vel_f, Bead.setPos, Bead.setVel,
      Bead.setF, Bead.setU, Bead.setV, Bead.setW, Bead.AddParentBead, Bead.ClearParentBeads,
      exact_eigen, Vec3.divScalar, Vec3.cross, Vec3.dot, Matrix3d.add, Matrix3d.outerDiv,
      Matrix3d.Zero, Vec3.UnitX, Vec3.UnitY, Vec3.UnitZ, List.length] <;>
    norm_num [h25, h1625, Map_Ellipsoid.gyration, Map_Ellipsoid.axes]

/-! ## Witnesses for the properties of Apply -/

/-- On the sample configuration in the open box Map_Sphere::Apply completes. -/
theorem sample_sphere_open_ok : (sample_sphere.Apply open_bc sample_out).raised = none := by
  simp [Map_Sphere.Apply, sample_sphere, sample_matrix, open_bc, OpenBox.toBoundaryCondition,
    OpenBox.getBoxType, bigger_than_half_box]

/-- Every bead map of `sample_map` completes on the sample output beads in the open box. -/
theorem sample_map_maps_ok :
    ∀ m ∈ sample_map.maps_,
      (m.Apply (exact_eigen false) open_bc (sample_beads m.out_)).raised = none := by
  intro m hm
  simp only [sample_map, List.mem_cons, List.mem_singleton, List.not_mem_nil, or_false] at hm
  rcases hm with rfl | rfl
  · exact sample_sphere_open_ok
  · simp only [BeadMap.Apply, BeadMap.out_, sample_beads]
    rw [tetra_ellipsoid_apply]

theorem sample_map_distinct : (sample_map.maps_.map BeadMap.out_).Nodup := by
  simp [sample_map, BeadMap.out_]

/-- Witness for C11 (amended): the sample map completes in the cubic box, a source bead has a
position, and the output bead, which had none, has one afterwards. -/
theorem C11_attribute_presence_witness :
    (sample_sphere.Apply cubic_bc sample_out).raised = none
      ∧ (sample_sphere.Apply cubic_bc sample_out).out_.HasPos = true :=
  ⟨sample_sphere_cubic_ok,
    (C11_attribute_presence sample_sphere cubic_bc sample_out sample_sphere_cubic_ok).1.1.mpr
      (Or.inl ⟨_, List.mem_cons_self _ _, rfl⟩)⟩

/-- Witness for C12: `sample_map` applied twice in the open box. -/
theorem C12_map_apply_idempotent_witness :
    (sample_map.Apply (exact_eigen false) open_bc sample_beads).raised = none
      ∧ (sample_map.Apply (exact_eigen false) open_bc
            (sample_map.Apply (exact_eigen false) open_bc sample_beads).beads).raised = none
      ∧ (sample_map.Apply (exact_eigen false) open_bc
            (sample_map.Apply (exact_eigen false) open_bc sample_beads).beads).beads
          = (sample_map.Apply (exact_eigen false) open_bc sample_beads).beads :=
  have hok : (sample_map.Apply (exact_eigen false) open_bc sample_beads).raised = none :=
    (Map.apply_loop_distinct (exact_eigen false) open_bc sample_map.maps_ sample_beads
      sample_map_distinct sample_map_maps_ok).1
  ⟨hok, C12_map_apply_idempotent sample_map (exact_eigen false) open_bc sample_beads hok⟩

/-- Witness for C13: the output bead of the sample map carried the parent beads 40, 41 and
carries 0, 1, 2 afterwards. -/
theorem C13_parent_beads_rebuilt_witness :
    sample_out.parent_beads = [40, 41]
      ∧ ((BeadMap.Spherical 0 sample_sphere).Apply (exact_eigen false) cubic_bc
          sample_out).out_.parent_beads = [0, 1, 2] :=
  ⟨rfl, (C13_parent_beads_rebuilt (BeadMap.Spherical 0 sample_sphere) (exact_eigen false)
    cubic_bc sample_out sample_sphere_cubic_ok).trans (by decide)⟩

/-- Witness for C20: `sample_map` and the map with its two bead maps swapped leave the same
output beads. -/
theorem C20_map_apply_order_irrelevant_witness :
    (sample_map_reversed.Apply (exact_eigen false) open_bc sample_beads).raised = none
      ∧ (sample_map_reversed.Apply (exact_eigen false) open_bc sample_beads).beads
          = (sample_map.Apply (exact_eigen false) open_bc sample_beads).beads :=
  (C20_map_apply_order_irrelevant sample_map sample_map_reversed (exact_eigen false) open_bc
    sample_beads (List.Perm.swap _ _ _) sample_map_distinct sample_map_maps_ok).2

/-! ## CsgBoltzmann::CreateExclusionList -/

theorem mem_pairs_in_order_cons {α : Type} (a : α) (l : List α) (x y : α) :
    (x, y) ∈ pairs_in_order (a :: l) ↔ (x = a ∧ y ∈ l) ∨ (x, y) ∈ pairs_in_order l := by
  simp only [pairs_in_order, List.mem_append, List.mem_map, Prod.mk.injEq]
  constructor
  · rintro (⟨b, hb, rfl, rfl⟩ | h)
    · exact Or.inl ⟨rfl, hb⟩
    · exact Or.inr h
  · rintro (⟨rfl, hy⟩ | h)
    · exact Or.inl ⟨y, hy, rfl, rfl⟩
    · exact Or.inr h

/-- Two different members of a list form a pair of the nested loops, in one order or the
other. -/
theorem mem_pairs_in_order_of_ne {α : Type} (l : List α) (x y : α) (hx : x ∈ l) (hy : y ∈ l)
    (hxy : x ≠ y) : (x, y) ∈ pairs_in_order l ∨ (y, x) ∈ pairs_in_order l := by
  induction l with
  | nil => simp at hx
  | cons a t ih =>
    rw [mem_pairs_in_order_cons, mem_pairs_in_order_cons]
    rcases List.mem_cons.1 hx with hxa | hxt
    · rcases List.mem_cons.1 hy with hya | hyt
      · exact absurd (hxa.trans hya.symm) hxy
      · exact Or.inl (Or.inl ⟨hxa, hyt⟩)
    · rcases List.mem_cons.1 hy with hya | hyt
      · exact Or.inr (Or.inl ⟨hya, hxt⟩)
      · rcases ih hxt hyt with h | h
        · exact Or.inl (Or.inr h)
        · exact Or.inr (Or.inr h)

theorem mem_pairs_in_order_range' (n s i j : ℕ) :
    (i, j) ∈ pairs_in_order (List.range' s n) ↔ s ≤ i ∧ i < j ∧ j < s + n := by
  induction n generalizing s with
  | zero =>
    simp only [List.range', pairs_in_order, List.not_mem_nil, false_iff]
    omega
  | succ n ih =>
    rw [List.range'_succ, mem_pairs_in_order_cons, ih, List.mem_range'_1]
    omega

/-- The index pairs of the second loop of CreateExclusionList are the pairs `i < j < n`. -/
theorem mem_pairs_in_order_range (n i j : ℕ) :
    (i, j) ∈ pairs_in_order (List.range n) ↔ i < j ∧ j < n := by
  rw [List.range_eq_range', mem_pairs_in_order_range']
  omega

namespace ExclusionList

theorem IsExcluded_eq_false (ex : ExclusionList) (bead1 bead2 : Bead) :
    ex.IsExcluded bead1 bead2 = false ↔
      (bead1.id, bead2.id) ∉ ex.pairs ∧ (bead2.id, bead1.id) ∉ ex.pairs := by
  simp [IsExcluded]

theorem IsExcluded_comm (ex : ExclusionList) (bead1 bead2 : Bead) :
    ex.IsExcluded bead1 bead2 = ex.IsExcluded bead2 bead1 := by
  simp only [IsExcluded]
  exact decide_eq_decide.2 or_comm

theorem mem_RemoveExclusion (ex : ExclusionList) (bead1 bead2 : Bead) (p : ℤ × ℤ) :
    p ∈ (ex.RemoveExclusion bead1 bead2).pairs ↔
      p ∈ ex.pairs ∧ p ≠ (bead1.id, bead2.id) ∧ p ≠ (bead2.id, bead1.id) := by
  simp [RemoveExclusion, List.mem_filter]

/-- A step that only removes exclusions. -/
theorem foldl_shrinks {α : Type} (f : ExclusionList → α → ExclusionList)
    (hf : ∀ ex x, (f ex x).pairs ⊆ ex.pairs) (l : List α) (ex : ExclusionList) :
    (l.foldl f ex).pairs ⊆ ex.pairs := by
  induction l generalizing ex with
  | nil => exact fun _ h => h
  | cons a t ih => exact fun p hp => hf ex a (ih (f ex a) hp)

/-- What one step of a loop of removals removes stays removed in the rest of the loop. -/
theorem foldl_removes {α : Type} (f : ExclusionList → α → ExclusionList)
    (hf : ∀ ex x, (f ex x).pairs ⊆ ex.pairs) (l : List α) (x : α) (hx : x ∈ l) (q : ℤ × ℤ)
    (hq : ∀ ex, q ∉ (f ex x).pairs) (ex : ExclusionList) : q ∉ (l.foldl f ex).pairs := by
  induction l generalizing ex with
  | nil => simp at hx
  | cons a t ih =>
    rcases List.mem_cons.1 hx with rfl | hx
    · exact fun h => hq ex (foldl_shrinks f hf t _ h)
    · exact ih hx (f ex a)

theorem RemoveExclusion_shrinks (ex : ExclusionList) (bead1 bead2 : Bead) :
    (ex.RemoveExclusion bead1 bead2).pairs ⊆ ex.pairs :=
  fun p hp => ((mem_RemoveExclusion ex bead1 bead2 p).1 hp).1

theorem Remove_shrinks (ex : ExclusionList) (l : List Bead) : (ex.Remove l).pairs ⊆ ex.pairs :=
  foldl_shrinks (fun ex (p : Bead × Bead) => ex.RemoveExclusion p.1 p.2)
    (fun ex p => RemoveExclusion_shrinks ex p.1 p.2) (pairs_in_order l) ex

/-- Remove takes out the pair of any two beads of the list with different ids. -/
theorem Remove_removes (ex : ExclusionList) (l : List Bead) (x y : Bead) (hx : x ∈ l)
    (hy : y ∈ l) (hxy : x.id ≠ y.id) : (x.id, y.id) ∉ (ex.Remove l).pairs := by
  have hne : x ≠ y := fun h => hxy (h ▸ rfl)
  rcases mem_pairs_in_order_of_ne l x y hx hy hne with h | h
  · refine foldl_removes (fun ex (p : Bead × Bead) => ex.RemoveExclusion p.1 p.2)
      (fun ex p => RemoveExclusion_shrinks ex p.1 p.2) _ (x, y) h _ ?_ ex
    intro ex hp
    exact ((mem_RemoveExclusion ex x y _).1 hp).2.1 rfl
  · refine foldl_removes (fun ex (p : Bead × Bead) => ex.RemoveExclusion p.1 p.2)
      (fun ex p => RemoveExclusion_shrinks ex p.1 p.2) _ (y, x) h _ ?_ ex
    intro ex hp
    exact ((mem_RemoveExclusion ex y x _).1 hp).2.2 rfl

end ExclusionList

namespace CsgBoltzmann

theorem remove_parent_pairs_shrinks (top_atomistic : Topology) (ex : ExclusionList)
    (bead_i bead_j : Bead) :
    (remove_parent_pairs top_atomistic ex bead_i bead_j).pairs ⊆ ex.pairs :=
  ExclusionList.foldl_shrinks _
    (fun ex _ => ExclusionList.foldl_shrinks _
      (fun ex _ => ExclusionList.RemoveExclusion_shrinks ex _ _) _ ex) _ ex

/-- The two inner loops take out, in both orders, the pair of every parent of the first bead
with every parent of the second. -/
theorem remove_parent_pairs_removes (top_atomistic : Topology) (ex : ExclusionList)
    (bead_i bead_j : Bead) (a b : ℤ) (ha : a ∈ bead_i.parent_beads)
    (hb : b ∈ bead_j.parent_beads) :
    ((top_atomistic.getBead a).id, (top_atomistic.getBead b).id) ∉
        (remove_parent_pairs top_atomistic ex bead_i bead_j).pairs ∧
      ((top_atomistic.getBead b).id, (top_atomistic.getBead a).id) ∉
        (remove_parent_pairs top_atomistic ex bead_i bead_j).pairs := by
  constructor
  · refine ExclusionList.foldl_removes _
      (fun ex _ => ExclusionList.foldl_shrinks _
        (fun ex _ => ExclusionList.RemoveExclusion_shrinks ex _ _) _ ex) _ a ha _ ?_ ex
    intro ex
    refine ExclusionList.foldl_removes _
      (fun ex _ => ExclusionList.RemoveExclusion_shrinks ex _ _) _ b hb _ ?_ ex
    intro ex hp
    exact ((ExclusionList.mem_RemoveExclusion ex _ _ _).1 hp).2.1 rfl
  · refine ExclusionList.foldl_removes _
      (fun ex _ => ExclusionList.foldl_shrinks _
        (fun ex _ => ExclusionList.RemoveExclusion_shrinks ex _ _) _ ex) _ a ha _ ?_ ex
    intro ex
    refine ExclusionList.foldl_removes _
      (fun ex _ => ExclusionList.RemoveExclusion_shrinks ex _ _) _ b hb _ ?_ ex
    intro ex hp
    exact ((ExclusionList.mem_RemoveExclusion ex _ _ _).1 hp).2.2 rfl

/-- The step of the second loop of CreateExclusionList only removes exclusions. -/
theorem second_loop_step_shrinks (top_atomistic top_cg : Topology) (cg : Molecule)
    (ex : ExclusionList) (p : ℕ × ℕ) :
    (if top_cg.getExclusions.IsExcluded (cg.getBead p.1) (cg.getBead p.2) then
        remove_parent_pairs top_atomistic ex (cg.getBead p.1) (cg.getBead p.2)
      else ex).pairs ⊆ ex.pairs := by
  split
  · exact remove_parent_pairs_shrinks _ _ _ _
  · exact fun _ h => h

/-- Every exclusion returned by CreateExclusionList is a pair of beads of the atomistic
molecule. -/
theorem CreateExclusionList_subset (top_atomistic : Topology) (atomistic : Molecule)
    (top_cg : Topology) (cg : Molecule) :
    (CreateExclusionList top_atomistic atomistic top_cg cg).pairs ⊆
      (pairs_in_order atomistic.Beads).map (fun p => (p.1.id, p.2.id)) := by
  intro p hp
  have h1 := ExclusionList.foldl_shrinks _
    (second_loop_step_shrinks top_atomistic top_cg cg) _ _ hp
  have h2 := ExclusionList.foldl_shrinks _
    (fun ex (i : ℕ) => ExclusionList.Remove_shrinks ex
      ((cg.getBead i).parent_beads.map top_atomistic.getBead)) _ _ h1
  simpa [ExclusionList.ExcludeList] using h2

end CsgBoltzmann

/-- Claim C16: in the exclusion list returned by CsgBoltzmann::CreateExclusionList, two atoms
(beads of the atomistic topology with different ids) that are parent beads of the same bead
of the coarse-grained molecule are not excluded from each other, whatever the atomistic
molecule, the coarse-grained molecule and the exclusions of the coarse-grained topology. -/
theorem C16_parents_of_one_bead_not_excluded (top_atomistic : Topology)
    (atomistic : Molecule) (top_cg : Topology) (cg : Molecule) (i : ℕ)
    (hi : i < cg.BeadCount) (a b : ℤ)
    (ha : a ∈ (cg.getBead i).parent_beads) (hb : b ∈ (cg.getBead i).parent_beads)
    (hab : (top_atomistic.getBead a).id ≠ (top_atomistic.getBead b).id) :
    (CsgBoltzmann.CreateExclusionList top_atomistic atomistic top_cg cg).IsExcluded
      (top_atomistic.getBead a) (top_atomistic.getBead b) = false := by
  have hmem : ∀ c, c ∈ (cg.getBead i).parent_beads →
      top_atomistic.getBead c ∈ (cg.getBead i).parent_beads.map top_atomistic.getBead :=
    fun c hc => List.mem_map.2 ⟨c, hc, rfl⟩
  have key : ∀ x y : Bead,
      x ∈ (cg.getBead i).parent_beads.map top_atomistic.getBead →
      y ∈ (cg.getBead i).parent_beads.map top_atomistic.getBead → x.id ≠ y.id →
      (x.id, y.id) ∉ (CsgBoltzmann.CreateExclusionList top_atomistic atomistic top_cg cg).pairs := by
    intro x y hx hy hxy hp
    have h1 := ExclusionList.foldl_shrinks _
      (CsgBoltzmann.second_loop_step_shrinks top_atomistic top_cg cg) _ _ hp
    exact ExclusionList.foldl_removes
      (fun ex (i : ℕ) => ExclusionList.Remove ex
        ((cg.getBead i).parent_beads.map top_atomistic.getBead))
      (fun ex (i : ℕ) => ExclusionList.Remove_shrinks ex _) _ i (List.mem_range.2 hi) _
      (fun ex => ExclusionList.Remove_removes ex _ x y hx hy hxy) _ h1
  rw [ExclusionList.IsExcluded_eq_false]
  exact ⟨key _ _ (hmem a ha) (hmem b hb) hab, key _ _ (hmem b hb) (hmem a ha) (Ne.symm hab)⟩

/-- Claim C17: when the exclusion list of the coarse-grained topology reports two different
beads `i`, `j` of the coarse-grained molecule as excluded from each other, the exclusion list
returned by CsgBoltzmann::CreateExclusionList holds no exclusion between a parent atom of `i`
and a parent atom of `j`. -/
theorem C17_parents_of_excluded_beads_not_excluded (top_atomistic : Topology)
    (atomistic : Molecule) (top_cg : Topology) (cg : Molecule) (i j : ℕ)
    (hi : i < cg.BeadCount) (hj : j < cg.BeadCount) (hij : i ≠ j)
    (hex : top_cg.getExclusions.IsExcluded (cg.getBead i) (cg.getBead j) = true) (a b : ℤ)
    (ha : a ∈ (cg.getBead i).parent_beads) (hb : b ∈ (cg.getBead j).parent_beads) :
    (CsgBoltzmann.CreateExclusionList top_atomistic atomistic top_cg cg).IsExcluded
      (top_atomistic.getBead a) (top_atomistic.getBead b) = false := by
  have key : ∀ i j : ℕ, i < j → j < cg.BeadCount →
      top_cg.getExclusions.IsExcluded (cg.getBead i) (cg.getBead j) = true →
      ∀ a b : ℤ, a ∈ (cg.getBead i).parent_beads → b ∈ (cg.getBead j).parent_beads →
      ((top_atomistic.getBead a).id, (top_atomistic.getBead b).id) ∉
          (CsgBoltzmann.CreateExclusionList top_atomistic atomistic top_cg cg).pairs ∧
        ((top_atomistic.getBead b).id, (top_atomistic.getBead a).id) ∉
          (CsgBoltzmann.CreateExclusionList top_atomistic atomistic top_cg cg).pairs := by
    intro i j hlt hj hex a b ha hb
    have hstep : ∀ ex : ExclusionList,
        ((top_atomistic.getBead a).id, (top_atomistic.getBead b).id) ∉
          (if top_cg.getExclusions.IsExcluded (cg.getBead ((i, j) : ℕ × ℕ).1)
              (cg.getBead ((i, j) : ℕ × ℕ).2) then
            CsgBoltzmann.remove_parent_pairs top_atomistic ex (cg.getBead ((i, j) : ℕ × ℕ).1)
              (cg.getBead ((i, j) : ℕ × ℕ).2)
          else ex).pairs ∧
        ((top_atomistic.getBead b).id, (top_atomistic.getBead a).id) ∉
          (if top_cg.getExclusions.IsExcluded (cg.getBead ((i, j) : ℕ × ℕ).1)
              (cg.getBead ((i, j) : ℕ × ℕ).2) then
            CsgBoltzmann.remove_parent_pairs top_atomistic ex (cg.getBead ((i, j) : ℕ × ℕ).1)
              (cg.getBead ((i, j) : ℕ × ℕ).2)
          else ex).pairs := by
      intro ex
      rw [if_pos hex]
      exact CsgBoltzmann.remove_parent_pairs_removes top_atomistic ex _ _ a b ha hb
    have hin : ((i, j) : ℕ × ℕ) ∈ pairs_in_order (List.range cg.BeadCount) :=
      (mem_pairs_in_order_range _ i j).2 ⟨hlt, hj⟩
    exact ⟨ExclusionList.foldl_removes _
        (CsgBoltzmann.second_loop_step_shrinks top_atomistic top_cg cg) _ (i, j) hin _
        (fun ex => (hstep ex).1) _,
      ExclusionList.foldl_removes _
        (CsgBoltzmann.second_loop_step_shrinks top_atomistic top_cg cg) _ (i, j) hin _
        (fun ex => (hstep ex).2) _⟩
  rw [ExclusionList.IsExcluded_eq_false]
  rcases Nat.lt_or_gt_of_ne hij with hlt | hgt
  · exact key i j hlt hj hex a b ha hb
  · rw [ExclusionList.IsExcluded_comm] at hex
    exact (key j i hgt hi hex b a hb ha).symm

/-- The three-atom chain mapped into one bead: CreateExclusionList returns no exclusion. -/
theorem chain_exclusions :
    (CsgBoltzmann.CreateExclusionList atoms_top chain_atomistic chain_cg_top chain_cg).pairs
      = [] := by
  decide

/-- Witness for C16: the three-atom chain 0-1-2 mapped into one bead; the atoms 0 and 2 are
parents of that bead and are not excluded from each other, and the result holds no exclusion
at all. -/
theorem C16_parents_of_one_bead_not_excluded_witness :
    0 < chain_cg.BeadCount
      ∧ (0 : ℤ) ∈ (chain_cg.getBead ((0 : ℕ) : ℤ)).parent_beads
      ∧ (2 : ℤ) ∈ (chain_cg.getBead ((0 : ℕ) : ℤ)).parent_beads
      ∧ (atoms_top.getBead 0).id ≠ (atoms_top.getBead 2).id
      ∧ (CsgBoltzmann.CreateExclusionList atoms_top chain_atomistic chain_cg_top
          chain_cg).IsExcluded (atoms_top.getBead 0) (atoms_top.getBead 2) = false :=
  ⟨by decide, by decide, by decide, by decide,
    C16_parents_of_one_bead_not_excluded atoms_top chain_atomistic chain_cg_top chain_cg 0
      (by decide) 0 2 (by decide) (by decide) (by decide)⟩

/-- Two atoms mapped one to one onto two beads: CreateExclusionList returns no exclusion when
the two beads are excluded from each other in the coarse-grained topology, and the exclusion
of the two atoms when they are not. -/
theorem pair_exclusions :
    (CsgBoltzmann.CreateExclusionList atoms_top pair_atomistic (pair_cg_top [(0, 1)])
        pair_cg).pairs = [] ∧
    (CsgBoltzmann.CreateExclusionList atoms_top pair_atomistic (pair_cg_top [])
        pair_cg).pairs = [(0, 1)] := by
  decide

/-- Witness for C17: two atoms mapped one to one onto two beads that the coarse-grained
topology excludes from each other; the two atoms are not excluded from each other in the
result. -/
theorem C17_parents_of_excluded_beads_not_excluded_witness :
    (pair_cg_top [(0, 1)]).getExclusions.IsExcluded (pair_cg.getBead ((0 : ℕ) : ℤ))
        (pair_cg.getBead ((1 : ℕ) : ℤ)) = true
      ∧ (0 : ℤ) ∈ (pair_cg.getBead ((0 : ℕ) : ℤ)).parent_beads
      ∧ (1 : ℤ) ∈ (pair_cg.getBead ((1 : ℕ) : ℤ)).parent_beads
      ∧ (CsgBoltzmann.CreateExclusionList atoms_top pair_atomistic (pair_cg_top [(0, 1)])
          pair_cg).IsExcluded (atoms_top.getBead 0) (atoms_top.getBead 1) = false :=
  ⟨by decide, by decide, by decide,
    C17_parents_of_excluded_beads_not_excluded atoms_top pair_atomistic (pair_cg_top [(0, 1)])
      pair_cg 0 1 (by decide) (by decide) (by decide) (by decide) 0 1 (by decide) (by decide)⟩

/-! ## Structure decomposition: the connected components -/

theorem touches_iff (e : ℤ × ℤ) (c : List ℤ) : touches e c = true ↔ e.1 ∈ c ∨ e.2 ∈ c := by
  simp [touches]

theorem merge_classes_of_no_hit (classes : List (List ℤ)) (e : ℤ × ℤ)
    (h : classes.filter (touches e) = []) : merge_classes classes e = classes := by
  simp [merge_classes, h]

theorem merge_classes_of_hit (classes : List (List ℤ)) (e : ℤ × ℤ)
    (h : classes.filter (touches e) ≠ []) :
    merge_classes classes e =
      (classes.filter (touches e)).flatten :: classes.filter (fun c => !touches e c) := by
  simp [merge_classes, h]

/-- Merging classes keeps the vertices. -/
theorem merge_classes_perm (classes : List (List ℤ)) (e : ℤ × ℤ) :
    (merge_classes classes e).flatten.Perm classes.flatten := by
  by_cases h : classes.filter (touches e) = []
  · rw [merge_classes_of_no_hit _ _ h]
  · rw [merge_classes_of_hit _ _ h, List.flatten_cons, ← List.flatten_append]
    exact (List.filter_append_perm (touches e) classes).flatten

theorem merge_classes_nonempty (classes : List (List ℤ)) (e : ℤ × ℤ)
    (hne : ∀ c ∈ classes, c ≠ []) : ∀ c ∈ merge_classes classes e, c ≠ [] := by
  by_cases h : classes.filter (touches e) = []
  · rw [merge_classes_of_no_hit _ _ h]
    exact hne
  · rw [merge_classes_of_hit _ _ h]
    intro c hc
    rcases List.mem_cons.1 hc with rfl | hc
    · obtain ⟨c0, hc0⟩ := List.exists_mem_of_ne_nil _ h
      obtain ⟨x, hx⟩ := List.exists_mem_of_ne_nil _ (hne c0 (List.mem_filter.1 hc0).1)
      exact List.ne_nil_of_mem (List.mem_flatten.2 ⟨c0, hc0, hx⟩)
    · exact hne c (List.mem_filter.1 hc).1

/-- Two vertices of one class stay in one class. -/
theorem merge_classes_same_class (classes : List (List ℤ)) (e : ℤ × ℤ) (u v : ℤ)
    (h : ∃ c ∈ classes, u ∈ c ∧ v ∈ c) : ∃ c ∈ merge_classes classes e, u ∈ c ∧ v ∈ c := by
  by_cases hhit : classes.filter (touches e) = []
  · rw [merge_classes_of_no_hit _ _ hhit]
    exact h
  · rw [merge_classes_of_hit _ _ hhit]
    obtain ⟨c, hc, hu, hv⟩ := h
    by_cases ht : touches e c = true
    · have hcf : c ∈ classes.filter (touches e) := List.mem_filter.2 ⟨hc, ht⟩
      exact ⟨_, List.mem_cons_self _ _, List.mem_flatten.2 ⟨c, hcf, hu⟩,
        List.mem_flatten.2 ⟨c, hcf, hv⟩⟩
    · exact ⟨c, List.mem_cons_of_mem _ (List.mem_filter.2 ⟨hc, by simpa using ht⟩), hu, hv⟩

/-- The endpoints of the merged edge are in one class afterwards. -/
theorem merge_classes_joins (classes : List (List ℤ)) (e : ℤ × ℤ)
    (h1 : ∃ c ∈ classes, e.1 ∈ c) (h2 : ∃ c ∈ classes, e.2 ∈ c) :
    ∃ c ∈ merge_classes classes e, e.1 ∈ c ∧ e.2 ∈ c := by
  obtain ⟨c1, hc1, he1⟩ := h1
  obtain ⟨c2, hc2, he2⟩ := h2
  have hf1 : c1 ∈ classes.filter (touches e) :=
    List.mem_filter.2 ⟨hc1, (touches_iff e c1).2 (Or.inl he1)⟩
  have hf2 : c2 ∈ classes.filter (touches e) :=
    List.mem_filter.2 ⟨hc2, (touches_iff e c2).2 (Or.inr he2)⟩
  rw [merge_classes_of_hit _ _ (List.ne_nil_of_mem hf1)]
  exact ⟨_, List.mem_cons_self _ _, List.mem_flatten.2 ⟨c1, hf1, he1⟩,
    List.mem_flatten.2 ⟨c2, hf2, he2⟩⟩

/-- Merging along an edge keeps the vertices of a class related by any equivalence that
relates the endpoints of the edge. -/
theorem merge_classes_sound (R : ℤ → ℤ → Prop) (hR : Equivalence R) (classes : List (List ℤ))
    (e : ℤ × ℤ) (he : R e.1 e.2) (h : ∀ c ∈ classes, ∀ u ∈ c, ∀ v ∈ c, R u v) :
    ∀ c ∈ merge_classes classes e, ∀ u ∈ c, ∀ v ∈ c, R u v := by
  by_cases hhit : classes.filter (touches e) = []
  · rw [merge_classes_of_no_hit _ _ hhit]
    exact h
  · rw [merge_classes_of_hit _ _ hhit]
    have hto : ∀ u, u ∈ (classes.filter (touches e)).flatten → R u e.1 := by
      intro u hu
      obtain ⟨c, hc, huc⟩ := List.mem_flatten.1 hu
      obtain ⟨hcl, ht⟩ := List.mem_filter.1 hc
      rcases (touches_iff e c).1 ht with h1 | h2
      · exact h c hcl u huc _ h1
      · exact hR.trans (h c hcl u huc _ h2) (hR.symm he)
    intro c hc u hu v hv
    rcases List.mem_cons.1 hc with rfl | hc
    · exact hR.trans (hto u hu) (hR.symm (hto v hv))
    · exact h c (List.mem_filter.1 hc).1 u hu v hv

theorem foldl_merge_perm (edges : List (ℤ × ℤ)) (classes : List (List ℤ)) :
    (edges.foldl merge_classes classes).flatten.Perm classes.flatten := by
  induction edges generalizing classes with
  | nil => exact List.Perm.refl _
  | cons e t ih => exact (ih _).trans (merge_classes_perm classes e)

theorem foldl_merge_nonempty (edges : List (ℤ × ℤ)) (classes : List (List ℤ))
    (hne : ∀ c ∈ classes, c ≠ []) : ∀ c ∈ edges.foldl merge_classes classes, c ≠ [] := by
  induction edges generalizing classes with
  | nil => exact hne
  | cons e t ih => exact ih _ (merge_classes_nonempty classes e hne)

theorem foldl_merge_same_class (edges : List (ℤ × ℤ)) (classes : List (List ℤ)) (u v : ℤ)
    (h : ∃ c ∈ classes, u ∈ c ∧ v ∈ c) :
    ∃ c ∈ edges.foldl merge_classes classes, u ∈ c ∧ v ∈ c := by
  induction edges generalizing classes with
  | nil => exact h
  | cons e t ih => exact ih _ (merge_classes_same_class classes e u v h)

theorem foldl_merge_joins (edges : List (ℤ × ℤ)) (classes : List (List ℤ)) (e : ℤ × ℤ)
    (he : e ∈ edges) (h1 : ∃ c ∈ classes, e.1 ∈ c) (h2 : ∃ c ∈ classes, e.2 ∈ c) :
    ∃ c ∈ edges.foldl merge_classes classes, e.1 ∈ c ∧ e.2 ∈ c := by
  induction edges generalizing classes with
  | nil => simp at he
  | cons a t ih =>
    rcases List.mem_cons.1 he with rfl | het
    · exact foldl_merge_same_class t _ _ _ (merge_classes_joins classes e h1 h2)
    · have keep : ∀ w, (∃ c ∈ classes, w ∈ c) → ∃ c ∈ merge_classes classes a, w ∈ c := by
        rintro w ⟨c, hc, hw⟩
        obtain ⟨c', hc', hw', _⟩ := merge_classes_same_class classes a w w ⟨c, hc, hw, hw⟩
        exact ⟨c', hc', hw'⟩
      exact ih _ het (keep _ h1) (keep _ h2)

theorem foldl_merge_sound (R : ℤ → ℤ → Prop) (hR : Equivalence R) (edges : List (ℤ × ℤ))
    (classes : List (List ℤ)) (he : ∀ e ∈ edges, R e.1 e.2)
    (h : ∀ c ∈ classes, ∀ u ∈ c, ∀ v ∈ c, R u v) :
    ∀ c ∈ edges.foldl merge_classes classes, ∀ u ∈ c, ∀ v ∈ c, R u v := by
  induction edges generalizing classes with
  | nil => exact h
  | cons e t ih =>
    exact ih _ (fun e' he' => he e' (List.mem_cons_of_mem _ he'))
      (merge_classes_sound R hR classes e (he e (List.mem_cons_self _ _)) h)

theorem flatten_map_singleton (l : List ℤ) : (l.map (fun v => [v])).flatten = l := by
  induction l with
  | nil => rfl
  | cons a t ih => simp [ih]

/-- The classes hold exactly the vertices of the graph. -/
theorem vertex_classes_perm (g : Graph) : (vertex_classes g).flatten.Perm g.getVertices := by
  have h := foldl_merge_perm g.getEdges (g.getVertices.map (fun v => [v]))
  rwa [flatten_map_singleton] at h

theorem mem_vertex_classes (g : Graph) (v : ℤ) :
    (∃ c ∈ vertex_classes g, v ∈ c) ↔ v ∈ g.getVertices := by
  rw [← List.mem_flatten]
  exact (vertex_classes_perm g).mem_iff

theorem vertex_classes_nonempty (g : Graph) : ∀ c ∈ vertex_classes g, c ≠ [] := by
  apply foldl_merge_nonempty
  intro c hc
  obtain ⟨v, _, rfl⟩ := List.mem_map.1 hc
  exact List.cons_ne_nil _ _

theorem vertex_classes_disjoint (g : Graph) (hnodup : g.getVertices.Nodup) :
    (vertex_classes g).Pairwise List.Disjoint :=
  (List.nodup_flatten.1 ((vertex_classes_perm g).nodup_iff.2 hnodup)).2

/-- Two classes with a common vertex are the same class. -/
theorem vertex_classes_unique (g : Graph) (hnodup : g.getVertices.Nodup) (c1 c2 : List ℤ)
    (h1 : c1 ∈ vertex_classes g) (h2 : c2 ∈ vertex_classes g) (w : ℤ) (hw1 : w ∈ c1)
    (hw2 : w ∈ c2) : c1 = c2 := by
  by_contra hne
  exact (vertex_classes_disjoint g hnodup).forall (fun _ _ h => h.symm) h1 h2 hne hw1 hw2

theorem vertex_classes_joins (g : Graph) (e : ℤ × ℤ) (he : e ∈ g.getEdges)
    (h1 : e.1 ∈ g.getVertices) (h2 : e.2 ∈ g.getVertices) :
    ∃ c ∈ vertex_classes g, e.1 ∈ c ∧ e.2 ∈ c :=
  foldl_merge_joins g.getEdges _ e he ⟨[e.1], List.mem_map.2 ⟨_, h1, rfl⟩, List.mem_singleton_self _⟩
    ⟨[e.2], List.mem_map.2 ⟨_, h2, rfl⟩, List.mem_singleton_self _⟩

/-- Two vertices of one class are connected by a chain of edges. -/
theorem vertex_classes_sound (g : Graph) :
    ∀ c ∈ vertex_classes g, ∀ u ∈ c, ∀ v ∈ c,
      Relation.EqvGen (fun a b => (a, b) ∈ g.getEdges) u v := by
  apply foldl_merge_sound _ (Relation.EqvGen.is_equivalence _)
  · intro e he
    exact Relation.EqvGen.rel _ _ he
  · intro c hc u hu v hv
    obtain ⟨w, _, rfl⟩ := List.mem_map.1 hc
    rw [List.mem_singleton.1 hu, List.mem_singleton.1 hv]
    exact Relation.EqvGen.refl _

/-- Two vertices connected by a chain of edges are equal or in one class. -/
theorem vertex_classes_complete (g : Graph) (hnodup : g.getVertices.Nodup)
    (hwf : ∀ e ∈ g.getEdges, e.1 ∈ g.getVertices ∧ e.2 ∈ g.getVertices) (u v : ℤ)
    (h : Relation.EqvGen (fun a b => (a, b) ∈ g.getEdges) u v) :
    u = v ∨ ∃ c ∈ vertex_classes g, u ∈ c ∧ v ∈ c := by
  induction h with
  | rel a b hab => exact Or.inr (vertex_classes_joins g (a, b) hab (hwf _ hab).1 (hwf _ hab).2)
  | refl a => exact Or.inl rfl
  | symm a b _ ih =>
    rcases ih with h | ⟨c, hc, ha, hb⟩
    · exact Or.inl h.symm
    · exact Or.inr ⟨c, hc, hb, ha⟩
  | trans a b d _ _ ih1 ih2 =>
    rcases ih1 with h1 | ⟨c1, hc1, ha, hb⟩
    · rw [h1]
      exact ih2
    · rcases ih2 with h2 | ⟨c2, hc2, hb2, hd⟩
      · rw [← h2]
        exact Or.inr ⟨c1, hc1, ha, hb⟩
      · have := vertex_classes_unique g hnodup c1 c2 hc1 hc2 b hb hb2
        subst this
        exact Or.inr ⟨c1, hc1, ha, hd⟩

/-- Two vertices of the graph are in one class exactly when a chain of edges connects them:
the classes are the connected components. -/
theorem vertex_classes_iff (g : Graph) (hnodup : g.getVertices.Nodup)
    (hwf : ∀ e ∈ g.getEdges, e.1 ∈ g.getVertices ∧ e.2 ∈ g.getVertices) (u v : ℤ)
    (hu : u ∈ g.getVertices) :
    (∃ c ∈ vertex_classes g, u ∈ c ∧ v ∈ c) ↔
      Relation.EqvGen (fun a b => (a, b) ∈ g.getEdges) u v := by
  constructor
  · rintro ⟨c, hc, huc, hvc⟩
    exact vertex_classes_sound g c hc u huc v hvc
  · intro h
    rcases vertex_classes_complete g hnodup hwf u v h with rfl | h
    · obtain ⟨c, hc, huc⟩ := (mem_vertex_classes g u).2 hu
      exact ⟨c, hc, huc, huc⟩
    · exact h

/-- A graph with a vertex, in which a chain of edges connects any two vertices, has one
class. -/
theorem vertex_classes_connected (g : Graph) (hnodup : g.getVertices.Nodup)
    (hwf : ∀ e ∈ g.getEdges, e.1 ∈ g.getVertices ∧ e.2 ∈ g.getVertices)
    (hne : g.getVertices ≠ [])
    (hconn : ∀ u ∈ g.getVertices, ∀ v ∈ g.getVertices,
      Relation.EqvGen (fun a b => (a, b) ∈ g.getEdges) u v) :
    (vertex_classes g).length = 1 := by
  have hall : ∀ c1 ∈ vertex_classes g, ∀ c2 ∈ vertex_classes g, c1 = c2 := by
    intro c1 h1 c2 h2
    obtain ⟨u, hu⟩ := List.exists_mem_of_ne_nil _ (vertex_classes_nonempty g c1 h1)
    obtain ⟨v, hv⟩ := List.exists_mem_of_ne_nil _ (vertex_classes_nonempty g c2 h2)
    have hug := (mem_vertex_classes g u).1 ⟨c1, h1, hu⟩
    have hvg := (mem_vertex_classes g v).1 ⟨c2, h2, hv⟩
    obtain ⟨c, hc, huc, hvc⟩ := (vertex_classes_iff g hnodup hwf u v hug).2 (hconn u hug v hvg)
    rw [vertex_classes_unique g hnodup c1 c h1 hc u hu huc,
      vertex_classes_unique g hnodup c2 c h2 hc v hv hvc]
  have hdis := vertex_classes_disjoint g hnodup
  have hnon := vertex_classes_nonempty g
  have hcover : ∃ c ∈ vertex_classes g, True := by
    obtain ⟨v, hv⟩ := List.exists_mem_of_ne_nil _ hne
    obtain ⟨c, hc, _⟩ := (mem_vertex_classes g v).2 hv
    exact ⟨c, hc, trivial⟩
  generalize vertex_classes g = L at hall hdis hnon hcover
  match L, hall, hdis, hnon, hcover with
  | [], _, _, _, hcover => simp at hcover
  | [_], _, _, _, _ => rfl
  | c1 :: c2 :: t, hall, hdis, hnon, _ =>
    exfalso
    have heq : c1 = c2 := hall c1 (List.mem_cons_self _ _) c2
      (List.mem_cons_of_mem _ (List.mem_cons_self _ _))
    have hd : List.Disjoint c1 c2 := (List.pairwise_cons.1 hdis).1 c2 (List.mem_cons_self _ _)
    obtain ⟨u, hu⟩ := List.exists_mem_of_ne_nil _ (hnon c1 (List.mem_cons_self _ _))
    exact hd hu (heq ▸ hu)


theorem breakIntoStructures_single (s : BeadStructure) (hs : s.isSingleStructure = true) :
    breakIntoStructures s = [s] := by
  simp [breakIntoStructures, hs]

theorem breakIntoStructures_split (s : BeadStructure) (hs : ¬ s.isSingleStructure = true) :
    breakIntoStructures s =
      (vertex_classes s.getGraph).map
        (fun c =>
          { beads_ := c
            connections_ :=
              s.connections_.filter (fun e => decide (e.1 ∈ c) && decide (e.2 ∈ c)) }) := by
  simp only [breakIntoStructures, hs, decoupleIsolatedSubGraphs, List.map_map]
  rfl

/-- Claim C18: for a BeadStructure whose bead ids are distinct and whose bonds join beads of
the structure, breakIntoStructures returns one BeadStructure per connected component of the
bond graph.  The bead-id lists of the returned structures are pairwise disjoint, none is
empty, together they are the bead ids of the input, and two beads are in the same returned
structure exactly when a chain of bonds connects them; the bonds of a returned structure are
the input bonds with both endpoints in it, in particular none leads to a bead of another
structure, and every input bond is in exactly one returned structure; a structure with a bead
that is connected is returned as the single element, equal to the input. -/
theorem C18_break_into_structures (s : BeadStructure) (hnodup : s.beads_.Nodup)
    (hwf : ∀ e ∈ s.connections_, e.1 ∈ s.beads_ ∧ e.2 ∈ s.beads_) :
    (breakIntoStructures s).Pairwise (fun a b => List.Disjoint a.beads_ b.beads_)
      ∧ ((breakIntoStructures s).map BeadStructure.beads_).flatten.Perm s.beads_
      ∧ (∀ t ∈ breakIntoStructures s, t.beads_ ≠ [])
      ∧ (∀ u ∈ s.beads_, ∀ v,
          (∃ t ∈ breakIntoStructures s, u ∈ t.beads_ ∧ v ∈ t.beads_) ↔
            Relation.EqvGen (fun a b => (a, b) ∈ s.connections_) u v)
      ∧ (∀ t ∈ breakIntoStructures s,
          t.connections_ =
            s.connections_.filter (fun e => decide (e.1 ∈ t.beads_) && decide (e.2 ∈ t.beads_)))
      ∧ (∀ e ∈ s.connections_, ∃! t, t ∈ breakIntoStructures s ∧ e ∈ t.connections_)
      ∧ (s.beads_ ≠ [] →
          (∀ u ∈ s.beads_, ∀ v ∈ s.beads_,
            Relation.EqvGen (fun a b => (a, b) ∈ s.connections_) u v) →
          breakIntoStructures s = [s]) := by
  have hperm := vertex_classes_perm s.getGraph
  have hnon := vertex_classes_nonempty s.getGraph
  have hiff : ∀ u v : ℤ, u ∈ s.beads_ →
      ((∃ c ∈ vertex_classes s.getGraph, u ∈ c ∧ v ∈ c) ↔
        Relation.EqvGen (fun a b => (a, b) ∈ s.connections_) u v) :=
    vertex_classes_iff s.getGraph hnodup hwf
  have hfilter : s.connections_ =
      s.connections_.filter (fun e => decide (e.1 ∈ s.beads_) && decide (e.2 ∈ s.beads_)) := by
    symm
    rw [List.filter_eq_self]
    intro e he
    simp [(hwf e he).1, (hwf e he).2]
  by_cases hs : s.isSingleStructure = true
  · have hlen : (vertex_classes s.getGraph).length = 1 := by
      simpa [BeadStructure.isSingleStructure] using hs
    obtain ⟨c, hc⟩ := List.length_eq_one.1 hlen
    rw [hc] at hperm hnon hiff
    have hcperm : c.Perm s.beads_ := by simpa using hperm
    rw [breakIntoStructures_single s hs]
    refine ⟨List.pairwise_singleton _ _, by simp, ?_, ?_, ?_, ?_, fun _ _ => rfl⟩
    · intro t ht
      rw [List.mem_singleton.1 ht]
      obtain ⟨x, hx⟩ := List.exists_mem_of_ne_nil _ (hnon c (List.mem_singleton_self _))
      exact List.ne_nil_of_mem (hcperm.mem_iff.1 hx)
    · intro u hu v
      rw [← hiff u v hu]
      simp [hcperm.mem_iff]
    · intro t ht
      rw [List.mem_singleton.1 ht]
      exact hfilter
    · intro e he
      exact ⟨s, ⟨List.mem_singleton_self _, he⟩, fun t ht => List.mem_singleton.1 ht.1⟩
  · rw [breakIntoStructures_split s hs]
    refine ⟨?_, ?_, ?_, ?_, ?_, ?_, ?_⟩
    · rw [List.pairwise_map]
      exact vertex_classes_disjoint s.getGraph hnodup
    · rw [List.map_map]
      have : (vertex_classes s.getGraph).map
          (BeadStructure.beads_ ∘ fun c =>
            ({ beads_ := c
               connections_ := s.connections_.filter
                 (fun e => decide (e.1 ∈ c) && decide (e.2 ∈ c)) } : BeadStructure))
          = vertex_classes s.getGraph := by
        conv_rhs => rw [← List.map_id (vertex_classes s.getGraph)]
        rfl
      rw [this]
      exact hperm
    · intro t ht
      obtain ⟨c, hc, rfl⟩ := List.mem_map.1 ht
      exact hnon c hc
    · intro u hu v
      rw [← hiff u v hu]
      constructor
      · rintro ⟨t, ht, hut, hvt⟩
        obtain ⟨c, hc, rfl⟩ := List.mem_map.1 ht
        exact ⟨c, hc, hut, hvt⟩
      · rintro ⟨c, hc, huc, hvc⟩
        exact ⟨_, List.mem_map.2 ⟨c, hc, rfl⟩, huc, hvc⟩
    · intro t ht
      obtain ⟨c, _, rfl⟩ := List.mem_map.1 ht
      rfl
    · intro e he
      obtain ⟨c, hc, h1, h2⟩ :=
        vertex_classes_joins s.getGraph e he (hwf e he).1 (hwf e he).2
      refine ⟨_, ⟨List.mem_map.2 ⟨c, hc, rfl⟩, ?_⟩, ?_⟩
      · simp [List.mem_filter, he, h1, h2]
      · rintro t ⟨ht, het⟩
        obtain ⟨c', hc', rfl⟩ := List.mem_map.1 ht
        have h1' : e.1 ∈ c' := by
          have := (List.mem_filter.1 het).2
          simp only [Bool.and_eq_true, decide_eq_true_eq] at this
          exact this.1
        rw [vertex_classes_unique s.getGraph hnodup c' c hc' hc e.1 h1' h1]
    · intro hne hconn
      exfalso
      apply hs
      simp only [BeadStructure.isSingleStructure, decide_eq_true_eq]
      exact vertex_classes_connected s.getGraph hnodup hwf hne hconn

/-- Witness for C18: two triangles without a common bead give exactly two structures, with
three bead ids and three bonds each. -/
theorem C18_break_into_structures_witness :
    two_triangles.beads_.Nodup
      ∧ (∀ e ∈ two_triangles.connections_,
          e.1 ∈ two_triangles.beads_ ∧ e.2 ∈ two_triangles.beads_)
      ∧ breakIntoStructures two_triangles =
        [{ beads_ := [3, 4, 5], connections_ := [(3, 4), (4, 5), (5, 3)] },
          { beads_ := [0, 1, 2], connections_ := [(0, 1), (1, 2), (2, 0)] }]
      ∧ breakIntoStructures one_triangle = [one_triangle]
      ∧ (breakIntoStructures two_triangles).Pairwise
          (fun a b => List.Disjoint a.beads_ b.beads_)
      ∧ ((breakIntoStructures two_triangles).map BeadStructure.beads_).flatten.Perm
          two_triangles.beads_ :=
  ⟨by decide, by decide, by decide, by decide,
    (C18_break_into_structures two_triangles (by decide) (by decide)).1,
    (C18_break_into_structures two_triangles (by decide) (by decide)).2.1⟩

/-! ## CGEngine::CreateCGTopology -/

namespace CGEngine

/-- The loop passes over an ignored molecule. -/
theorem molecule_loop_ignored (self : CGEngine) (mol : Molecule) (rest : List Molecule)
    (m : TopologyMap) (out : Topology) (h : self.IsIgnored mol.getName = true) :
    self.molecule_loop (mol :: rest) m out = self.molecule_loop rest m out := by
  simp [molecule_loop, h]

/-- The loop passes over a molecule whose name has no definition. -/
theorem molecule_loop_unknown (self : CGEngine) (mol : Molecule) (rest : List Molecule)
    (m : TopologyMap) (out : Topology) (h : self.getMoleculeDef mol.getName = none) :
    self.molecule_loop (mol :: rest) m out = self.molecule_loop rest m out := by
  simp [molecule_loop, h]

theorem molecule_loop_throw_molecule (self : CGEngine) (mol : Molecule)
    (rest : List Molecule) (m : TopologyMap) (out : Topology) (def_ : CGMoleculeDef)
    (err : String) (hi : self.IsIgnored mol.getName = false)
    (hd : self.getMoleculeDef mol.getName = some def_)
    (hcm : def_.CreateMolecule out = Except.error err) :
    self.molecule_loop (mol :: rest) m out = Except.error err := by
  simp [molecule_loop, hi, hd, hcm]

theorem molecule_loop_throw_map (self : CGEngine) (mol : Molecule) (rest : List Molecule)
    (m : TopologyMap) (out : Topology) (def_ : CGMoleculeDef) (out2 : Topology)
    (mcg : Molecule) (err : String) (hi : self.IsIgnored mol.getName = false)
    (hd : self.getMoleculeDef mol.getName = some def_)
    (hcm : def_.CreateMolecule out = Except.ok (out2, mcg))
    (hmap : def_.CreateMap mol mcg = Except.error err) :
    self.molecule_loop (mol :: rest) m out = Except.error err := by
  simp [molecule_loop, hi, hd, hcm, hmap]

/-- The loop at a molecule that is not ignored and has a definition, when CreateMolecule and
CreateMap return: the Map is added and the loop goes on with the new output topology. -/
theorem molecule_loop_mapped (self : CGEngine) (mol : Molecule) (rest : List Molecule)
    (m : TopologyMap) (out : Topology) (def_ : CGMoleculeDef) (out2 : Topology)
    (mcg : Molecule) (map : Map) (hi : self.IsIgnored mol.getName = false)
    (hd : self.getMoleculeDef mol.getName = some def_)
    (hcm : def_.CreateMolecule out = Except.ok (out2, mcg))
    (hmap : def_.CreateMap mol mcg = Except.ok map) :
    self.molecule_loop (mol :: rest) m out
      = self.molecule_loop rest (m.AddMoleculeMap map) out2 := by
  simp [molecule_loop, hi, hd, hcm, hmap]

/-- The molecules that the loop does not pass over: not ignored and with a definition. -/
theorem molecule_loop_filter (self : CGEngine) (mols : List Molecule) (m : TopologyMap)
    (out : Topology) :
    self.molecule_loop
        (mols.filter
          (fun mol => !self.IsIgnored mol.getName && (self.getMoleculeDef mol.getName).isSome))
        m out
      = self.molecule_loop mols m out := by
  induction mols generalizing m out with
  | nil => rfl
  | cons mol rest ih =>
    cases hi : self.IsIgnored mol.getName with
    | true =>
      rw [molecule_loop_ignored self mol rest m out hi, List.filter_cons_of_neg (by simp [hi])]
      exact ih m out
    | false =>
      cases hd : self.getMoleculeDef mol.getName with
      | none =>
        rw [molecule_loop_unknown self mol rest m out hd,
          List.filter_cons_of_neg (by simp [hd])]
        exact ih m out
      | some def_ =>
        rw [List.filter_cons_of_pos (by simp [hi, hd])]
        cases hcm : def_.CreateMolecule out with
        | error err =>
          rw [molecule_loop_throw_molecule self mol rest m out def_ err hi hd hcm,
            molecule_loop_throw_molecule self mol _ m out def_ err hi hd hcm]
        | ok r =>
          obtain ⟨out2, mcg⟩ := r
          cases hmap : def_.CreateMap mol mcg with
          | error err =>
            rw [molecule_loop_throw_map self mol rest m out def_ out2 mcg err hi hd hcm hmap,
              molecule_loop_throw_map self mol _ m out def_ out2 mcg err hi hd hcm hmap]
          | ok map =>
            rw [molecule_loop_mapped self mol rest m out def_ out2 mcg map hi hd hcm hmap,
              molecule_loop_mapped self mol _ m out def_ out2 mcg map hi hd hcm hmap]
            exact ih _ _

/-- The Maps that a completed loop has added: one for each molecule that is not ignored and
has a definition, in the order of the molecules, each built by CreateMap of the definition
from the molecule and a molecule that CreateMolecule of the definition returned. -/
theorem molecule_loop_maps (self : CGEngine) (mols : List Molecule) (m : TopologyMap)
    (out : Topology) (m1 : TopologyMap) (out1 : Topology)
    (h : self.molecule_loop mols m out = Except.ok (m1, out1)) :
    ∃ added : List Map,
      m1.maps_ = m.maps_ ++ added ∧
      List.Forall₂
        (fun mol map =>
          ∃ def_ before after mcg,
            self.getMoleculeDef mol.getName = some def_ ∧
            def_.CreateMolecule before = Except.ok (after, mcg) ∧
            def_.CreateMap mol mcg = Except.ok map)
        (mols.filter
          (fun mol => !self.IsIgnored mol.getName && (self.getMoleculeDef mol.getName).isSome))
        added := by
  induction mols generalizing m out with
  | nil =>
    simp only [molecule_loop, Except.ok.injEq, Prod.mk.injEq] at h
    exact ⟨[], by rw [← h.1, List.append_nil], List.Forall₂.nil⟩
  | cons mol rest ih =>
    cases hi : self.IsIgnored mol.getName with
    | true =>
      rw [molecule_loop_ignored self mol rest m out hi] at h
      rw [List.filter_cons_of_neg (by simp [hi])]
      exact ih m out h
    | false =>
      cases hd : self.getMoleculeDef mol.getName with
      | none =>
        rw [molecule_loop_unknown self mol rest m out hd] at h
        rw [List.filter_cons_of_neg (by simp [hd])]
        exact ih m out h
      | some def_ =>
        rw [List.filter_cons_of_pos (by simp [hi, hd])]
        cases hcm : def_.CreateMolecule out with
        | error err =>
          rw [molecule_loop_throw_molecule self mol rest m out def_ err hi hd hcm] at h
          cases h
        | ok r =>
          obtain ⟨out2, mcg⟩ := r
          cases hmap : def_.CreateMap mol mcg with
          | error err =>
            rw [molecule_loop_throw_map self mol rest m out def_ out2 mcg err hi hd hcm hmap]
              at h
            cases h
          | ok map =>
            rw [molecule_loop_mapped self mol rest m out def_ out2 mcg map hi hd hcm hmap] at h
            obtain ⟨added, hadd, hall⟩ := ih _ _ h
            refine ⟨map :: added, ?_, List.Forall₂.cons ⟨def_, out, out2, mcg, hd, hcm, hmap⟩ hall⟩
            rw [hadd]
            simp [TopologyMap.AddMoleculeMap]

/-- The loop completes when CreateMolecule and CreateMap do not throw for the molecules that
are not ignored and have a definition. -/
theorem molecule_loop_ok (self : CGEngine) (mols : List Molecule) (m : TopologyMap)
    (out : Topology)
    (hdefs : ∀ mol ∈ mols, self.IsIgnored mol.getName = false →
      ∀ def_, self.getMoleculeDef mol.getName = some def_ →
        (∀ o, ∃ r, def_.CreateMolecule o = Except.ok r) ∧
          (∀ mcg, ∃ map, def_.CreateMap mol mcg = Except.ok map)) :
    ∃ r, self.molecule_loop mols m out = Except.ok r := by
  induction mols generalizing m out with
  | nil => exact ⟨_, rfl⟩
  | cons mol rest ih =>
    have hrest : ∀ mol' ∈ rest, self.IsIgnored mol'.getName = false →
        ∀ def_, self.getMoleculeDef mol'.getName = some def_ →
          (∀ o, ∃ r, def_.CreateMolecule o = Except.ok r) ∧
            (∀ mcg, ∃ map, def_.CreateMap mol' mcg = Except.ok map) :=
      fun mol' hm => hdefs mol' (List.mem_cons_of_mem _ hm)
    cases hi : self.IsIgnored mol.getName with
    | true =>
      rw [molecule_loop_ignored self mol rest m out hi]
      exact ih m out hrest
    | false =>
      cases hd : self.getMoleculeDef mol.getName with
      | none =>
        rw [molecule_loop_unknown self mol rest m out hd]
        exact ih m out hrest
      | some def_ =>
        obtain ⟨h1, h2⟩ := hdefs mol (List.mem_cons_self _ _) hi def_ hd
        obtain ⟨⟨out2, mcg⟩, hcm⟩ := h1 out
        obtain ⟨map, hmap⟩ := h2 mcg
        rw [molecule_loop_mapped self mol rest m out def_ out2 mcg map hi hd hcm hmap]
        exact ih _ _ hrest

end CGEngine

/-- Claim C19: CGEngine::CreateCGTopology passes over the molecules that are ignored or whose
name has no loaded definition: the call gives the same result (the same TopologyMap and
output topology, or the same exception) as for the input topology without these molecules.
When the call returns, the TopologyMap holds one Map for each of the other molecules, in the
order of the input molecules, each built by CreateMap of the definition of the molecule from
the molecule and an output molecule created by CreateMolecule of that definition.  The call
returns whenever CreateMolecule and CreateMap for these other molecules and RebuildExclusions
do not throw, so no exception comes from a name without definition. -/
theorem C19_unknown_molecules_skipped (self : CGEngine)
    (RebuildExclusions : Topology → Except String Topology) (in_ out : Topology) :
    self.CreateCGTopology RebuildExclusions in_ out =
        self.CreateCGTopology RebuildExclusions
          { in_ with
            Molecules := in_.Molecules.filter
              (fun mol =>
                !self.IsIgnored mol.getName && (self.getMoleculeDef mol.getName).isSome) }
          out
      ∧ (∀ m out1, self.CreateCGTopology RebuildExclusions in_ out = Except.ok (m, out1) →
          List.Forall₂
            (fun mol map =>
              ∃ def_ before after mcg,
                self.getMoleculeDef mol.getName = some def_ ∧
                def_.CreateMolecule before = Except.ok (after, mcg) ∧
                def_.CreateMap mol mcg = Except.ok map)
            (in_.Molecules.filter
              (fun mol =>
                !self.IsIgnored mol.getName && (self.getMoleculeDef mol.getName).isSome))
            m.maps_)
      ∧ ((∀ mol ∈ in_.Molecules, self.IsIgnored mol.getName = false →
            ∀ def_, self.getMoleculeDef mol.getName = some def_ →
              (∀ o, ∃ r, def_.CreateMolecule o = Except.ok r) ∧
                (∀ mcg, ∃ map, def_.CreateMap mol mcg = Except.ok map)) →
          (∀ o, ∃ o1, RebuildExclusions o = Except.ok o1) →
          ∃ r, self.CreateCGTopology RebuildExclusions in_ out = Except.ok r) := by
  refine ⟨?_, ?_, ?_⟩
  · simp only [CGEngine.CreateCGTopology]
    rw [CGEngine.molecule_loop_filter]
  · intro m out1 h
    simp only [CGEngine.CreateCGTopology] at h
    cases hl : self.molecule_loop in_.Molecules { maps_ := [] } out with
    | error err => rw [hl] at h; cases h
    | ok r =>
      obtain ⟨m1, out2⟩ := r
      rw [hl] at h
      simp only at h
      cases hr : RebuildExclusions out2 with
      | error err => rw [hr] at h; cases h
      | ok out3 =>
        rw [hr] at h
        simp only [Except.ok.injEq, Prod.mk.injEq] at h
        obtain ⟨added, hadd, hall⟩ := CGEngine.molecule_loop_maps self _ _ _ _ _ hl
        rw [← h.1, hadd]
        exact hall
  · intro hdefs hreb
    obtain ⟨⟨m1, out2⟩, hl⟩ := CGEngine.molecule_loop_ok self in_.Molecules { maps_ := [] } out hdefs
    obtain ⟨out3, hr⟩ := hreb out2
    refine ⟨(m1, out3), ?_⟩
    simp only [CGEngine.CreateCGTopology, hl, hr]


/-- The sample engine on the sample input topology: the call returns, with two Maps and two
new molecules in the output topology. -/
theorem sample_engine_result :
    ∃ r, sample_engine.CreateCGTopology (fun o => Except.ok o) sample_in_top empty_top
          = Except.ok r
      ∧ r.1.maps_ = [sample_map, sample_map]
      ∧ r.2.Molecules.length = 2 := by
  have hA : sample_engine.getMoleculeDef "A" = some sample_def := by
    simp [sample_engine]
  have hX : sample_engine.getMoleculeDef "X" = none := by
    have : ("X" : String) ≠ "A" := by decide
    simp [sample_engine, this]
  have hiA : sample_engine.IsIgnored "A" = false := by
    have : ("A" : String) ≠ "I" := by decide
    simp [sample_engine, this]
  have hiX : sample_engine.IsIgnored "X" = false := by
    have : ("X" : String) ≠ "I" := by decide
    simp [sample_engine, this]
  have hiI : sample_engine.IsIgnored "I" = true := by
    simp [sample_engine]
  refine ⟨({ maps_ := [sample_map, sample_map] },
    { empty_top with Molecules := [sample_cg_molecule, sample_cg_molecule] }), ?_, ?_, ?_⟩
  · simp only [CGEngine.CreateCGTopology, sample_in_top]
    rw [CGEngine.molecule_loop_mapped sample_engine (named_molecule "A") _ _ _ sample_def _
        sample_cg_molecule sample_map hiA hA rfl rfl,
      CGEngine.molecule_loop_unknown sample_engine (named_molecule "X") _ _ _ hX,
      CGEngine.molecule_loop_ignored sample_engine (named_molecule "I") _ _ _ hiI,
      CGEngine.molecule_loop_mapped sample_engine (named_molecule "A") _ _ _ sample_def _
        sample_cg_molecule sample_map hiA hA rfl rfl]
    rfl
  · rfl
  · rfl

/-- Witness for C19: the sample engine on an input topology with the molecules "A", "X", "I",
"A", where only "A" has a definition and "I" is ignored: no call throws, so the call
returns. -/
theorem C19_unknown_molecules_skipped_witness :
    (∀ mol ∈ sample_in_top.Molecules, sample_engine.IsIgnored mol.getName = false →
        ∀ def_, sample_engine.getMoleculeDef mol.getName = some def_ →
          (∀ o, ∃ r, def_.CreateMolecule o = Except.ok r) ∧
            (∀ mcg, ∃ map, def_.CreateMap mol mcg = Except.ok map))
      ∧ ∃ r, sample_engine.CreateCGTopology (fun o => Except.ok o) sample_in_top empty_top
          = Except.ok r :=
  have hdefs : ∀ mol ∈ sample_in_top.Molecules, sample_engine.IsIgnored mol.getName = false →
      ∀ def_, sample_engine.getMoleculeDef mol.getName = some def_ →
        (∀ o, ∃ r, def_.CreateMolecule o = Except.ok r) ∧
          (∀ mcg, ∃ map, def_.CreateMap mol mcg = Except.ok map) := by
    intro mol _ _ def_ hd
    have hdef : def_ = sample_def := by
      simp only [sample_engine] at hd
      split at hd
      · exact (Option.some.inj hd).symm
      · cases hd
    rw [hdef]
    exact ⟨fun o => ⟨_, rfl⟩, fun mcg => ⟨_, rfl⟩⟩
  ⟨hdefs,
    (C19_unknown_molecules_skipped sample_engine (fun o => Except.ok o) sample_in_top
      empty_top).2.2 hdefs (fun o => ⟨o, rfl⟩)⟩

/-! ## The triclinic shortest connection: rounding -/

/-- The value of std::round is a nearest integer. -/
theorem abs_sub_std_round_le (y : ℚ) : |y - std_round y| ≤ 1 / 2 := by
  unfold std_round
  split
  · have h1 := Int.floor_le (y + 1 / 2)
    have h2 := Int.lt_floor_add_one (y + 1 / 2)
    rw [abs_le]
    constructor <;> linarith
  · have h1 := Int.floor_le (-y + 1 / 2)
    have h2 := Int.lt_floor_add_one (-y + 1 / 2)
    push_cast
    rw [abs_le]
    constructor <;> linarith

/-- Removing the rounded multiple of a positive length `m` leaves at most half of it. -/
theorem abs_sub_std_round_mul_le (x m : ℚ) (hm : 0 < m) :
    |x - std_round (x / m) * m| ≤ m / 2 := by
  have h := abs_sub_std_round_le (x / m)
  have e : x - std_round (x / m) * m = (x / m - std_round (x / m)) * m := by
    field_simp
    ring
  rw [e, abs_mul, abs_of_pos hm]
  calc |x / m - std_round (x / m)| * m ≤ 1 / 2 * m :=
        mul_le_mul_of_nonneg_right h hm.le
    _ = m / 2 := by ring

/-- A component shorter than half of a positive length `m` is rounded to zero multiples. -/
theorem std_round_div_eq_zero (x m : ℚ) (hm : 0 < m) (hx : |x| < m / 2) :
    std_round (x / m) = 0 := by
  apply std_round_eq_of_abs_sub_lt
  rw [Int.cast_zero, sub_zero, abs_div, abs_of_pos hm, div_lt_iff₀ hm]
  linarith

/-- Claim C21: for a box with positive diagonal entries a_x, b_y, c_z and points `p`, `q`
whose raw difference `d = q - p` has |d_x| < a_x/2, |d_y| < b_y/2 and |d_z| < c_z/2,
TriclinicBox::BCShortestConnection returns `d` unchanged. -/
theorem C21_short_difference_unchanged (box_ : Matrix3d) (p q : Vec3)
    (hpos : 0 < box_.m00 ∧ 0 < box_.m11 ∧ 0 < box_.m22)
    (hx : |(q - p).x| < box_.m00 / 2) (hy : |(q - p).y| < box_.m11 / 2)
    (hz : |(q - p).z| < box_.m22 / 2) :
    TriclinicBox.BCShortestConnection box_ p q = q - p := by
  simp only [Vec3.sub_x, Vec3.sub_y, Vec3.sub_z] at hx hy hz
  have hc : std_round ((q.z - p.z) / box_.m22) = 0 :=
    std_round_div_eq_zero _ _ hpos.2.2 hz
  have hb : std_round ((q.y - p.y - ((0 : ℤ) : ℚ) * box_.m12) / box_.m11) = 0 := by
    rw [Int.cast_zero, zero_mul, sub_zero]
    exact std_round_div_eq_zero _ _ hpos.2.1 hy
  have ha : std_round
      ((q.x - p.x - ((0 : ℤ) : ℚ) * box_.m02 - ((0 : ℤ) : ℚ) * box_.m01) / box_.m00) = 0 := by
    rw [Int.cast_zero, zero_mul, zero_mul, sub_zero, sub_zero]
    exact std_round_div_eq_zero _ _ hpos.1 hx
  rw [TriclinicBox.BCShortestConnection_eq_of_rounds box_ p q 0 0 0 hc hb ha, Vec3.ext_iff']
  simp only [Vec3.sub_x, Vec3.sub_y, Vec3.sub_z, Int.cast_zero, zero_mul, sub_zero]
  exact ⟨trivial, trivial, trivial⟩

/-- Witness for C21: the cubic box of side 10; p = (5, 3, 5), q = (5, 4, 5) give (0, 1, 0), of
norm 1, and p = (5, 4, 5), q = (5, 6, 5) give a vector of norm 2. -/
theorem C21_short_difference_unchanged_witness :
    (0 < cubic_box.m00 ∧ 0 < cubic_box.m11 ∧ 0 < cubic_box.m22)
      ∧ |((⟨5, 4, 5⟩ : Vec3) - ⟨5, 3, 5⟩).y| < cubic_box.m11 / 2
      ∧ TriclinicBox.BCShortestConnection cubic_box ⟨5, 3, 5⟩ ⟨5, 4, 5⟩ = ⟨0, 1, 0⟩
      ∧ (TriclinicBox.BCShortestConnection cubic_box ⟨5, 3, 5⟩ ⟨5, 4, 5⟩).squaredNorm
          = 1 * 1
      ∧ (TriclinicBox.BCShortestConnection cubic_box ⟨5, 4, 5⟩ ⟨5, 6, 5⟩).squaredNorm
          = 2 * 2 :=
  have h1 : TriclinicBox.BCShortestConnection cubic_box ⟨5, 3, 5⟩ ⟨5, 4, 5⟩ = ⟨0, 1, 0⟩ :=
    (C21_short_difference_unchanged cubic_box ⟨5, 3, 5⟩ ⟨5, 4, 5⟩
      (by norm_num [cubic_box])
      (by norm_num [cubic_box, Vec3.sub_def])
      (by norm_num [cubic_box, Vec3.sub_def])
      (by norm_num [cubic_box, Vec3.sub_def])).trans (by norm_num [Vec3.sub_def])
  have h2 : TriclinicBox.BCShortestConnection cubic_box ⟨5, 4, 5⟩ ⟨5, 6, 5⟩ = ⟨0, 2, 0⟩ :=
    (C21_short_difference_unchanged cubic_box ⟨5, 4, 5⟩ ⟨5, 6, 5⟩
      (by norm_num [cubic_box])
      (by norm_num [cubic_box, Vec3.sub_def])
      (by norm_num [cubic_box, Vec3.sub_def])
      (by norm_num [cubic_box, Vec3.sub_def])).trans (by norm_num [Vec3.sub_def])
  ⟨by norm_num [cubic_box], by norm_num [cubic_box, Vec3.sub_def], h1,
    by rw [h1]; norm_num [Vec3.squaredNorm], by rw [h2]; norm_num [Vec3.squaredNorm]⟩

/-- Claim C22: for a box with non-zero diagonal entries the vector returned by
TriclinicBox::BCShortestConnection is the raw difference `q - p` minus integer multiples
`k_c`, `k_b`, `k_a` of the box columns `c`, `b`, `a`.  `k_c` is std::round of the z component
of `q - p` over c_z, `k_b` is std::round of the y component over b_y after `k_c c` has been
removed, `k_a` is std::round of the x component over a_x after `k_c c` and `k_b b` have been
removed, and each is an integer nearest to the quotient it rounds. -/
theorem C22_integer_combination (box_ : Matrix3d) (p q : Vec3)
    (h0 : box_.m00 ≠ 0) (h1 : box_.m11 ≠ 0) (h2 : box_.m22 ≠ 0) :
    ∃ k_c k_b k_a : ℤ,
      TriclinicBox.BCShortestConnection box_ p q
          = q - p - Vec3.smul k_c (box_.col 2) - Vec3.smul k_b (box_.col 1)
              - Vec3.smul k_a (box_.col 0)
        ∧ k_c = std_round ((q - p).z / box_.m22)
        ∧ |(q - p).z / box_.m22 - k_c| ≤ 1 / 2
        ∧ k_b = std_round ((q - p - Vec3.smul k_c (box_.col 2)).y / box_.m11)
        ∧ |(q - p - Vec3.smul k_c (box_.col 2)).y / box_.m11 - k_b| ≤ 1 / 2
        ∧ k_a = std_round
            ((q - p - Vec3.smul k_c (box_.col 2) - Vec3.smul k_b (box_.col 1)).x / box_.m00)
        ∧ |(q - p - Vec3.smul k_c (box_.col 2) - Vec3.smul k_b (box_.col 1)).x / box_.m00
            - k_a| ≤ 1 / 2 :=
  ⟨std_round ((q - p).z / box_.m22),
    std_round
      ((q - p - Vec3.smul (std_round ((q - p).z / box_.m22)) (box_.col 2)).y / box_.m11),
    std_round
      ((q - p - Vec3.smul (std_round ((q - p).z / box_.m22)) (box_.col 2)
          - Vec3.smul
              (std_round
                ((q - p - Vec3.smul (std_round ((q - p).z / box_.m22)) (box_.col 2)).y
                  / box_.m11))
              (box_.col 1)).x / box_.m00),
    rfl, rfl, abs_sub_std_round_le _, rfl, abs_sub_std_round_le _, rfl,
    abs_sub_std_round_le _⟩

/-- Witness for C22: in the cubic box of side 10, from (1, 1, 1) to (9, 17, 4) the multiples
are 0 of c, 2 of b and 1 of a. -/
theorem C22_integer_combination_witness :
    cubic_box.m00 ≠ 0 ∧ cubic_box.m11 ≠ 0 ∧ cubic_box.m22 ≠ 0
      ∧ TriclinicBox.BCShortestConnection cubic_box ⟨1, 1, 1⟩ ⟨9, 17, 4⟩ = ⟨-2, -4, 3⟩
      ∧ ∃ k_c k_b k_a : ℤ,
          TriclinicBox.BCShortestConnection cubic_box ⟨1, 1, 1⟩ ⟨9, 17, 4⟩
            = (⟨9, 17, 4⟩ : Vec3) - ⟨1, 1, 1⟩ - Vec3.smul k_c (cubic_box.col 2)
                - Vec3.smul k_b (cubic_box.col 1) - Vec3.smul k_a (cubic_box.col 0) :=
  ⟨by norm_num [cubic_box], by norm_num [cubic_box], by norm_num [cubic_box],
    by
      norm_num [TriclinicBox.BCShortestConnection, cubic_box, std_round, Matrix3d.col,
        Vec3.sub_def, Vec3.smul],
    (C22_integer_combination cubic_box ⟨1, 1, 1⟩ ⟨9, 17, 4⟩ (by norm_num [cubic_box])
      (by norm_num [cubic_box]) (by norm_num [cubic_box])).imp
      fun _ h => h.imp fun _ h => h.imp fun _ h => h.1⟩

/-- In exact arithmetic: for a box with a_y = a_z = b_z = 0 and positive diagonal entries
a_x, b_y, c_z, whatever its off-diagonal entries, the vector `r` returned by
TriclinicBox::BCShortestConnection has |r_x| ≤ a_x/2, |r_y| ≤ b_y/2 and |r_z| ≤ c_z/2. -/
theorem TriclinicBox.within_half_box_exact (box_ : Matrix3d) (p q : Vec3)
    (hzero : box_.m10 = 0 ∧ box_.m20 = 0 ∧ box_.m21 = 0)
    (hpos : 0 < box_.m00 ∧ 0 < box_.m11 ∧ 0 < box_.m22) :
    |(TriclinicBox.BCShortestConnection box_ p q).x| ≤ box_.m00 / 2
      ∧ |(TriclinicBox.BCShortestConnection box_ p q).y| ≤ box_.m11 / 2
      ∧ |(TriclinicBox.BCShortestConnection box_ p q).z| ≤ box_.m22 / 2 := by
  obtain ⟨h10, h20, h21⟩ := hzero
  rw [TriclinicBox.BCShortestConnection_eq_of_rounds box_ p q _ _ _ rfl rfl rfl]
  simp only [h10, h20, h21, mul_zero, sub_zero]
  refine ⟨abs_sub_std_round_mul_le _ _ hpos.1, abs_sub_std_round_mul_le _ _ hpos.2.1,
    abs_sub_std_round_mul_le _ _ hpos.2.2⟩

/-! ## Force weights without option "d" -/

theorem zipWith_self_eq_map {α β : Type} (g : α → α → β) (l : List α) :
    List.zipWith g l l = l.map (fun x => g x x) := by
  induction l with
  | nil => rfl
  | cons a t ih => simp [ih]

theorem Vec3.smul_one (v : Vec3) : Vec3.smul 1 v = v := by
  rw [Vec3.ext_iff']
  simp

theorem Vec3.smul_zero_left (v : Vec3) : Vec3.smul 0 v = 0 := by
  rw [Vec3.ext_iff']
  simp [Vec3.zero_def]

/-- With force weights 1 for the non-zero weights and 0 for the zero weights, the sum of
`force_weight_ * F` is the sum of the forces of the beads with a non-zero weight. -/
theorem force_sum_unweighted (l : List element_t)
    (h : ∀ e ∈ l, (e.weight_ ≠ 0 → e.force_weight_ = 1)
      ∧ (e.weight_ = 0 → e.force_weight_ = 0)) :
    (l.filterMap (fun e => e.in_.f.map (fun F => Vec3.smul e.force_weight_ F))).sum
      = (l.filterMap (fun e => if e.weight_ ≠ 0 then e.in_.f else none)).sum := by
  induction l with
  | nil => rfl
  | cons e t ih =>
    have ht := ih (fun e' he' => h e' (List.mem_cons_of_mem _ he'))
    obtain ⟨h1, h0⟩ := h e (List.mem_cons_self _ _)
    cases hf : e.in_.f with
    | none =>
      rw [List.filterMap_cons_none (by simp [hf]), List.filterMap_cons_none (by simp [hf])]
      exact ht
    | some F =>
      by_cases hw : e.weight_ = 0
      · rw [List.filterMap_cons_some (by simp [hf]; rfl),
          List.filterMap_cons_none (by simp [hw]), List.sum_cons, h0 hw, Vec3.smul_zero_left,
          zero_add]
        exact ht
      · rw [List.filterMap_cons_some (by simp [hf]; rfl),
          List.filterMap_cons_some (by simp [hw, hf]; rfl), List.sum_cons, List.sum_cons,
          h1 hw, Vec3.smul_one, ht]

/-- Claim C28: when the map options have no entry "d" and the weight sum is non-zero, after a
successful Initialize of a fresh map every element with a non-zero weight has the force
weight 1 and every element with the weight zero has the force weight 0 (the weight of an
element is non-zero exactly when its raw weight is), so the force that an Apply that does not
raise writes is the plain sum of the forces of the source beads with a non-zero weight that
carry a force. -/
theorem C28_force_weights_without_d (in_ : Molecule) (beads : List String)
    (weights : List ℚ) (m : Map_Sphere) (hsum : weights.sum ≠ 0)
    (h : Map_Sphere.new.Initialize in_ beads weights none = Except.ok m) :
    (∀ e ∈ m.matrix_, (e.weight_ ≠ 0 → e.force_weight_ = 1)
        ∧ (e.weight_ = 0 → e.force_weight_ = 0))
      ∧ m.matrix_.map (fun e => e.weight_) = weights.map (fun w => w / weights.sum)
      ∧ ∀ (bc : BoundaryCondition) (out_ : Bead), (m.Apply bc out_).raised = none →
          (∃ e ∈ m.matrix_, e.in_.HasF = true) →
          (m.Apply bc out_).out_.f
            = some ((m.matrix_.filterMap
                (fun e => if e.weight_ ≠ 0 then e.in_.f else none)).sum) := by
  obtain ⟨_, _, _, hw, hfw⟩ := Map_Sphere.Initialize_ok in_ beads weights none m h
  have helem : ∀ e ∈ m.matrix_, (e.weight_ ≠ 0 → e.force_weight_ = 1)
      ∧ (e.weight_ = 0 → e.force_weight_ = 0) := by
    have hd : Map_Sphere.d_coefficients (normalize_weights weights) none
        = normalize_weights weights := rfl
    rw [hd, ← hw, zipWith_self_eq_map, List.map_map] at hfw
    intro e he
    have hfe : e.force_weight_ = if e.weight_ ≠ 0 then e.weight_ / e.weight_ else 0 :=
      List.map_inj_left.1 hfw e he
    constructor
    · intro hne
      rw [hfe, if_pos hne, div_self hne]
    · intro h0
      rw [hfe, if_neg (not_not.2 h0)]
  refine ⟨helem, ?_, ?_⟩
  · rw [hw, normalize_weights_eq]
  · intro bc out_ hok hf
    rw [Map_Sphere.Apply_f m bc out_ hok hf, force_sum_unweighted m.matrix_ helem]

/-- Initialize on `force_molecule` with names "A", "B", "C", weights 1, 3, 0 and no option
"d". -/
theorem force_initialize_ok :
    Map_Sphere.new.Initialize force_molecule ["A", "B", "C"] [1, 3, 0] none
      = Except.ok force_initialized := by
  simp only [Map_Sphere.Initialize, Map_Sphere.new, normalize_weights, accumulate,
    Map_Sphere.d_coefficients, Map_Sphere.force_weights, Map_Sphere.add_elements,
    Map_Sphere.AddElem, force_molecule, force_initialized, sample_bead, List.foldl,
    List.map, List.length]
  have hBA : ("B" : String) ≠ "A" := by decide
  have hCA : ("C" : String) ≠ "A" := by decide
  have hCB : ("C" : String) ≠ "B" := by decide
  norm_num [Map_Sphere.force_weights, Map_Sphere.add_elements, Map_Sphere.AddElem, hBA, hCA,
    hCB]

theorem force_initialized_open_ok :
    (force_initialized.Apply open_bc sample_out).raised = none := by
  rw [Map_Sphere.Apply_raised force_initialized open_bc sample_out _ _ rfl]
  simp [bigger_than_half_box, open_bc, OpenBox.toBoundaryCondition, OpenBox.getBoxType]

/-- Witness for C28: weights 1, 3, 0 without option "d" give the force weights 1, 1, 0, and
the forces (1, 0, 0), (0, 2, 0), (0, 0, 4) are mapped to (1, 2, 0). -/
theorem C28_force_weights_without_d_witness :
    ([1, 3, 0] : List ℚ).sum ≠ 0
      ∧ force_initialized.matrix_.map (fun e => e.force_weight_) = [1, 1, 0]
      ∧ (force_initialized.Apply open_bc sample_out).out_.f = some ⟨1, 2, 0⟩ :=
  ⟨by norm_num, by simp [force_initialized],
    ((C28_force_weights_without_d force_molecule ["A", "B", "C"] [1, 3, 0] force_initialized
      (by norm_num) force_initialize_ok).2.2 open_bc sample_out force_initialized_open_ok
      ⟨_, List.mem_cons_self _ _, rfl⟩).trans
      (by
        simp only [force_initialized, sample_bead, List.filterMap_cons, List.filterMap_nil,
          List.sum_cons, List.sum_nil, Vec3.zero_def, Vec3.add_def]
        norm_num [Vec3.zero_def, Vec3.add_def])⟩

/-! ## Map_Sphere::Apply: the half-box error -/

/-- Claim C29: Map_Sphere::Apply is not atomic on failure.  Whenever it raises the half-box
error, the mass, position, velocity and force of the output bead (values and presence) are
what they were before the call, while its parent-bead list has been replaced by the ids of
the source beads of the map in list order. -/
theorem C29_half_box_leaves_parent_beads (self : Map_Sphere) (bc : BoundaryCondition)
    (out_ : Bead) (h : (self.Apply bc out_).raised = some ApplyError.half_box) :
    (self.Apply bc out_).out_.mass = out_.mass
      ∧ (self.Apply bc out_).out_.pos = out_.pos
      ∧ (self.Apply bc out_).out_.vel = out_.vel
      ∧ (self.Apply bc out_).out_.f = out_.f
      ∧ (self.Apply bc out_).out_.parent_beads = self.matrix_.map (fun e => e.in_.id) := by
  cases hm : self.matrix_ with
  | nil =>
    unfold Map_Sphere.Apply at h
    rw [hm] at h
    simp at h
  | cons front rest =>
    rw [Map_Sphere.Apply_cons self bc out_ front rest hm] at h ⊢
    split at h
    · rename_i hbig
      rw [if_pos hbig, Map_Sphere.pos_fold_out, ← hm]
      simp [pos_loop_init, Bead.ClearParentBeads]
    · simp at h

/-- In the cubic box of side 10 the beads of `wide_sphere` are √48 > 5 apart: Apply raises the
half-box error, here on the output bead `stale_out`. -/
theorem wide_sphere_stale_raises :
    (wide_sphere.Apply cubic_bc stale_out).raised = some ApplyError.half_box := by
  rw [Map_Sphere.Apply_raised wide_sphere cubic_bc stale_out _ _ rfl]
  simp only [wide_sphere, List.foldl, Map_Sphere.pos_step, pos_loop_init, reference_pos,
    sample_bead, cubic_bc, cubic_box, TriclinicBox.toBoundaryCondition,
    TriclinicBox.BCShortestConnection, std_round, Matrix3d.col, Vec3.sub_def, Vec3.smul,
    Vec3.squaredNorm, bigger_than_half_box, normGt]
  norm_num
  intro hopen
  cases hopen

/-- Witness for C29: the beads of `wide_sphere` are too far apart for the cubic box; the
output bead `stale_out` keeps its mass, position, velocity and force and has the parent beads
0, 1 afterwards. -/
theorem C29_half_box_leaves_parent_beads_witness :
    (wide_sphere.Apply cubic_bc stale_out).raised = some ApplyError.half_box
      ∧ stale_out.parent_beads = []
      ∧ (wide_sphere.Apply cubic_bc stale_out).out_.pos = some ⟨1, 2, 3⟩
      ∧ (wide_sphere.Apply cubic_bc stale_out).out_.parent_beads = [0, 1] :=
  ⟨wide_sphere_stale_raises, rfl,
    (C29_half_box_leaves_parent_beads wide_sphere cubic_bc stale_out
      wide_sphere_stale_raises).2.1,
    (C29_half_box_leaves_parent_beads wide_sphere cubic_bc stale_out
      wide_sphere_stale_raises).2.2.2.2.trans (by decide)⟩

/-! ## The tensor that Map_Ellipsoid::Apply diagonalises -/

theorem mem_of_mem_pairs_in_order {α : Type} (l : List α) (x y : α)
    (h : (x, y) ∈ pairs_in_order l) : x ∈ l ∧ y ∈ l := by
  induction l with
  | nil => simp [pairs_in_order] at h
  | cons a t ih =>
    rcases (mem_pairs_in_order_cons a t x y).1 h with ⟨hxa, hyt⟩ | h'
    · exact ⟨hxa ▸ List.mem_cons_self _ _, List.mem_cons_of_mem _ hyt⟩
    · exact ⟨List.mem_cons_of_mem _ (ih h').1, List.mem_cons_of_mem _ (ih h').2⟩

namespace ExclusionList

theorem IsExcluded_eq_true (ex : ExclusionList) (bead1 bead2 : Bead) :
    ex.IsExcluded bead1 bead2 = true ↔
      (bead1.id, bead2.id) ∈ ex.pairs ∨ (bead2.id, bead1.id) ∈ ex.pairs := by
  simp [IsExcluded]

/-- What every step of a loop keeps is in the list after the loop. -/
theorem foldl_keeps {α : Type} (f : ExclusionList → α → ExclusionList) (l : List α)
    (q : ℤ × ℤ) (hf : ∀ x ∈ l, ∀ ex : ExclusionList, q ∈ ex.pairs → q ∈ (f ex x).pairs)
    (ex : ExclusionList) (hq : q ∈ ex.pairs) : q ∈ (l.foldl f ex).pairs := by
  induction l generalizing ex with
  | nil => exact hq
  | cons a t ih =>
    exact ih (fun x hx => hf x (List.mem_cons_of_mem _ hx)) _
      (hf a (List.mem_cons_self _ _) ex hq)

/-- Remove keeps a pair that is not the pair of two beads of the list. -/
theorem Remove_keeps (ex : ExclusionList) (l : List Bead) (q : ℤ × ℤ)
    (hl : ∀ u ∈ l, ∀ v ∈ l, q ≠ (u.id, v.id)) (hq : q ∈ ex.pairs) :
    q ∈ (ex.Remove l).pairs := by
  refine foldl_keeps (fun ex (p : Bead × Bead) => ex.RemoveExclusion p.1 p.2) _ q ?_ ex hq
  intro p hp ex' hq'
  obtain ⟨h1, h2⟩ := mem_of_mem_pairs_in_order l p.1 p.2 hp
  exact (mem_RemoveExclusion ex' p.1 p.2 q).2 ⟨hq', hl _ h1 _ h2, hl _ h2 _ h1⟩

end ExclusionList

namespace CsgBoltzmann

/-- The two inner loops keep a pair that is not the pair of a parent of the first bead with
a parent of the second, in either order. -/
theorem remove_parent_pairs_keeps (top_atomistic : Topology) (ex : ExclusionList)
    (bead_i bead_j : Bead) (q : ℤ × ℤ)
    (hne : ∀ a ∈ bead_i.parent_beads, ∀ b ∈ bead_j.parent_beads,
      q ≠ ((top_atomistic.getBead a).id, (top_atomistic.getBead b).id)
        ∧ q ≠ ((top_atomistic.getBead b).id, (top_atomistic.getBead a).id))
    (hq : q ∈ ex.pairs) :
    q ∈ (remove_parent_pairs top_atomistic ex bead_i bead_j).pairs := by
  refine ExclusionList.foldl_keeps _ _ q ?_ ex hq
  intro a ha ex1 hq1
  refine ExclusionList.foldl_keeps _ _ q ?_ ex1 hq1
  intro b hb ex2 hq2
  exact (ExclusionList.mem_RemoveExclusion ex2 _ _ q).2 ⟨hq2, (hne a ha b hb).1, (hne a ha b hb).2⟩

/-- A pair of the all-pairs list stays in the result of CreateExclusionList when it is not the
pair of two parents of one bead of the coarse-grained molecule, nor the pair of parents of two
beads that the coarse-grained topology excludes from each other. -/
theorem CreateExclusionList_keeps (top_atomistic : Topology) (atomistic : Molecule)
    (top_cg : Topology) (cg : Molecule) (q : ℤ × ℤ)
    (hq : q ∈ (pairs_in_order atomistic.Beads).map (fun p => (p.1.id, p.2.id)))
    (h1 : ∀ i : ℕ, i < cg.BeadCount → ∀ a ∈ (cg.getBead i).parent_beads,
      ∀ b ∈ (cg.getBead i).parent_beads,
        q ≠ ((top_atomistic.getBead a).id, (top_atomistic.getBead b).id))
    (h2 : ∀ i j : ℕ, i < cg.BeadCount → j < cg.BeadCount → i ≠ j →
      top_cg.getExclusions.IsExcluded (cg.getBead i) (cg.getBead j) = true →
      ∀ a ∈ (cg.getBead i).parent_beads, ∀ b ∈ (cg.getBead j).parent_beads,
        q ≠ ((top_atomistic.getBead a).id, (top_atomistic.getBead b).id)) :
    q ∈ (CreateExclusionList top_atomistic atomistic top_cg cg).pairs := by
  unfold CreateExclusionList
  simp only
  refine ExclusionList.foldl_keeps _ _ q ?_ _ ?_
  · intro p hp ex hqex
    obtain ⟨hlt, hj⟩ := (mem_pairs_in_order_range _ p.1 p.2).1 hp
    split
    · rename_i hex
      refine remove_parent_pairs_keeps top_atomistic ex _ _ q ?_ hqex
      intro a ha b hb
      refine ⟨h2 p.1 p.2 (hlt.trans hj) hj hlt.ne hex a ha b hb, ?_⟩
      rw [ExclusionList.IsExcluded_comm] at hex
      exact h2 p.2 p.1 hj (hlt.trans hj) hlt.ne' hex b hb a ha
    · exact hqex
  · refine ExclusionList.foldl_keeps _ _ q ?_ _ ?_
    · intro i hi ex hqex
      refine ExclusionList.Remove_keeps ex _ q ?_ hqex
      intro u hu v hv
      obtain ⟨a, ha, rfl⟩ := List.mem_map.1 hu
      obtain ⟨b, hb, rfl⟩ := List.mem_map.1 hv
      exact h1 i (List.mem_range.1 hi) a ha b hb
    · simpa [ExclusionList.ExcludeList] using hq

/-- The result of CreateExclusionList does not hold the pair of two parents, with different
ids, of one bead of the coarse-grained molecule. -/
theorem CreateExclusionList_same_bead (top_atomistic : Topology) (atomistic : Molecule)
    (top_cg : Topology) (cg : Molecule) (i : ℕ) (hi : i < cg.BeadCount) (a b : ℤ)
    (ha : a ∈ (cg.getBead i).parent_beads) (hb : b ∈ (cg.getBead i).parent_beads)
    (hab : (top_atomistic.getBead a).id ≠ (top_atomistic.getBead b).id) :
    ((top_atomistic.getBead a).id, (top_atomistic.getBead b).id) ∉
      (CreateExclusionList top_atomistic atomistic top_cg cg).pairs := by
  intro hp
  have h1 := ExclusionList.foldl_shrinks _
    (second_loop_step_shrinks top_atomistic top_cg cg) _ _ hp
  exact ExclusionList.foldl_removes
    (fun ex (i : ℕ) => ExclusionList.Remove ex
      ((cg.getBead i).parent_beads.map top_atomistic.getBead))
    (fun ex (i : ℕ) => ExclusionList.Remove_shrinks ex _) _ i (List.mem_range.2 hi) _
    (fun ex => ExclusionList.Remove_removes ex _ _ _ (List.mem_map.2 ⟨a, ha, rfl⟩)
      (List.mem_map.2 ⟨b, hb, rfl⟩) hab) _ h1

/-- The result of CreateExclusionList does not hold the pair of a parent of the bead `i` with
a parent of the bead `j > i` when the coarse-grained topology excludes the two beads from each
other. -/
theorem CreateExclusionList_excluded_beads (top_atomistic : Topology) (atomistic : Molecule)
    (top_cg : Topology) (cg : Molecule) (i j : ℕ) (hlt : i < j) (hj : j < cg.BeadCount)
    (hex : top_cg.getExclusions.IsExcluded (cg.getBead i) (cg.getBead j) = true) (a b : ℤ)
    (ha : a ∈ (cg.getBead i).parent_beads) (hb : b ∈ (cg.getBead j).parent_beads) :
    ((top_atomistic.getBead a).id, (top_atomistic.getBead b).id) ∉
        (CreateExclusionList top_atomistic atomistic top_cg cg).pairs
      ∧ ((top_atomistic.getBead b).id, (top_atomistic.getBead a).id) ∉
        (CreateExclusionList top_atomistic atomistic top_cg cg).pairs := by
  have hstep : ∀ ex : ExclusionList,
      ((top_atomistic.getBead a).id, (top_atomistic.getBead b).id) ∉
        (if top_cg.getExclusions.IsExcluded (cg.getBead ((i, j) : ℕ × ℕ).1)
            (cg.getBead ((i, j) : ℕ × ℕ).2) then
          remove_parent_pairs top_atomistic ex (cg.getBead ((i, j) : ℕ × ℕ).1)
            (cg.getBead ((i, j) : ℕ × ℕ).2)
        else ex).pairs ∧
      ((top_atomistic.getBead b).id, (top_atomistic.getBead a).id) ∉
        (if top_cg.getExclusions.IsExcluded (cg.getBead ((i, j) : ℕ × ℕ).1)
            (cg.getBead ((i, j) : ℕ × ℕ).2) then
          remove_parent_pairs top_atomistic ex (cg.getBead ((i, j) : ℕ × ℕ).1)
            (cg.getBead ((i, j) : ℕ × ℕ).2)
        else ex).pairs := by
    intro ex
    rw [if_pos hex]
    exact remove_parent_pairs_removes top_atomistic ex _ _ a b ha hb
  have hin : ((i, j) : ℕ × ℕ) ∈ pairs_in_order (List.range cg.BeadCount) :=
    (mem_pairs_in_order_range _ i j).2 ⟨hlt, hj⟩
  exact ⟨ExclusionList.foldl_removes _
      (second_loop_step_shrinks top_atomistic top_cg cg) _ (i, j) hin _
      (fun ex => (hstep ex).1) _,
    ExclusionList.foldl_removes _
      (second_loop_step_shrinks top_atomistic top_cg cg) _ (i, j) hin _
      (fun ex => (hstep ex).2) _⟩

end CsgBoltzmann

/-- Claim C30: the exclusion list returned by CsgBoltzmann::CreateExclusionList, exactly.  Two
atoms of the atomistic molecule with different ids are excluded from each other in the result
if and only if they are neither parents of one common bead of the coarse-grained molecule nor
parents of two beads that the coarse-grained topology excludes from each other; so a pair
with an atom that is a parent of no bead remains excluded.  A pair that is excluded in the
result consists of atoms of the atomistic molecule. -/
theorem C30_remaining_exclusions (top_atomistic : Topology) (atomistic : Molecule)
    (top_cg : Topology) (cg : Molecule) :
    (∀ x ∈ atomistic.Beads, ∀ y ∈ atomistic.Beads, x.id ≠ y.id →
        ((CsgBoltzmann.CreateExclusionList top_atomistic atomistic top_cg cg).IsExcluded x y
            = true ↔
          (¬ ∃ i : ℕ, i < cg.BeadCount ∧ ∃ a ∈ (cg.getBead i).parent_beads,
              ∃ b ∈ (cg.getBead i).parent_beads,
                (top_atomistic.getBead a).id = x.id ∧ (top_atomistic.getBead b).id = y.id)
            ∧ ¬ ∃ i j : ℕ, i < cg.BeadCount ∧ j < cg.BeadCount ∧ i ≠ j
                ∧ top_cg.getExclusions.IsExcluded (cg.getBead i) (cg.getBead j) = true
                ∧ ∃ a ∈ (cg.getBead i).parent_beads, ∃ b ∈ (cg.getBead j).parent_beads,
                    (top_atomistic.getBead a).id = x.id
                      ∧ (top_atomistic.getBead b).id = y.id))
      ∧ ∀ x y : Bead,
          (CsgBoltzmann.CreateExclusionList top_atomistic atomistic top_cg cg).IsExcluded x y
            = true →
          (∃ x' ∈ atomistic.Beads, x'.id = x.id) ∧ (∃ y' ∈ atomistic.Beads, y'.id = y.id) := by
  constructor
  · intro x hx y hy hxy
    constructor
    · intro hex
      rw [ExclusionList.IsExcluded_eq_true] at hex
      constructor
      · rintro ⟨i, hi, a, ha, b, hb, hax, hby⟩
        have hab : (top_atomistic.getBead a).id ≠ (top_atomistic.getBead b).id := by
          rw [hax, hby]
          exact hxy
        rcases hex with h | h
        · rw [← hax, ← hby] at h
          exact CsgBoltzmann.CreateExclusionList_same_bead top_atomistic atomistic top_cg cg i
            hi a b ha hb hab h
        · rw [← hax, ← hby] at h
          exact CsgBoltzmann.CreateExclusionList_same_bead top_atomistic atomistic top_cg cg i
            hi b a hb ha hab.symm h
      · rintro ⟨i, j, hi, hj, hij, hcg, a, ha, b, hb, hax, hby⟩
        rw [← hax, ← hby] at hex
        rcases Nat.lt_or_gt_of_ne hij with hlt | hgt
        · have := CsgBoltzmann.CreateExclusionList_excluded_beads top_atomistic atomistic
            top_cg cg i j hlt hj hcg a b ha hb
          rcases hex with h | h
          · exact this.1 h
          · exact this.2 h
        · rw [ExclusionList.IsExcluded_comm] at hcg
          have := CsgBoltzmann.CreateExclusionList_excluded_beads top_atomistic atomistic
            top_cg cg j i hgt hi hcg b a hb ha
          rcases hex with h | h
          · exact this.2 h
          · exact this.1 h
    · rintro ⟨hn1, hn2⟩
      rw [ExclusionList.IsExcluded_eq_true]
      have hne : x ≠ y := fun h => hxy (h ▸ rfl)
      have keep : ∀ s t : Bead, ((s = x ∧ t = y) ∨ (s = y ∧ t = x)) →
          (s, t) ∈ pairs_in_order atomistic.Beads →
          (s.id, t.id) ∈
            (CsgBoltzmann.CreateExclusionList top_atomistic atomistic top_cg cg).pairs := by
        intro s t hst hmem
        refine CsgBoltzmann.CreateExclusionList_keeps top_atomistic atomistic top_cg cg _
          (List.mem_map.2 ⟨(s, t), hmem, rfl⟩) ?_ ?_
        · intro i hi a ha b hb heq
          rw [Prod.mk.injEq] at heq
          rcases hst with ⟨rfl, rfl⟩ | ⟨rfl, rfl⟩
          · exact hn1 ⟨i, hi, a, ha, b, hb, heq.1.symm, heq.2.symm⟩
          · exact hn1 ⟨i, hi, b, hb, a, ha, heq.2.symm, heq.1.symm⟩
        · intro i j hi hj hij hcg a ha b hb heq
          rw [Prod.mk.injEq] at heq
          rcases hst with ⟨rfl, rfl⟩ | ⟨rfl, rfl⟩
          · exact hn2 ⟨i, j, hi, hj, hij, hcg, a, ha, b, hb, heq.1.symm, heq.2.symm⟩
          · rw [ExclusionList.IsExcluded_comm] at hcg
            exact hn2 ⟨j, i, hj, hi, hij.symm, hcg, b, hb, a, ha, heq.2.symm, heq.1.symm⟩
      rcases mem_pairs_in_order_of_ne atomistic.Beads x y hx hy hne with h | h
      · exact Or.inl (keep x y (Or.inl ⟨rfl, rfl⟩) h)
      · exact Or.inr (keep y x (Or.inr ⟨rfl, rfl⟩) h)
  · intro x y hex
    rw [ExclusionList.IsExcluded_eq_true] at hex
    have hsub := CsgBoltzmann.CreateExclusionList_subset top_atomistic atomistic top_cg cg
    rcases hex with h | h
    · obtain ⟨p, hp, hpe⟩ := List.mem_map.1 (hsub h)
      obtain ⟨h1, h2⟩ := mem_of_mem_pairs_in_order _ p.1 p.2 hp
      rw [Prod.mk.injEq] at hpe
      exact ⟨⟨p.1, h1, hpe.1⟩, ⟨p.2, h2, hpe.2⟩⟩
    · obtain ⟨p, hp, hpe⟩ := List.mem_map.1 (hsub h)
      obtain ⟨h1, h2⟩ := mem_of_mem_pairs_in_order _ p.1 p.2 hp
      rw [Prod.mk.injEq] at hpe
      exact ⟨⟨p.2, h2, hpe.2⟩, ⟨p.1, h1, hpe.1⟩⟩

/-- The four-atom molecule with the atoms 0, 1 mapped into one bead, the atom 2 into another
and the atom 3 into none: only the exclusion of 0 and 1 is removed when the two beads are not
excluded from each other, and those of 0 and 2 and of 1 and 2 as well when they are. -/
theorem four_exclusions :
    (CsgBoltzmann.CreateExclusionList atoms_top four_atomistic (four_cg_top []) four_cg).pairs
        = [(0, 2), (0, 3), (1, 2), (1, 3), (2, 3)]
      ∧ (CsgBoltzmann.CreateExclusionList atoms_top four_atomistic (four_cg_top [(0, 1)])
          four_cg).pairs = [(0, 3), (1, 3), (2, 3)] := by
  decide

/-- Witness for C30: in the four-atom molecule the atom 3 is a parent of no bead and the atom
0 is a parent of bead 0; the two remain excluded from each other. -/
theorem C30_remaining_exclusions_witness :
    (CsgBoltzmann.CreateExclusionList atoms_top four_atomistic (four_cg_top [(0, 1)])
        four_cg).IsExcluded (sample_bead 0 1 none none none) (sample_bead 3 1 none none none)
      = true
    ∧ ¬ ∃ i : ℕ, i < four_cg.BeadCount ∧ ∃ a ∈ (four_cg.getBead i).parent_beads,
        ∃ b ∈ (four_cg.getBead i).parent_beads,
          (atoms_top.getBead a).id = (sample_bead 0 1 none none none).id
            ∧ (atoms_top.getBead b).id = (sample_bead 3 1 none none none).id :=
  have hex : (CsgBoltzmann.CreateExclusionList atoms_top four_atomistic (four_cg_top [(0, 1)])
      four_cg).IsExcluded (sample_bead 0 1 none none none) (sample_bead 3 1 none none none)
      = true := by decide
  ⟨hex,
    (((C30_remaining_exclusions atoms_top four_atomistic (four_cg_top [(0, 1)]) four_cg).1
      (sample_bead 0 1 none none none) (by simp [four_atomistic])
      (sample_bead 3 1 none none none) (by simp [four_atomistic]) (by decide)).1 hex).1⟩

/-! ## Property::get and Property::exists -/

namespace Property

/-- A call `p->get(n)` for a token `n` that is its own only token: the child of `p` under
`n`. -/
theorem get_token (tokens : String → List String) (fuel : ℕ) (p : Property) (n : String)
    (hn : n ≠ "") (htok : tokens n = [n]) :
    get tokens (fuel + 1) p n
      = match p.find n with
        | some child => GetOutcome.found child
        | none => GetOutcome.not_found n := by
  rw [get, htok]
  simp only [hn, if_false]
  cases p.find n <;> rfl

/-- The loop over the remaining tokens descends one child per token. -/
theorem get_rest_eq_descend (tokens : String → List String) (fuel : ℕ) (key : String)
    (rest : List String) (p : Property)
    (hrest : ∀ n ∈ rest, n ≠ "" ∧ tokens n = [n]) :
    get_rest (fun p n => get tokens (fuel + 1) p n) key rest p
      = match p.descend rest with
        | some q => GetOutcome.found q
        | none => GetOutcome.not_found key := by
  induction rest generalizing p with
  | nil => rfl
  | cons n rest ih =>
    obtain ⟨hn, htok⟩ := hrest n (List.mem_cons_self _ _)
    rw [get_rest, get_token tokens fuel p n hn htok, descend]
    cases p.find n with
    | none => rfl
    | some child => exact ih child (fun n' hn' => hrest n' (List.mem_cons_of_mem _ hn'))

/-- Property::get descends one child per token of the key. -/
theorem get_eq_descend (tokens : String → List String) (fuel : ℕ) (self : Property)
    (key : String) (htok : ∀ n ∈ tokens key, n ≠ "" ∧ tokens n = [n]) :
    get tokens (fuel + 2) self key
      = match self.descend (tokens key) with
        | some q => GetOutcome.found q
        | none => GetOutcome.not_found key := by
  rw [get]
  cases hk : tokens key with
  | nil => rfl
  | cons n rest =>
    rw [hk] at htok
    obtain ⟨hn, _⟩ := htok n (List.mem_cons_self _ _)
    simp only [hn, if_false]
    rw [descend]
    cases self.find n with
    | none => rfl
    | some child =>
      exact get_rest_eq_descend tokens fuel key rest child
        (fun n' hn' => htok n' (List.mem_cons_of_mem _ hn'))

/-- The descent fails exactly when, after some of the components, the property reached has
no child under the next component. -/
theorem descend_eq_none_iff (self : Property) (components : List String) :
    self.descend components = none ↔
      ∃ (before : List String) (n : String) (after : List String) (q : Property),
        components = before ++ n :: after ∧ self.descend before = some q
          ∧ q.find n = none := by
  induction components generalizing self with
  | nil =>
    constructor
    · intro h
      cases h
    · rintro ⟨before, n, after, q, h, _, _⟩
      cases before <;> cases h
  | cons n rest ih =>
    rw [descend]
    cases hf : self.find n with
    | none =>
      simp only [true_iff]
      exact ⟨[], n, rest, self, rfl, rfl, hf⟩
    | some child =>
      simp only
      rw [ih child]
      constructor
      · rintro ⟨before, n', after, q, h, hd, hq⟩
        refine ⟨n :: before, n', after, q, by rw [h]; rfl, ?_, hq⟩
        rw [descend, hf]
        exact hd
      · rintro ⟨before, n', after, q, h, hd, hq⟩
        cases before with
        | nil =>
          simp only [List.nil_append, List.cons.injEq] at h
          rw [descend] at hd
          cases hd
          rw [← h.1, hf] at hq
          cases hq
        | cons b before =>
          simp only [List.cons_append, List.cons.injEq] at h
          rw [descend, ← h.1, hf] at hd
          exact ⟨before, n', after, q, h.2, hd, hq⟩

end Property

/-- Claim C23: for a tokenizer whose tokens of the key are non-empty and are their own only
token (the tokens of a "."-separated key hold no "."), and a recursion depth of at least two,
Property::get descends one child per key component and returns the property reached.  It
fails, with the error "property not found" and the full key, if and only if after some of the
components the property reached has no child under the next component.  A key without
component, such as the empty key, returns the property itself, and exists(key) is true
exactly when get(key) succeeds, false otherwise. -/
theorem C23_property_get (tokens : String → List String) (fuel : ℕ) (self : Property)
    (key : String) (htok : ∀ n ∈ tokens key, n ≠ "" ∧ tokens n = [n]) :
    (∀ q, self.get tokens (fuel + 2) key = GetOutcome.found q ↔
        self.descend (tokens key) = some q)
      ∧ (self.get tokens (fuel + 2) key = GetOutcome.not_found key ↔
          ∃ (before : List String) (n : String) (after : List String) (q : Property),
            tokens key = before ++ n :: after ∧ self.descend before = some q
              ∧ q.find n = none)
      ∧ ((∃ q, self.get tokens (fuel + 2) key = GetOutcome.found q)
          ∨ self.get tokens (fuel + 2) key = GetOutcome.not_found key)
      ∧ (tokens key = [] → self.get tokens (fuel + 2) key = GetOutcome.found self)
      ∧ (self.exists tokens (fuel + 2) key = some true ↔
          ∃ q, self.get tokens (fuel + 2) key = GetOutcome.found q)
      ∧ (self.exists tokens (fuel + 2) key = some false ↔
          self.get tokens (fuel + 2) key = GetOutcome.not_found key) := by
  have hget := Property.get_eq_descend tokens fuel self key htok
  have hnone := Property.descend_eq_none_iff self (tokens key)
  refine ⟨?_, ?_, ?_, ?_, ?_, ?_⟩
  · intro q
    rw [hget]
    cases self.descend (tokens key) <;> simp
  · rw [← hnone, hget]
    cases self.descend (tokens key) <;> simp
  · rw [hget]
    cases self.descend (tokens key) <;> simp
  · intro hempty
    rw [hget, hempty]
    rfl
  · unfold Property.exists
    rw [hget]
    cases self.descend (tokens key) <;> simp
  · unfold Property.exists
    rw [hget]
    cases self.descend (tokens key) <;> simp

/-- The tokens that `split_tokens` returns have a character and hold no separator. -/
theorem split_tokens_mem (separator : Char) (chars current : List Char)
    (hcur : separator ∉ current) (n : String) (hn : n ∈ split_tokens separator chars current) :
    ∃ l : List Char, n = String.mk l ∧ l ≠ [] ∧ separator ∉ l := by
  induction chars generalizing current with
  | nil =>
    rw [split_tokens] at hn
    split at hn
    · simp at hn
    · rename_i hne
      rw [List.mem_singleton] at hn
      exact ⟨current.reverse, hn, by simpa using hne, by simpa using hcur⟩
  | cons c rest ih =>
    rw [split_tokens] at hn
    split at hn
    · split at hn
      · exact ih [] (List.not_mem_nil _) hn
      · rename_i hne
        rcases List.mem_cons.1 hn with h | h
        · exact ⟨current.reverse, h, by simpa using hne, by simpa using hcur⟩
        · exact ih [] (List.not_mem_nil _) h
    · rename_i hc
      refine ih (c :: current) ?_ hn
      intro hmem
      rcases List.mem_cons.1 hmem with h | h
      · exact hc h.symm
      · exact hcur h

/-- Characters without a separator form one token. -/
theorem split_tokens_no_separator (separator : Char) (chars current : List Char)
    (hchars : separator ∉ chars) :
    split_tokens separator chars current
      = if current.reverse ++ chars = [] then [] else [String.mk (current.reverse ++ chars)] := by
  induction chars generalizing current with
  | nil =>
    rw [split_tokens]
    simp
  | cons c rest ih =>
    have hc : c ≠ separator := fun h => hchars (h ▸ List.mem_cons_self _ _)
    rw [split_tokens, if_neg hc, ih (c :: current) (fun h => hchars (List.mem_cons_of_mem _ h))]
    simp

/-- Every token of `dot_tokens` is non-empty and is its own only token. -/
theorem dot_tokens_token (key n : String) (hn : n ∈ dot_tokens key) :
    n ≠ "" ∧ dot_tokens n = [n] := by
  obtain ⟨l, rfl, hl, hsep⟩ := split_tokens_mem '.' key.data [] (List.not_mem_nil _) n hn
  constructor
  · intro h
    exact hl (congrArg String.data h)
  · unfold dot_tokens
    rw [split_tokens_no_separator '.' l [] hsep]
    simp [hl]

/-- Witness for C23: in `sample_property` the key "map.weights" leads to the property
"weights" with the value "1 3". -/
theorem C23_property_get_witness :
    (∀ n ∈ dot_tokens "map.weights", n ≠ "" ∧ dot_tokens n = [n])
      ∧ sample_property.get dot_tokens 2 "map.weights"
          = GetOutcome.found (Property.mk "weights" "1 3" "options.map" [])
      ∧ sample_property.exists dot_tokens 2 "map.x" = some false
      ∧ sample_property.get dot_tokens 2 "" = GetOutcome.found sample_property :=
  ⟨by decide,
    ((C23_property_get dot_tokens 0 sample_property "map.weights" (by decide)).1 _).2 rfl,
    rfl, rfl⟩

/-! ## ObjectFactory: Register and Create -/

namespace ObjectFactory

theorem Register_objects_key {key_t T : Type} [DecidableEq key_t]
    (self : ObjectFactory key_t T) (key : key_t) (creator : Unit → T) :
    (self.Register key creator).objects_ key
      = some ((self.objects_ key).getD creator) := by
  simp only [Register, if_true]
  cases self.objects_ key <;> rfl

theorem Register_objects_other {key_t T : Type} [DecidableEq key_t]
    (self : ObjectFactory key_t T) (key : key_t) (creator : Unit → T) (k : key_t)
    (hk : k ≠ key) : (self.Register key creator).objects_ k = self.objects_ k := by
  simp [Register, hk]

/-- The entry of a key after a sequence of Register calls on a factory: the entry it had, or
else the creator of the first call for the key. -/
theorem foldl_Register_objects {key_t T : Type} [DecidableEq key_t]
    (calls : List (key_t × (Unit → T))) (self : ObjectFactory key_t T) (k : key_t) :
    (calls.foldl (fun factory call => factory.Register call.1 call.2) self).objects_ k
      = match self.objects_ k with
        | some existing => some existing
        | none => (calls.find? (fun call => decide (call.1 = k))).map (fun call => call.2) := by
  induction calls generalizing self with
  | nil =>
    rw [List.foldl_nil]
    cases h : self.objects_ k <;> simp
  | cons call rest ih =>
    rw [List.foldl_cons, ih]
    by_cases hk : call.1 = k
    · subst hk
      rw [Register_objects_key]
      cases self.objects_ call.1 <;> simp
    · rw [Register_objects_other self call.1 call.2 k (Ne.symm hk)]
      cases self.objects_ k <;> simp [hk]

end ObjectFactory

/-- Claim C24 (counterexample): the key "a" is registered with a creator that returns 1 and
then again with a creator that returns 2; after the second Register the call Create("a")
returns 1, the instance of the first creator, not one produced by the creator just
registered. -/
theorem C24_second_register_ignored_counterexample :
    twice_registered.IsRegistered "a" = true
      ∧ twice_registered.Create "a" = Except.ok 1
      ∧ twice_registered.Create "a" ≠ Except.ok ((fun _ : Unit => (2 : ℕ)) ()) := by
  refine ⟨?_, ?_, ?_⟩ <;>
    simp [twice_registered, ObjectFactory.Register, ObjectFactory.new, ObjectFactory.Create,
      ObjectFactory.IsRegistered]

/-- Claim C24 (amended): for every state of an ObjectFactory, key and creator, after
Register(key, creator) the key is registered and Create(key) returns an instance produced by
the creator that the factory held for the key before the call, or by the new creator when it
held none.  For a factory built by Register calls, Create(key) fails with the error "factory
key not found" if and only if no Register call was made for the key, and otherwise returns an
instance produced by the creator of the first Register call for the key. -/
theorem C24_register_create {key_t T : Type} [DecidableEq key_t]
    (self : ObjectFactory key_t T) (key : key_t) (creator : Unit → T) :
    (self.Register key creator).IsRegistered key = true
      ∧ (self.IsRegistered key = false →
          (self.Register key creator).Create key = Except.ok (creator ()))
      ∧ (∀ existing, self.objects_ key = some existing →
          (self.Register key creator).Create key = Except.ok (existing ()))
      ∧ ∀ (calls : List (key_t × (Unit → T))) (k : key_t),
          ((ObjectFactory.register_all calls).Create k
              = Except.error (FactoryError.key_not_found k) ↔
            k ∉ calls.map (fun call => call.1))
          ∧ ((∃ e, (ObjectFactory.register_all calls).Create k = Except.error e) ↔
            k ∉ calls.map (fun call => call.1))
          ∧ ∀ call, calls.find? (fun call => decide (call.1 = k)) = some call →
              (ObjectFactory.register_all calls).Create k = Except.ok (call.2 ()) := by
  refine ⟨?_, ?_, ?_, ?_⟩
  · simp [ObjectFactory.IsRegistered, ObjectFactory.Register_objects_key]
  · intro hnot
    have hnone : self.objects_ key = none := by
      simpa [ObjectFactory.IsRegistered] using hnot
    simp [ObjectFactory.Create, ObjectFactory.Register_objects_key, hnone]
  · intro existing hex
    simp [ObjectFactory.Create, ObjectFactory.Register_objects_key, hex]
  · intro calls k
    have hobj : (ObjectFactory.register_all calls).objects_ k
        = (calls.find? (fun call => decide (call.1 = k))).map (fun call => call.2) := by
      unfold ObjectFactory.register_all
      rw [ObjectFactory.foldl_Register_objects]
      rfl
    have hnone : calls.find? (fun call => decide (call.1 = k)) = none ↔
        k ∉ calls.map (fun call => call.1) := by
      rw [List.find?_eq_none]
      simp only [decide_eq_true_eq, List.mem_map, not_exists, not_and]
    refine ⟨?_, ?_, ?_⟩
    · rw [← hnone]
      unfold ObjectFactory.Create
      rw [hobj]
      cases calls.find? (fun call => decide (call.1 = k)) <;> simp
    · rw [← hnone]
      unfold ObjectFactory.Create
      rw [hobj]
      cases calls.find? (fun call => decide (call.1 = k)) <;> simp
    · intro call hcall
      unfold ObjectFactory.Create
      rw [hobj, hcall]
      rfl

/-- Witness for C24 (amended): a fresh factory has no key "a"; after Register with a creator
that returns 1 the call Create("a") returns 1, and a key "b" that was never registered is not
found. -/
theorem C24_register_create_witness :
    (ObjectFactory.new : ObjectFactory String ℕ).IsRegistered "a" = false
      ∧ ((ObjectFactory.new : ObjectFactory String ℕ).Register "a" (fun _ => 1)).Create "a"
          = Except.ok 1
      ∧ (ObjectFactory.register_all [("a", fun _ => (1 : ℕ)), ("a", fun _ => 2)]).Create "b"
          = Except.error (FactoryError.key_not_found "b") :=
  ⟨rfl,
    (C24_register_create (ObjectFactory.new : ObjectFactory String ℕ) "a" (fun _ => 1)).2.1
      rfl,
    ((C24_register_create (ObjectFactory.new : ObjectFactory String ℕ) "a"
      (fun _ => 1)).2.2.2 [("a", fun _ => (1 : ℕ)), ("a", fun _ => 2)] "b").1.mpr
      (by decide)⟩

/-! ## BondedStatistics: BeginCG and EvalConfiguration -/

namespace BondedStatistics

theorem foldl_CreateArray (l : List Interaction) (values : DataCollection) :
    (l.foldl (fun values interaction => values.CreateArray interaction.getName) values).Data
      = values.Data ++ l.map (fun ia => { getName := ia.getName, values := [] }) := by
  induction l generalizing values with
  | nil => simp
  | cons ia rest ih =>
    rw [List.foldl_cons, ih]
    simp [DataCollection.CreateArray]

/-- The arrays after BeginCG: one per interaction, in order, named after it and empty. -/
theorem BeginCG_Data (self : BondedStatistics)
    (BondedInteractions : Topology → List Interaction) (top : Topology) :
    (self.BeginCG BondedInteractions top).bonded_values_.Data
      = (BondedInteractions top).map (fun ia => { getName := ia.getName, values := [] }) := by
  simp [BeginCG, foldl_CreateArray, DataCollection.clear]

/-- One pass of the loop of EvalConfiguration over arrays that stand one per interaction. -/
theorem eval_loop_map (conf : Topology) (ic : List Interaction)
    (entries : Interaction → List ℚ) :
    eval_loop conf ic (ic.map (fun ia => { getName := ia.getName, values := entries ia }))
      = some (ic.map (fun ia =>
          { getName := ia.getName, values := entries ia ++ [ia.EvaluateVar conf] })) := by
  induction ic with
  | nil => rfl
  | cons ia rest ih =>
    rw [List.map_cons, eval_loop, ih]
    rfl

/-- The arrays after a sequence of EvalConfiguration calls, started from arrays that stand
one per interaction. -/
theorem EvalConfigurations_map (BondedInteractions : Topology → List Interaction)
    (ic : List Interaction) (confs : List Topology)
    (hsame : ∀ conf ∈ confs, BondedInteractions conf = ic) (entries : Interaction → List ℚ) :
    EvalConfigurations
        { bonded_values_ :=
            { Data := ic.map (fun ia => { getName := ia.getName, values := entries ia }) } }
        BondedInteractions confs
      = some { bonded_values_ :=
          { Data := ic.map (fun ia =>
              { getName := ia.getName
                values := entries ia ++ confs.map (fun conf => ia.EvaluateVar conf) }) } } := by
  induction confs generalizing entries with
  | nil => simp [EvalConfigurations]
  | cons conf rest ih =>
    have hrest : ∀ c ∈ rest, BondedInteractions c = ic :=
      fun c hc => hsame c (List.mem_cons_of_mem _ hc)
    have hstep : EvalConfiguration
          { bonded_values_ :=
              { Data := ic.map (fun ia => { getName := ia.getName, values := entries ia }) } }
          BondedInteractions conf
        = some { bonded_values_ :=
            { Data := ic.map (fun ia =>
                { getName := ia.getName
                  values := entries ia ++ [ia.EvaluateVar conf] }) } } := by
      simp only [EvalConfiguration, hsame conf (List.mem_cons_self _ _), eval_loop_map]
    have hih := ih hrest (fun ia => entries ia ++ [ia.EvaluateVar conf])
    unfold EvalConfigurations at hih ⊢
    rw [List.foldl_cons]
    simp only [hstep]
    rw [hih]
    simp

end BondedStatistics

/-- Claim C25: for a topology with n bonded interactions, after BondedStatistics::BeginCG the
value collection holds exactly n arrays, in the order of the interactions, the i-th with the
name of the i-th interaction, each empty, whatever the collection held before.  After k
subsequent calls of EvalConfiguration on configurations with these interactions every array
has exactly k entries, the j-th entry of the i-th array being the value of EvaluateVar of the
i-th interaction at the j-th call. -/
theorem C25_bonded_values (self : BondedStatistics)
    (BondedInteractions : Topology → List Interaction) (top : Topology)
    (confs : List Topology)
    (hsame : ∀ conf ∈ confs, BondedInteractions conf = BondedInteractions top) :
    (self.BeginCG BondedInteractions top).bonded_values_.Data
        = (BondedInteractions top).map (fun ia => { getName := ia.getName, values := [] })
      ∧ (self.BeginCG BondedInteractions top).bonded_values_.Data.length
        = (BondedInteractions top).length
      ∧ (self.BeginCG BondedInteractions top).EvalConfigurations BondedInteractions confs
        = some { bonded_values_ :=
            { Data := (BondedInteractions top).map (fun ia =>
                { getName := ia.getName
                  values := confs.map (fun conf => ia.EvaluateVar conf) }) } }
      ∧ ∀ statistics,
          (self.BeginCG BondedInteractions top).EvalConfigurations BondedInteractions confs
            = some statistics →
          ∀ a ∈ statistics.bonded_values_.Data, a.values.length = confs.length := by
  have hbegin := BondedStatistics.BeginCG_Data self BondedInteractions top
  have hstate : self.BeginCG BondedInteractions top
      = { bonded_values_ :=
          { Data := (BondedInteractions top).map
              (fun ia => { getName := ia.getName, values := [] }) } } := by
    cases h : self.BeginCG BondedInteractions top with
    | mk values =>
      rw [h] at hbegin
      cases values
      simp only at hbegin
      rw [hbegin]
  have hall := BondedStatistics.EvalConfigurations_map BondedInteractions
    (BondedInteractions top) confs hsame (fun _ => [])
  simp only [List.nil_append] at hall
  refine ⟨hbegin, by rw [hbegin, List.length_map], ?_, ?_⟩
  · rw [hstate]
    exact hall
  · intro statistics hst a ha
    rw [hstate, hall] at hst
    cases hst
    obtain ⟨ia, _, rfl⟩ := List.mem_map.1 ha
    simp

theorem sample_bond_values :
    (sample_bond ":covalent_bond1" 0 1).EvaluateVar bonded_top = 1
      ∧ (sample_bond ":covalent_bond2" 1 2).EvaluateVar bonded_top = 2 := by
  constructor
  · simp only [sample_bond, bonded_top, sample_bead]
    norm_num
    apply rat_sqrt_of_sq _ 1 (by norm_num)
    norm_num [TriclinicBox.BCShortestConnection, cubic_box, std_round, Matrix3d.col,
      Vec3.sub_def, Vec3.smul, Vec3.squaredNorm]
  · simp only [sample_bond, bonded_top, sample_bead]
    norm_num
    apply rat_sqrt_of_sq _ 2 (by norm_num)
    norm_num [TriclinicBox.BCShortestConnection, cubic_box, std_round, Matrix3d.col,
      Vec3.sub_def, Vec3.smul, Vec3.squaredNorm]

/-- Witness for C25: the configuration of `test_bondedstatistics.cc`, with a value collection
that held an array before; after BeginCG there are two empty arrays with the names of the
bonds, and after one EvalConfiguration they hold the bond lengths 1 and 2. -/
theorem C25_bonded_values_witness :
    used_statistics.bonded_values_.Data = [{ getName := "old", values := [7] }]
      ∧ (used_statistics.BeginCG sample_bonds bonded_top).bonded_values_.Data
          = [{ getName := ":covalent_bond1", values := [] },
              { getName := ":covalent_bond2", values := [] }]
      ∧ (used_statistics.BeginCG sample_bonds bonded_top).EvalConfigurations sample_bonds
            [bonded_top]
          = some { bonded_values_ :=
              { Data := [{ getName := ":covalent_bond1", values := [1] },
                  { getName := ":covalent_bond2", values := [2] }] } } :=
  ⟨rfl,
    (C25_bonded_values used_statistics sample_bonds bonded_top [bonded_top]
      (fun _ _ => rfl)).1,
    (C25_bonded_values used_statistics sample_bonds bonded_top [bonded_top]
      (fun _ _ => rfl)).2.2.1.trans
      (by
        simp only [sample_bonds, List.map_cons, List.map_nil, sample_bond_values.1,
          sample_bond_values.2]
        rfl)⟩

/-! ## The tensor of gyration: divisor and summation -/

theorem round_half_even_err (x : ℚ) : |(round_half_even x : ℚ) - x| ≤ 1 / 2 := by
  have h1 := Int.floor_le x
  have h2 := Int.lt_floor_add_one x
  unfold round_half_even
  split_ifs with ha hb hc
  · rw [abs_le]; constructor <;> linarith
  · rw [abs_le]; push_cast; constructor <;> linarith
  · rw [abs_le]; constructor <;> linarith
  · rw [abs_le]; push_cast; constructor <;> linarith

theorem round_half_even_eq_of_abs_lt (x : ℚ) (n : ℤ) (h : |x - n| < 1 / 2) :
    round_half_even x = n := by
  rw [abs_lt] at h
  obtain ⟨h1, h2⟩ := h
  unfold round_half_even
  by_cases hn : (n : ℚ) ≤ x
  · have hf : ⌊x⌋ = n := by
      rw [Int.floor_eq_iff]
      constructor <;> linarith
    rw [hf, if_pos (by linarith)]
  · have hf : ⌊x⌋ = n - 1 := by
      rw [Int.floor_eq_iff]
      push_cast
      constructor <;> linarith
    rw [hf]
    push_cast
    rw [if_neg (by linarith), if_pos (by linarith)]
    ring

theorem round_half_even_intCast (n : ℤ) : round_half_even (n : ℚ) = n :=
  round_half_even_eq_of_abs_lt _ n (by simp)

theorem round_half_even_ge (x : ℚ) (a : ℤ) (h : (a : ℚ) ≤ x) : a ≤ round_half_even x := by
  have hf : a ≤ ⌊x⌋ := Int.le_floor.mpr h
  unfold round_half_even
  split_ifs <;> omega

theorem round_half_even_le (x : ℚ) (b : ℤ) (h : x ≤ (b : ℚ)) : round_half_even x ≤ b := by
  rcases eq_or_lt_of_le h with heq | hlt
  · rw [heq, round_half_even_intCast]
  · have hf : ⌊x⌋ < b := Int.floor_lt.mpr hlt
    unfold round_half_even
    split_ifs <;> omega

theorem two_zpow_pos (e : ℤ) : (0 : ℚ) < 2 ^ e := zpow_pos (by norm_num) e

/-- The exponent that `binary64_pos` finds. -/
theorem log_eq_of_scaled (x : ℚ) (e : ℤ) (h1 : (2 : ℚ) ^ (52 : ℕ) ≤ x / 2 ^ e)
    (h2 : x / 2 ^ e < 2 ^ (53 : ℕ)) : Int.log 2 x - 52 = e := by
  have hp := two_zpow_pos e
  have hx : 0 < x := by
    have : 0 < x / 2 ^ e := lt_of_lt_of_le (by norm_num) h1
    exact (div_pos_iff_of_pos_right hp).mp this
  rw [le_div_iff₀ hp] at h1
  rw [div_lt_iff₀ hp] at h2
  have e1 : (2 : ℚ) ^ (52 : ℕ) * 2 ^ e = ((2 : ℕ) : ℚ) ^ (e + 52) := by
    rw [zpow_add₀ (by norm_num), mul_comm]
    norm_num
  have e2 : (2 : ℚ) ^ (53 : ℕ) * 2 ^ e = ((2 : ℕ) : ℚ) ^ (e + 52 + 1) := by
    rw [zpow_add₀ (by norm_num), zpow_add₀ (by norm_num), mul_comm]
    norm_num
    ring
  rw [e1] at h1
  rw [e2] at h2
  have l1 : e + 52 ≤ Int.log 2 x := (Int.zpow_le_iff_le_log (by norm_num) hx).mp h1
  have l2 : Int.log 2 x < e + 52 + 1 := (Int.lt_zpow_iff_log_lt (by norm_num) hx).mp h2
  omega

theorem binary64_pos_eq (x : ℚ) (e : ℤ) (h1 : (2 : ℚ) ^ (52 : ℕ) ≤ x / 2 ^ e)
    (h2 : x / 2 ^ e < 2 ^ (53 : ℕ)) :
    binary64_pos x = round_half_even (x / 2 ^ e) * 2 ^ e := by
  unfold binary64_pos
  simp only
  rw [log_eq_of_scaled x e h1 h2]

/-- Every positive number has a scaling into [2^52, 2^53). -/
theorem exists_scaled (x : ℚ) (hx : 0 < x) :
    (2 : ℚ) ^ (52 : ℕ) ≤ x / 2 ^ (Int.log 2 x - 52)
      ∧ x / 2 ^ (Int.log 2 x - 52) < 2 ^ (53 : ℕ) := by
  have hp := two_zpow_pos (Int.log 2 x - 52)
  have l1 : ((2 : ℕ) : ℚ) ^ Int.log 2 x ≤ x := Int.zpow_log_le_self (by norm_num) hx
  have l2 : x < ((2 : ℕ) : ℚ) ^ (Int.log 2 x + 1) :=
    Int.lt_zpow_succ_log_self (by norm_num) x
  rw [le_div_iff₀ hp, div_lt_iff₀ hp]
  have e1 : (2 : ℚ) ^ (52 : ℕ) * 2 ^ (Int.log 2 x - 52) = ((2 : ℕ) : ℚ) ^ (Int.log 2 x) := by
    rw [zpow_sub₀ (by norm_num)]
    norm_num
    ring
  have e2 : (2 : ℚ) ^ (53 : ℕ) * 2 ^ (Int.log 2 x - 52)
      = ((2 : ℕ) : ℚ) ^ (Int.log 2 x + 1) := by
    rw [zpow_sub₀ (by norm_num), zpow_add₀ (by norm_num)]
    norm_num
    ring
  rw [e1, e2]
  exact ⟨l1, l2⟩


theorem binary64_pos_err (x : ℚ) (hx : 0 < x) :
    |binary64_pos x - x| ≤ x / 2 ^ (53 : ℕ) := by
  obtain ⟨h1, h2⟩ := exists_scaled x hx
  unfold binary64_pos
  simp only
  generalize Int.log 2 x - 52 = e at h1 h2
  have hp := two_zpow_pos e
  have herr := round_half_even_err (x / 2 ^ e)
  have e1 : (round_half_even (x / 2 ^ e) : ℚ) * 2 ^ e - x
      = ((round_half_even (x / 2 ^ e) : ℚ) - x / 2 ^ e) * 2 ^ e := by
    field_simp
  rw [e1, abs_mul, abs_of_pos hp]
  rw [le_div_iff₀ hp] at h1
  calc |(round_half_even (x / 2 ^ e) : ℚ) - x / 2 ^ e| * 2 ^ e
      ≤ 1 / 2 * 2 ^ e := mul_le_mul_of_nonneg_right herr hp.le
    _ ≤ x / 2 ^ (53 : ℕ) := by
      rw [le_div_iff₀ (by norm_num)]
      norm_num at h1 ⊢
      linarith

/-- The relative error of a rounding to `double` is at most the unit round-off 2^-53. -/
theorem binary64_err (x : ℚ) : |binary64 x - x| ≤ 1 / 2 ^ (53 : ℕ) * |x| := by
  unfold binary64
  split_ifs with h0 hpos
  · simp [h0]
  · rw [abs_of_pos hpos]
    have := binary64_pos_err x hpos
    calc |binary64_pos x - x| ≤ x / 2 ^ (53 : ℕ) := this
      _ = 1 / 2 ^ (53 : ℕ) * x := by ring
  · have hneg : 0 < -x := by
      rcases lt_trichotomy x 0 with h | h | h
      · linarith
      · exact absurd h h0
      · exact absurd h hpos
    have := binary64_pos_err (-x) hneg
    rw [abs_of_neg (by linarith : x < 0)]
    have e1 : -binary64_pos (-x) - x = -(binary64_pos (-x) - -x) := by ring
    rw [e1, abs_neg]
    calc |binary64_pos (-x) - -x| ≤ -x / 2 ^ (53 : ℕ) := this
      _ = 1 / 2 ^ (53 : ℕ) * -x := by ring

theorem binary64_zero : binary64 0 = 0 := by simp [binary64]

/-- A number with a significand of at most 53 bits is a `double`: rounding returns it. -/
theorem binary64_pos_of_significand (n : ℤ) (e : ℤ) (h1 : (2 : ℤ) ^ (52 : ℕ) ≤ n)
    (h2 : n ≤ 2 ^ (53 : ℕ)) : binary64_pos (n * 2 ^ e) = n * 2 ^ e := by
  have hp := two_zpow_pos e
  rcases eq_or_lt_of_le h2 with heq | hlt
  · -- n = 2^53: the next binade
    have hx : ((n : ℚ) * 2 ^ e) / 2 ^ (e + 1) = ((2 : ℤ) ^ (52 : ℕ) : ℤ) := by
      rw [heq, zpow_add₀ (by norm_num)]
      push_cast
      field_simp
      ring
    rw [binary64_pos_eq _ (e + 1) (by rw [hx]; norm_num) (by rw [hx]; norm_num), hx,
      round_half_even_intCast, heq, zpow_add₀ (by norm_num)]
    push_cast
    ring
  · have hx : ((n : ℚ) * 2 ^ e) / 2 ^ e = n := by field_simp
    rw [binary64_pos_eq _ e (by rw [hx]; exact_mod_cast h1) (by rw [hx]; exact_mod_cast hlt),
      hx, round_half_even_intCast]

theorem binary64_pos_idem (x : ℚ) (hx : 0 < x) :
    binary64_pos (binary64_pos x) = binary64_pos x ∧ 0 < binary64_pos x := by
  obtain ⟨h1, h2⟩ := exists_scaled x hx
  have hdef : binary64_pos x
      = round_half_even (x / 2 ^ (Int.log 2 x - 52)) * 2 ^ (Int.log 2 x - 52) := rfl
  rw [hdef]
  generalize Int.log 2 x - 52 = e at h1 h2
  have hlo : (2 : ℤ) ^ (52 : ℕ) ≤ round_half_even (x / 2 ^ e) :=
    round_half_even_ge _ _ (by exact_mod_cast h1)
  have hhi : round_half_even (x / 2 ^ e) ≤ (2 : ℤ) ^ (53 : ℕ) :=
    round_half_even_le _ _ (by exact_mod_cast h2.le)
  refine ⟨binary64_pos_of_significand _ e hlo hhi, ?_⟩
  have : (0 : ℚ) < round_half_even (x / 2 ^ e) := by
    have : (0 : ℤ) < round_half_even (x / 2 ^ e) := lt_of_lt_of_le (by norm_num) hlo
    exact_mod_cast this
  exact mul_pos this (two_zpow_pos e)

/-- Rounding to `double` leaves a `double` as it is. -/
theorem binary64_idem (x : ℚ) : binary64 (binary64 x) = binary64 x := by
  by_cases h0 : x = 0
  · rw [h0, binary64_zero, binary64_zero]
  by_cases hpos : 0 < x
  · obtain ⟨h1, h2⟩ := binary64_pos_idem x hpos
    have e1 : binary64 x = binary64_pos x := by
      unfold binary64
      rw [if_neg h0, if_pos hpos]
    rw [e1]
    unfold binary64
    rw [if_neg h2.ne', if_pos h2, h1]
  · have hneg : 0 < -x := by
      rcases lt_trichotomy x 0 with h | h | h
      · linarith
      · exact absurd h h0
      · exact absurd h hpos
    obtain ⟨h1, h2⟩ := binary64_pos_idem (-x) hneg
    have e1 : binary64 x = -binary64_pos (-x) := by
      unfold binary64
      rw [if_neg h0, if_neg hpos]
    rw [e1]
    unfold binary64
    rw [if_neg (by linarith : ¬ -binary64_pos (-x) = 0),
      if_neg (by linarith : ¬ 0 < -binary64_pos (-x)), neg_neg, h1]

/-- The value of a rounding to `double`, from the scaled significand. -/
theorem binary64_eq_of_pos (x : ℚ) (s : ℚ) (e : ℤ) (n : ℤ) (hs : s = 2 ^ e)
    (h1 : (2 : ℚ) ^ (52 : ℕ) ≤ x / s) (h2 : x / s < 2 ^ (53 : ℕ))
    (hn : |x / s - n| < 1 / 2) : binary64 x = n * s := by
  subst hs
  have hp := two_zpow_pos e
  have hx : 0 < x := by
    have : 0 < x / 2 ^ e := lt_of_lt_of_le (by norm_num) h1
    exact (div_pos_iff_of_pos_right hp).mp this
  unfold binary64
  rw [if_neg hx.ne', if_pos hx, binary64_pos_eq x e h1 h2,
    round_half_even_eq_of_abs_lt _ n hn]

theorem binary64_neg (x : ℚ) : binary64 (-x) = -binary64 x := by
  unfold binary64
  rcases lt_trichotomy x 0 with h | h | h
  · rw [if_neg (by linarith : ¬ -x = 0), if_pos (by linarith : 0 < -x),
      if_neg (by linarith : ¬ x = 0), if_neg (by linarith : ¬ 0 < x), neg_neg]
  · simp [h]
  · rw [if_neg (by linarith : ¬ -x = 0), if_neg (by linarith : ¬ 0 < -x),
      if_neg (by linarith : ¬ x = 0), if_pos h, neg_neg]

theorem round_half_even_tie (x : ℚ) (n : ℤ) (hx : x = n + 1 / 2) (hn : n % 2 = 0) :
    round_half_even x = n := by
  have hf : ⌊x⌋ = n := by
    rw [Int.floor_eq_iff, hx]
    constructor <;> linarith
  unfold round_half_even
  rw [hf, hx, if_neg (by norm_num), if_neg (by norm_num), if_pos hn]

/-- The value of a rounding to `double` in a halfway case: the even significand. -/
theorem binary64_eq_of_tie (x : ℚ) (s : ℚ) (e : ℤ) (n : ℤ) (hs : s = 2 ^ e)
    (h1 : (2 : ℚ) ^ (52 : ℕ) ≤ x / s) (h2 : x / s < 2 ^ (53 : ℕ))
    (hx : x / s = n + 1 / 2) (hn : n % 2 = 0) : binary64 x = n * s := by
  subst hs
  have hp := two_zpow_pos e
  have hpos : 0 < x := by
    have : 0 < x / 2 ^ e := lt_of_lt_of_le (by norm_num) h1
    exact (div_pos_iff_of_pos_right hp).mp this
  unfold binary64
  rw [if_neg hpos.ne', if_pos hpos, binary64_pos_eq x e h1 h2, round_half_even_tie _ n hx hn]

theorem round_half_even_tie_up (x : ℚ) (n : ℤ) (hx : x = n - 1 / 2) (hn : n % 2 = 0) :
    round_half_even x = n := by
  have hf : ⌊x⌋ = n - 1 := by
    rw [Int.floor_eq_iff, hx]
    push_cast
    constructor <;> linarith
  have hodd : ¬ (n - 1) % 2 = 0 := by omega
  unfold round_half_even
  rw [hf, hx]
  push_cast
  rw [if_neg (by norm_num), if_neg (by norm_num), if_neg hodd]
  ring

/-- The value of a rounding to `double` in a halfway case below an even significand. -/
theorem binary64_eq_of_tie_up (x : ℚ) (s : ℚ) (e : ℤ) (n : ℤ) (hs : s = 2 ^ e)
    (h1 : (2 : ℚ) ^ (52 : ℕ) ≤ x / s) (h2 : x / s < 2 ^ (53 : ℕ))
    (hx : x / s = n - 1 / 2) (hn : n % 2 = 0) : binary64 x = n * s := by
  subst hs
  have hp := two_zpow_pos e
  have hpos : 0 < x := by
    have : 0 < x / 2 ^ e := lt_of_lt_of_le (by norm_num) h1
    exact (div_pos_iff_of_pos_right hp).mp this
  unfold binary64
  rw [if_neg hpos.ne', if_pos hpos, binary64_pos_eq x e h1 h2,
    round_half_even_tie_up _ n hx hn]

theorem rounded_zero (rnd : ℚ → ℚ) (u : ℚ) (hrnd : ∀ x, |rnd x - x| ≤ u * |x|) :
    rnd 0 = 0 := by
  have h := hrnd 0
  rw [abs_zero, mul_zero, sub_zero] at h
  exact abs_eq_zero.mp (le_antisymm h (abs_nonneg _))

theorem abs_rounded_le (rnd : ℚ → ℚ) (u : ℚ) (hrnd : ∀ x, |rnd x - x| ≤ u * |x|) (x : ℚ) :
    |rnd x| ≤ (1 + u) * |x| := by
  have h := hrnd x
  have h2 : |rnd x| ≤ |rnd x - x| + |x| := by
    have := abs_add (rnd x - x) x
    rwa [sub_add_cancel] at this
  linarith

/-- One reduction step in rounded arithmetic: what is left of `s` after the rounded multiple
of `m` is subtracted exceeds `m / 2` by no more than the rounding errors. -/
theorem abs_rounded_reduction_le (rnd : ℚ → ℚ) (u : ℚ) (hu : 0 ≤ u)
    (hrnd : ∀ x, |rnd x - x| ≤ u * |x|) (s m : ℚ) (hm : 0 < m) :
    |rnd (s - rnd (m * std_round (rnd (s / m))))|
      ≤ (1 + u) ^ 2 * (m / 2) + u * (1 + u) * (2 + u) * |s| := by
  have hQ := hrnd (s / m)
  have hK := abs_sub_std_round_le (rnd (s / m))
  generalize hKdef : (std_round (rnd (s / m)) : ℚ) = K at hK
  generalize rnd (s / m) = Q at hQ hK
  have hP := hrnd (m * K)
  have hR := abs_rounded_le rnd u hrnd (s - rnd (m * K))
  generalize rnd (m * K) = P at hP hR
  generalize rnd (s - P) = R at hR
  -- |s - m K| ≤ m / 2 + u |s|
  have hA : |s - m * K| ≤ m / 2 + u * |s| := by
    have e : s - m * K = ((s / m - Q) + (Q - K)) * m := by
      field_simp
      ring
    have h1 : |s / m - Q| ≤ u * |s| / m := by
      rw [abs_sub_comm]
      calc |Q - s / m| ≤ u * |s / m| := hQ
        _ = u * |s| / m := by rw [abs_div, abs_of_pos hm, mul_div_assoc]
    have h2 : |(s / m - Q) + (Q - K)| ≤ u * |s| / m + 1 / 2 :=
      le_trans (abs_add _ _) (add_le_add h1 hK)
    rw [e, abs_mul, abs_of_pos hm]
    calc |(s / m - Q) + (Q - K)| * m ≤ (u * |s| / m + 1 / 2) * m :=
          mul_le_mul_of_nonneg_right h2 hm.le
      _ = m / 2 + u * |s| := by
        field_simp
        ring
  have hB : |m * K| ≤ |s| + |s - m * K| := by
    have := abs_sub (s) (s - m * K)
    have e : s - (s - m * K) = m * K := by ring
    rw [e] at this
    exact this
  have hD : |s - P| ≤ |s - m * K| + |P - m * K| := by
    have e : s - P = (s - m * K) - (P - m * K) := by ring
    rw [e]
    exact abs_sub _ _
  have hs := abs_nonneg s
  have hA0 := abs_nonneg (s - m * K)
  have hu1 : 0 ≤ 1 + u := by linarith
  have hC : |P - m * K| ≤ u * (|s| + |s - m * K|) :=
    le_trans hP (mul_le_mul_of_nonneg_left hB hu)
  have hD2 : |s - P| ≤ (1 + u) * |s - m * K| + u * |s| := by
    calc |s - P| ≤ |s - m * K| + |P - m * K| := hD
      _ ≤ |s - m * K| + u * (|s| + |s - m * K|) := by linarith
      _ = (1 + u) * |s - m * K| + u * |s| := by ring
  have hD3 : |s - P| ≤ (1 + u) * (m / 2 + u * |s|) + u * |s| :=
    le_trans hD2 (by
      have := mul_le_mul_of_nonneg_left hA hu1
      linarith)
  calc |R| ≤ (1 + u) * |s - P| := hR
    _ ≤ (1 + u) * ((1 + u) * (m / 2 + u * |s|) + u * |s|) :=
      mul_le_mul_of_nonneg_left hD3 hu1
    _ = (1 + u) ^ 2 * (m / 2) + u * (1 + u) * (2 + u) * |s| := by ring

/-- The rounded quotient of a computed component `s` that lies within `e` of
`T = w - n m` rounds to `-n` when `|w|` is below `m / 2` by more than the errors. -/
theorem std_round_rounded_quotient (rnd : ℚ → ℚ) (u : ℚ) (hu : 0 ≤ u)
    (hrnd : ∀ x, |rnd x - x| ≤ u * |x|) (m s T w e : ℚ) (n : ℤ) (hm : 0 < m)
    (hT : T = w - n * m) (hs : |s - T| ≤ e)
    (hmargin : |w| + e + u * (|T| + e) < m / 2) :
    std_round (rnd (s / m)) = -n := by
  apply std_round_eq_of_abs_sub_lt
  have hQ := hrnd (s / m)
  generalize rnd (s / m) = Q at hQ
  have hs1 : |s| ≤ |T| + e := by
    have := abs_add (s - T) T
    rw [sub_add_cancel] at this
    linarith
  have hQ' : |Q - s / m| ≤ u * (|T| + e) / m := by
    calc |Q - s / m| ≤ u * |s / m| := hQ
      _ = u * |s| / m := by rw [abs_div, abs_of_pos hm, mul_div_assoc]
      _ ≤ u * (|T| + e) / m :=
        div_le_div_of_nonneg_right (mul_le_mul_of_nonneg_left hs1 hu) hm.le
  have e1 : Q - ((-n : ℤ) : ℚ) = (Q - s / m) + ((s - T) / m + w / m) := by
    rw [hT]
    push_cast
    field_simp
    ring
  have h2 : |(s - T) / m| ≤ e / m := by
    rw [abs_div, abs_of_pos hm]
    exact div_le_div_of_nonneg_right hs hm.le
  have h3 : |w / m| = |w| / m := by rw [abs_div, abs_of_pos hm]
  rw [e1]
  calc |(Q - s / m) + ((s - T) / m + w / m)|
      ≤ |Q - s / m| + (|(s - T) / m| + |w / m|) :=
        le_trans (abs_add _ _) (add_le_add (le_refl _) (abs_add _ _))
    _ ≤ u * (|T| + e) / m + (e / m + |w| / m) := by rw [h3]; linarith
    _ = (|w| + e + u * (|T| + e)) / m := by ring
    _ < 1 / 2 := by
      rw [div_lt_iff₀ hm]
      linarith

/-- The error of one rounded update `s - c K` against its exact counterpart `T - c K`. -/
theorem abs_rounded_update_le (rnd : ℚ → ℚ) (u : ℚ) (hu : 0 ≤ u)
    (hrnd : ∀ x, |rnd x - x| ≤ u * |x|) (s T c K e : ℚ) (hs : |s - T| ≤ e) :
    |rnd (s - rnd (c * K)) - (T - c * K)|
      ≤ (1 + u) * (e + u * |c * K|) + u * |T - c * K| := by
  have hP := hrnd (c * K)
  generalize rnd (c * K) = P at hP
  have hR := hrnd (s - P)
  generalize rnd (s - P) = R at hR
  have hX : |(s - P) - (T - c * K)| ≤ e + u * |c * K| := by
    have e1 : (s - P) - (T - c * K) = (s - T) - (P - c * K) := by ring
    rw [e1]
    exact le_trans (abs_sub _ _) (add_le_add hs hP)
  have hX2 : |s - P| ≤ |T - c * K| + (e + u * |c * K|) := by
    have := abs_add ((s - P) - (T - c * K)) (T - c * K)
    rw [sub_add_cancel] at this
    linarith
  have hR2 : |R - (s - P)| ≤ u * (|T - c * K| + (e + u * |c * K|)) :=
    le_trans hR (mul_le_mul_of_nonneg_left hX2 hu)
  have e2 : R - (T - c * K) = (R - (s - P)) + ((s - P) - (T - c * K)) := by ring
  rw [e2]
  calc |(R - (s - P)) + ((s - P) - (T - c * K))|
      ≤ |R - (s - P)| + |(s - P) - (T - c * K)| := abs_add _ _
    _ ≤ u * (|T - c * K| + (e + u * |c * K|)) + (e + u * |c * K|) := add_le_add hR2 hX
    _ = (1 + u) * (e + u * |c * K|) + u * |T - c * K| := by ring

/-- The coarse form of `abs_rounded_update_le`: with all quantities bounded by the scale `S`
and `u ≤ 1/16`, an error of `c₀ u S` becomes at most `((17/16)(c₀ + 1) + 1) u S`. -/
theorem abs_rounded_update_coarse (rnd : ℚ → ℚ) (u : ℚ) (hu : 0 ≤ u) (hu16 : u ≤ 1 / 16)
    (hrnd : ∀ x, |rnd x - x| ≤ u * |x|) (s T c K S c₀ : ℚ) (hc₀ : 0 ≤ c₀)
    (hs : |s - T| ≤ c₀ * (u * S)) (hcK : |c * K| ≤ S) (hT : |T - c * K| ≤ S) :
    |rnd (s - rnd (c * K)) - (T - c * K)| ≤ (17 / 16 * (c₀ + 1) + 1) * (u * S) := by
  have h := abs_rounded_update_le rnd u hu hrnd s T c K _ hs
  have hS : 0 ≤ S := le_trans (abs_nonneg _) hcK
  have huS : 0 ≤ u * S := mul_nonneg hu hS
  have h1 : u * |c * K| ≤ u * S := mul_le_mul_of_nonneg_left hcK hu
  have h2 : u * |T - c * K| ≤ u * S := mul_le_mul_of_nonneg_left hT hu
  have h3 : (1 + u) * (c₀ * (u * S) + u * |c * K|) ≤ 17 / 16 * (c₀ * (u * S) + u * S) := by
    have ha : c₀ * (u * S) + u * |c * K| ≤ c₀ * (u * S) + u * S := by linarith
    have hb : 0 ≤ c₀ * (u * S) + u * S := by positivity
    calc (1 + u) * (c₀ * (u * S) + u * |c * K|)
        ≤ (1 + u) * (c₀ * (u * S) + u * S) :=
          mul_le_mul_of_nonneg_left ha (by linarith)
      _ ≤ 17 / 16 * (c₀ * (u * S) + u * S) :=
          mul_le_mul_of_nonneg_right (by linarith) hb
  calc |rnd (s - rnd (c * K)) - (T - c * K)|
      ≤ (1 + u) * (c₀ * (u * S) + u * |c * K|) + u * |T - c * K| := h
    _ ≤ 17 / 16 * (c₀ * (u * S) + u * S) + u * S := by linarith
    _ = (17 / 16 * (c₀ + 1) + 1) * (u * S) := by ring

/-! ## TriclinicBox::BCShortestConnection on double -/

theorem binary64_far : binary64 (8818364729740231 / 17592186044416)
    = 8818364729740231 / 17592186044416 := by
  rw [binary64_eq_of_pos _ (1 / 17592186044416) (-44) 8818364729740231 (by norm_num)
    (by norm_num) (by norm_num) (by norm_num)]
  norm_num

theorem binary64_fine_quotient :
    binary64 (8818364729740231 / 17592186044416 / (6882626130528961 / 281474976710656))
      = 41 / 2 := by
  rw [binary64_eq_of_pos _ (1 / 281474976710656) (-48) 5770237022568448 (by norm_num)
    (by norm_num) (by norm_num) (by norm_num [abs_lt])]
  norm_num

theorem binary64_fine_multiple :
    binary64 (6882626130528961 / 281474976710656 * 21)
      = 4516723398159631 / 8796093022208 := by
  rw [binary64_eq_of_pos _ (1 / 8796093022208) (-43) 4516723398159631 (by norm_num)
    (by norm_num) (by norm_num) (by norm_num [abs_lt])]
  norm_num

theorem binary64_fine_difference :
    binary64 (8818364729740231 / 17592186044416 - 4516723398159631 / 8796093022208)
      = -(215082066579031 / 17592186044416) := by
  have e : (8818364729740231 / 17592186044416 - 4516723398159631 / 8796093022208 : ℚ)
      = -(215082066579031 / 17592186044416) := by norm_num
  rw [e, binary64_neg,
    binary64_eq_of_pos _ (1 / 562949953421312) (-49) 6882626130528992 (by norm_num)
    (by norm_num) (by norm_num) (by norm_num)]
  norm_num

/-- The number 24.452 rounds to the side of `fine_box` and 501.266 to the coordinate of
`far_point`. -/
theorem binary64_fine_inputs :
    binary64 (24452 / 1000) = fine_box.m00 ∧ binary64 (501266 / 1000) = far_point.x := by
  constructor
  · rw [binary64_eq_of_pos _ (1 / 281474976710656) (-48) 6882626130528961 (by norm_num)
      (by norm_num) (by norm_num) (by norm_num [abs_lt])]
    norm_num [fine_box]
  · rw [binary64_eq_of_pos _ (1 / 17592186044416) (-44) 8818364729740231 (by norm_num)
      (by norm_num) (by norm_num) (by norm_num [abs_lt])]
    norm_num [far_point]

theorem std_round_fine : std_round (41 / 2) = 21 := by
  norm_num [std_round]

theorem std_round_zero : std_round 0 = 0 := by
  norm_num [std_round]

theorem fine_r_tp : TriclinicBox.r_tp binary64 ⟨0, 0, 0⟩ far_point = far_point := by
  simp only [TriclinicBox.r_tp, Vec3.sub_rounded, far_point, sub_zero, binary64_far,
    binary64_zero]

theorem fine_r_dp : TriclinicBox.r_dp binary64 fine_box ⟨0, 0, 0⟩ far_point = far_point := by
  simp only [TriclinicBox.r_dp, fine_r_tp]
  simp only [Vec3.sub_rounded, Vec3.mul_rounded, far_point,
    fine_box, Matrix3d.col, zero_div, binary64_zero, std_round_zero, Int.cast_zero, mul_zero,
    sub_zero, binary64_far]

theorem fine_r_sp : TriclinicBox.r_sp binary64 fine_box ⟨0, 0, 0⟩ far_point = far_point := by
  simp only [TriclinicBox.r_sp, fine_r_dp]
  simp only [Vec3.sub_rounded, Vec3.mul_rounded, far_point,
    fine_box, Matrix3d.col, zero_div, binary64_zero, std_round_zero, Int.cast_zero, mul_zero,
    sub_zero, binary64_far]

/-- The connection from the origin to `far_point` in `fine_box`, computed on `double`: the
quotient 501.266 / 24.452 rounds to 20.5 exactly, std::round gives 21, and 21 box lengths are
subtracted. -/
theorem fine_connection :
    TriclinicBox.BCShortestConnection_rounded binary64 fine_box ⟨0, 0, 0⟩ far_point
      = ⟨-(215082066579031 / 17592186044416), 0, 0⟩ := by
  simp only [TriclinicBox.BCShortestConnection_rounded, fine_r_sp]
  simp only [Vec3.sub_rounded,
    Vec3.mul_rounded, far_point, fine_box, Matrix3d.col, binary64_fine_quotient,
    std_round_fine, Int.cast_ofNat, binary64_fine_multiple, binary64_fine_difference,
    zero_mul, binary64_zero, sub_zero]

/-- With the identity as rounding the rounded function is the exact one. -/
theorem TriclinicBox.BCShortestConnection_rounded_id (box_ : Matrix3d) (r_i r_j : Vec3) :
    TriclinicBox.BCShortestConnection_rounded (fun x => x) box_ r_i r_j
      = TriclinicBox.BCShortestConnection box_ r_i r_j := by
  simp only [TriclinicBox.BCShortestConnection_rounded, TriclinicBox.r_sp, TriclinicBox.r_dp,
    TriclinicBox.r_tp, TriclinicBox.BCShortestConnection, Vec3.sub_rounded, Vec3.mul_rounded,
    Matrix3d.col, Vec3.sub_def, Vec3.smul, mul_comm]

/-- Claim C27 (counterexample): `fine_box` is the cubic box whose side is the `double` nearest
to 24.452 and `far_point` lies on the x axis at the `double` nearest to 501.266.  On `double`
the x component of the connection from the origin to `far_point` that BCShortestConnection
returns is -6882626130528992 / 2^49 (printed -12.226000000000056), of absolute value larger
than half the side, 6882626130528961 / 2^49. -/
theorem C27_half_box_exceeded_counterexample :
    (fine_box.m10 = 0 ∧ fine_box.m20 = 0 ∧ fine_box.m21 = 0)
      ∧ (0 < fine_box.m00 ∧ 0 < fine_box.m11 ∧ 0 < fine_box.m22)
      ∧ (binary64 (24452 / 1000) = fine_box.m00 ∧ binary64 (501266 / 1000) = far_point.x)
      ∧ TriclinicBox.BCShortestConnection_rounded binary64 fine_box ⟨0, 0, 0⟩ far_point
          = ⟨-(6882626130528992 / 2 ^ 49), 0, 0⟩
      ∧ fine_box.m00 / 2 = 6882626130528961 / 2 ^ 49
      ∧ ¬ |(TriclinicBox.BCShortestConnection_rounded binary64 fine_box ⟨0, 0, 0⟩
              far_point).x| ≤ fine_box.m00 / 2 := by
  refine ⟨by norm_num [fine_box], by norm_num [fine_box], binary64_fine_inputs, ?_, ?_, ?_⟩
  · rw [fine_connection]
    norm_num
  · norm_num [fine_box]
  · rw [fine_connection]
    norm_num [fine_box, abs_le]

/-- Claim C27 (amended): for a box with a_y = a_z = b_z = 0 and positive diagonal entries
a_x, b_y, c_z, whatever its off-diagonal entries, the vector `r` returned by
TriclinicBox::BCShortestConnection has |r_x| ≤ a_x/2, |r_y| ≤ b_y/2 and |r_z| ≤ c_z/2 in exact
arithmetic.  In arithmetic that rounds every operation with a relative error of at most `u`
(`double`: u = 2^-53) and leaves rounded numbers as they are, each bound holds up to the
rounding errors: |r_x| ≤ (1+u)² a_x/2 + u (1+u) (2+u) |s_x|, where s_x is the x component of
`r_sp`, the vector from which the multiple of `a` is subtracted, and likewise for y with
`r_dp` and for z with `r_tp`. -/
theorem C27_components_within_half_box (rnd : ℚ → ℚ) (u : ℚ) (box_ : Matrix3d) (p q : Vec3)
    (hu : 0 ≤ u) (hrnd : ∀ x, |rnd x - x| ≤ u * |x|) (hidem : ∀ x, rnd (rnd x) = rnd x)
    (hzero : box_.m10 = 0 ∧ box_.m20 = 0 ∧ box_.m21 = 0)
    (hpos : 0 < box_.m00 ∧ 0 < box_.m11 ∧ 0 < box_.m22) :
    (|(TriclinicBox.BCShortestConnection box_ p q).x| ≤ box_.m00 / 2
      ∧ |(TriclinicBox.BCShortestConnection box_ p q).y| ≤ box_.m11 / 2
      ∧ |(TriclinicBox.BCShortestConnection box_ p q).z| ≤ box_.m22 / 2)
    ∧ (|(TriclinicBox.BCShortestConnection_rounded rnd box_ p q).x|
          ≤ (1 + u) ^ 2 * (box_.m00 / 2)
            + u * (1 + u) * (2 + u) * |(TriclinicBox.r_sp rnd box_ p q).x|
      ∧ |(TriclinicBox.BCShortestConnection_rounded rnd box_ p q).y|
          ≤ (1 + u) ^ 2 * (box_.m11 / 2)
            + u * (1 + u) * (2 + u) * |(TriclinicBox.r_dp rnd box_ p q).y|
      ∧ |(TriclinicBox.BCShortestConnection_rounded rnd box_ p q).z|
          ≤ (1 + u) ^ 2 * (box_.m22 / 2)
            + u * (1 + u) * (2 + u) * |(TriclinicBox.r_tp rnd p q).z|) := by
  refine ⟨TriclinicBox.within_half_box_exact box_ p q hzero hpos, ?_⟩
  obtain ⟨h10, h20, h21⟩ := hzero
  obtain ⟨h00, h11, h22⟩ := hpos
  have h0 := rounded_zero rnd u hrnd
  have hz_dp : (TriclinicBox.r_dp rnd box_ p q).z
      = rnd ((TriclinicBox.r_tp rnd p q).z
          - rnd (box_.m22 * std_round (rnd ((TriclinicBox.r_tp rnd p q).z / box_.m22)))) := rfl
  have hy_sp : (TriclinicBox.r_sp rnd box_ p q).y
      = rnd ((TriclinicBox.r_dp rnd box_ p q).y
          - rnd (box_.m11 * std_round (rnd ((TriclinicBox.r_dp rnd box_ p q).y / box_.m11)))) :=
    rfl
  have hz_sp : (TriclinicBox.r_sp rnd box_ p q).z = (TriclinicBox.r_dp rnd box_ p q).z := by
    have e : (TriclinicBox.r_sp rnd box_ p q).z
        = rnd ((TriclinicBox.r_dp rnd box_ p q).z
          - rnd (box_.m21
              * std_round (rnd ((TriclinicBox.r_dp rnd box_ p q).y / box_.m11)))) := rfl
    rw [e, h21, zero_mul, h0, sub_zero, hz_dp, hidem]
  have hx : (TriclinicBox.BCShortestConnection_rounded rnd box_ p q).x
      = rnd ((TriclinicBox.r_sp rnd box_ p q).x
          - rnd (box_.m00 * std_round (rnd ((TriclinicBox.r_sp rnd box_ p q).x / box_.m00)))) :=
    rfl
  have hy : (TriclinicBox.BCShortestConnection_rounded rnd box_ p q).y
      = (TriclinicBox.r_sp rnd box_ p q).y := by
    have e : (TriclinicBox.BCShortestConnection_rounded rnd box_ p q).y
        = rnd ((TriclinicBox.r_sp rnd box_ p q).y
          - rnd (box_.m10
              * std_round (rnd ((TriclinicBox.r_sp rnd box_ p q).x / box_.m00)))) := rfl
    rw [e, h10, zero_mul, h0, sub_zero, hy_sp, hidem]
  have hz : (TriclinicBox.BCShortestConnection_rounded rnd box_ p q).z
      = (TriclinicBox.r_dp rnd box_ p q).z := by
    have e : (TriclinicBox.BCShortestConnection_rounded rnd box_ p q).z
        = rnd ((TriclinicBox.r_sp rnd box_ p q).z
          - rnd (box_.m20
              * std_round (rnd ((TriclinicBox.r_sp rnd box_ p q).x / box_.m00)))) := rfl
    rw [e, h20, zero_mul, h0, sub_zero, hz_sp, hz_dp, hidem]
  refine ⟨?_, ?_, ?_⟩
  · rw [hx]
    exact abs_rounded_reduction_le rnd u hu hrnd _ _ h00
  · rw [hy, hy_sp]
    exact abs_rounded_reduction_le rnd u hu hrnd _ _ h11
  · rw [hz, hz_dp]
    exact abs_rounded_reduction_le rnd u hu hrnd _ _ h22

/-- Witness for C27 (amended): `double` arithmetic on `fine_box` and `far_point`, where the
bound a_x/2 itself fails. -/
theorem C27_components_within_half_box_witness :
    |(TriclinicBox.BCShortestConnection_rounded binary64 fine_box ⟨0, 0, 0⟩ far_point).x|
      ≤ (1 + 1 / 2 ^ (53 : ℕ)) ^ 2 * (fine_box.m00 / 2)
        + 1 / 2 ^ (53 : ℕ) * (1 + 1 / 2 ^ (53 : ℕ)) * (2 + 1 / 2 ^ (53 : ℕ))
          * |(TriclinicBox.r_sp binary64 fine_box ⟨0, 0, 0⟩ far_point).x| :=
  (C27_components_within_half_box binary64 (1 / 2 ^ (53 : ℕ)) fine_box ⟨0, 0, 0⟩ far_point
    (by norm_num) binary64_err binary64_idem (by norm_num [fine_box])
    (by norm_num [fine_box])).2.1

/-- The errors of one component through the three rounded updates of BCShortestConnection,
whatever the multipliers `kc`, `kb`, `ka`: with all terms bounded by the scale `S` and
`u ≤ 1/16` the errors stay below 1, 25/8, 689/128 and 15937/2048 times `u S`. -/
theorem rounded_component_chain (rnd : ℚ → ℚ) (u : ℚ) (hu : 0 ≤ u) (hu16 : u ≤ 1 / 16)
    (hrnd : ∀ x, |rnd x - x| ≤ u * |x|) (d c b a kc kb ka S : ℚ)
    (hS : |d| + |c * kc| + |b * kb| + |a * ka| ≤ S) :
    |rnd d - d| ≤ 1 * (u * S)
      ∧ |rnd (rnd d - rnd (c * kc)) - (d - c * kc)| ≤ 25 / 8 * (u * S)
      ∧ |rnd (rnd (rnd d - rnd (c * kc)) - rnd (b * kb)) - (d - c * kc - b * kb)|
          ≤ 689 / 128 * (u * S)
      ∧ |rnd (rnd (rnd (rnd d - rnd (c * kc)) - rnd (b * kb)) - rnd (a * ka))
            - (d - c * kc - b * kb - a * ka)| ≤ 15937 / 2048 * (u * S)
      ∧ |d| ≤ S ∧ |d - c * kc| ≤ S ∧ |d - c * kc - b * kb| ≤ S := by
  have hd := abs_nonneg d
  have hc := abs_nonneg (c * kc)
  have hb := abs_nonneg (b * kb)
  have ha := abs_nonneg (a * ka)
  have h1 : |d - c * kc| ≤ S := le_trans (abs_sub _ _) (by linarith)
  have h2 : |d - c * kc - b * kb| ≤ S :=
    le_trans (abs_sub _ _) (by linarith [abs_sub d (c * kc)])
  have h3 : |d - c * kc - b * kb - a * ka| ≤ S :=
    le_trans (abs_sub _ _) (by linarith [abs_sub d (c * kc), abs_sub (d - c * kc) (b * kb)])
  have e0 : |rnd d - d| ≤ 1 * (u * S) := by
    have h := hrnd d
    have h' : u * |d| ≤ u * S := mul_le_mul_of_nonneg_left (by linarith) hu
    linarith
  have e1 := abs_rounded_update_coarse rnd u hu hu16 hrnd (rnd d) d c kc S 1 (by norm_num)
    e0 (by linarith) h1
  have e1' : |rnd (rnd d - rnd (c * kc)) - (d - c * kc)| ≤ 25 / 8 * (u * S) := by
    norm_num at e1 ⊢
    linarith
  have e2 := abs_rounded_update_coarse rnd u hu hu16 hrnd _ (d - c * kc) b kb S (25 / 8)
    (by norm_num) e1' (by linarith) h2
  have e2' : |rnd (rnd (rnd d - rnd (c * kc)) - rnd (b * kb)) - (d - c * kc - b * kb)|
      ≤ 689 / 128 * (u * S) := by
    norm_num at e2 ⊢
    linarith
  have e3 := abs_rounded_update_coarse rnd u hu hu16 hrnd _ (d - c * kc - b * kb) a ka S
    (689 / 128) (by norm_num) e2' (by linarith) h3
  have e3' : |rnd (rnd (rnd (rnd d - rnd (c * kc)) - rnd (b * kb)) - rnd (a * ka))
        - (d - c * kc - b * kb - a * ka)| ≤ 15937 / 2048 * (u * S) := by
    norm_num at e3 ⊢
    linarith
  exact ⟨e0, e1', e2', e3', by linarith, h1, h2⟩

/-- The rounded quotient of a component that lies within `c₀ u S` of `T = w - n m` rounds to
`-n` when `|w| < R - 8 u S` for a cut-off `R ≤ m / 2`, `c₀ ≤ 689/128` and `|T| ≤ S`. -/
theorem std_round_rounded_quotient_coarse (rnd : ℚ → ℚ) (u : ℚ) (hu : 0 ≤ u)
    (hu16 : u ≤ 1 / 16) (hrnd : ∀ x, |rnd x - x| ≤ u * |x|) (m s T w S R c₀ : ℚ) (n : ℤ)
    (hm : 0 < m) (hR : R ≤ m / 2) (hc₀ : 0 ≤ c₀) (hc : c₀ ≤ 689 / 128)
    (hT : T = w - n * m) (hTS : |T| ≤ S)
    (hs : |s - T| ≤ c₀ * (u * S)) (hw : |w| < R - 8 * u * S) :
    std_round (rnd (s / m)) = -n := by
  have hS : 0 ≤ S := le_trans (abs_nonneg _) hTS
  have huS : 0 ≤ u * S := mul_nonneg hu hS
  refine std_round_rounded_quotient rnd u hu hrnd m s T w (c₀ * (u * S)) n hm hT hs ?_
  have h1 : u * |T| ≤ u * S := mul_le_mul_of_nonneg_left hTS hu
  have h2 : u * (c₀ * (u * S)) ≤ 1 / 16 * (c₀ * (u * S)) :=
    mul_le_mul_of_nonneg_right hu16 (mul_nonneg hc₀ huS)
  have h3 : c₀ * (u * S) ≤ 689 / 128 * (u * S) := mul_le_mul_of_nonneg_right hc huS
  have e : u * (|T| + c₀ * (u * S)) = u * |T| + u * (c₀ * (u * S)) := by ring
  rw [e]
  linarith

theorem abs_neg_mul_intCast (m : ℚ) (k : ℤ) : |m * -(k : ℚ)| = |(k : ℚ)| * |m| := by
  rw [abs_mul, abs_neg, mul_comm]

/-- The rounded shortest connection stays within `8 u S` of a periodic image whose components
are below a cut-off `R` by more than `8 u S`, where `S` is the scale of the image and `R` is
at most half of each of a_x, b_y, c_z. -/
theorem TriclinicBox.rounded_near_image (rnd : ℚ → ℚ) (u : ℚ) (box_ : Matrix3d)
    (p q : Vec3) (i j k : ℤ) (R : ℚ)
    (hu : 0 ≤ u) (hu16 : u ≤ 1 / 16) (hrnd : ∀ x, |rnd x - x| ≤ u * |x|)
    (hzero : box_.m10 = 0 ∧ box_.m20 = 0 ∧ box_.m21 = 0)
    (hpos : 0 < box_.m00 ∧ 0 < box_.m11 ∧ 0 < box_.m22)
    (hR : R ≤ box_.m00 / 2 ∧ R ≤ box_.m11 / 2 ∧ R ≤ box_.m22 / 2)
    (hx : |q.x - p.x + i * box_.m00 + j * box_.m01 + k * box_.m02|
      < R - 8 * u * TriclinicBox.image_scale box_ p q i j k)
    (hy : |q.y - p.y + j * box_.m11 + k * box_.m12|
      < R - 8 * u * TriclinicBox.image_scale box_ p q i j k)
    (hz : |q.z - p.z + k * box_.m22|
      < R - 8 * u * TriclinicBox.image_scale box_ p q i j k) :
    |(TriclinicBox.BCShortestConnection_rounded rnd box_ p q).x
        - (q.x - p.x + i * box_.m00 + j * box_.m01 + k * box_.m02)|
        ≤ 8 * u * TriclinicBox.image_scale box_ p q i j k
      ∧ |(TriclinicBox.BCShortestConnection_rounded rnd box_ p q).y
          - (q.y - p.y + j * box_.m11 + k * box_.m12)|
        ≤ 8 * u * TriclinicBox.image_scale box_ p q i j k
      ∧ |(TriclinicBox.BCShortestConnection_rounded rnd box_ p q).z
          - (q.z - p.z + k * box_.m22)|
        ≤ 8 * u * TriclinicBox.image_scale box_ p q i j k := by
  obtain ⟨h10, h20, h21⟩ := hzero
  obtain ⟨h00, h11, h22⟩ := hpos
  obtain ⟨hR0, hR1, hR2⟩ := hR
  -- the scale bounds each component
  have hSx : |q.x - p.x| + |box_.m02 * -(k : ℚ)| + |box_.m01 * -(j : ℚ)|
      + |box_.m00 * -(i : ℚ)| ≤ TriclinicBox.image_scale box_ p q i j k := by
    rw [abs_neg_mul_intCast, abs_neg_mul_intCast, abs_neg_mul_intCast]
    unfold TriclinicBox.image_scale
    nlinarith [abs_nonneg (q.y - p.y), abs_nonneg (q.z - p.z),
      mul_nonneg (abs_nonneg (j : ℚ)) (abs_nonneg box_.m11),
      mul_nonneg (abs_nonneg (k : ℚ)) (abs_nonneg box_.m12),
      mul_nonneg (abs_nonneg (k : ℚ)) (abs_nonneg box_.m22)]
  have hSy : |q.y - p.y| + |box_.m12 * -(k : ℚ)| + |box_.m11 * -(j : ℚ)|
      + |box_.m10 * -(i : ℚ)| ≤ TriclinicBox.image_scale box_ p q i j k := by
    rw [abs_neg_mul_intCast, abs_neg_mul_intCast, h10, zero_mul, abs_zero]
    unfold TriclinicBox.image_scale
    nlinarith [abs_nonneg (q.x - p.x), abs_nonneg (q.z - p.z),
      mul_nonneg (abs_nonneg (i : ℚ)) (abs_nonneg box_.m00),
      mul_nonneg (abs_nonneg (j : ℚ)) (abs_nonneg box_.m01),
      mul_nonneg (abs_nonneg (k : ℚ)) (abs_nonneg box_.m02),
      mul_nonneg (abs_nonneg (k : ℚ)) (abs_nonneg box_.m22)]
  have hSz : |q.z - p.z| + |box_.m22 * -(k : ℚ)| + |box_.m21 * -(j : ℚ)|
      + |box_.m20 * -(i : ℚ)| ≤ TriclinicBox.image_scale box_ p q i j k := by
    rw [abs_neg_mul_intCast, h21, h20, zero_mul, zero_mul, abs_zero]
    unfold TriclinicBox.image_scale
    nlinarith [abs_nonneg (q.x - p.x), abs_nonneg (q.y - p.y),
      mul_nonneg (abs_nonneg (i : ℚ)) (abs_nonneg box_.m00),
      mul_nonneg (abs_nonneg (j : ℚ)) (abs_nonneg box_.m01),
      mul_nonneg (abs_nonneg (j : ℚ)) (abs_nonneg box_.m11),
      mul_nonneg (abs_nonneg (k : ℚ)) (abs_nonneg box_.m02),
      mul_nonneg (abs_nonneg (k : ℚ)) (abs_nonneg box_.m12)]
  generalize TriclinicBox.image_scale box_ p q i j k = S at hSx hSy hSz hx hy hz ⊢
  obtain ⟨_, _, x2, x3, _, _, bx⟩ := rounded_component_chain rnd u hu hu16 hrnd (q.x - p.x)
    box_.m02 box_.m01 box_.m00 (-(k : ℚ)) (-(j : ℚ)) (-(i : ℚ)) S hSx
  obtain ⟨_, y1, _, y3, _, by1, _⟩ := rounded_component_chain rnd u hu hu16 hrnd (q.y - p.y)
    box_.m12 box_.m11 box_.m10 (-(k : ℚ)) (-(j : ℚ)) (-(i : ℚ)) S hSy
  obtain ⟨z0, _, _, z3, bz, _, _⟩ := rounded_component_chain rnd u hu hu16 hrnd (q.z - p.z)
    box_.m22 box_.m21 box_.m20 (-(k : ℚ)) (-(j : ℚ)) (-(i : ℚ)) S hSz
  clear hSx hSy hSz
  have hS : 0 ≤ S := le_trans (abs_nonneg _) bz
  have huS : 0 ≤ u * S := mul_nonneg hu hS
  -- the three multipliers
  have hK1 : ((std_round (rnd ((TriclinicBox.r_tp rnd p q).z / box_.m22)) : ℤ) : ℚ)
      = -(k : ℚ) := by
    have e : (TriclinicBox.r_tp rnd p q).z = rnd (q.z - p.z) := rfl
    rw [e, std_round_rounded_quotient_coarse rnd u hu hu16 hrnd box_.m22 _ (q.z - p.z)
      (q.z - p.z + k * box_.m22) S R 1 k h22 hR2 (by norm_num) (by norm_num) (by ring)
      bz z0 hz]
    push_cast
    ring
  have hdp_x : (TriclinicBox.r_dp rnd box_ p q).x
      = rnd (rnd (q.x - p.x) - rnd (box_.m02 * -(k : ℚ))) := by
    rw [← hK1]
    rfl
  have hdp_y : (TriclinicBox.r_dp rnd box_ p q).y
      = rnd (rnd (q.y - p.y) - rnd (box_.m12 * -(k : ℚ))) := by
    rw [← hK1]
    rfl
  have hdp_z : (TriclinicBox.r_dp rnd box_ p q).z
      = rnd (rnd (q.z - p.z) - rnd (box_.m22 * -(k : ℚ))) := by
    rw [← hK1]
    rfl
  have hK2 : ((std_round (rnd ((TriclinicBox.r_dp rnd box_ p q).y / box_.m11)) : ℤ) : ℚ)
      = -(j : ℚ) := by
    rw [hdp_y, std_round_rounded_quotient_coarse rnd u hu hu16 hrnd box_.m11 _
      (q.y - p.y - box_.m12 * -(k : ℚ)) (q.y - p.y + j * box_.m11 + k * box_.m12) S R
      (25 / 8) j h11 hR1 (by norm_num) (by norm_num) (by ring) by1 y1 hy]
    push_cast
    ring
  have hsp_x : (TriclinicBox.r_sp rnd box_ p q).x
      = rnd (rnd (rnd (q.x - p.x) - rnd (box_.m02 * -(k : ℚ))) - rnd (box_.m01 * -(j : ℚ))) := by
    rw [← hK2, ← hdp_x]
    rfl
  have hsp_y : (TriclinicBox.r_sp rnd box_ p q).y
      = rnd (rnd (rnd (q.y - p.y) - rnd (box_.m12 * -(k : ℚ))) - rnd (box_.m11 * -(j : ℚ))) := by
    rw [← hK2, ← hdp_y]
    rfl
  have hsp_z : (TriclinicBox.r_sp rnd box_ p q).z
      = rnd (rnd (rnd (q.z - p.z) - rnd (box_.m22 * -(k : ℚ))) - rnd (box_.m21 * -(j : ℚ))) := by
    rw [← hK2, ← hdp_z]
    rfl
  have hK3 : ((std_round (rnd ((TriclinicBox.r_sp rnd box_ p q).x / box_.m00)) : ℤ) : ℚ)
      = -(i : ℚ) := by
    rw [hsp_x, std_round_rounded_quotient_coarse rnd u hu hu16 hrnd box_.m00 _
      (q.x - p.x - box_.m02 * -(k : ℚ) - box_.m01 * -(j : ℚ))
      (q.x - p.x + i * box_.m00 + j * box_.m01 + k * box_.m02) S R
      (689 / 128) i h00 hR0 (by norm_num) (by norm_num) (by ring) bx x2 hx]
    push_cast
    ring
  have hr_x : (TriclinicBox.BCShortestConnection_rounded rnd box_ p q).x
      = rnd (rnd (rnd (rnd (q.x - p.x) - rnd (box_.m02 * -(k : ℚ)))
          - rnd (box_.m01 * -(j : ℚ))) - rnd (box_.m00 * -(i : ℚ))) := by
    rw [← hK3, ← hsp_x]
    rfl
  have hr_y : (TriclinicBox.BCShortestConnection_rounded rnd box_ p q).y
      = rnd (rnd (rnd (rnd (q.y - p.y) - rnd (box_.m12 * -(k : ℚ)))
          - rnd (box_.m11 * -(j : ℚ))) - rnd (box_.m10 * -(i : ℚ))) := by
    rw [← hK3, ← hsp_y]
    rfl
  have hr_z : (TriclinicBox.BCShortestConnection_rounded rnd box_ p q).z
      = rnd (rnd (rnd (rnd (q.z - p.z) - rnd (box_.m22 * -(k : ℚ)))
          - rnd (box_.m21 * -(j : ℚ))) - rnd (box_.m20 * -(i : ℚ))) := by
    rw [← hK3, ← hsp_z]
    rfl
  have ex : q.x - p.x - box_.m02 * -(k : ℚ) - box_.m01 * -(j : ℚ) - box_.m00 * -(i : ℚ)
      = q.x - p.x + i * box_.m00 + j * box_.m01 + k * box_.m02 := by ring
  have ey : q.y - p.y - box_.m12 * -(k : ℚ) - box_.m11 * -(j : ℚ) - box_.m10 * -(i : ℚ)
      = q.y - p.y + j * box_.m11 + k * box_.m12 := by rw [h10]; ring
  have ez : q.z - p.z - box_.m22 * -(k : ℚ) - box_.m21 * -(j : ℚ) - box_.m20 * -(i : ℚ)
      = q.z - p.z + k * box_.m22 := by rw [h20, h21]; ring
  rw [ex] at x3
  rw [ey] at y3
  rw [ez] at z3
  rw [hr_x, hr_y, hr_z]
  refine ⟨?_, ?_, ?_⟩ <;> linarith

/-- Claim C4 (counterexample), in two parts.  (1) In exact arithmetic: `skew_box` is a reduced
triclinic box, yet for p = (0, 0, 0) and q = (-49, 49, 0) the vector returned by
BCShortestConnection, (-49, 49, 0), is strictly longer than the image
q - p + a - b = (2, -51, 0).  (2) On `double`: `fine_box` is the cubic box of side 24.452 and
`far_point` lies at x = 501.266; the image q - p - 20 a is shorter than half the side, yet
the quotient 501.266 / 24.452 rounds to 20.5, std::round gives 21, and the vector returned,
of x component -6882626130528992 / 2^49, is longer than that image. -/
theorem C4_minimum_image_counterexample :
    ((skew_box.m10 = 0 ∧ skew_box.m20 = 0 ∧ skew_box.m21 = 0)
      ∧ (0 < skew_box.m00 ∧ 0 < skew_box.m11 ∧ 0 < skew_box.m22)
      ∧ (|skew_box.m01| < skew_box.m00 / 2 ∧ |skew_box.m02| < skew_box.m00 / 2
          ∧ |skew_box.m12| < skew_box.m11 / 2)
      ∧ TriclinicBox.BCShortestConnection skew_box ⟨0, 0, 0⟩ ⟨-49, 49, 0⟩ = ⟨-49, 49, 0⟩
      ∧ ¬ ((TriclinicBox.BCShortestConnection skew_box ⟨0, 0, 0⟩ ⟨-49, 49, 0⟩).squaredNorm
            ≤ ((⟨-49, 49, 0⟩ : Vec3) - ⟨0, 0, 0⟩ + Vec3.smul (1 : ℤ) (skew_box.col 0)
                + Vec3.smul (-1 : ℤ) (skew_box.col 1)
                + Vec3.smul (0 : ℤ) (skew_box.col 2)).squaredNorm))
    ∧ ((fine_box.m10 = 0 ∧ fine_box.m20 = 0 ∧ fine_box.m21 = 0)
      ∧ (0 < fine_box.m00 ∧ 0 < fine_box.m11 ∧ 0 < fine_box.m22)
      ∧ (|fine_box.m01| < fine_box.m00 / 2 ∧ |fine_box.m02| < fine_box.m00 / 2
          ∧ |fine_box.m12| < fine_box.m11 / 2)
      ∧ (binary64 (24452 / 1000) = fine_box.m00 ∧ binary64 (501266 / 1000) = far_point.x)
      ∧ (far_point - ⟨0, 0, 0⟩ + Vec3.smul (-20 : ℤ) (fine_box.col 0)
            + Vec3.smul (0 : ℤ) (fine_box.col 1)
            + Vec3.smul (0 : ℤ) (fine_box.col 2)).squaredNorm
          < (min fine_box.m00 (min fine_box.m11 fine_box.m22) / 2) ^ 2
      ∧ TriclinicBox.BCShortestConnection_rounded binary64 fine_box ⟨0, 0, 0⟩ far_point
          = ⟨-(6882626130528992 / 2 ^ 49), 0, 0⟩
      ∧ ¬ ((TriclinicBox.BCShortestConnection_rounded binary64 fine_box ⟨0, 0, 0⟩
              far_point).squaredNorm
            ≤ (far_point - ⟨0, 0, 0⟩ + Vec3.smul (-20 : ℤ) (fine_box.col 0)
                + Vec3.smul (0 : ℤ) (fine_box.col 1)
                + Vec3.smul (0 : ℤ) (fine_box.col 2)).squaredNorm)) := by
  have hbc : TriclinicBox.BCShortestConnection skew_box ⟨0, 0, 0⟩ ⟨-49, 49, 0⟩
      = ⟨-49, 49, 0⟩ := by
    norm_num [TriclinicBox.BCShortestConnection, skew_box, std_round, Matrix3d.col,
      Vec3.sub_def, Vec3.smul]
  refine ⟨⟨by norm_num [skew_box], by norm_num [skew_box], ?_, hbc, ?_⟩,
    ⟨by norm_num [fine_box], by norm_num [fine_box], ?_, binary64_fine_inputs, ?_, ?_, ?_⟩⟩
  · refine ⟨?_, ?_, ?_⟩ <;> norm_num [skew_box, abs_lt]
  · rw [hbc]
    norm_num [skew_box, Matrix3d.col, Vec3.sub_def, Vec3.add_def, Vec3.smul,
      Vec3.squaredNorm]
  · refine ⟨?_, ?_, ?_⟩ <;> norm_num [fine_box]
  · norm_num [fine_box, far_point, Matrix3d.col, Vec3.sub_def, Vec3.add_def, Vec3.smul,
      Vec3.squaredNorm]
  · rw [fine_connection]
    norm_num
  · rw [fine_connection]
    norm_num [fine_box, far_point, Matrix3d.col, Vec3.sub_def, Vec3.add_def, Vec3.smul,
      Vec3.squaredNorm]

/-- Claim C4 (amended): for a reduced triclinic box, if some periodic image
`v = q - p + i a + j b + k c` is shorter than half the smallest of a_x, b_y, c_z (the cut-off
named in the source comment) by more than a tolerance `ε`, then BCShortestConnection returns
that image up to `ε` in every component, and the image is the minimum image: no image
`q - p + i' a + j' b + k' c` is shorter.  The tolerance is `ε = 8 u S` in arithmetic that
rounds every operation with a relative error of at most `u ≤ 1/16` (`double`: u = 2^-53),
with `S` the scale of the image; in exact arithmetic (u = 0) it is zero and the vector
returned is the image itself. -/
theorem C4_minimum_image_within_cutoff (rnd : ℚ → ℚ) (u : ℚ) (box_ : Matrix3d) (p q : Vec3)
    (i j k : ℤ)
    (hu : 0 ≤ u ∧ u ≤ 1 / 16) (hrnd : ∀ x, |rnd x - x| ≤ u * |x|)
    (hzero : box_.m10 = 0 ∧ box_.m20 = 0 ∧ box_.m21 = 0)
    (hpos : 0 < box_.m00 ∧ 0 < box_.m11 ∧ 0 < box_.m22)
    (hred : |box_.m01| < box_.m00 / 2 ∧ |box_.m02| < box_.m00 / 2
      ∧ |box_.m12| < box_.m11 / 2)
    (htol : 8 * u * TriclinicBox.image_scale box_ p q i j k
      ≤ min box_.m00 (min box_.m11 box_.m22) / 2)
    (hcut : (q - p + Vec3.smul i (box_.col 0) + Vec3.smul j (box_.col 1)
        + Vec3.smul k (box_.col 2)).squaredNorm
          < (min box_.m00 (min box_.m11 box_.m22) / 2
              - 8 * u * TriclinicBox.image_scale box_ p q i j k) ^ 2) :
    (|(TriclinicBox.BCShortestConnection_rounded rnd box_ p q).x
          - (q - p + Vec3.smul i (box_.col 0) + Vec3.smul j (box_.col 1)
              + Vec3.smul k (box_.col 2)).x|
          ≤ 8 * u * TriclinicBox.image_scale box_ p q i j k
      ∧ |(TriclinicBox.BCShortestConnection_rounded rnd box_ p q).y
          - (q - p + Vec3.smul i (box_.col 0) + Vec3.smul j (box_.col 1)
              + Vec3.smul k (box_.col 2)).y|
          ≤ 8 * u * TriclinicBox.image_scale box_ p q i j k
      ∧ |(TriclinicBox.BCShortestConnection_rounded rnd box_ p q).z
          - (q - p + Vec3.smul i (box_.col 0) + Vec3.smul j (box_.col 1)
              + Vec3.smul k (box_.col 2)).z|
          ≤ 8 * u * TriclinicBox.image_scale box_ p q i j k)
      ∧ (u = 0 →
          TriclinicBox.BCShortestConnection_rounded rnd box_ p q
            = q - p + Vec3.smul i (box_.col 0) + Vec3.smul j (box_.col 1)
                + Vec3.smul k (box_.col 2))
      ∧ ∀ i' j' k' : ℤ,
          (q - p + Vec3.smul i (box_.col 0) + Vec3.smul j (box_.col 1)
              + Vec3.smul k (box_.col 2)).squaredNorm
            ≤ (q - p + Vec3.smul i' (box_.col 0) + Vec3.smul j' (box_.col 1)
                + Vec3.smul k' (box_.col 2)).squaredNorm := by
  have hm0 : min box_.m00 (min box_.m11 box_.m22) ≤ box_.m00 := min_le_left _ _
  have hm1 : min box_.m00 (min box_.m11 box_.m22) ≤ box_.m11 :=
    le_trans (min_le_right _ _) (min_le_left _ _)
  have hm2 : min box_.m00 (min box_.m11 box_.m22) ≤ box_.m22 :=
    le_trans (min_le_right _ _) (min_le_right _ _)
  have hS : 0 ≤ TriclinicBox.image_scale box_ p q i j k := by
    unfold TriclinicBox.image_scale
    positivity
  have hE : 0 ≤ 8 * u * TriclinicBox.image_scale box_ p q i j k :=
    mul_nonneg (mul_nonneg (by norm_num) hu.1) hS
  -- the image is within the exact cut-off, hence the minimum image
  have hcut' : (q - p + Vec3.smul i (box_.col 0) + Vec3.smul j (box_.col 1)
        + Vec3.smul k (box_.col 2)).squaredNorm
          < (min box_.m00 (min box_.m11 box_.m22) / 2) ^ 2 := by
    refine lt_of_lt_of_le hcut ?_
    apply pow_le_pow_left₀ (by linarith)
    linarith
  obtain ⟨himg, hmin⟩ := TriclinicBox.short_image_exact box_ p q i j k hzero hpos hred hcut'
  have hcomp := abs_lt_of_squaredNorm_lt _ _ (by linarith) hcut
  rw [image_components] at hcomp ⊢
  obtain ⟨hx, hy, hz⟩ := hcomp
  simp only [Vec3.sub_x, Vec3.sub_y, Vec3.sub_z, hzero.1, hzero.2.1, hzero.2.2, mul_zero,
    add_zero] at hx hy hz ⊢
  have hnear := TriclinicBox.rounded_near_image rnd u box_ p q i j k
    (min box_.m00 (min box_.m11 box_.m22) / 2) hu.1 hu.2 hrnd hzero hpos
    ⟨by linarith, by linarith, by linarith⟩ hx hy hz
  refine ⟨hnear, ?_, ?_⟩
  · intro hu0
    obtain ⟨n1, n2, n3⟩ := hnear
    rw [hu0, mul_zero, zero_mul] at n1 n2 n3
    rw [Vec3.ext_iff']
    exact ⟨sub_eq_zero.mp (abs_eq_zero.mp (le_antisymm n1 (abs_nonneg _))),
      sub_eq_zero.mp (abs_eq_zero.mp (le_antisymm n2 (abs_nonneg _))),
      sub_eq_zero.mp (abs_eq_zero.mp (le_antisymm n3 (abs_nonneg _)))⟩
  · intro i' j' k'
    have := hmin i' j' k'
    rw [himg, image_components] at this
    simp only [Vec3.sub_x, Vec3.sub_y, Vec3.sub_z, hzero.1, hzero.2.1, hzero.2.2, mul_zero,
      add_zero] at this
    exact this

/-- Witness for C4 (amended): `double` arithmetic in `fine_box`, for p = (0, 0, 0) and
q = (500, 0, 0); the image q - p - 20 a, of length about 10.96, lies below half the side by
more than the tolerance, and the vector returned lies within the tolerance of it. -/
theorem C4_minimum_image_within_cutoff_witness :
    |(TriclinicBox.BCShortestConnection_rounded binary64 fine_box ⟨0, 0, 0⟩ ⟨500, 0, 0⟩).x
        - ((⟨500, 0, 0⟩ : Vec3) - ⟨0, 0, 0⟩ + Vec3.smul (-20 : ℤ) (fine_box.col 0)
            + Vec3.smul (0 : ℤ) (fine_box.col 1) + Vec3.smul (0 : ℤ) (fine_box.col 2)).x|
      ≤ 8 * (1 / 2 ^ (53 : ℕ))
          * TriclinicBox.image_scale fine_box ⟨0, 0, 0⟩ ⟨500, 0, 0⟩ (-20) 0 0 :=
  (C4_minimum_image_within_cutoff binary64 (1 / 2 ^ (53 : ℕ)) fine_box ⟨0, 0, 0⟩ ⟨500, 0, 0⟩
    (-20) 0 0 (by norm_num) binary64_err (by norm_num [fine_box]) (by norm_num [fine_box])
    (by refine ⟨?_, ?_, ?_⟩ <;> norm_num [fine_box])
    (by norm_num [TriclinicBox.image_scale, fine_box, abs_of_pos])
    (by norm_num [TriclinicBox.image_scale, fine_box, abs_of_pos, Matrix3d.col, Vec3.sub_def,
      Vec3.add_def, Vec3.smul, Vec3.squaredNorm])).1.1

/-! ## Map_Sphere::Apply: the mass on double -/

/-- In exact arithmetic the accumulated mass is the sum of the masses. -/
theorem Map_Sphere.accumulated_mass_exact (l : List element_t) :
    Map_Sphere.accumulated_mass (fun x => x) l = (l.map (fun e => e.in_.mass)).sum := by
  have h : ∀ (l : List element_t) (a : ℚ),
      l.foldl (fun M iter => M + iter.in_.mass) a = a + (l.map (fun e => e.in_.mass)).sum := by
    intro l
    induction l with
    | nil => intro a; simp
    | cons x l ih =>
      intro a
      rw [List.foldl_cons, ih, List.map_cons, List.sum_cons, add_assoc]
  unfold Map_Sphere.accumulated_mass
  rw [h, zero_add]

/-- The error of a sum accumulated with rounding, started at `M₀` within `E₀` of `T₀`. -/
theorem accumulated_error (rnd : ℚ → ℚ) (u : ℚ) (hu : 0 ≤ u)
    (hrnd : ∀ x, |rnd x - x| ≤ u * |x|) (l : List element_t) :
    ∀ (M₀ T₀ E₀ B₀ : ℚ), |M₀ - T₀| ≤ E₀ → |T₀| ≤ B₀ →
      |l.foldl (fun M iter => rnd (M + iter.in_.mass)) M₀
          - (T₀ + (l.map (fun e => e.in_.mass)).sum)|
        ≤ (1 + u) ^ l.length * E₀
          + ((1 + u) ^ l.length - 1) * (B₀ + (l.map (fun e => |e.in_.mass|)).sum) := by
  induction l with
  | nil =>
    intro M₀ T₀ E₀ B₀ hM _
    simpa using hM
  | cons e t ih =>
    intro M₀ T₀ E₀ B₀ hM hB
    have hE₀ : 0 ≤ E₀ := le_trans (abs_nonneg _) hM
    have hB₀ : 0 ≤ B₀ := le_trans (abs_nonneg _) hB
    have hstep : |rnd (M₀ + e.in_.mass) - (T₀ + e.in_.mass)|
        ≤ (1 + u) * E₀ + u * (B₀ + |e.in_.mass|) := by
      have h1 := hrnd (M₀ + e.in_.mass)
      have h2 : |M₀ + e.in_.mass| ≤ E₀ + B₀ + |e.in_.mass| := by
        have e1 : M₀ + e.in_.mass = (M₀ - T₀) + T₀ + e.in_.mass := by ring
        rw [e1]
        exact le_trans (abs_add _ _) (add_le_add (le_trans (abs_add _ _) (add_le_add hM hB))
          (le_refl _))
      have h3 : u * |M₀ + e.in_.mass| ≤ u * (E₀ + B₀ + |e.in_.mass|) :=
        mul_le_mul_of_nonneg_left h2 hu
      have e2 : rnd (M₀ + e.in_.mass) - (T₀ + e.in_.mass)
          = (rnd (M₀ + e.in_.mass) - (M₀ + e.in_.mass)) + (M₀ - T₀) := by ring
      rw [e2]
      calc |(rnd (M₀ + e.in_.mass) - (M₀ + e.in_.mass)) + (M₀ - T₀)|
          ≤ |rnd (M₀ + e.in_.mass) - (M₀ + e.in_.mass)| + |M₀ - T₀| := abs_add _ _
        _ ≤ u * (E₀ + B₀ + |e.in_.mass|) + E₀ := by linarith
        _ = (1 + u) * E₀ + u * (B₀ + |e.in_.mass|) := by ring
    have hB' : |T₀ + e.in_.mass| ≤ B₀ + |e.in_.mass| :=
      le_trans (abs_add _ _) (add_le_add hB (le_refl _))
    have h := ih (rnd (M₀ + e.in_.mass)) (T₀ + e.in_.mass)
      ((1 + u) * E₀ + u * (B₀ + |e.in_.mass|)) (B₀ + |e.in_.mass|) hstep hB'
    rw [List.foldl_cons, List.map_cons, List.sum_cons, List.map_cons, List.sum_cons,
      List.length_cons, ← add_assoc]
    refine le_trans h ?_
    have hp : (1 : ℚ) ≤ (1 + u) ^ t.length := one_le_pow₀ (by linarith)
    have hT : 0 ≤ (t.map (fun e => |e.in_.mass|)).sum := by
      apply List.sum_nonneg
      intro x hx
      obtain ⟨e', _, rfl⟩ := List.mem_map.mp hx
      exact abs_nonneg _
    have hkey : 0 ≤ (1 + u) ^ t.length * u * (t.map (fun e => |e.in_.mass|)).sum :=
      mul_nonneg (mul_nonneg (by linarith) hu) hT
    have e3 : (1 + u) ^ (t.length + 1) * E₀
          + ((1 + u) ^ (t.length + 1) - 1)
            * (B₀ + (|e.in_.mass| + (t.map (fun e => |e.in_.mass|)).sum))
        - ((1 + u) ^ t.length * ((1 + u) * E₀ + u * (B₀ + |e.in_.mass|))
          + ((1 + u) ^ t.length - 1)
            * (B₀ + |e.in_.mass| + (t.map (fun e => |e.in_.mass|)).sum))
        = (1 + u) ^ t.length * u * (t.map (fun e => |e.in_.mass|)).sum := by
      rw [pow_succ]
      ring
    linarith

/-- The mass accumulated with rounding against the plain sum. -/
theorem Map_Sphere.accumulated_mass_error (rnd : ℚ → ℚ) (u : ℚ) (hu : 0 ≤ u)
    (hrnd : ∀ x, |rnd x - x| ≤ u * |x|) (l : List element_t) :
    |Map_Sphere.accumulated_mass rnd l - (l.map (fun e => e.in_.mass)).sum|
      ≤ ((1 + u) ^ l.length - 1) * (l.map (fun e => |e.in_.mass|)).sum := by
  have h := accumulated_error rnd u hu hrnd l 0 0 0 0 (by simp) (by simp)
  simpa [Map_Sphere.accumulated_mass] using h

theorem binary64_formyl_first :
    binary64 (3380795945271689 / 281474976710656) = 3380795945271689 / 281474976710656 := by
  rw [binary64_eq_of_pos _ (1 / 562949953421312) (-49) 6761591890543378 (by norm_num)
    (by norm_num) (by norm_num) (by norm_num)]
  norm_num

theorem binary64_formyl_first_second :
    binary64 (3380795945271689 / 281474976710656 + 1134907106097365 / 1125899906842624)
      = 1832261360898015 / 140737488355328 := by
  rw [binary64_eq_of_tie _ (1 / 562949953421312) (-49) 7329045443592060 (by norm_num)
    (by norm_num) (by norm_num) (by norm_num) (by norm_num)]
  norm_num

theorem binary64_formyl_ordered :
    binary64 (1832261360898015 / 140737488355328 + 9006636304787571 / 562949953421312)
      = 8167840874189816 / 2 ^ 48 := by
  rw [binary64_eq_of_tie_up _ (1 / 281474976710656) (-48) 8167840874189816 (by norm_num)
    (by norm_num) (by norm_num) (by norm_num) (by norm_num)]
  norm_num

theorem binary64_formyl_first_third :
    binary64 (3380795945271689 / 281474976710656 + 9006636304787571 / 562949953421312)
      = 3942057048832737 / 140737488355328 := by
  rw [binary64_eq_of_tie _ (1 / 281474976710656) (-48) 7884114097665474 (by norm_num)
    (by norm_num) (by norm_num) (by norm_num) (by norm_num)]
  norm_num

theorem binary64_formyl_permuted :
    binary64 (3942057048832737 / 140737488355328 + 1134907106097365 / 1125899906842624)
      = 8167840874189815 / 2 ^ 48 := by
  rw [binary64_eq_of_pos _ (1 / 281474976710656) (-48) 8167840874189815 (by norm_num)
    (by norm_num) (by norm_num) (by norm_num [abs_lt])]
  norm_num

/-- The masses of `formyl_matrix` are the `double`s nearest to 12.011, 1.008 and 15.999. -/
theorem binary64_formyl_masses :
    formyl_matrix.map (fun e => e.in_.mass)
      = [binary64 (12011 / 1000), binary64 (1008 / 1000), binary64 (15999 / 1000)] := by
  have h1 : binary64 (12011 / 1000) = 3380795945271689 / 281474976710656 := by
    rw [binary64_eq_of_pos _ (1 / 562949953421312) (-49) 6761591890543378 (by norm_num)
      (by norm_num) (by norm_num) (by norm_num [abs_lt])]
    norm_num
  have h2 : binary64 (1008 / 1000) = 1134907106097365 / 1125899906842624 := by
    rw [binary64_eq_of_pos _ (1 / 4503599627370496) (-52) 4539628424389460 (by norm_num)
      (by norm_num) (by norm_num) (by norm_num [abs_lt])]
    norm_num
  have h3 : binary64 (15999 / 1000) = 9006636304787571 / 562949953421312 := by
    rw [binary64_eq_of_pos _ (1 / 562949953421312) (-49) 9006636304787571 (by norm_num)
      (by norm_num) (by norm_num) (by norm_num [abs_lt])]
    norm_num
  rw [h1, h2, h3]
  rfl

/-- Claim C1 (counterexample): the three source beads of `formyl_matrix` have the masses
12.011, 1.008 and 15.999 (as `double`s), and `formyl_matrix_permuted` lists the same beads
with the last two exchanged.  Added in list order on `double`, as Map_Sphere::Apply adds
them, the masses give 8167840874189816 / 2^48 (printed 29.018) for the first list and
8167840874189815 / 2^48 (printed 29.017999999999997) for the second: the mass written
depends on the order of the source list. -/
theorem C1_mass_order_counterexample :
    formyl_matrix_permuted.Perm formyl_matrix
      ∧ formyl_matrix.map (fun e => e.in_.mass)
          = [binary64 (12011 / 1000), binary64 (1008 / 1000), binary64 (15999 / 1000)]
      ∧ Map_Sphere.accumulated_mass binary64 formyl_matrix = 8167840874189816 / 2 ^ 48
      ∧ Map_Sphere.accumulated_mass binary64 formyl_matrix_permuted
          = 8167840874189815 / 2 ^ 48
      ∧ Map_Sphere.accumulated_mass binary64 formyl_matrix_permuted
          ≠ Map_Sphere.accumulated_mass binary64 formyl_matrix := by
  have h1 : Map_Sphere.accumulated_mass binary64 formyl_matrix
      = 8167840874189816 / 2 ^ 48 := by
    simp only [Map_Sphere.accumulated_mass, formyl_matrix, sample_bead, List.foldl, zero_add,
      binary64_formyl_first, binary64_formyl_first_second, binary64_formyl_ordered]
  have h2 : Map_Sphere.accumulated_mass binary64 formyl_matrix_permuted
      = 8167840874189815 / 2 ^ 48 := by
    simp only [Map_Sphere.accumulated_mass, formyl_matrix_permuted, sample_bead, List.foldl,
      zero_add, binary64_formyl_first, binary64_formyl_first_third, binary64_formyl_permuted]
  refine ⟨?_, binary64_formyl_masses, h1, h2, ?_⟩
  · exact List.Perm.cons _ (List.Perm.swap _ _ _)
  · rw [h1, h2]
    norm_num

/-- Claim C1 (amended): when Map_Sphere::Apply does not raise, the mass of the output bead is
the sum of the masses of all listed source beads (whatever their weights, with or without a
position), added in list order starting from 0.  In exact arithmetic this is the plain sum,
and every map whose element list is a permutation of this one gives the same mass under any
boundary condition under which it does not raise.  In arithmetic that rounds every addition
with a relative error of at most `u` (`double`: u = 2^-53) the accumulated mass of `n` beads
differs from the plain sum by at most ((1+u)^n - 1) Σ|m|, for the list and for every
permutation of it. -/
theorem C1_sphere_mass_is_sum (self : Map_Sphere) (bc : BoundaryCondition) (out_ : Bead)
    (hok : (self.Apply bc out_).raised = none) :
    (self.Apply bc out_).out_.mass = Map_Sphere.accumulated_mass (fun x => x) self.matrix_
      ∧ (self.Apply bc out_).out_.mass = (self.matrix_.map (fun e => e.in_.mass)).sum
      ∧ (∀ (other : Map_Sphere) (bc' : BoundaryCondition) (out' : Bead),
          other.matrix_.Perm self.matrix_ → (other.Apply bc' out').raised = none →
          (other.Apply bc' out').out_.mass = (self.Apply bc out_).out_.mass)
      ∧ ∀ (rnd : ℚ → ℚ) (u : ℚ), 0 ≤ u → (∀ x, |rnd x - x| ≤ u * |x|) →
          ∀ l : List element_t, l.Perm self.matrix_ →
            |Map_Sphere.accumulated_mass rnd l - (self.matrix_.map (fun e => e.in_.mass)).sum|
              ≤ ((1 + u) ^ self.matrix_.length - 1)
                * (self.matrix_.map (fun e => |e.in_.mass|)).sum := by
  have hmass := Map_Sphere.Apply_mass self bc out_ hok
  refine ⟨?_, hmass, ?_, ?_⟩
  · rw [hmass, Map_Sphere.accumulated_mass_exact]
  · intro other bc' out' hperm hok'
    rw [hmass, Map_Sphere.Apply_mass other bc' out' hok']
    exact (hperm.map _).sum_eq
  · intro rnd u hu hrnd l hperm
    have h := Map_Sphere.accumulated_mass_error rnd u hu hrnd l
    rw [(hperm.map (fun e => e.in_.mass)).sum_eq, (hperm.map (fun e => |e.in_.mass|)).sum_eq,
      hperm.length_eq] at h
    exact h

/-- Witness for C1 (amended): the sample map in the cubic box does not raise and the output
mass is 1 + 2 + 3 = 6. -/
theorem C1_sphere_mass_is_sum_witness :
    (sample_sphere.Apply cubic_bc sample_out).raised = none
      ∧ (sample_sphere.Apply cubic_bc sample_out).out_.mass = 6 :=
  ⟨sample_sphere_cubic_ok,
    (C1_sphere_mass_is_sum sample_sphere cubic_bc sample_out sample_sphere_cubic_ok).2.1.trans
      (by norm_num [sample_sphere, sample_matrix, sample_bead])⟩

/-! ## Map_Sphere::Initialize on the option trees: failure and success -/

/-- Property::get for a key of one component: the child found under it. -/
theorem Property.get_single_some (tokens : String → List String) (fuel : ℕ) (p c : Property)
    (key : String) (htok : tokens key = [key]) (hkey : key ≠ "") (hfuel : 0 < fuel)
    (h : p.find key = some c) : p.get tokens fuel key = GetOutcome.found c := by
  obtain ⟨f, rfl⟩ : ∃ f, fuel = f + 1 := ⟨fuel - 1, by omega⟩
  simp only [Property.get, htok, if_neg hkey, h, Property.get_rest]

/-- Property::get for a key of one component under which there is no child. -/
theorem Property.get_single_none (tokens : String → List String) (fuel : ℕ) (p : Property)
    (key : String) (htok : tokens key = [key]) (hkey : key ≠ "") (hfuel : 0 < fuel)
    (h : p.find key = none) : p.get tokens fuel key = GetOutcome.not_found key := by
  obtain ⟨f, rfl⟩ : ∃ f, fuel = f + 1 := ⟨fuel - 1, by omega⟩
  simp only [Property.get, htok, if_neg hkey, h]

theorem Map_Sphere.force_weights_double_length (weights d fweights : List Double)
    (h : Map_Sphere.force_weights_double weights d = Except.ok fweights) :
    fweights.length = min weights.length d.length := by
  induction weights generalizing d fweights with
  | nil =>
    unfold Map_Sphere.force_weights_double at h
    simp only [Except.ok.injEq] at h
    rw [← h]
    simp
  | cons w weights ih =>
    cases d with
    | nil =>
      unfold Map_Sphere.force_weights_double at h
      simp only [Except.ok.injEq] at h
      rw [← h]
      simp
    | cons di d =>
      unfold Map_Sphere.force_weights_double at h
      split at h
      · cases h
      · cases hrec : Map_Sphere.force_weights_double weights d with
        | error e =>
          rw [hrec] at h
          cases h
        | ok rest =>
          rw [hrec] at h
          simp only [Except.ok.injEq] at h
          rw [← h, List.length_cons, ih d rest hrec]
          simp [Nat.succ_min_succ]

theorem Map_Sphere.force_weights_double_error_iff (weights d : List Double) :
    (∃ err, Map_Sphere.force_weights_double weights d = Except.error err)
      ↔ ∃ p ∈ weights.zip d, p.1.eq_zero = true ∧ p.2.ne_zero = true := by
  induction weights generalizing d with
  | nil =>
    unfold Map_Sphere.force_weights_double
    simp
  | cons w weights ih =>
    cases d with
    | nil =>
      unfold Map_Sphere.force_weights_double
      simp
    | cons di d =>
      unfold Map_Sphere.force_weights_double
      simp only [List.zip_cons_cons, List.mem_cons, exists_eq_or_imp]
      rw [← ih d]
      split
      · rename_i hbad
        simp only [Except.error.injEq, exists_eq', true_iff]
        left
        simpa using hbad
      · rename_i hgood
        cases hrec : Map_Sphere.force_weights_double weights d with
        | error e => simp
        | ok rest => simpa using hgood

theorem Map_Sphere.add_elements_double_ok (in_ : Molecule) (beads : List String)
    (weights fweights : List Double) (matrix_ m : List added_element)
    (hw : beads.length = weights.length) (hf : beads.length = fweights.length)
    (h : Map_Sphere.add_elements_double in_ beads weights fweights matrix_ = Except.ok m) :
    m.map (fun e => e.in_)
        = matrix_.map (fun e => e.in_)
          ++ beads.map (fun b => in_.getBead (in_.getBeadByName b))
      ∧ m.map (fun e => e.weight_) = matrix_.map (fun e => e.weight_) ++ weights
      ∧ m.map (fun e => e.force_weight_)
        = matrix_.map (fun e => e.force_weight_) ++ fweights := by
  induction beads generalizing weights fweights matrix_ with
  | nil =>
    have hw0 : weights = [] := List.length_eq_zero.mp hw.symm
    have hf0 : fweights = [] := List.length_eq_zero.mp hf.symm
    subst hw0 hf0
    unfold Map_Sphere.add_elements_double at h
    simp only [Except.ok.injEq] at h
    subst h
    simp
  | cons b beads ih =>
    cases weights with
    | nil => simp at hw
    | cons w weights =>
      cases fweights with
      | nil => simp at hf
      | cons fw fweights =>
        unfold Map_Sphere.add_elements_double at h
        simp only at h
        split at h
        · cases h
        · have hw' : beads.length = weights.length := by simpa using hw
          have hf' : beads.length = fweights.length := by simpa using hf
          obtain ⟨h1, h2, h3⟩ := ih weights fweights _ hw' hf' h
          rw [h1, h2, h3]
          simp

theorem Map_Sphere.add_elements_double_error_iff (in_ : Molecule) (beads : List String)
    (weights fweights : List Double) (matrix_ : List added_element)
    (hw : beads.length = weights.length) (hf : beads.length = fweights.length) :
    (∃ err, Map_Sphere.add_elements_double in_ beads weights fweights matrix_
        = Except.error err)
      ↔ ∃ b ∈ beads, in_.getBeadByName b < 0 := by
  induction beads generalizing weights fweights matrix_ with
  | nil =>
    unfold Map_Sphere.add_elements_double
    simp
  | cons b beads ih =>
    cases weights with
    | nil => simp at hw
    | cons w weights =>
      cases fweights with
      | nil => simp at hf
      | cons fw fweights =>
        have hw' : beads.length = weights.length := by simpa using hw
        have hf' : beads.length = fweights.length := by simpa using hf
        unfold Map_Sphere.add_elements_double
        simp only [List.mem_cons, exists_eq_or_imp]
        split
        · rename_i hneg
          simp only [Except.error.injEq, exists_eq', true_iff]
          exact Or.inl hneg
        · rename_i hpos
          rw [ih weights fweights _ hw' hf']
          constructor
          · intro hex
            exact Or.inr hex
          · rintro (hneg | hex)
            · exact absurd hneg hpos
            · exact hex

theorem mem_zip_double_iff_getElem? (l₁ l₂ : List Double) (P : Double → Double → Prop) :
    (∃ p ∈ l₁.zip l₂, P p.1 p.2)
      ↔ ∃ (i : ℕ) (x y : Double), l₁[i]? = some x ∧ l₂[i]? = some y ∧ P x y := by
  constructor
  · rintro ⟨p, hp, hP⟩
    obtain ⟨i, hi⟩ := List.mem_iff_getElem?.mp hp
    rw [List.getElem?_zip_eq_some] at hi
    exact ⟨i, p.1, p.2, hi.1, hi.2, hP⟩
  · rintro ⟨i, x, y, hx, hy, hP⟩
    refine ⟨(x, y), ?_, hP⟩
    rw [List.mem_iff_getElem?]
    exact ⟨i, List.getElem?_zip_eq_some.mpr ⟨hx, hy⟩⟩

/-- When the end of Initialize fails, for as many weights as names. -/
theorem Map_Sphere.initialize_vectors_error_iff (in_ : Molecule) (beads : List String)
    (weights d : List Double) (hw : beads.length = weights.length) :
    (∃ err, Map_Sphere.initialize_vectors in_ beads weights d = Except.error err)
      ↔ (beads.length ≠ d.length
          ∨ (∃ (i : ℕ) (w' d' : Double), weights[i]? = some w' ∧ d[i]? = some d'
              ∧ w'.eq_zero = true ∧ d'.ne_zero = true)
          ∨ ∃ b ∈ beads, in_.getBeadByName b < 0) := by
  rw [← mem_zip_double_iff_getElem? weights d (fun x y => x.eq_zero = true ∧ y.ne_zero = true)]
  unfold Map_Sphere.initialize_vectors
  by_cases hd : beads.length ≠ d.length
  · rw [if_pos hd]
    simp only [Except.error.injEq, exists_eq', true_iff]
    exact Or.inl hd
  · rw [if_neg hd]
    have hzip := Map_Sphere.force_weights_double_error_iff weights d
    cases hfw : Map_Sphere.force_weights_double weights d with
    | error e =>
      simp only [Except.error.injEq, exists_eq', true_iff]
      exact Or.inr (Or.inl (hzip.mp ⟨e, hfw⟩))
    | ok fweights =>
      simp only
      have hnz : ¬ ∃ p ∈ weights.zip d, p.1.eq_zero = true ∧ p.2.ne_zero = true := by
        rw [← hzip, hfw]
        simp
      rw [ne_eq, not_not] at hd
      have hfl : beads.length = fweights.length := by
        rw [Map_Sphere.force_weights_double_length _ _ _ hfw, ← hw, ← hd, min_self]
      rw [Map_Sphere.add_elements_double_error_iff in_ beads _ _ _ hw hfl]
      constructor
      · intro h
        exact Or.inr (Or.inr h)
      · rintro (h | h | h)
        · exact absurd hd h
        · exact absurd h hnz
        · exact h

/-- What the end of Initialize has stored when it succeeds. -/
theorem Map_Sphere.initialize_vectors_ok (in_ : Molecule) (beads : List String)
    (weights d : List Double) (m : List added_element) (hw : beads.length = weights.length)
    (h : Map_Sphere.initialize_vectors in_ beads weights d = Except.ok m) :
    m.length = beads.length
      ∧ m.map (fun e => e.in_) = beads.map (fun b => in_.getBead (in_.getBeadByName b))
      ∧ m.map (fun e => e.weight_) = weights := by
  unfold Map_Sphere.initialize_vectors at h
  split at h
  · cases h
  · rename_i hd
    rw [ne_eq, not_not] at hd
    cases hfw : Map_Sphere.force_weights_double weights d with
    | error e =>
      rw [hfw] at h
      cases h
    | ok fweights =>
      rw [hfw] at h
      simp only at h
      have hfl : beads.length = fweights.length := by
        rw [Map_Sphere.force_weights_double_length _ _ _ hfw, ← hw, ← hd, min_self]
      obtain ⟨h1, h2, _⟩ := Map_Sphere.add_elements_double_ok in_ beads _ _ _ m hw hfl h
      simp only [List.map_nil, List.nil_append] at h1 h2
      refine ⟨?_, h1, h2⟩
      have := congrArg List.length h1
      simpa using this

theorem Double.normalize_length (v : List ℚ) : (Double.normalize v).length = v.length := by
  simp [Double.normalize]

/-- Map_Sphere::Initialize once its options are read: with the names of option "beads" and
the numbers of option "weights" at hand it runs the count check, reads option "d" and ends
with `initialize_vectors`. -/
theorem Map_Sphere.InitializeFromOptions_read (tokens : String → List String) (fuel : ℕ)
    (ToVector : String → List String) (ToVector_double : String → Option (List ℚ))
    (in_ : Molecule) (opts_bead opts_map b w : Property) (weights : List ℚ)
    (htok : tokens "beads" = ["beads"] ∧ tokens "weights" = ["weights"])
    (hfuel : 0 < fuel)
    (hb : opts_bead.find "beads" = some b) (hw : opts_map.find "weights" = some w)
    (hwv : ToVector_double w.value = some weights)
    (hlen : (ToVector b.value).length = weights.length) :
    Map_Sphere.InitializeFromOptions tokens fuel ToVector ToVector_double in_ opts_bead
        opts_map
      = match Map_Sphere.read_d tokens fuel ToVector_double opts_map
          (Double.normalize weights) with
        | Except.error e => Except.error e
        | Except.ok d =>
          Map_Sphere.initialize_vectors in_ (ToVector b.value) (Double.normalize weights) d := by
  unfold Map_Sphere.InitializeFromOptions Property.get_value
  rw [Property.get_single_some tokens fuel opts_bead b "beads" htok.1 (by decide) hfuel hb,
    Property.get_single_some tokens fuel opts_map w "weights" htok.2 (by decide) hfuel hw]
  simp only [hwv, hlen, ne_eq, not_true_eq_false, if_false]

/-- The vector `d` that Initialize builds, by the cases of option "d". -/
theorem Map_Sphere.read_d_eq (tokens : String → List String) (fuel : ℕ)
    (ToVector_double : String → Option (List ℚ)) (opts_map : Property) (weights : List ℚ)
    (htok : tokens "d" = ["d"]) (hfuel : 0 < fuel) :
    (opts_map.find "d" = none →
        Map_Sphere.read_d tokens fuel ToVector_double opts_map (Double.normalize weights)
          = Except.ok (Double.normalize weights))
      ∧ (∀ p, opts_map.find "d" = some p → ToVector_double p.value = none →
        Map_Sphere.read_d tokens fuel ToVector_double opts_map (Double.normalize weights)
          = Except.error (OptionsError.invalid_number "d"))
      ∧ (∀ p dl, opts_map.find "d" = some p → ToVector_double p.value = some dl →
        Map_Sphere.read_d tokens fuel ToVector_double opts_map (Double.normalize weights)
          = Except.ok (Double.normalize dl)) := by
  refine ⟨?_, ?_, ?_⟩
  · intro h
    unfold Map_Sphere.read_d
    rw [Property.get_single_none tokens fuel opts_map "d" htok (by decide) hfuel h]
  · intro p h hv
    unfold Map_Sphere.read_d
    rw [Property.get_single_some tokens fuel opts_map p "d" htok (by decide) hfuel h]
    simp only [hv]
  · intro p dl h hv
    unfold Map_Sphere.read_d
    rw [Property.get_single_some tokens fuel opts_map p "d" htok (by decide) hfuel h]
    simp only [hv]

/-- Claim C9 (counterexample): a bead definition without option "beads" and a map definition
whose option "weights" has no entry and that has no option "d".  No name is listed and there
is no weight, so none of the four conditions of the claim holds; Initialize fails with the
error "property not found: beads" of Property::get. -/
theorem C9_missing_option_counterexample :
    nameless_bead_options.find "beads" = none
      ∧ Map_Sphere.listed_numbers natural_numbers empty_map_options "weights" = some []
      ∧ empty_map_options.find "d" = none
      ∧ Map_Sphere.InitializeFromOptions dot_tokens 2 space_tokens natural_numbers
          sample_molecule nameless_bead_options empty_map_options
        = Except.error (OptionsError.property_not_found "beads") :=
  ⟨rfl, rfl, rfl, rfl⟩

/-- Claim C9 (amended): Map_Sphere::Initialize fails with an error exactly when option
"beads" of the bead definition is missing, or option "weights" of the map definition is
missing or has an entry that is not a number, or option "d" is given and has an entry that is
not a number, or, with the names and the weights at hand, the number of names differs from
the number of weights, or option "d" is given with a number of coefficients different from
the number of names, or at some index the normalised weight is zero (`== 0`) while the
normalised d coefficient is not (`!= 0`), or some listed name is not found in the source
molecule (negative index).  In every other case it succeeds and stores one element per listed
name, in list order.  The tokenizer of Property::get is taken to return a key without "."
as its only token. -/
theorem C9_initialize_fails_iff (tokens : String → List String) (fuel : ℕ)
    (ToVector : String → List String) (ToVector_double : String → Option (List ℚ))
    (in_ : Molecule) (opts_bead opts_map : Property)
    (htok : tokens "beads" = ["beads"] ∧ tokens "weights" = ["weights"]
      ∧ tokens "d" = ["d"])
    (hfuel : 0 < fuel) :
    ((∃ err, Map_Sphere.InitializeFromOptions tokens fuel ToVector ToVector_double in_
          opts_bead opts_map = Except.error err)
        ↔ (Map_Sphere.listed_names ToVector opts_bead = none
            ∨ Map_Sphere.listed_numbers ToVector_double opts_map "weights" = none
            ∨ (∃ p, opts_map.find "d" = some p ∧ ToVector_double p.value = none)
            ∨ ∃ beads weights,
                Map_Sphere.listed_names ToVector opts_bead = some beads
                  ∧ Map_Sphere.listed_numbers ToVector_double opts_map "weights"
                      = some weights
                  ∧ (beads.length ≠ weights.length
                    ∨ (∃ dl, Map_Sphere.listed_numbers ToVector_double opts_map "d" = some dl
                        ∧ dl.length ≠ beads.length)
                    ∨ (∃ (i : ℕ) (w' d' : Double),
                        (Double.normalize weights)[i]? = some w'
                          ∧ (Map_Sphere.normalised_d ToVector_double opts_map weights)[i]?
                              = some d'
                          ∧ w'.eq_zero = true ∧ d'.ne_zero = true)
                    ∨ ∃ b ∈ beads, in_.getBeadByName b < 0)))
      ∧ ((¬ ∃ err, Map_Sphere.InitializeFromOptions tokens fuel ToVector ToVector_double in_
            opts_bead opts_map = Except.error err) →
          ∃ m beads,
            Map_Sphere.listed_names ToVector opts_bead = some beads
              ∧ Map_Sphere.InitializeFromOptions tokens fuel ToVector ToVector_double in_
                  opts_bead opts_map = Except.ok m
              ∧ m.length = beads.length
              ∧ m.map (fun e => e.in_)
                  = beads.map (fun b => in_.getBead (in_.getBeadByName b))) := by
  obtain ⟨htb, htw, htd⟩ := htok
  cases hb : opts_bead.find "beads" with
  | none =>
    have hres : Map_Sphere.InitializeFromOptions tokens fuel ToVector ToVector_double in_
        opts_bead opts_map = Except.error (OptionsError.property_not_found "beads") := by
      unfold Map_Sphere.InitializeFromOptions Property.get_value
      rw [Property.get_single_none tokens fuel opts_bead "beads" htb (by decide) hfuel hb]
    have hfail : ∃ err, Map_Sphere.InitializeFromOptions tokens fuel ToVector ToVector_double
        in_ opts_bead opts_map = Except.error err := ⟨_, hres⟩
    refine ⟨⟨fun _ => Or.inl ?_, fun _ => hfail⟩, fun hne => absurd hfail hne⟩
    simp [Map_Sphere.listed_names, hb]
  | some b =>
    have hnames : Map_Sphere.listed_names ToVector opts_bead = some (ToVector b.value) := by
      simp [Map_Sphere.listed_names, hb]
    cases hw : opts_map.find "weights" with
    | none =>
      have hres : Map_Sphere.InitializeFromOptions tokens fuel ToVector ToVector_double in_
          opts_bead opts_map = Except.error (OptionsError.property_not_found "weights") := by
        unfold Map_Sphere.InitializeFromOptions Property.get_value
        rw [Property.get_single_some tokens fuel opts_bead b "beads" htb (by decide) hfuel hb,
          Property.get_single_none tokens fuel opts_map "weights" htw (by decide) hfuel hw]
      have hfail : ∃ err, Map_Sphere.InitializeFromOptions tokens fuel ToVector
          ToVector_double in_ opts_bead opts_map = Except.error err := ⟨_, hres⟩
      refine ⟨⟨fun _ => Or.inr (Or.inl ?_), fun _ => hfail⟩, fun hne => absurd hfail hne⟩
      simp [Map_Sphere.listed_numbers, hw]
    | some w =>
      cases hwv : ToVector_double w.value with
      | none =>
        have hres : Map_Sphere.InitializeFromOptions tokens fuel ToVector ToVector_double in_
            opts_bead opts_map = Except.error (OptionsError.invalid_number "weights") := by
          unfold Map_Sphere.InitializeFromOptions Property.get_value
          rw [Property.get_single_some tokens fuel opts_bead b "beads" htb (by decide) hfuel
              hb,
            Property.get_single_some tokens fuel opts_map w "weights" htw (by decide) hfuel
              hw]
          simp only [hwv]
        have hfail : ∃ err, Map_Sphere.InitializeFromOptions tokens fuel ToVector
            ToVector_double in_ opts_bead opts_map = Except.error err := ⟨_, hres⟩
        refine ⟨⟨fun _ => Or.inr (Or.inl ?_), fun _ => hfail⟩, fun hne => absurd hfail hne⟩
        simp [Map_Sphere.listed_numbers, hw, hwv]
      | some weights =>
        have hnum : Map_Sphere.listed_numbers ToVector_double opts_map "weights"
            = some weights := by
          simp [Map_Sphere.listed_numbers, hw, hwv]
        rw [hnames, hnum]
        by_cases hlen : (ToVector b.value).length = weights.length
        · -- the counts of names and weights agree
          have hread := Map_Sphere.InitializeFromOptions_read tokens fuel ToVector
            ToVector_double in_ opts_bead opts_map b w weights ⟨htb, htw⟩ hfuel hb hw hwv hlen
          obtain ⟨hd0, hd1, hd2⟩ := Map_Sphere.read_d_eq tokens fuel ToVector_double opts_map
            weights htd hfuel
          have hwn : (ToVector b.value).length = (Double.normalize weights).length := by
            rw [Double.normalize_length, hlen]
          rw [hread]
          cases hd : opts_map.find "d" with
          | none =>
            have hdn : Map_Sphere.listed_numbers ToVector_double opts_map "d" = none := by
              simp [Map_Sphere.listed_numbers, hd]
            have hnd : Map_Sphere.normalised_d ToVector_double opts_map weights
                = Double.normalize weights := by
              simp [Map_Sphere.normalised_d, hdn]
            rw [hd0 hd, hdn]
            simp only
            have hiff := Map_Sphere.initialize_vectors_error_iff in_ (ToVector b.value)
              (Double.normalize weights) (Double.normalize weights) hwn
            constructor
            · rw [hiff]
              constructor
              · rintro (h | h | h)
                · exact absurd hwn h
                · exact Or.inr (Or.inr (Or.inr ⟨_, _, rfl, rfl,
                    Or.inr (Or.inr (Or.inl (by rw [hnd]; exact h)))⟩))
                · exact Or.inr (Or.inr (Or.inr ⟨_, _, rfl, rfl, Or.inr (Or.inr (Or.inr h))⟩))
              · rintro (h | h | ⟨p, hp, _⟩ | ⟨beads, ws, hbs, hws, h⟩)
                · cases h
                · cases h
                · cases hp
                · cases hbs
                  cases hws
                  rcases h with h | ⟨dl, hdl, _⟩ | h | h
                  · exact absurd hlen h
                  · cases hdl
                  · rw [hnd] at h
                    exact Or.inr (Or.inl h)
                  · exact Or.inr (Or.inr h)
            · intro hne
              cases hres : Map_Sphere.initialize_vectors in_ (ToVector b.value)
                  (Double.normalize weights) (Double.normalize weights) with
              | error e => exact absurd ⟨e, hres⟩ hne
              | ok m =>
                obtain ⟨h1, h2, _⟩ := Map_Sphere.initialize_vectors_ok in_ _ _ _ m hwn hres
                exact ⟨m, _, rfl, rfl, h1, h2⟩
          | some p =>
            cases hdv : ToVector_double p.value with
            | none =>
              rw [hd1 p hd hdv]
              simp only
              refine ⟨⟨fun _ => Or.inr (Or.inr (Or.inl ⟨p, rfl, hdv⟩)), fun _ => ⟨_, rfl⟩⟩,
                fun hne => absurd ⟨_, rfl⟩ hne⟩
            | some dl =>
              have hdn : Map_Sphere.listed_numbers ToVector_double opts_map "d"
                  = some dl := by
                simp [Map_Sphere.listed_numbers, hd, hdv]
              have hnd : Map_Sphere.normalised_d ToVector_double opts_map weights
                  = Double.normalize dl := by
                simp [Map_Sphere.normalised_d, hdn]
              rw [hd2 p dl hd hdv, hdn]
              simp only
              have hiff := Map_Sphere.initialize_vectors_error_iff in_ (ToVector b.value)
                (Double.normalize weights) (Double.normalize dl) hwn
              constructor
              · rw [hiff, Double.normalize_length]
                constructor
                · rintro (h | h | h)
                  · exact Or.inr (Or.inr (Or.inr ⟨_, _, rfl, rfl,
                      Or.inr (Or.inl ⟨dl, rfl, fun hc => h hc.symm⟩)⟩))
                  · exact Or.inr (Or.inr (Or.inr ⟨_, _, rfl, rfl,
                      Or.inr (Or.inr (Or.inl (by rw [hnd]; exact h)))⟩))
                  · exact Or.inr (Or.inr (Or.inr ⟨_, _, rfl, rfl, Or.inr (Or.inr (Or.inr h))⟩))
                · rintro (h | h | ⟨p', hp', hv'⟩ | ⟨beads, ws, hbs, hws, h⟩)
                  · cases h
                  · cases h
                  · cases hp'
                    rw [hdv] at hv'
                    cases hv'
                  · cases hbs
                    cases hws
                    rcases h with h | ⟨dl', hdl', h⟩ | h | h
                    · exact absurd hlen h
                    · cases hdl'
                      exact Or.inl (fun hc => h hc.symm)
                    · rw [hnd] at h
                      exact Or.inr (Or.inl h)
                    · exact Or.inr (Or.inr h)
              · intro hne
                cases hres : Map_Sphere.initialize_vectors in_ (ToVector b.value)
                    (Double.normalize weights) (Double.normalize dl) with
                | error e => exact absurd ⟨e, hres⟩ hne
                | ok m =>
                  obtain ⟨h1, h2, _⟩ := Map_Sphere.initialize_vectors_ok in_ _ _ _ m hwn hres
                  exact ⟨m, _, rfl, rfl, h1, h2⟩
        · -- the counts differ
          have hres : Map_Sphere.InitializeFromOptions tokens fuel ToVector ToVector_double
              in_ opts_bead opts_map
              = Except.error (OptionsError.init InitError.weights_mismatch) := by
            unfold Map_Sphere.InitializeFromOptions Property.get_value
            rw [Property.get_single_some tokens fuel opts_bead b "beads" htb (by decide) hfuel
                hb,
              Property.get_single_some tokens fuel opts_map w "weights" htw (by decide) hfuel
                hw]
            simp only [hwv, ne_eq, hlen, not_false_eq_true, if_true]
          have hfail : ∃ err, Map_Sphere.InitializeFromOptions tokens fuel ToVector
              ToVector_double in_ opts_bead opts_map = Except.error err := ⟨_, hres⟩
          exact ⟨⟨fun _ => Or.inr (Or.inr (Or.inr ⟨_, _, rfl, rfl, Or.inl hlen⟩)),
            fun _ => hfail⟩, fun hne => absurd hfail hne⟩

/-- Witness for C9 (amended): the name "C" is not a bead of `sample_molecule`, so Initialize
fails on a bead definition that lists "A" and "C". -/
theorem C9_initialize_fails_iff_witness :
    ∃ err, Map_Sphere.InitializeFromOptions dot_tokens 2 space_tokens natural_numbers
      sample_molecule (Property.mk "cg_bead" "" "" [("beads", Property.mk "beads" "A C" "" [])])
      sample_map_options = Except.error err :=
  (C9_initialize_fails_iff dot_tokens 2 space_tokens natural_numbers sample_molecule
    (Property.mk "cg_bead" "" "" [("beads", Property.mk "beads" "A C" "" [])])
    sample_map_options ⟨by decide, by decide, by decide⟩ (by decide)).1.mpr
    (Or.inr (Or.inr (Or.inr ⟨["A", "C"], [1, 3], rfl, rfl,
      Or.inr (Or.inr (Or.inr ⟨"C", by simp, by simp [sample_molecule]⟩))⟩)))

/-- With a non-zero sum the normalisation on `double` is the rational one. -/
theorem Double.normalize_of_sum_ne_zero (v : List ℚ) (h : v.sum ≠ 0) :
    Double.normalize v = (normalize_weights v).map Double.finite := by
  unfold Double.normalize normalize_weights
  have hacc : accumulate v ≠ 0 := by rwa [accumulate_eq_sum]
  simp only [Double.inverse, if_neg hacc, Double.mul, List.map_map]
  rfl

theorem Map_Sphere.force_weights_double_finite (weights d : List ℚ) :
    Map_Sphere.force_weights_double (weights.map Double.finite) (d.map Double.finite)
      = match Map_Sphere.force_weights weights d with
        | Except.error e => Except.error (OptionsError.init e)
        | Except.ok fweights => Except.ok (fweights.map Double.finite) := by
  induction weights generalizing d with
  | nil => simp [Map_Sphere.force_weights_double, Map_Sphere.force_weights]
  | cons w weights ih =>
    cases d with
    | nil => simp [Map_Sphere.force_weights_double, Map_Sphere.force_weights]
    | cons di d =>
      simp only [List.map_cons, Map_Sphere.force_weights_double, Map_Sphere.force_weights,
        Double.eq_zero, Double.ne_zero]
      rw [ih d]
      by_cases hw : w = 0
      · by_cases hd : di = 0
        · simp only [hw, hd, decide_True, Bool.not_true, Bool.and_false, Bool.false_eq_true,
            if_false, ne_eq, not_true_eq_false, and_false]
          cases Map_Sphere.force_weights weights d <;> rfl
        · simp [hw, hd]
      · simp only [hw, decide_False, Bool.false_and, Bool.false_eq_true, if_false,
          Bool.not_false, if_true, false_and, ne_eq, not_false_eq_true, Double.div]
        cases Map_Sphere.force_weights weights d <;> rfl

theorem Map_Sphere.add_elements_double_finite (in_ : Molecule) (beads : List String)
    (weights fweights : List ℚ) (self : Map_Sphere) :
    Map_Sphere.add_elements_double in_ beads (weights.map Double.finite)
        (fweights.map Double.finite)
        (self.matrix_.map (fun e =>
          { in_ := e.in_, weight_ := Double.finite e.weight_,
            force_weight_ := Double.finite e.force_weight_ }))
      = match Map_Sphere.add_elements in_ beads weights fweights self with
        | Except.error e => Except.error (OptionsError.init e)
        | Except.ok m => Except.ok (m.matrix_.map (fun e =>
            { in_ := e.in_, weight_ := Double.finite e.weight_,
              force_weight_ := Double.finite e.force_weight_ })) := by
  induction beads generalizing weights fweights self with
  | nil => simp [Map_Sphere.add_elements_double, Map_Sphere.add_elements]
  | cons b beads ih =>
    cases weights with
    | nil => simp [Map_Sphere.add_elements_double, Map_Sphere.add_elements]
    | cons w weights =>
      cases fweights with
      | nil => simp [Map_Sphere.add_elements_double, Map_Sphere.add_elements]
      | cons fw fweights =>
        simp only [List.map_cons, Map_Sphere.add_elements_double, Map_Sphere.add_elements]
        split
        · rfl
        · have := ih weights fweights (self.AddElem (in_.getBead (in_.getBeadByName b)) w fw)
          simp only [Map_Sphere.AddElem, List.map_append, List.map_cons, List.map_nil] at this
          exact this

/-- The two embeddings of Map_Sphere::Initialize agree: where the options are present, their
entries numbers and the sums of the weights and of the d coefficients non-zero, Initialize on
the option trees ends as Initialize on the tokenised values does, with the same elements. -/
theorem Map_Sphere.InitializeFromOptions_agrees (tokens : String → List String) (fuel : ℕ)
    (ToVector : String → List String) (ToVector_double : String → Option (List ℚ))
    (in_ : Molecule) (opts_bead opts_map b w : Property) (weights : List ℚ)
    (d : Option (List ℚ))
    (htok : tokens "beads" = ["beads"] ∧ tokens "weights" = ["weights"]
      ∧ tokens "d" = ["d"])
    (hfuel : 0 < fuel)
    (hb : opts_bead.find "beads" = some b) (hw : opts_map.find "weights" = some w)
    (hwv : ToVector_double w.value = some weights)
    (hd : (opts_map.find "d").map (fun p => ToVector_double p.value) = d.map some)
    (hsum : weights.sum ≠ 0) (hdsum : ∀ dl, d = some dl → dl.sum ≠ 0) :
    Map_Sphere.InitializeFromOptions tokens fuel ToVector ToVector_double in_ opts_bead
        opts_map
      = match Map_Sphere.new.Initialize in_ (ToVector b.value) weights d with
        | Except.error e => Except.error (OptionsError.init e)
        | Except.ok m => Except.ok (m.matrix_.map (fun e =>
            { in_ := e.in_, weight_ := Double.finite e.weight_,
              force_weight_ := Double.finite e.force_weight_ })) := by
  obtain ⟨htb, htw, htd⟩ := htok
  by_cases hlen : (ToVector b.value).length = weights.length
  · rw [Map_Sphere.InitializeFromOptions_read tokens fuel ToVector ToVector_double in_
      opts_bead opts_map b w weights ⟨htb, htw⟩ hfuel hb hw hwv hlen]
    obtain ⟨hd0, _, hd2⟩ := Map_Sphere.read_d_eq tokens fuel ToVector_double opts_map
      weights htd hfuel
    have hnw := Double.normalize_of_sum_ne_zero weights hsum
    have hrd : Map_Sphere.read_d tokens fuel ToVector_double opts_map
        (Double.normalize weights)
        = Except.ok ((Map_Sphere.d_coefficients (normalize_weights weights) d).map
            Double.finite) := by
      cases d with
      | none =>
        cases hf : opts_map.find "d" with
        | none =>
          rw [hd0 hf, hnw]
          rfl
        | some p =>
          rw [hf] at hd
          cases hd
      | some dl =>
        cases hf : opts_map.find "d" with
        | none =>
          rw [hf] at hd
          cases hd
        | some p =>
          rw [hf] at hd
          simp only [Option.map_some', Option.some.injEq] at hd
          rw [hd2 p dl hf hd, Double.normalize_of_sum_ne_zero dl (hdsum dl rfl)]
          rfl
    rw [hrd]
    simp only
    unfold Map_Sphere.initialize_vectors Map_Sphere.Initialize
    rw [if_neg (show ¬ (ToVector b.value).length ≠ weights.length from not_not.mpr hlen)]
    simp only [List.length_map]
    by_cases hdl : (ToVector b.value).length
        = (Map_Sphere.d_coefficients (normalize_weights weights) d).length
    · rw [if_neg (show ¬ (ToVector b.value).length
          ≠ (Map_Sphere.d_coefficients (normalize_weights weights) d).length
          from not_not.mpr hdl),
        if_neg (show ¬ (ToVector b.value).length
          ≠ (Map_Sphere.d_coefficients (normalize_weights weights) d).length
          from not_not.mpr hdl),
        hnw, Map_Sphere.force_weights_double_finite]
      cases hfw : Map_Sphere.force_weights (normalize_weights weights)
          (Map_Sphere.d_coefficients (normalize_weights weights) d) with
      | error e => rfl
      | ok fweights =>
        simp only
        have := Map_Sphere.add_elements_double_finite in_ (ToVector b.value)
          (normalize_weights weights) fweights Map_Sphere.new
        simp only [Map_Sphere.new, List.map_nil] at this
        exact this
    · rw [if_pos hdl, if_pos hdl]
  · unfold Map_Sphere.InitializeFromOptions Property.get_value Map_Sphere.Initialize
    rw [Property.get_single_some tokens fuel opts_bead b "beads" htb (by decide) hfuel hb,
      Property.get_single_some tokens fuel opts_map w "weights" htw (by decide) hfuel hw]
    simp only [hwv, ne_eq, hlen, not_false_eq_true, if_true]

end votca
